import Mathlib

/-!
# Content parsing: a shallow embedding of `contentparsing`

Go strings are byte sequences; they are modelled as lists of byte values.
The shared global level checker is a pointer in the Go code: here the
`contentParserState` is threaded through every call and returned.
Recursion that Go performs on the call stack is modelled with a fuel
argument: `none` means that the fuel ran out before the call returned; a call
that returns with some fuel returns the same with any larger fuel
(`parseContent_fuel_le`).

The decoders of `encoding/json` and `encoding/xml` are taken as functions from
a source to the stream of tokens that `Token` returns on it, so the theorems
hold for every decoder. `strings.TrimSpace` and `base64.StdEncoding` are
modelled in full. The `int` counters are integers without the 64-bit bound:
a counter moves by one per nested call and stays far from it.
-/

namespace ContentParsing

/-- A Go `string`: its bytes, each below 256. -/
abbrev GoString := List Nat

/-! ## Library functions used by the package -/

/-- The six ASCII characters of `asciiSpace` in package `strings`. -/
def isAsciiSpace (c : Nat) : Bool :=
  c == 9 || c == 10 || c == 11 || c == 12 || c == 13 || c == 32

/-- Go `unicode.IsSpace` on a code point. -/
def isSpaceRune (r : Nat) : Bool :=
  isAsciiSpace r || r == 0x85 || r == 0xA0 || r == 0x1680 ||
    (0x2000 ≤ r && r ≤ 0x200A) || r == 0x2028 || r == 0x2029 || r == 0x202F ||
    r == 0x205F || r == 0x3000

/-- The replacement character returned for invalid UTF-8. -/
def runeError : Nat := 0xFFFD

/-- A UTF-8 continuation byte. -/
def isCont (b : Nat) : Bool := 0x80 ≤ b && b ≤ 0xBF

/-- Go `utf8.DecodeRuneInString`: the first code point and its width in bytes;
invalid input gives `runeError` with width 1 (width 0 for the empty string). -/
def decodeRune : GoString → Nat × Nat
  | [] => (runeError, 0)
  | b0 :: rest =>
    if b0 < 0x80 then (b0, 1)
    else if 0xC2 ≤ b0 && b0 ≤ 0xDF then
      match rest with
      | b1 :: _ => if isCont b1 then ((b0 - 0xC0) * 64 + (b1 - 0x80), 2) else (runeError, 1)
      | _ => (runeError, 1)
    else if 0xE0 ≤ b0 && b0 ≤ 0xEF then
      match rest with
      | b1 :: b2 :: _ =>
        let lo := if b0 == 0xE0 then 0xA0 else 0x80
        let hi := if b0 == 0xED then 0x9F else 0xBF
        if lo ≤ b1 && b1 ≤ hi && isCont b2 then
          ((b0 - 0xE0) * 4096 + (b1 - 0x80) * 64 + (b2 - 0x80), 3)
        else (runeError, 1)
      | _ => (runeError, 1)
    else if 0xF0 ≤ b0 && b0 ≤ 0xF4 then
      match rest with
      | b1 :: b2 :: b3 :: _ =>
        let lo := if b0 == 0xF0 then 0x90 else 0x80
        let hi := if b0 == 0xF4 then 0x8F else 0xBF
        if lo ≤ b1 && b1 ≤ hi && isCont b2 && isCont b3 then
          ((b0 - 0xF0) * 262144 + (b1 - 0x80) * 4096 + (b2 - 0x80) * 64 + (b3 - 0x80), 4)
        else (runeError, 1)
      | _ => (runeError, 1)
    else (runeError, 1)

/-- The scan of `utf8.DecodeLastRuneInString` for the start of the last rune:
from index `start` down to `lim`, stop at the first byte that is not a
continuation byte; `none` when the scan passes below `lim`. -/
def lastRuneStart (s : GoString) (lim : Nat) : Nat → Option Nat
  | 0 => if lim == 0 then (if isCont (s.getD 0 0) then none else some 0) else none
  | start + 1 =>
    if start + 1 < lim then none
    else if isCont (s.getD (start + 1) 0) then lastRuneStart s lim start
    else some (start + 1)

/-- Go `utf8.DecodeLastRuneInString`. -/
def decodeLastRune (s : GoString) : Nat × Nat :=
  let stop := s.length
  if stop == 0 then (runeError, 0)
  else
    let r := s.getD (stop - 1) 0
    if r < 0x80 then (r, 1)
    else
      let lim := stop - 4
      let start :=
        if stop < 2 then 0
        else match lastRuneStart s lim (stop - 2) with
          | some i => i
          | none => lim - 1
      let (r, size) := decodeRune (s.drop start)
      if start + size != stop then (runeError, 1) else (r, size)

/-- Go `strings.TrimLeftFunc(s, unicode.IsSpace)`; the fuel is the number of
bytes still to inspect. -/
def trimLeftSpace : Nat → GoString → GoString
  | 0, _ => []
  | fuel + 1, s =>
    match s with
    | [] => []
    | _ :: _ =>
      let (r, size) := decodeRune s
      if isSpaceRune r then trimLeftSpace fuel (s.drop size) else s

/-- The index search of `lastIndexFunc(s, unicode.IsSpace, false)`: the start of
the last rune that is not a space within the first `i` bytes, if any. -/
def lastNonSpaceIndex (s : GoString) : Nat → Nat → Option Nat
  | 0, _ => none
  | fuel + 1, i =>
    if i == 0 then none
    else
      let (r, size) := decodeLastRune (s.take i)
      if isSpaceRune r then lastNonSpaceIndex s fuel (i - size) else some (i - size)

/-- Go `strings.TrimRightFunc(s, unicode.IsSpace)`. -/
def trimRightSpace (s : GoString) : GoString :=
  match lastNonSpaceIndex s (s.length + 1) s.length with
  | none => s.take 0
  | some i =>
    if 0x80 ≤ s.getD i 0 then s.take (i + (decodeRune (s.drop i)).2)
    else s.take (i + 1)

/-- The trailing loop of `strings.TrimSpace`: drop ASCII spaces from the end;
at a non-ASCII byte fall back to the Unicode-aware trim. The argument is the
reversed string still to inspect. -/
def trimSpaceEnd : GoString → GoString
  | [] => []
  | c :: rest =>
    if 0x80 ≤ c then trimRightSpace (c :: rest).reverse
    else if isAsciiSpace c then trimSpaceEnd rest
    else (c :: rest).reverse

/-- Go `strings.TrimSpace`: drop leading and trailing white space. -/
def trimSpace : GoString → GoString
  | [] => []
  | c :: rest =>
    if 0x80 ≤ c then trimRightSpace (trimLeftSpace (rest.length + 1) (c :: rest))
    else if isAsciiSpace c then trimSpace rest
    else trimSpaceEnd (c :: rest).reverse

/-- Go `strings.HasPrefix`. -/
def hasPrefix (s pre : GoString) : Bool := pre.isPrefixOf s

/-- Go `strings.HasSuffix`. -/
def hasSuffix (s suf : GoString) : Bool := suf.isSuffixOf s

/-- The decode map of `base64.StdEncoding`: the value of an alphabet character. -/
def decodeMap (c : Nat) : Option Nat :=
  if 65 ≤ c && c ≤ 90 then some (c - 65)
  else if 97 ≤ c && c ≤ 122 then some (c - 97 + 26)
  else if 48 ≤ c && c ≤ 57 then some (c - 48 + 52)
  else if c == 43 then some 62
  else if c == 47 then some 63
  else none

/-- Skip the `\n` and `\r` characters at the head, as `decodeQuantum` does after
a padding character. -/
def skipNewlines : GoString → GoString
  | [] => []
  | c :: rest => if c == 10 || c == 13 then skipNewlines rest else c :: rest

/-- The bytes a quantum of `dlen` six-bit digits decodes to (`dlen - 1` bytes),
`none` when strict decoding finds non-zero trailing bits. -/
def quantumBytes (strict : Bool) (dbuf : List Nat) : Option GoString :=
  let val := dbuf.getD 0 0 * 262144 + dbuf.getD 1 0 * 4096 + dbuf.getD 2 0 * 64 + dbuf.getD 3 0
  let b0 := val / 65536 % 256
  let b1 := val / 256 % 256
  let b2 := val % 256
  match dbuf.length with
  | 4 => some [b0, b1, b2]
  | 3 => if strict && b2 != 0 then none else some [b0, b1]
  | 2 => if strict && (b1 != 0 || b2 != 0) then none else some [b0]
  | _ => some []

/-- Go `(*base64.Encoding).Decode` for a padded encoding over the standard
alphabet: quanta of four digits are decoded one after the other; `\r` and `\n`
are skipped; padding ends the input. `dbuf` holds the digits of the quantum
being read. Any `CorruptInputError` is `none`. -/
def base64Decode (strict : Bool) : GoString → List Nat → Option GoString
  | [], dbuf => if dbuf.isEmpty then some [] else none
  | c :: rest, dbuf =>
    match decodeMap c with
    | some v =>
      if dbuf.length == 3 then
        match quantumBytes strict (dbuf ++ [v]), base64Decode strict rest [] with
        | some bytes, some more => some (bytes ++ more)
        | _, _ => none
      else base64Decode strict rest (dbuf ++ [v])
    | none =>
      if c == 10 || c == 13 then base64Decode strict rest dbuf
      else if c != 61 then none
      else
        match dbuf.length with
        | 0 => none
        | 1 => none
        | 2 =>
          match skipNewlines rest with
          | [] => none
          | d :: rest2 =>
            if d != 61 then none
            else if (skipNewlines rest2).isEmpty then quantumBytes strict dbuf
            else none
        | _ => if (skipNewlines rest).isEmpty then quantumBytes strict dbuf else none

/-- Go `base64.StdEncoding.DecodeString`: the standard padded encoding, not
strict. -/
def stdDecodeString (source : GoString) : Option GoString :=
  base64Decode false source []

/-! ## content_base64.go -/

/-- `tryParseBase64`: whether the source decodes, and the decoded string. -/
def tryParseBase64 (source : GoString) : Bool × GoString :=
  match stdDecodeString source with
  | none => (false, [])
  | some resultData => (true, resultData)

/-! ## content_detector.go -/

/-- `ContentType`. -/
inductive ContentType where
  | ContentTypeUnspecified
  | ContentTypeXml
  | ContentTypeJson
  | ContentTypeBase64
  deriving DecidableEq, Repr

open ContentType

/-- `detectProbableContentType`. -/
def detectProbableContentType (source : GoString) : GoString × ContentType :=
  if hasPrefix source [60] && hasSuffix source [62] then (source, ContentTypeXml)
  else if hasPrefix source [123] && hasSuffix source [125] then (source, ContentTypeJson)
  else if hasPrefix source [91] && hasSuffix source [93] then (source, ContentTypeJson)
  else
    match tryParseBase64 source with
    | (true, dest) => (dest, ContentTypeBase64)
    | (false, _) => (source, ContentTypeUnspecified)

/-! ## content_parser.go: level checkers and parser state -/

/-- The error values of the package; `decoderError` stands for any error of
`encoding/json` or `encoding/xml` other than `io.EOF`. -/
inductive ParseError where
  | maxLevelExceedError
  | unexpectedEOFError
  | unexpectedValueError
  | maxFieldCountExceedError
  | badFieldNameError
  | unexpectedEndOfArrayError
  | unexpectedEndOfObjectError
  | badJsonStructureError
  | unexpectedEndElementError
  | badXMLStructureError
  | decoderError (code : Nat)
  deriving DecidableEq, Repr

open ParseError

/-- `levelChecker`. -/
structure levelChecker where
  currentLevel : Int
  maxLevel : Int
  deriving DecidableEq, Repr

/-- `(*levelChecker).enter`: the flag returned and the checker afterwards. -/
def levelChecker.enter (checker : levelChecker) : Bool × levelChecker :=
  let checker := { checker with currentLevel := checker.currentLevel + 1 }
  (decide (checker.currentLevel ≤ checker.maxLevel), checker)

/-- `(*levelChecker).exit`. -/
def levelChecker.exit (checker : levelChecker) : levelChecker :=
  { checker with currentLevel := checker.currentLevel - 1 }

/-- `newLevelChecker`. -/
def newLevelChecker (maxLevel : Int) : levelChecker :=
  { currentLevel := 0, maxLevel := maxLevel }

/-- `contentParserState`; the checker behind the pointer is the field itself. -/
structure contentParserState where
  globalLevelChecker : levelChecker
  maxLevel : Int
  maxFieldCount : Int
  deriving DecidableEq, Repr

/-- `newContentParserState`. -/
def newContentParserState (globalMaxLevel maxLevel maxFieldCount : Int) : contentParserState :=
  { globalLevelChecker := newLevelChecker globalMaxLevel
    maxLevel := maxLevel
    maxFieldCount := maxFieldCount }

/-! ## Tokens of `encoding/json` and `encoding/xml` -/

/-- `json.Delim`: one of the four delimiters. -/
inductive Delim where
  | lbracket
  | rbracket
  | lbrace
  | rbrace
  deriving DecidableEq, Repr

/-- `json.Token` as returned by `(*json.Decoder).Token`; a number carries the
bits of its `float64`. -/
inductive JsonToken where
  | delim (d : Delim)
  | bool (b : Bool)
  | float64 (bits : Nat)
  | null
  | string (s : GoString)
  deriving DecidableEq, Repr

/-- How a token stream ends: `io.EOF` or another error; `more` is what
`More` reports just before the end is met. -/
inductive StreamEnd where
  | eof (more : Bool)
  | fail (more : Bool) (code : Nat)
  deriving DecidableEq, Repr

/-- A `*json.Decoder` over a source: the tokens it will return, then its end. -/
structure jsonDecoder where
  tokens : List JsonToken
  fin : StreamEnd
  deriving DecidableEq, Repr

/-- `(*json.Decoder).Token`: `Except.error none` is `io.EOF`. -/
def jsonDecoder.Token (d : jsonDecoder) : Except (Option Nat) JsonToken × jsonDecoder :=
  match d.tokens with
  | t :: rest => (.ok t, { d with tokens := rest })
  | [] =>
    match d.fin with
    | .eof _ => (.error none, d)
    | .fail _ code => (.error (some code), d)

/-- `(*json.Decoder).More`: the next non-space byte exists and is neither `]`
nor `}`. -/
def jsonDecoder.More (d : jsonDecoder) : Bool :=
  match d.tokens with
  | .delim .rbracket :: _ => false
  | .delim .rbrace :: _ => false
  | _ :: _ => true
  | [] =>
    match d.fin with
    | .eof more => more
    | .fail more _ => more

/-- `xml.Name`. -/
structure XmlName where
  Space : GoString
  Local : GoString
  deriving DecidableEq, Repr

/-- `xml.Attr`. -/
structure XmlAttr where
  Name : XmlName
  Value : GoString
  deriving DecidableEq, Repr

/-- `xml.Token` as returned by `(*xml.Decoder).Token`. -/
inductive XmlToken where
  | StartElement (Name : XmlName) (Attr : List XmlAttr)
  | EndElement (Name : XmlName)
  | CharData (data : GoString)
  | Comment (data : GoString)
  | ProcInst (Target : GoString) (Inst : GoString)
  | Directive (data : GoString)
  deriving DecidableEq, Repr

/-- A `*xml.Decoder` over a source: the tokens it will return, then `io.EOF`
(`none`) or an error. -/
structure xmlDecoder where
  tokens : List XmlToken
  fin : Option Nat
  deriving DecidableEq, Repr

/-- `(*xml.Decoder).Token`: `Except.error none` is `io.EOF`. -/
def xmlDecoder.Token (d : xmlDecoder) : Except (Option Nat) XmlToken × xmlDecoder :=
  match d.tokens with
  | t :: rest => (.ok t, { d with tokens := rest })
  | [] => (.error d.fin, d)

/-- The two library decoders, as functions of the source they are created on. -/
structure Decoders where
  json : GoString → jsonDecoder
  xml : GoString → xmlDecoder

/-! ## The content tree -/

mutual
/-- The `any` returned by `parseContent`: a `string`, `*XmlData`, `*JsonData`
or `*Base64Data`. -/
inductive Content where
  | text (s : GoString)
  | xml (data : XmlData)
  | json (data : JsonData)
  | base64 (Value : Content)
/-- `XmlData`. -/
inductive XmlData where
  | mk (EntityDirectives DoctypeDirectives OtherDirectives : List GoString)
      (Root : Option XmlElement)
/-- `XmlElement`. -/
inductive XmlElement where
  | mk (Name : XmlName) (Attributes : List XmlAttr) (Children : List XmlElement)
      (Value : Option Content)
/-- `JsonData`. -/
inductive JsonData where
  | mk (Value : JsonValue)
/-- The `any` inside a `JsonData`: `nil`, `bool`, `float64`, the content of a
string leaf, `JsonArrayValue` or `JsonObjectValue` (a map, kept as an
association list with distinct keys). -/
inductive JsonValue where
  | null
  | bool (b : Bool)
  | float64 (bits : Nat)
  | content (c : Content)
  | array (items : List JsonValue)
  | object (fields : List (GoString × JsonValue))
end

/-! ### Decidable equality of content trees -/

mutual
/-- Equality of contents is decidable. -/
def Content.decEq : (a b : Content) → Decidable (a = b)
  | .text x0, .text y0 =>
    match decEq x0 y0 with
    | isFalse h => isFalse (fun e => by cases e; exact h rfl)
    | isTrue h0 =>
      isTrue (by cases h0; rfl)
  | .text _, .xml _ => isFalse (fun e => by cases e)
  | .text _, .json _ => isFalse (fun e => by cases e)
  | .text _, .base64 _ => isFalse (fun e => by cases e)
  | .xml _, .text _ => isFalse (fun e => by cases e)
  | .xml x0, .xml y0 =>
    match XmlData.decEq x0 y0 with
    | isFalse h => isFalse (fun e => by cases e; exact h rfl)
    | isTrue h0 =>
      isTrue (by cases h0; rfl)
  | .xml _, .json _ => isFalse (fun e => by cases e)
  | .xml _, .base64 _ => isFalse (fun e => by cases e)
  | .json _, .text _ => isFalse (fun e => by cases e)
  | .json _, .xml _ => isFalse (fun e => by cases e)
  | .json x0, .json y0 =>
    match JsonData.decEq x0 y0 with
    | isFalse h => isFalse (fun e => by cases e; exact h rfl)
    | isTrue h0 =>
      isTrue (by cases h0; rfl)
  | .json _, .base64 _ => isFalse (fun e => by cases e)
  | .base64 _, .text _ => isFalse (fun e => by cases e)
  | .base64 _, .xml _ => isFalse (fun e => by cases e)
  | .base64 _, .json _ => isFalse (fun e => by cases e)
  | .base64 x0, .base64 y0 =>
    match Content.decEq x0 y0 with
    | isFalse h => isFalse (fun e => by cases e; exact h rfl)
    | isTrue h0 =>
      isTrue (by cases h0; rfl)
termination_by structural a => a
/-- Equality of XML documents is decidable. -/
def XmlData.decEq : (a b : XmlData) → Decidable (a = b)
  | .mk x0 x1 x2 x3, .mk y0 y1 y2 y3 =>
    match decEq x0 y0 with
    | isFalse h => isFalse (fun e => by cases e; exact h rfl)
    | isTrue h0 =>
      match decEq x1 y1 with
      | isFalse h => isFalse (fun e => by cases e; exact h rfl)
      | isTrue h1 =>
        match decEq x2 y2 with
        | isFalse h => isFalse (fun e => by cases e; exact h rfl)
        | isTrue h2 =>
          match XmlElement.decEqOption x3 y3 with
          | isFalse h => isFalse (fun e => by cases e; exact h rfl)
          | isTrue h3 =>
            isTrue (by cases h0; cases h1; cases h2; cases h3; rfl)
termination_by structural a => a
/-- Equality of XML elements is decidable. -/
def XmlElement.decEq : (a b : XmlElement) → Decidable (a = b)
  | .mk x0 x1 x2 x3, .mk y0 y1 y2 y3 =>
    match decEq x0 y0 with
    | isFalse h => isFalse (fun e => by cases e; exact h rfl)
    | isTrue h0 =>
      match decEq x1 y1 with
      | isFalse h => isFalse (fun e => by cases e; exact h rfl)
      | isTrue h1 =>
        match XmlElement.decEqList x2 y2 with
        | isFalse h => isFalse (fun e => by cases e; exact h rfl)
        | isTrue h2 =>
          match Content.decEqOption x3 y3 with
          | isFalse h => isFalse (fun e => by cases e; exact h rfl)
          | isTrue h3 =>
            isTrue (by cases h0; cases h1; cases h2; cases h3; rfl)
termination_by structural a => a
/-- Equality of JSON documents is decidable. -/
def JsonData.decEq : (a b : JsonData) → Decidable (a = b)
  | .mk x0, .mk y0 =>
    match JsonValue.decEq x0 y0 with
    | isFalse h => isFalse (fun e => by cases e; exact h rfl)
    | isTrue h0 =>
      isTrue (by cases h0; rfl)
termination_by structural a => a
/-- Equality of JSON values is decidable. -/
def JsonValue.decEq : (a b : JsonValue) → Decidable (a = b)
  | .null, .null =>
    isTrue rfl
  | .null, .bool _ => isFalse (fun e => by cases e)
  | .null, .float64 _ => isFalse (fun e => by cases e)
  | .null, .content _ => isFalse (fun e => by cases e)
  | .null, .array _ => isFalse (fun e => by cases e)
  | .null, .object _ => isFalse (fun e => by cases e)
  | .bool _, .null => isFalse (fun e => by cases e)
  | .bool x0, .bool y0 =>
    match decEq x0 y0 with
    | isFalse h => isFalse (fun e => by cases e; exact h rfl)
    | isTrue h0 =>
      isTrue (by cases h0; rfl)
  | .bool _, .float64 _ => isFalse (fun e => by cases e)
  | .bool _, .content _ => isFalse (fun e => by cases e)
  | .bool _, .array _ => isFalse (fun e => by cases e)
  | .bool _, .object _ => isFalse (fun e => by cases e)
  | .float64 _, .null => isFalse (fun e => by cases e)
  | .float64 _, .bool _ => isFalse (fun e => by cases e)
  | .float64 x0, .float64 y0 =>
    match decEq x0 y0 with
    | isFalse h => isFalse (fun e => by cases e; exact h rfl)
    | isTrue h0 =>
      isTrue (by cases h0; rfl)
  | .float64 _, .content _ => isFalse (fun e => by cases e)
  | .float64 _, .array _ => isFalse (fun e => by cases e)
  | .float64 _, .object _ => isFalse (fun e => by cases e)
  | .content _, .null => isFalse (fun e => by cases e)
  | .content _, .bool _ => isFalse (fun e => by cases e)
  | .content _, .float64 _ => isFalse (fun e => by cases e)
  | .content x0, .content y0 =>
    match Content.decEq x0 y0 with
    | isFalse h => isFalse (fun e => by cases e; exact h rfl)
    | isTrue h0 =>
      isTrue (by cases h0; rfl)
  | .content _, .array _ => isFalse (fun e => by cases e)
  | .content _, .object _ => isFalse (fun e => by cases e)
  | .array _, .null => isFalse (fun e => by cases e)
  | .array _, .bool _ => isFalse (fun e => by cases e)
  | .array _, .float64 _ => isFalse (fun e => by cases e)
  | .array _, .content _ => isFalse (fun e => by cases e)
  | .array x0, .array y0 =>
    match JsonValue.decEqList x0 y0 with
    | isFalse h => isFalse (fun e => by cases e; exact h rfl)
    | isTrue h0 =>
      isTrue (by cases h0; rfl)
  | .array _, .object _ => isFalse (fun e => by cases e)
  | .object _, .null => isFalse (fun e => by cases e)
  | .object _, .bool _ => isFalse (fun e => by cases e)
  | .object _, .float64 _ => isFalse (fun e => by cases e)
  | .object _, .content _ => isFalse (fun e => by cases e)
  | .object _, .array _ => isFalse (fun e => by cases e)
  | .object x0, .object y0 =>
    match JsonValue.decEqFields x0 y0 with
    | isFalse h => isFalse (fun e => by cases e; exact h rfl)
    | isTrue h0 =>
      isTrue (by cases h0; rfl)
termination_by structural a => a
/-- Equality of lists of XML elements is decidable. -/
def XmlElement.decEqList : (a b : List XmlElement) → Decidable (a = b)
  | [], [] => isTrue rfl
  | [], _ :: _ => isFalse (fun e => by cases e)
  | _ :: _, [] => isFalse (fun e => by cases e)
  | x0 :: x1, y0 :: y1 =>
    match XmlElement.decEq x0 y0 with
    | isFalse h => isFalse (fun e => by cases e; exact h rfl)
    | isTrue h0 =>
      match XmlElement.decEqList x1 y1 with
      | isFalse h => isFalse (fun e => by cases e; exact h rfl)
      | isTrue h1 =>
        isTrue (by cases h0; cases h1; rfl)
termination_by structural a => a
/-- Equality of optional XML elements is decidable. -/
def XmlElement.decEqOption : (a b : Option XmlElement) → Decidable (a = b)
  | none, none => isTrue rfl
  | none, some _ => isFalse (fun e => by cases e)
  | some _, none => isFalse (fun e => by cases e)
  | some x0, some y0 =>
    match XmlElement.decEq x0 y0 with
    | isFalse h => isFalse (fun e => by cases e; exact h rfl)
    | isTrue h0 =>
      isTrue (by cases h0; rfl)
termination_by structural a => a
/-- Equality of optional contents is decidable. -/
def Content.decEqOption : (a b : Option Content) → Decidable (a = b)
  | none, none => isTrue rfl
  | none, some _ => isFalse (fun e => by cases e)
  | some _, none => isFalse (fun e => by cases e)
  | some x0, some y0 =>
    match Content.decEq x0 y0 with
    | isFalse h => isFalse (fun e => by cases e; exact h rfl)
    | isTrue h0 =>
      isTrue (by cases h0; rfl)
termination_by structural a => a
/-- Equality of lists of JSON values is decidable. -/
def JsonValue.decEqList : (a b : List JsonValue) → Decidable (a = b)
  | [], [] => isTrue rfl
  | [], _ :: _ => isFalse (fun e => by cases e)
  | _ :: _, [] => isFalse (fun e => by cases e)
  | x0 :: x1, y0 :: y1 =>
    match JsonValue.decEq x0 y0 with
    | isFalse h => isFalse (fun e => by cases e; exact h rfl)
    | isTrue h0 =>
      match JsonValue.decEqList x1 y1 with
      | isFalse h => isFalse (fun e => by cases e; exact h rfl)
      | isTrue h1 =>
        isTrue (by cases h0; cases h1; rfl)
termination_by structural a => a
/-- Equality of object fields is decidable. -/
def JsonValue.decEqFields : (a b : List (GoString × JsonValue)) → Decidable (a = b)
  | [], [] => isTrue rfl
  | [], _ :: _ => isFalse (fun e => by cases e)
  | _ :: _, [] => isFalse (fun e => by cases e)
  | (k0, x0) :: x1, (l0, y0) :: y1 =>
    match decEq k0 l0 with
    | isFalse h => isFalse (fun e => by cases e; exact h rfl)
    | isTrue h0 =>
      match JsonValue.decEq x0 y0 with
      | isFalse h => isFalse (fun e => by cases e; exact h rfl)
      | isTrue h1 =>
        match JsonValue.decEqFields x1 y1 with
        | isFalse h => isFalse (fun e => by cases e; exact h rfl)
        | isTrue h2 =>
          isTrue (by cases h0; cases h1; cases h2; rfl)
termination_by structural a => a
end

instance : DecidableEq Content := Content.decEq

instance : DecidableEq XmlData := XmlData.decEq

instance : DecidableEq XmlElement := XmlElement.decEq

instance : DecidableEq JsonData := JsonData.decEq

instance : DecidableEq JsonValue := JsonValue.decEq

deriving instance DecidableEq for Except

/-- `NewXmlData`. -/
def NewXmlData : XmlData := XmlData.mk [] [] [] none

/-- The `Root` field of an `XmlData`. -/
def XmlData.Root : XmlData → Option XmlElement
  | .mk _ _ _ root => root

/-- The assignment `data.Root = root`. -/
def XmlData.setRoot : XmlData → XmlElement → XmlData
  | .mk e d o _, root => .mk e d o (some root)

/-- The assignment `destObject[fieldName] = value` on a map. -/
def mapSet (destObject : List (GoString × JsonValue)) (fieldName : GoString) (value : JsonValue) :
    List (GoString × JsonValue) :=
  match destObject with
  | [] => [(fieldName, value)]
  | (k, v) :: rest =>
    if k = fieldName then (fieldName, value) :: rest else (k, v) :: mapSet rest fieldName value

/-! ## content_json.go -/

/-- `jsonDataParser` once `parse` has set it up. -/
structure jsonDataParser where
  decoder : jsonDecoder
  state : contentParserState
  localLevelChecker : levelChecker
  deriving DecidableEq

/-- `(*jsonDataParser).parseFieldName`. -/
def jsonDataParser.parseFieldName (parser : jsonDataParser) :
    Except ParseError GoString × jsonDataParser :=
  match parser.decoder.Token with
  | (.error none, decoder) => (.error unexpectedEOFError, { parser with decoder := decoder })
  | (.error (some code), decoder) => (.error (decoderError code), { parser with decoder := decoder })
  | (.ok rawName, decoder) =>
    match rawName with
    | .string name => (.ok name, { parser with decoder := decoder })
    | _ => (.error badFieldNameError, { parser with decoder := decoder })

/-- `(*jsonDataParser).parseEndDelimiter`: `none` is the `nil` error. -/
def jsonDataParser.parseEndDelimiter (parser : jsonDataParser) (expectedDelimiter : Delim)
    (unexpectedError : ParseError) : Option ParseError × jsonDataParser :=
  match parser.decoder.Token with
  | (.error none, decoder) => (some unexpectedEOFError, { parser with decoder := decoder })
  | (.error (some code), decoder) => (some (decoderError code), { parser with decoder := decoder })
  | (.ok rawToken, decoder) =>
    match rawToken with
    | .delim token =>
      if token = expectedDelimiter then (none, { parser with decoder := decoder })
      else (some unexpectedError, { parser with decoder := decoder })
    | _ => (some unexpectedError, { parser with decoder := decoder })

/-- The deferred function of `parseObject`, `parseArray`. -/
def jsonDataParser.exitLevels (parser : jsonDataParser) : jsonDataParser :=
  { parser with
    state := { parser.state with globalLevelChecker := parser.state.globalLevelChecker.exit }
    localLevelChecker := parser.localLevelChecker.exit }

/-! ## content_xml.go -/

/-- `xmlDataParser` once `parse` has set it up. -/
structure xmlDataParser where
  decoder : xmlDecoder
  data : XmlData
  state : contentParserState
  localLevelChecker : levelChecker
  deriving DecidableEq

/-- `(*xmlDataParser).parseDirective`; it returns no error. -/
def xmlDataParser.parseDirective (parser : xmlDataParser) (directive : GoString) : xmlDataParser :=
  match parser.data with
  | .mk e d o root =>
    if hasPrefix directive [69, 78, 84, 73, 84, 89] then
      { parser with data := .mk (e ++ [directive]) d o root }
    else if hasPrefix directive [68, 79, 67, 84, 89, 80, 69] then
      { parser with data := .mk e (d ++ [directive]) o root }
    else
      { parser with data := .mk e d (o ++ [directive]) root }

/-- The deferred function of `parseElement`. -/
def xmlDataParser.exitLevels (parser : xmlDataParser) : xmlDataParser :=
  { parser with
    state := { parser.state with globalLevelChecker := parser.state.globalLevelChecker.exit }
    localLevelChecker := parser.localLevelChecker.exit }

/-- `getXmlFullName`. -/
def getXmlFullName (name : XmlName) : GoString :=
  if name.Space.length = 0 then name.Local else name.Space ++ [58] ++ name.Local

/-! ## The parsers

Every function takes the fuel first; a call made by a function with fuel
`fuel + 1` runs with fuel `fuel`. The `for` loops are the functions named
`...Loop`; they carry the local variables of the loop. -/

mutual

/-- `parseContent`. -/
def parseContent (D : Decoders) :
    Nat → GoString → contentParserState → Option (Content × contentParserState)
  | 0, _, _ => none
  | fuel + 1, source, state =>
    let preparedSource := trimSpace source
    match detectProbableContentType preparedSource with
    | (_, ContentTypeUnspecified) => some (.text source, state)
    | (data, ContentTypeXml) =>
      match xmlDataParser.parse D fuel state data with
      | none => none
      | some (.error _, state) => some (.text source, state)
      | some (.ok result, state) => some (.xml result, state)
    | (data, ContentTypeJson) =>
      match jsonDataParser.parse D fuel state data with
      | none => none
      | some (.error _, state) => some (.text source, state)
      | some (.ok result, state) => some (.json result, state)
    | (data, ContentTypeBase64) =>
      match parseContent D fuel data state with
      | none => none
      | some (result, state) => some (.base64 result, state)

/-- `(*jsonDataParser).parse`, on the parser `newJsonDataParser(state)`. -/
def jsonDataParser.parse (D : Decoders) :
    Nat → contentParserState → GoString → Option (Except ParseError JsonData × contentParserState)
  | 0, _, _ => none
  | fuel + 1, state, source =>
    let parser : jsonDataParser :=
      { decoder := D.json source, state := state
        localLevelChecker := newLevelChecker state.maxLevel }
    match jsonDataParser.parseValue D fuel parser with
    | none => none
    | some (.error valueError, parser) => some (.error valueError, parser.state)
    | some (.ok value, parser) =>
      match parser.decoder.Token with
      | (.error none, _) => some (.ok (JsonData.mk value), parser.state)
      | _ => some (.error badJsonStructureError, parser.state)

/-- `(*jsonDataParser).parseValue`. -/
def jsonDataParser.parseValue (D : Decoders) :
    Nat → jsonDataParser → Option (Except ParseError JsonValue × jsonDataParser)
  | 0, _ => none
  | fuel + 1, parser =>
    match parser.decoder.Token with
    | (.error none, decoder) => some (.error unexpectedEOFError, { parser with decoder := decoder })
    | (.error (some code), decoder) =>
      some (.error (decoderError code), { parser with decoder := decoder })
    | (.ok rawValue, decoder) =>
      let parser := { parser with decoder := decoder }
      match rawValue with
      | .delim value =>
        jsonDataParser.parseComplexEntity D fuel parser value unexpectedEndOfArrayError
      | .bool value => some (.ok (.bool value), parser)
      | .float64 value => some (.ok (.float64 value), parser)
      | .null => some (.ok .null, parser)
      | .string value =>
        match parseContent D fuel value parser.state with
        | none => none
        | some (content, state) => some (.ok (.content content), { parser with state := state })

/-- `(*jsonDataParser).parseComplexEntity`. -/
def jsonDataParser.parseComplexEntity (D : Decoders) :
    Nat → jsonDataParser → Delim → ParseError →
      Option (Except ParseError JsonValue × jsonDataParser)
  | 0, _, _, _ => none
  | fuel + 1, parser, delimiter, unexpectedError =>
    match delimiter with
    | .lbrace => jsonDataParser.parseObject D fuel parser
    | .lbracket => jsonDataParser.parseArray D fuel parser
    | _ => some (.error unexpectedError, parser)

/-- `(*jsonDataParser).parseObject`. -/
def jsonDataParser.parseObject (D : Decoders) :
    Nat → jsonDataParser → Option (Except ParseError JsonValue × jsonDataParser)
  | 0, _ => none
  | fuel + 1, parser =>
    match parser.localLevelChecker.enter with
    | (false, checker) =>
      some (.error maxLevelExceedError, { parser with localLevelChecker := checker })
    | (true, checker) =>
      let parser := { parser with localLevelChecker := checker }
      match parser.state.globalLevelChecker.enter with
      | (false, checker) =>
        some (.error maxLevelExceedError,
          { parser with state := { parser.state with globalLevelChecker := checker } })
      | (true, checker) =>
        let parser := { parser with state := { parser.state with globalLevelChecker := checker } }
        match jsonDataParser.parseObjectLoop D fuel parser [] with
        | none => none
        | some (result, parser) => some (result, parser.exitLevels)

/-- The loop of `parseObject` and the statements after it. -/
def jsonDataParser.parseObjectLoop (D : Decoders) :
    Nat → jsonDataParser → List (GoString × JsonValue) →
      Option (Except ParseError JsonValue × jsonDataParser)
  | 0, _, _ => none
  | fuel + 1, parser, destObject =>
    if parser.decoder.More then
      if (destObject.length : Int) = parser.state.maxFieldCount then
        some (.error maxFieldCountExceedError, parser)
      else
        match parser.parseFieldName with
        | (.error nameError, parser) => some (.error nameError, parser)
        | (.ok fieldName, parser) =>
          match jsonDataParser.parseValue D fuel parser with
          | none => none
          | some (.error valueError, parser) => some (.error valueError, parser)
          | some (.ok value, parser) =>
            jsonDataParser.parseObjectLoop D fuel parser (mapSet destObject fieldName value)
    else
      match parser.parseEndDelimiter .rbrace unexpectedEndOfObjectError with
      | (some endDelimiterError, parser) => some (.error endDelimiterError, parser)
      | (none, parser) => some (.ok (.object destObject), parser)

/-- `(*jsonDataParser).parseArray`. -/
def jsonDataParser.parseArray (D : Decoders) :
    Nat → jsonDataParser → Option (Except ParseError JsonValue × jsonDataParser)
  | 0, _ => none
  | fuel + 1, parser =>
    match parser.localLevelChecker.enter with
    | (false, checker) =>
      some (.error maxLevelExceedError, { parser with localLevelChecker := checker })
    | (true, checker) =>
      let parser := { parser with localLevelChecker := checker }
      match parser.state.globalLevelChecker.enter with
      | (false, checker) =>
        some (.error maxLevelExceedError,
          { parser with state := { parser.state with globalLevelChecker := checker } })
      | (true, checker) =>
        let parser := { parser with state := { parser.state with globalLevelChecker := checker } }
        match jsonDataParser.parseArrayLoop D fuel parser [] with
        | none => none
        | some (result, parser) => some (result, parser.exitLevels)

/-- The loop of `parseArray` and the statements after it. -/
def jsonDataParser.parseArrayLoop (D : Decoders) :
    Nat → jsonDataParser → List JsonValue →
      Option (Except ParseError JsonValue × jsonDataParser)
  | 0, _, _ => none
  | fuel + 1, parser, destArray =>
    if parser.decoder.More then
      if (destArray.length : Int) = parser.state.maxFieldCount then
        some (.error maxFieldCountExceedError, parser)
      else
        match jsonDataParser.parseValue D fuel parser with
        | none => none
        | some (.error valueError, parser) => some (.error valueError, parser)
        | some (.ok value, parser) =>
          jsonDataParser.parseArrayLoop D fuel parser (destArray ++ [value])
    else
      match parser.parseEndDelimiter .rbracket unexpectedEndOfArrayError with
      | (some endDelimiterError, parser) => some (.error endDelimiterError, parser)
      | (none, parser) => some (.ok (.array destArray), parser)

/-- `(*xmlDataParser).parse`, on the parser `newXmlDataParser(state)`. -/
def xmlDataParser.parse (D : Decoders) :
    Nat → contentParserState → GoString → Option (Except ParseError XmlData × contentParserState)
  | 0, _, _ => none
  | fuel + 1, state, source =>
    let parser : xmlDataParser :=
      { decoder := D.xml source, data := NewXmlData, state := state
        localLevelChecker := newLevelChecker state.maxLevel }
    match xmlDataParser.parseLoop D fuel parser with
    | none => none
    | some (.error parseError, parser) => some (.error parseError, parser.state)
    | some (.ok data, parser) => some (.ok data, parser.state)

/-- The loop of `(*xmlDataParser).parse`. -/
def xmlDataParser.parseLoop (D : Decoders) :
    Nat → xmlDataParser → Option (Except ParseError XmlData × xmlDataParser)
  | 0, _ => none
  | fuel + 1, parser =>
    match parser.decoder.Token with
    | (.error none, decoder) => some (.ok parser.data, { parser with decoder := decoder })
    | (.error (some code), decoder) =>
      some (.error (decoderError code), { parser with decoder := decoder })
    | (.ok rawToken, decoder) =>
      let parser := { parser with decoder := decoder }
      match rawToken with
      | .CharData _ => some (.error badXMLStructureError, parser)
      | .Comment _ => xmlDataParser.parseLoop D fuel parser
      | .Directive token => xmlDataParser.parseLoop D fuel (parser.parseDirective token)
      | .ProcInst _ _ => xmlDataParser.parseLoop D fuel parser
      | .EndElement _ => some (.error badXMLStructureError, parser)
      | .StartElement name attr =>
        match parser.data.Root with
        | some _ => some (.error badXMLStructureError, parser)
        | none =>
          match xmlDataParser.parseElement D fuel parser name attr with
          | none => none
          | some (.error parseError, parser) => some (.error parseError, parser)
          | some (.ok rootElement, parser) =>
            xmlDataParser.parseLoop D fuel { parser with data := parser.data.setRoot rootElement }

/-- `(*xmlDataParser).parseElement`, on the start element with the given name
and attributes. -/
def xmlDataParser.parseElement (D : Decoders) :
    Nat → xmlDataParser → XmlName → List XmlAttr →
      Option (Except ParseError XmlElement × xmlDataParser)
  | 0, _, _, _ => none
  | fuel + 1, parser, startName, startAttr =>
    match parser.localLevelChecker.enter with
    | (false, checker) =>
      some (.error maxLevelExceedError, { parser with localLevelChecker := checker })
    | (true, checker) =>
      let parser := { parser with localLevelChecker := checker }
      match parser.state.globalLevelChecker.enter with
      | (false, checker) =>
        some (.error maxLevelExceedError,
          { parser with state := { parser.state with globalLevelChecker := checker } })
      | (true, checker) =>
        let parser := { parser with state := { parser.state with globalLevelChecker := checker } }
        match xmlDataParser.parseElementLoop D fuel parser startName startAttr [] none with
        | none => none
        | some (result, parser) => some (result, parser.exitLevels)

/-- The loop of `parseElement`; `children` and `value` are the fields of
`currentElement` set so far. -/
def xmlDataParser.parseElementLoop (D : Decoders) :
    Nat → xmlDataParser → XmlName → List XmlAttr → List XmlElement → Option Content →
      Option (Except ParseError XmlElement × xmlDataParser)
  | 0, _, _, _, _, _ => none
  | fuel + 1, parser, startName, startAttr, children, value =>
    match parser.decoder.Token with
    | (.error none, decoder) => some (.error unexpectedEOFError, { parser with decoder := decoder })
    | (.error (some code), decoder) =>
      some (.error (decoderError code), { parser with decoder := decoder })
    | (.ok rawToken, decoder) =>
      let parser := { parser with decoder := decoder }
      match rawToken with
      | .CharData token =>
        match xmlDataParser.parseCharData D fuel parser token with
        | none => none
        | some (content, parser) =>
          xmlDataParser.parseElementLoop D fuel parser startName startAttr children (some content)
      | .Comment _ => xmlDataParser.parseElementLoop D fuel parser startName startAttr children value
      | .Directive token =>
        xmlDataParser.parseElementLoop D fuel (parser.parseDirective token) startName startAttr
          children value
      | .ProcInst _ _ =>
        xmlDataParser.parseElementLoop D fuel parser startName startAttr children value
      | .EndElement name =>
        if name ≠ startName then some (.error unexpectedEndElementError, parser)
        else some (.ok (XmlElement.mk startName startAttr children value), parser)
      | .StartElement name attr =>
        match xmlDataParser.parseElement D fuel parser name attr with
        | none => none
        | some (.error parseError, parser) => some (.error parseError, parser)
        | some (.ok childElement, parser) =>
          xmlDataParser.parseElementLoop D fuel parser startName startAttr
            (children ++ [childElement]) value

/-- `(*xmlDataParser).parseCharData`; it returns no error. -/
def xmlDataParser.parseCharData (D : Decoders) :
    Nat → xmlDataParser → GoString → Option (Content × xmlDataParser)
  | 0, _, _ => none
  | fuel + 1, parser, token =>
    match parseContent D fuel token parser.state with
    | none => none
    | some (content, state) => some (content, { parser with state := state })

end

/-- `ParseParams`. -/
structure ParseParams where
  MaxGlobalLevel : Int
  MaxLocalLevel : Int
  MaxFieldCount : Int
  deriving DecidableEq, Repr

/-- `ParseContent`: the content returned, given enough fuel. -/
def ParseContent (D : Decoders) (fuel : Nat) (source : GoString) (params : ParseParams) :
    Option Content :=
  let state := newContentParserState params.MaxGlobalLevel params.MaxLocalLevel params.MaxFieldCount
  (parseContent D fuel source state).map Prod.fst

/-! ## Definitions used to state the properties -/

/-- The bytes of an ASCII string literal. -/
def ascii (s : String) : GoString := s.data.map Char.toNat

/-- Go `base64.StdEncoding.Strict().DecodeString`: standard padded decoding
that also rejects non-zero trailing padding bits (RFC 4648, section 3.5). -/
def strictDecodeString (source : GoString) : Option GoString :=
  base64Decode true source []

/-- The classification as the specification words it, with a strict Base64
decode attempt: `<...>` is Xml, `{...}` or `[...]` is Json, a string that
decodes is Base64 with the decoded bytes, anything else is Unspecified. -/
def classifyStrict (s : GoString) : GoString × ContentType :=
  if hasPrefix s (ascii "<") && hasSuffix s (ascii ">") then (s, ContentTypeXml)
  else if (hasPrefix s (ascii "\x7b") && hasSuffix s (ascii "\x7d")) ||
      (hasPrefix s (ascii "[") && hasSuffix s (ascii "]")) then (s, ContentTypeJson)
  else
    match strictDecodeString s with
    | some decoded => (decoded, ContentTypeBase64)
    | none => (s, ContentTypeUnspecified)

/-- The string reached from `source` through `k` Base64 unwraps of
`parseContent`: at each layer the trimmed string is classified Base64 and
replaced by its decoded form. -/
def base64Layers : Nat → GoString → Option GoString
  | 0, source => some source
  | k + 1, source =>
    match detectProbableContentType (trimSpace source) with
    | (data, ContentTypeBase64) => base64Layers k data
    | _ => none

/-- A content wrapped in `k` `Base64Data` values. -/
def wrapBase64 : Nat → Content → Content
  | 0, content => content
  | k + 1, content => .base64 (wrapBase64 k content)

mutual
/-- Every JSON value inside a content satisfies `p`. -/
def Content.allJson (p : JsonValue → Bool) : Content → Bool
  | .text _ => true
  | .xml data => data.allJson p
  | .json data => data.allJson p
  | .base64 value => value.allJson p
/-- Every JSON value inside an XML document satisfies `p`. -/
def XmlData.allJson (p : JsonValue → Bool) : XmlData → Bool
  | .mk _ _ _ none => true
  | .mk _ _ _ (some root) => root.allJson p
/-- Every JSON value inside an XML element satisfies `p`. -/
def XmlElement.allJson (p : JsonValue → Bool) : XmlElement → Bool
  | .mk _ _ children value =>
    XmlElement.allJsonList p children &&
      (match value with
       | none => true
       | some content => content.allJson p)
/-- Every JSON value inside a list of XML elements satisfies `p`. -/
def XmlElement.allJsonList (p : JsonValue → Bool) : List XmlElement → Bool
  | [] => true
  | element :: rest => element.allJson p && XmlElement.allJsonList p rest
/-- Every JSON value inside a JSON document satisfies `p`. -/
def JsonData.allJson (p : JsonValue → Bool) : JsonData → Bool
  | .mk value => value.allJson p
/-- A JSON value and every JSON value inside it satisfy `p`. -/
def JsonValue.allJson (p : JsonValue → Bool) : JsonValue → Bool
  | .null => p .null
  | .bool b => p (.bool b)
  | .float64 bits => p (.float64 bits)
  | .content content => p (.content content) && content.allJson p
  | .array items => p (.array items) && JsonValue.allJsonList p items
  | .object fields => p (.object fields) && JsonValue.allJsonFields p fields
/-- Every JSON value inside a list of JSON values satisfies `p`. -/
def JsonValue.allJsonList (p : JsonValue → Bool) : List JsonValue → Bool
  | [] => true
  | value :: rest => value.allJson p && JsonValue.allJsonList p rest
/-- Every JSON value inside the fields of an object satisfies `p`. -/
def JsonValue.allJsonFields (p : JsonValue → Bool) : List (GoString × JsonValue) → Bool
  | [] => true
  | (_, value) :: rest => value.allJson p && JsonValue.allJsonFields p rest
end

/-- An array has at most `n` elements (any other value passes). -/
def arrayWithin (n : Int) : JsonValue → Bool
  | .array items => decide ((items.length : Int) ≤ n)
  | _ => true

/-- An object has at most `n` fields (any other value passes). -/
def objectWithin (n : Int) : JsonValue → Bool
  | .object fields => decide ((fields.length : Int) ≤ n)
  | _ => true

/-- The field names of an object. -/
def fieldNames (destObject : List (GoString × JsonValue)) : List GoString :=
  destObject.map Prod.fst

/-- The bits of the `float64` value 1. -/
def float64One : Nat := 0x3FF0000000000000

/-- The bits of the `float64` value 2. -/
def float64Two : Nat := 0x4000000000000000

open JsonToken Delim in
/-- The token streams `encoding/json` returns for the sources of the examples
below; every other source is given a stream that fails at once. -/
def exampleJson (source : GoString) : jsonDecoder :=
  if source = ascii "[1]" then
    ⟨[delim lbracket, float64 float64One, delim rbracket], .eof false⟩
  else if source = ascii "[[1]]" then
    ⟨[delim lbracket, delim lbracket, float64 float64One, delim rbracket, delim rbracket],
      .eof false⟩
  else if source = ascii "[[[1]]]" then
    ⟨[delim lbracket, delim lbracket, delim lbracket, float64 float64One, delim rbracket,
      delim rbracket, delim rbracket], .eof false⟩
  else if source = ascii "[[2]]" then
    ⟨[delim lbracket, delim lbracket, float64 float64Two, delim rbracket, delim rbracket],
      .eof false⟩
  else if source = ascii "[\"[[1]]\", \"[1]\"]" then
    ⟨[delim lbracket, string (ascii "[[1]]"), string (ascii "[1]"), delim rbracket], .eof false⟩
  else if source = ascii "[\"x\", \"[1]\"]" then
    ⟨[delim lbracket, string (ascii "x"), string (ascii "[1]"), delim rbracket], .eof false⟩
  else if source = ascii "[\"[[[1]]]\", \"[[2]]\"]" then
    ⟨[delim lbracket, string (ascii "[[[1]]]"), string (ascii "[[2]]"), delim rbracket],
      .eof false⟩
  else if source = ascii "[\"x\", \"[[2]]\"]" then
    ⟨[delim lbracket, string (ascii "x"), string (ascii "[[2]]"), delim rbracket], .eof false⟩
  else if source = ascii "[1,]" then
    ⟨[delim lbracket, float64 float64One], .fail true 0⟩
  else if source = ascii "\x7b\"a\":1,\"a\":1,\"a\":2\x7d" then
    ⟨[delim lbrace, string (ascii "a"), float64 float64One, string (ascii "a"),
      float64 float64One, string (ascii "a"), float64 float64Two, delim rbrace], .eof false⟩
  else ⟨[], .fail true 0⟩

/-- Decoders for the examples: `exampleJson`, and an XML decoder that fails at
once (no example below has an XML source). -/
def exampleDecoders : Decoders :=
  { json := exampleJson, xml := fun _ => ⟨[], some 0⟩ }

/-- The JSON parser after a successful entry into an object or array: both
counters incremented. -/
def jsonDataParser.entered (parser : jsonDataParser) : jsonDataParser :=
  { parser with
    state := { parser.state with globalLevelChecker := parser.state.globalLevelChecker.enter.2 }
    localLevelChecker := parser.localLevelChecker.enter.2 }

/-- The XML parser after a successful entry into an element: both counters
incremented. -/
def xmlDataParser.entered (parser : xmlDataParser) : xmlDataParser :=
  { parser with
    state := { parser.state with globalLevelChecker := parser.state.globalLevelChecker.enter.2 }
    localLevelChecker := parser.localLevelChecker.enter.2 }

/-- A JSON parser whose local counter has reached `max_local_level = 0`, with
room left under `max_global_level = 5`. -/
def jsonParserAtLocalLimit : jsonDataParser :=
  { decoder := ⟨[], .eof false⟩, state := newContentParserState 5 0 4
    localLevelChecker := newLevelChecker 0 }

/-- An XML parser whose local counter has reached `max_local_level = 0`, with
room left under `max_global_level = 5`. -/
def xmlParserAtLocalLimit : xmlDataParser :=
  { decoder := ⟨[], none⟩, data := NewXmlData, state := newContentParserState 5 0 4
    localLevelChecker := newLevelChecker 0 }

/-- A test on JSON values that passes every leaf, and every array and object
with at most `n` entries. -/
structure Admits (n : Int) (p : JsonValue → Bool) : Prop where
  null : p .null = true
  bool : ∀ b, p (.bool b) = true
  float64 : ∀ bits, p (.float64 bits) = true
  content : ∀ c, p (.content c) = true
  array : ∀ items : List JsonValue, (items.length : Int) ≤ n → p (.array items) = true
  object : ∀ fields : List (GoString × JsonValue), (fields.length : Int) ≤ n →
    p (.object fields) = true

/-- What the size invariant states of every parser function at a given fuel. -/
structure SizeInv (D : Decoders) (n : Int) (p : JsonValue → Bool) (fuel : Nat) : Prop where
  content : ∀ source state c state2, parseContent D fuel source state = some (c, state2) →
    state.maxFieldCount = n → state2.maxFieldCount = n ∧ c.allJson p = true
  jsonParse : ∀ state source r state2, jsonDataParser.parse D fuel state source = some (r, state2) →
    state.maxFieldCount = n →
    state2.maxFieldCount = n ∧ ∀ d, r = .ok d → d.allJson p = true
  value : ∀ parser r parser2, jsonDataParser.parseValue D fuel parser = some (r, parser2) →
    parser.state.maxFieldCount = n →
    parser2.state.maxFieldCount = n ∧ ∀ v, r = .ok v → v.allJson p = true
  complexEntity : ∀ parser d e r parser2,
    jsonDataParser.parseComplexEntity D fuel parser d e = some (r, parser2) →
    parser.state.maxFieldCount = n →
    parser2.state.maxFieldCount = n ∧ ∀ v, r = .ok v → v.allJson p = true
  object : ∀ parser r parser2, jsonDataParser.parseObject D fuel parser = some (r, parser2) →
    parser.state.maxFieldCount = n →
    parser2.state.maxFieldCount = n ∧ ∀ v, r = .ok v → v.allJson p = true
  objectLoop : ∀ parser dest r parser2,
    jsonDataParser.parseObjectLoop D fuel parser dest = some (r, parser2) →
    parser.state.maxFieldCount = n → JsonValue.allJsonFields p dest = true →
    (dest.length : Int) ≤ n →
    parser2.state.maxFieldCount = n ∧ ∀ v, r = .ok v → v.allJson p = true
  array : ∀ parser r parser2, jsonDataParser.parseArray D fuel parser = some (r, parser2) →
    parser.state.maxFieldCount = n →
    parser2.state.maxFieldCount = n ∧ ∀ v, r = .ok v → v.allJson p = true
  arrayLoop : ∀ parser dest r parser2,
    jsonDataParser.parseArrayLoop D fuel parser dest = some (r, parser2) →
    parser.state.maxFieldCount = n → JsonValue.allJsonList p dest = true →
    (dest.length : Int) ≤ n →
    parser2.state.maxFieldCount = n ∧ ∀ v, r = .ok v → v.allJson p = true
  xmlParse : ∀ state source r state2, xmlDataParser.parse D fuel state source = some (r, state2) →
    state.maxFieldCount = n →
    state2.maxFieldCount = n ∧ ∀ d, r = .ok d → d.allJson p = true
  xmlLoop : ∀ parser r parser2, xmlDataParser.parseLoop D fuel parser = some (r, parser2) →
    parser.state.maxFieldCount = n → parser.data.allJson p = true →
    parser2.state.maxFieldCount = n ∧ ∀ d, r = .ok d → d.allJson p = true
  element : ∀ parser name attr r parser2,
    xmlDataParser.parseElement D fuel parser name attr = some (r, parser2) →
    parser.state.maxFieldCount = n → parser.data.allJson p = true →
    parser2.state.maxFieldCount = n ∧ parser2.data.allJson p = true ∧
      ∀ e, r = .ok e → e.allJson p = true
  elementLoop : ∀ parser name attr children value r parser2,
    xmlDataParser.parseElementLoop D fuel parser name attr children value = some (r, parser2) →
    parser.state.maxFieldCount = n → parser.data.allJson p = true →
    XmlElement.allJsonList p children = true →
    (∀ c, value = some c → c.allJson p = true) →
    parser2.state.maxFieldCount = n ∧ parser2.data.allJson p = true ∧
      ∀ e, r = .ok e → e.allJson p = true
  charData : ∀ parser token c parser2,
    xmlDataParser.parseCharData D fuel parser token = some (c, parser2) →
    parser.state.maxFieldCount = n → parser.data.allJson p = true →
    parser2.state.maxFieldCount = n ∧ parser2.data.allJson p = true ∧
      c.allJson p = true

/-- What fuel monotonicity states of every parser function at a given fuel:
a call that returns with this fuel returns the same with one unit more. -/
structure FuelMono (D : Decoders) (fuel : Nat) : Prop where
  content : ∀ source state r, parseContent D fuel source state = some r →
    parseContent D (fuel + 1) source state = some r
  jsonParse : ∀ state source r, jsonDataParser.parse D fuel state source = some r →
    jsonDataParser.parse D (fuel + 1) state source = some r
  value : ∀ parser r, jsonDataParser.parseValue D fuel parser = some r →
    jsonDataParser.parseValue D (fuel + 1) parser = some r
  complexEntity : ∀ parser d e r, jsonDataParser.parseComplexEntity D fuel parser d e = some r →
    jsonDataParser.parseComplexEntity D (fuel + 1) parser d e = some r
  object : ∀ parser r, jsonDataParser.parseObject D fuel parser = some r →
    jsonDataParser.parseObject D (fuel + 1) parser = some r
  objectLoop : ∀ parser dest r, jsonDataParser.parseObjectLoop D fuel parser dest = some r →
    jsonDataParser.parseObjectLoop D (fuel + 1) parser dest = some r
  array : ∀ parser r, jsonDataParser.parseArray D fuel parser = some r →
    jsonDataParser.parseArray D (fuel + 1) parser = some r
  arrayLoop : ∀ parser dest r, jsonDataParser.parseArrayLoop D fuel parser dest = some r →
    jsonDataParser.parseArrayLoop D (fuel + 1) parser dest = some r
  xmlParse : ∀ state source r, xmlDataParser.parse D fuel state source = some r →
    xmlDataParser.parse D (fuel + 1) state source = some r
  xmlLoop : ∀ parser r, xmlDataParser.parseLoop D fuel parser = some r →
    xmlDataParser.parseLoop D (fuel + 1) parser = some r
  element : ∀ parser name attr r, xmlDataParser.parseElement D fuel parser name attr = some r →
    xmlDataParser.parseElement D (fuel + 1) parser name attr = some r
  elementLoop : ∀ parser name attr children value r,
    xmlDataParser.parseElementLoop D fuel parser name attr children value = some r →
    xmlDataParser.parseElementLoop D (fuel + 1) parser name attr children value = some r
  charData : ∀ parser token r, xmlDataParser.parseCharData D fuel parser token = some r →
    xmlDataParser.parseCharData D (fuel + 1) parser token = some r

/-- Decoders for the example of a document without an element: the XML source
`<!--c-->` is the comment `c` followed by the end of the input. -/
def commentDecoders : Decoders :=
  { json := exampleJson
    xml := fun source =>
      if source = ascii "<!--c-->" then ⟨[.Comment (ascii "c")], none⟩ else ⟨[], some 0⟩ }

/-- A JSON parser whose shared global counter has reached
`max_global_level = 0`, with room left under `max_local_level = 4`. -/
def jsonParserAtGlobalLimit : jsonDataParser :=
  { decoder := ⟨[], .eof false⟩, state := newContentParserState 0 4 4
    localLevelChecker := newLevelChecker 4 }

/-- An XML parser whose shared global counter has reached
`max_global_level = 0`, with room left under `max_local_level = 4`. -/
def xmlParserAtGlobalLimit : xmlDataParser :=
  { decoder := ⟨[], none⟩, data := NewXmlData, state := newContentParserState 0 4 4
    localLevelChecker := newLevelChecker 4 }

end ContentParsing

/-!
# Expression trees: a shallow embedding of `expressiontree`

A predicate of the Go package is a closure that calls the backend. Here the
backend is a function from the call made (`BackendCall`) and the world state
to the pair `(bool, error)` returned and the new world state, so that the order
of the calls and the calls that are not made can be read off the final state.
`H` is the type `HttpData`, `σ` the world state the backend works on, `V` the
comparable values held by the `any` arguments of `CHECK`. A Go panic is the
outcome `panic`; the recursion of the parser is bounded by a fuel argument.
-/

namespace ExpressionTree

open ContentParsing (GoString ascii decodeRune runeError)

/-! ## Library functions used by the package -/

/-- The runes of a string, `[]rune(s)`; the fuel is the number of bytes left. -/
def runesAux : Nat → GoString → List Nat
  | 0, _ => []
  | fuel + 1, s =>
    match s with
    | [] => []
    | _ :: _ => (decodeRune s).1 :: runesAux fuel (s.drop (decodeRune s).2)

/-- The conversion `[]rune(s)`: invalid bytes become `U+FFFD`, one by one. -/
def toRunes (s : GoString) : List Nat := runesAux s.length s

/-- The UTF-8 encoding of a rune as `string(r)` writes it; surrogates and
values above `U+10FFFF` are written as `U+FFFD`. -/
def encodeRune (r : Nat) : GoString :=
  if r < 0x80 then [r]
  else if r < 0x800 then [0xC0 + r / 64, 0x80 + r % 64]
  else if (0xD800 ≤ r && r ≤ 0xDFFF) || 0x10FFFF < r then [0xEF, 0xBF, 0xBD]
  else if r < 0x10000 then [0xE0 + r / 4096, 0x80 + r / 64 % 64, 0x80 + r % 64]
  else [0xF0 + r / 262144, 0x80 + r / 4096 % 64, 0x80 + r / 64 % 64, 0x80 + r % 64]

/-- The conversion `string(runes)`. -/
def fromRunes : List Nat → GoString
  | [] => []
  | r :: rest => encodeRune r ++ fromRunes rest

/-- Go `strings.IndexAny(s, chars)` for a set `chars` of ASCII characters, which
is how the package calls it: the index of the first byte of `s` that is in
`chars`. -/
def indexAny : GoString → GoString → Option Nat
  | [], _ => none
  | c :: rest, chars =>
    if c ∈ chars then some 0
    else
      match indexAny rest chars with
      | none => none
      | some index => some (index + 1)

/-- Go `strings.TrimSuffix`. -/
def trimSuffix (s suffix : GoString) : GoString :=
  if suffix.isSuffixOf s then s.take (s.length - suffix.length) else s

/-- Go `strings.Split(s, sep)` for a separator of one byte. -/
def split : GoString → Nat → List GoString
  | [], _ => [[]]
  | c :: rest, sep =>
    if c = sep then [] :: split rest sep
    else
      match split rest sep with
      | [] => [[c]]
      | part :: parts => (c :: part) :: parts

/-- The value of a string of decimal digits, `none` when a byte is no digit. -/
def digitsValue : GoString → Nat → Option Nat
  | [], acc => some acc
  | c :: rest, acc =>
    if 48 ≤ c ∧ c ≤ 57 then digitsValue rest (acc * 10 + (c - 48)) else none

/-- Go `strconv.Atoi` on a 64-bit platform: an optional sign, at least one
decimal digit, and a value that fits `int`; `none` is any error. -/
def atoi (s : GoString) : Option Int :=
  match s with
  | [] => none
  | c :: rest =>
    let digits := if c = 45 ∨ c = 43 then rest else s
    if digits.isEmpty then none
    else
      match digitsValue digits 0 with
      | none => none
      | some n =>
        if c = 45 then (if n ≤ 2 ^ 63 then some (-(n : Int)) else none)
        else (if n < 2 ^ 63 then some (n : Int) else none)

/-- The conversion `uint(x)` of an `int` on a 64-bit platform. -/
def toUint (x : Int) : Nat := (x % 2 ^ 64).toNat

/-! ## The errors and outcomes -/

/-- The error values of the package; `other` stands for any other `error`,
such as one returned by the backend. -/
inductive Error where
  | parseError
  | badArgsError
  | unknownExpressionError
  | unsupportedOperationError
  | unknownMainPathError
  | badContentPathError
  | badRequestPathIndexError
  | other (code : Nat)
  deriving DecidableEq, Repr

open Error

/-- What a call of a function that returns `(value, error)` does: it returns a
value with a `nil` error, returns an error, or panics. -/
inductive Outcome (α : Type) where
  | ok (value : α)
  | error (err : Error)
  | panic
  deriving DecidableEq

/-- The error of an outcome, if it is one. -/
def Outcome.err? {α : Type} : Outcome α → Option Error
  | .error err => some err
  | _ => none

/-- Whether the outcome is a value. -/
def Outcome.isOk {α : Type} : Outcome α → Bool
  | .ok _ => true
  | _ => false

/-! ## data_path.go, main_path_def.go -/

/-- `TDataKey`, an `int`. -/
abbrev TDataKey := Int

/-- The main path key `HttpDataKey`. -/
def HttpDataKey : TDataKey := 1

/-- The main path key `HttpDataHostKey`. -/
def HttpDataHostKey : TDataKey := 2

/-- The main path key `HttpDataProtocolKey`. -/
def HttpDataProtocolKey : TDataKey := 3

/-- The main path key `HttpDataPortKey`. -/
def HttpDataPortKey : TDataKey := 4

/-- The main path key `HttpDataHttpVersionKey`. -/
def HttpDataHttpVersionKey : TDataKey := 5

/-- The main path key `HttpDataTimestampKey`. -/
def HttpDataTimestampKey : TDataKey := 6

/-- The main path key `OptionsKey`. -/
def OptionsKey : TDataKey := 7

/-- The main path key `ClientKey`. -/
def ClientKey : TDataKey := 8

/-- The main path key `ClientIdKey`. -/
def ClientIdKey : TDataKey := 9

/-- The main path key `ClientIpKey`. -/
def ClientIpKey : TDataKey := 10

/-- The main path key `GeoIpKey`. -/
def GeoIpKey : TDataKey := 11

/-- The main path key `GeoIpCountryKey`. -/
def GeoIpCountryKey : TDataKey := 12

/-- The main path key `GeoIpCountryCodeKey`. -/
def GeoIpCountryCodeKey : TDataKey := 13

/-- The main path key `GeoIpCityKey`. -/
def GeoIpCityKey : TDataKey := 14

/-- The main path key `GeoIpLatKey`. -/
def GeoIpLatKey : TDataKey := 15

/-- The main path key `GeoIpLonKey`. -/
def GeoIpLonKey : TDataKey := 16

/-- The main path key `GeoIpAccuracyRadiusKey`. -/
def GeoIpAccuracyRadiusKey : TDataKey := 17

/-- The main path key `OsKey`. -/
def OsKey : TDataKey := 18

/-- The main path key `OsNameKey`. -/
def OsNameKey : TDataKey := 19

/-- The main path key `OsVersionKey`. -/
def OsVersionKey : TDataKey := 20

/-- The main path key `BrowserKey`. -/
def BrowserKey : TDataKey := 21

/-- The main path key `BrowserNameKey`. -/
def BrowserNameKey : TDataKey := 22

/-- The main path key `BrowserVersionKey`. -/
def BrowserVersionKey : TDataKey := 23

/-- The main path key `BasicAuthKey`. -/
def BasicAuthKey : TDataKey := 24

/-- The main path key `BasicAuthUsernameKey`. -/
def BasicAuthUsernameKey : TDataKey := 25

/-- The main path key `BasicAuthPasswordKey`. -/
def BasicAuthPasswordKey : TDataKey := 26

/-- The main path key `RequestKey`. -/
def RequestKey : TDataKey := 27

/-- The main path key `RequestIdKey`. -/
def RequestIdKey : TDataKey := 28

/-- The main path key `RequestPathKey`. -/
def RequestPathKey : TDataKey := 29

/-- The main path key `RequestPathsKey`. -/
def RequestPathsKey : TDataKey := 30

/-- The main path key `RequestQueryKey`. -/
def RequestQueryKey : TDataKey := 31

/-- The main path key `RequestMethodKey`. -/
def RequestMethodKey : TDataKey := 32

/-- The main path key `RequestBodyKey`. -/
def RequestBodyKey : TDataKey := 33

/-- The main path key `RequestGetKey`. -/
def RequestGetKey : TDataKey := 34

/-- The main path key `RequestPostKey`. -/
def RequestPostKey : TDataKey := 35

/-- The main path key `RequestHeadersKey`. -/
def RequestHeadersKey : TDataKey := 36

/-- The main path key `RequestTimeKey`. -/
def RequestTimeKey : TDataKey := 37

/-- The main path key `RequestCookiesKey`. -/
def RequestCookiesKey : TDataKey := 38

/-- The main path key `RequestLengthKey`. -/
def RequestLengthKey : TDataKey := 39

/-- The main path key `ResponseKey`. -/
def ResponseKey : TDataKey := 40

/-- The main path key `ResponseBodyKey`. -/
def ResponseBodyKey : TDataKey := 41

/-- The main path key `ResponseCodeKey`. -/
def ResponseCodeKey : TDataKey := 42

/-- The main path key `ResponseSourceKey`. -/
def ResponseSourceKey : TDataKey := 43

/-- The main path key `ResponseHeadersKey`. -/
def ResponseHeadersKey : TDataKey := 44

/-- The main path key `ResponseLengthKey`. -/
def ResponseLengthKey : TDataKey := 45

/-- `ContentPath`. -/
structure ContentPath where
  Path : GoString
  Parts : List GoString
  deriving DecidableEq, Repr

/-- `(*ContentPath).IsEmpty`. -/
def ContentPath.IsEmpty (c : ContentPath) : Bool := c.Parts.length == 0

/-- `(*ContentPath).IsSimple`. -/
def ContentPath.IsSimple (c : ContentPath) : Bool := c.Parts.length == 1

/-- `DataPath`. -/
structure DataPath where
  MainPath : TDataKey
  ContentPath : ContentPath
  deriving DecidableEq, Repr

/-- `CreateEmptyContentPath`. -/
def CreateEmptyContentPath : ContentPath := { Path := [], Parts := [] }

/-- `CreateSimpleContentPath`. -/
def CreateSimpleContentPath (contentPath : GoString) : ContentPath :=
  { Path := contentPath, Parts := [contentPath] }

/-- `CreateContentPath`. -/
def CreateContentPath (contentPath : GoString) (contentPathParts : List GoString) : ContentPath :=
  { Path := contentPath, Parts := contentPathParts }

/-- `CreateDataPathWithMainOnly`. -/
def CreateDataPathWithMainOnly (mainPath : TDataKey) : DataPath :=
  { MainPath := mainPath, ContentPath := CreateEmptyContentPath }

/-- `CreateDataPathWithSimpleContent`. -/
def CreateDataPathWithSimpleContent (mainPath : TDataKey) (contentPath : GoString) : DataPath :=
  { MainPath := mainPath, ContentPath := CreateSimpleContentPath contentPath }

/-- `CreateDataPath`. -/
def CreateDataPath (mainPath : TDataKey) (contentPath : ContentPath) : DataPath :=
  { MainPath := mainPath, ContentPath := contentPath }

/-! ## The backend -/

/-- `Predicate`, a `func(value any) bool`. -/
abbrev Predicate (V : Type) := V → Bool

/-- A call of a method of `IExecutionManager` with its arguments, the `data`
argument apart (it is passed along with the call). -/
inductive BackendCall (V : Type) where
  | RecursiveMatchHttpData (patternId : Nat)
  | MatchHttpDataHost (patternId : Nat)
  | MatchHttpDataProtocol (patternId : Nat)
  | MatchHttpDataPort (patternId : Nat)
  | MatchHttpDataHttpVersion (patternId : Nat)
  | MatchHttpDataTimestamp (patternId : Nat)
  | RecursiveMatchOptions (patternId : Nat)
  | MatchOption (patternId : Nat) (name : GoString)
  | RecursiveMatchGeoIp (patternId : Nat)
  | MatchGeoIpCountry (patternId : Nat)
  | MatchGeoIpCountryCode (patternId : Nat)
  | MatchGeoIpCity (patternId : Nat)
  | MatchGeoIpLat (patternId : Nat)
  | MatchGeoIpLon (patternId : Nat)
  | MatchGeoIpAccuracyRadius (patternId : Nat)
  | RecursiveMatchOs (patternId : Nat)
  | MatchOsName (patternId : Nat)
  | MatchOsVersion (patternId : Nat)
  | RecursiveMatchBrowser (patternId : Nat)
  | MatchBrowserName (patternId : Nat)
  | MatchBrowserVersion (patternId : Nat)
  | RecursiveMatchBasicAuth (patternId : Nat)
  | MatchBasicAuthUsername (patternId : Nat)
  | MatchBasicAuthPassword (patternId : Nat)
  | RecursiveMatchClient (patternId : Nat)
  | MatchClientId (patternId : Nat)
  | MatchClientIp (patternId : Nat)
  | RecursiveMatchRequestGet (patternId : Nat)
  | RecursiveMatchRequestGetValue (patternId : Nat) (path : ContentPath)
  | RecursiveMatchRequestPost (patternId : Nat)
  | RecursiveMatchRequestPostValue (patternId : Nat) (path : ContentPath)
  | RecursiveMatchRequestHeaders (patternId : Nat)
  | RecursiveMatchRequestHeaderValue (patternId : Nat) (path : ContentPath)
  | RecursiveMatchRequestCookies (patternId : Nat)
  | RecursiveMatchRequestCookieValue (patternId : Nat) (path : ContentPath)
  | RecursiveMatchRequest (patternId : Nat)
  | MatchRequestId (patternId : Nat)
  | MatchRequestPath (patternId : Nat)
  | MatchRequestPaths (patternId : Nat)
  | MatchRequestPathsElement (patternId : Nat) (index : Int) (path : ContentPath)
  | MatchRequestQuery (patternId : Nat)
  | MatchRequestMethod (patternId : Nat)
  | RecursiveMatchRequestBody (patternId : Nat) (path : ContentPath)
  | MatchRequestTime (patternId : Nat)
  | MatchRequestLength (patternId : Nat)
  | RecursiveMatchResponseHeaders (patternId : Nat)
  | RecursiveMatchResponseHeaderValue (patternId : Nat) (path : ContentPath)
  | RecursiveMatchResponse (patternId : Nat)
  | RecursiveMatchResponseBody (patternId : Nat) (path : ContentPath)
  | MatchResponseCode (patternId : Nat)
  | MatchResponseSource (patternId : Nat)
  | MatchResponseLength (patternId : Nat)
  | RecursiveCheckHttpData (predicate : Predicate V)
  | CheckHttpDataHost (predicate : Predicate V)
  | CheckHttpDataProtocol (predicate : Predicate V)
  | CheckHttpDataPort (predicate : Predicate V)
  | CheckHttpDataHttpVersion (predicate : Predicate V)
  | CheckHttpDataTimestamp (predicate : Predicate V)
  | RecursiveCheckOptions (predicate : Predicate V)
  | CheckOptionExistence (optionName : GoString)
  | CheckOption (predicate : Predicate V) (optionName : GoString)
  | RecursiveCheckGeoIp (predicate : Predicate V)
  | CheckGeoIpCountry (predicate : Predicate V)
  | CheckGeoIpCountryCode (predicate : Predicate V)
  | CheckGeoIpCity (predicate : Predicate V)
  | CheckGeoIpLat (predicate : Predicate V)
  | CheckGeoIpLon (predicate : Predicate V)
  | CheckGeoIpAccuracyRadius (predicate : Predicate V)
  | RecursiveCheckOs (predicate : Predicate V)
  | CheckOsName (predicate : Predicate V)
  | CheckOsVersion (predicate : Predicate V)
  | RecursiveCheckBrowser (predicate : Predicate V)
  | CheckBrowserName (predicate : Predicate V)
  | CheckBrowserVersion (predicate : Predicate V)
  | RecursiveCheckBasicAuth (predicate : Predicate V)
  | CheckBasicAuthUsername (predicate : Predicate V)
  | CheckBasicAuthPassword (predicate : Predicate V)
  | RecursiveCheckClient (predicate : Predicate V)
  | CheckClientId (predicate : Predicate V)
  | CheckClientIp (predicate : Predicate V)
  | RecursiveCheckRequestGet (predicate : Predicate V)
  | CheckRequestGetValueExistence (path : ContentPath)
  | RecursiveCheckRequestGetValue (predicate : Predicate V) (path : ContentPath)
  | RecursiveCheckRequestPost (predicate : Predicate V)
  | CheckRequestPostValueExistence (path : ContentPath)
  | RecursiveCheckRequestPostValue (predicate : Predicate V) (path : ContentPath)
  | RecursiveCheckRequestHeaders (predicate : Predicate V)
  | CheckRequestHeaderValueExistence (path : ContentPath)
  | RecursiveCheckRequestHeaderValue (predicate : Predicate V) (path : ContentPath)
  | RecursiveCheckRequestCookies (predicate : Predicate V)
  | CheckRequestCookieValueExistence (path : ContentPath)
  | RecursiveCheckRequestCookieValue (predicate : Predicate V) (path : ContentPath)
  | RecursiveCheckRequest (predicate : Predicate V)
  | CheckRequestId (predicate : Predicate V)
  | CheckRequestPath (predicate : Predicate V)
  | CheckRequestPaths (predicate : Predicate V)
  | CheckRequestPathsElement (predicate : Predicate V) (index : Int) (path : ContentPath)
  | CheckRequestQuery (predicate : Predicate V)
  | CheckRequestMethod (predicate : Predicate V)
  | RecursiveCheckRequestBody (predicate : Predicate V) (path : ContentPath)
  | CheckRequestTime (predicate : Predicate V)
  | CheckRequestLength (predicate : Predicate V)
  | RecursiveCheckResponseHeaders (predicate : Predicate V)
  | CheckResponseHeaderValueExistence (path : ContentPath)
  | RecursiveCheckResponseHeaderValue (predicate : Predicate V) (path : ContentPath)
  | RecursiveCheckResponse (predicate : Predicate V)
  | RecursiveCheckResponseBody (predicate : Predicate V) (path : ContentPath)
  | CheckResponseCode (predicate : Predicate V)
  | CheckResponseSource (predicate : Predicate V)
  | CheckResponseLength (predicate : Predicate V)

/-- The pair `(bool, error)` a predicate returns. -/
abbrev Result := Bool × Option Error

/-- `IExecutionManager`: what the backend answers to a call on `data` in a
world state, and the world state it leaves. -/
abbrev IExecutionManager (H σ V : Type) := BackendCall V → H → σ → Result × σ

/-- `PredicateWithError`, a `func(data *HttpData, manager IExecutionManager)
(bool, error)`, with the world state threaded through. -/
abbrev PredicateWithError (H σ V : Type) := H → IExecutionManager H σ V → σ → Result × σ

/-! ## expression_tree_parser.go -/

/-- `OperationEqual`. -/
def OperationEqual : Int := 0

/-- `OperationNotEqual`. -/
def OperationNotEqual : Int := 1

/-- `sourceReader`. -/
structure sourceReader where
  source : GoString
  deriving DecidableEq, Repr

/-- `(*sourceReader).readTo`: the index found is a byte index and is used on
the slice of runes; the slice expression panics when it is out of range. -/
def sourceReader.readTo (r : sourceReader) (endChars : GoString) :
    Outcome (GoString × sourceReader) :=
  match indexAny r.source endChars with
  | none => .error parseError
  | some index =>
    if index + 1 ≤ (toRunes r.source).length then
      .ok (fromRunes ((toRunes r.source).take (index + 1)),
        { source := fromRunes ((toRunes r.source).drop (index + 1)) })
    else .panic

/-- `(*sourceReader).readCurrent`. -/
def sourceReader.readCurrent (r : sourceReader) : Outcome (GoString × sourceReader) :=
  if r.source.length = 0 then .error parseError
  else
    match toRunes r.source with
    | [] => .panic
    | c :: rest => .ok (encodeRune c, { source := fromRunes rest })

/-- `(*sourceReader).isEmpty`. -/
def sourceReader.isEmpty (r : sourceReader) : Bool := r.source.length == 0

/-- `newSourceReader`. -/
def newSourceReader (source : GoString) : sourceReader := { source := source }

/-- `parseStorage`. -/
structure parseStorage (V : Type) where
  knownPath : List DataPath
  checkArguments : List V

/-- The index expression `xs[i]` with an `int` index: a panic when the index is
negative or not below the length. -/
def index {α : Type} (xs : List α) (i : Int) : Outcome α :=
  if i < 0 then .panic
  else
    match xs.get? i.toNat with
    | none => .panic
    | some x => .ok x

/-- The loop of `parseArguments` over the parts. -/
def parseArgumentsLoop : List GoString → Outcome (List Int)
  | [] => .ok []
  | argument :: rest =>
    match atoi argument with
    | none => .error parseError
    | some value =>
      match parseArgumentsLoop rest with
      | .ok values => .ok (value :: values)
      | .error err => .error err
      | .panic => .panic

/-- `parseArguments`. -/
def parseArguments (source : GoString) (expectedParts : Nat) : Outcome (List Int) :=
  let arguments := split source 44
  if arguments.length ≠ expectedParts then .error badArgsError
  else parseArgumentsLoop arguments

/-- `parsePredicate`; the comparison of two `any` values is the decidable
equality of `V`. -/
def parsePredicate {V : Type} [DecidableEq V] (operation : Int) (argument : V) :
    Outcome (Predicate V) :=
  if operation = OperationEqual then .ok (fun value => decide (value = argument))
  else if operation = OperationNotEqual then .ok (fun value => decide (value ≠ argument))
  else .error unsupportedOperationError

section predicates

variable {H σ V : Type}

/-- The loop of the closure returned by `createLogicalAnd`. -/
def logicalAndLoop : List (PredicateWithError H σ V) → PredicateWithError H σ V
  | [], _, _, s => ((true, none), s)
  | predicate :: rest, data, manager, s =>
    match predicate data manager s with
    | ((_, some err), s1) => ((false, some err), s1)
    | ((result, none), s1) =>
      if !result then ((false, none), s1)
      else logicalAndLoop rest data manager s1

/-- `createLogicalAnd`. -/
def createLogicalAnd (predicates : List (PredicateWithError H σ V)) :
    PredicateWithError H σ V :=
  fun data manager => logicalAndLoop predicates data manager

/-- The loop of the closure returned by `createLogicalOr`. -/
def logicalOrLoop : List (PredicateWithError H σ V) → PredicateWithError H σ V
  | [], _, _, s => ((false, none), s)
  | predicate :: rest, data, manager, s =>
    match predicate data manager s with
    | ((_, some err), s1) => ((false, some err), s1)
    | ((result, none), s1) =>
      if result then ((true, none), s1)
      else logicalOrLoop rest data manager s1

/-- `createLogicalOr`. -/
def createLogicalOr (predicates : List (PredicateWithError H σ V)) :
    PredicateWithError H σ V :=
  fun data manager => logicalOrLoop predicates data manager

/-- `createLogicalNot`. -/
def createLogicalNot (predicate : PredicateWithError H σ V) : PredicateWithError H σ V :=
  fun data manager s =>
    match predicate data manager s with
    | ((_, some err), s1) => ((false, some err), s1)
    | ((result, none), s1) => ((!result, none), s1)

/-- `generateMatchOption`. -/
def generateMatchOption (path : DataPath) (patternId : Nat) :
    Outcome (PredicateWithError H σ V) :=
  if path.ContentPath.IsEmpty then
    .ok (fun data manager => manager (.RecursiveMatchOptions patternId) data)
  else if path.ContentPath.IsSimple then
    .ok (fun data manager => manager (.MatchOption patternId (path.ContentPath.Path)) data)
  else .error badContentPathError

/-- `generateMatchRequestPaths`. -/
def generateMatchRequestPaths (path : DataPath) (patternId : Nat) :
    Outcome (PredicateWithError H σ V) :=
  if path.ContentPath.IsEmpty then
    .ok (fun data manager => manager (.MatchRequestPaths patternId) data)
  else
    match atoi (path.ContentPath.Parts.headD []) with
    | none => .error badRequestPathIndexError
    | some index =>
      .ok (fun data manager => manager (.MatchRequestPathsElement patternId index (path.ContentPath)) data)

/-- `generateMatchRequestGet`. -/
def generateMatchRequestGet (path : DataPath) (patternId : Nat) :
    Outcome (PredicateWithError H σ V) :=
  if path.ContentPath.IsEmpty then
    .ok (fun data manager => manager (.RecursiveMatchRequestGet patternId) data)
  else
    .ok (fun data manager => manager (.RecursiveMatchRequestGetValue patternId (path.ContentPath)) data)

/-- `generateMatchRequestPost`. -/
def generateMatchRequestPost (path : DataPath) (patternId : Nat) :
    Outcome (PredicateWithError H σ V) :=
  if path.ContentPath.IsEmpty then
    .ok (fun data manager => manager (.RecursiveMatchRequestPost patternId) data)
  else
    .ok (fun data manager => manager (.RecursiveMatchRequestPostValue patternId (path.ContentPath)) data)

/-- `generateMatchRequestHeaders`. -/
def generateMatchRequestHeaders (path : DataPath) (patternId : Nat) :
    Outcome (PredicateWithError H σ V) :=
  if path.ContentPath.IsEmpty then
    .ok (fun data manager => manager (.RecursiveMatchRequestHeaders patternId) data)
  else
    .ok (fun data manager => manager (.RecursiveMatchRequestHeaderValue patternId (path.ContentPath)) data)

/-- `generateMatchRequestCookies`. -/
def generateMatchRequestCookies (path : DataPath) (patternId : Nat) :
    Outcome (PredicateWithError H σ V) :=
  if path.ContentPath.IsEmpty then
    .ok (fun data manager => manager (.RecursiveMatchRequestCookies patternId) data)
  else
    .ok (fun data manager => manager (.RecursiveMatchRequestCookieValue patternId (path.ContentPath)) data)

/-- `generateMatchResponseHeaders`. -/
def generateMatchResponseHeaders (path : DataPath) (patternId : Nat) :
    Outcome (PredicateWithError H σ V) :=
  if path.ContentPath.IsEmpty then
    .ok (fun data manager => manager (.RecursiveMatchResponseHeaders patternId) data)
  else
    .ok (fun data manager => manager (.RecursiveMatchResponseHeaderValue patternId (path.ContentPath)) data)

/-- `generateCheckOption`. -/
def generateCheckOption (path : DataPath) (predicate : Predicate V) :
    Outcome (PredicateWithError H σ V) :=
  if path.ContentPath.IsEmpty then
    .ok (fun data manager => manager (.RecursiveCheckOptions predicate) data)
  else if path.ContentPath.IsSimple then
    .ok (fun data manager => manager (.CheckOption predicate (path.ContentPath.Path)) data)
  else .error badContentPathError

/-- `generateCheckRequestPaths`. -/
def generateCheckRequestPaths (path : DataPath) (predicate : Predicate V) :
    Outcome (PredicateWithError H σ V) :=
  if path.ContentPath.IsEmpty then
    .ok (fun data manager => manager (.CheckRequestPaths predicate) data)
  else
    match atoi (path.ContentPath.Parts.headD []) with
    | none => .error badRequestPathIndexError
    | some index =>
      .ok (fun data manager => manager (.CheckRequestPathsElement predicate index (path.ContentPath)) data)

/-- `generateCheckRequestGet`. -/
def generateCheckRequestGet (path : DataPath) (predicate : Predicate V) :
    Outcome (PredicateWithError H σ V) :=
  if path.ContentPath.IsEmpty then
    .ok (fun data manager => manager (.RecursiveCheckRequestGet predicate) data)
  else
    .ok (fun data manager => manager (.RecursiveCheckRequestGetValue predicate (path.ContentPath)) data)

/-- `generateCheckRequestPost`. -/
def generateCheckRequestPost (path : DataPath) (predicate : Predicate V) :
    Outcome (PredicateWithError H σ V) :=
  if path.ContentPath.IsEmpty then
    .ok (fun data manager => manager (.RecursiveCheckRequestPost predicate) data)
  else
    .ok (fun data manager => manager (.RecursiveCheckRequestPostValue predicate (path.ContentPath)) data)

/-- `generateCheckRequestHeaders`. -/
def generateCheckRequestHeaders (path : DataPath) (predicate : Predicate V) :
    Outcome (PredicateWithError H σ V) :=
  if path.ContentPath.IsEmpty then
    .ok (fun data manager => manager (.RecursiveCheckRequestHeaders predicate) data)
  else
    .ok (fun data manager => manager (.RecursiveCheckRequestHeaderValue predicate (path.ContentPath)) data)

/-- `generateCheckRequestCookies`. -/
def generateCheckRequestCookies (path : DataPath) (predicate : Predicate V) :
    Outcome (PredicateWithError H σ V) :=
  if path.ContentPath.IsEmpty then
    .ok (fun data manager => manager (.RecursiveCheckRequestCookies predicate) data)
  else
    .ok (fun data manager => manager (.RecursiveCheckRequestCookieValue predicate (path.ContentPath)) data)

/-- `generateCheckResponseHeaders`. -/
def generateCheckResponseHeaders (path : DataPath) (predicate : Predicate V) :
    Outcome (PredicateWithError H σ V) :=
  if path.ContentPath.IsEmpty then
    .ok (fun data manager => manager (.RecursiveCheckResponseHeaders predicate) data)
  else
    .ok (fun data manager => manager (.RecursiveCheckResponseHeaderValue predicate (path.ContentPath)) data)

/-- `createMatch`. -/
def createMatch (path : DataPath) (patternId : Nat) :
    Outcome (PredicateWithError H σ V) :=
  if path.MainPath = HttpDataKey then
    .ok (fun data manager => manager (.RecursiveMatchHttpData patternId) data)
  else if path.MainPath = HttpDataHostKey then
    .ok (fun data manager => manager (.MatchHttpDataHost patternId) data)
  else if path.MainPath = HttpDataProtocolKey then
    .ok (fun data manager => manager (.MatchHttpDataProtocol patternId) data)
  else if path.MainPath = HttpDataPortKey then
    .ok (fun data manager => manager (.MatchHttpDataPort patternId) data)
  else if path.MainPath = HttpDataHttpVersionKey then
    .ok (fun data manager => manager (.MatchHttpDataHttpVersion patternId) data)
  else if path.MainPath = HttpDataTimestampKey then
    .ok (fun data manager => manager (.MatchHttpDataTimestamp patternId) data)
  else if path.MainPath = OptionsKey then
    generateMatchOption path patternId
  else if path.MainPath = ClientKey then
    .ok (fun data manager => manager (.RecursiveMatchClient patternId) data)
  else if path.MainPath = ClientIdKey then
    .ok (fun data manager => manager (.MatchClientId patternId) data)
  else if path.MainPath = ClientIpKey then
    .ok (fun data manager => manager (.MatchClientIp patternId) data)
  else if path.MainPath = GeoIpKey then
    .ok (fun data manager => manager (.RecursiveMatchGeoIp patternId) data)
  else if path.MainPath = GeoIpCountryKey then
    .ok (fun data manager => manager (.MatchGeoIpCountry patternId) data)
  else if path.MainPath = GeoIpCountryCodeKey then
    .ok (fun data manager => manager (.MatchGeoIpCountryCode patternId) data)
  else if path.MainPath = GeoIpCityKey then
    .ok (fun data manager => manager (.MatchGeoIpCity patternId) data)
  else if path.MainPath = GeoIpLatKey then
    .ok (fun data manager => manager (.MatchGeoIpLat patternId) data)
  else if path.MainPath = GeoIpLonKey then
    .ok (fun data manager => manager (.MatchGeoIpLon patternId) data)
  else if path.MainPath = GeoIpAccuracyRadiusKey then
    .ok (fun data manager => manager (.MatchGeoIpAccuracyRadius patternId) data)
  else if path.MainPath = OsKey then
    .ok (fun data manager => manager (.RecursiveMatchOs patternId) data)
  else if path.MainPath = OsNameKey then
    .ok (fun data manager => manager (.MatchOsName patternId) data)
  else if path.MainPath = OsVersionKey then
    .ok (fun data manager => manager (.MatchOsVersion patternId) data)
  else if path.MainPath = BrowserKey then
    .ok (fun data manager => manager (.RecursiveMatchBrowser patternId) data)
  else if path.MainPath = BrowserNameKey then
    .ok (fun data manager => manager (.MatchBrowserName patternId) data)
  else if path.MainPath = BrowserVersionKey then
    .ok (fun data manager => manager (.MatchBrowserVersion patternId) data)
  else if path.MainPath = BasicAuthKey then
    .ok (fun data manager => manager (.RecursiveMatchBasicAuth patternId) data)
  else if path.MainPath = BasicAuthUsernameKey then
    .ok (fun data manager => manager (.MatchBasicAuthUsername patternId) data)
  else if path.MainPath = BasicAuthPasswordKey then
    .ok (fun data manager => manager (.MatchBasicAuthPassword patternId) data)
  else if path.MainPath = RequestKey then
    .ok (fun data manager => manager (.RecursiveMatchRequest patternId) data)
  else if path.MainPath = RequestIdKey then
    .ok (fun data manager => manager (.MatchRequestId patternId) data)
  else if path.MainPath = RequestPathKey then
    .ok (fun data manager => manager (.MatchRequestPath patternId) data)
  else if path.MainPath = RequestPathsKey then
    generateMatchRequestPaths path patternId
  else if path.MainPath = RequestQueryKey then
    .ok (fun data manager => manager (.MatchRequestQuery patternId) data)
  else if path.MainPath = RequestMethodKey then
    .ok (fun data manager => manager (.MatchRequestMethod patternId) data)
  else if path.MainPath = RequestBodyKey then
    .ok (fun data manager => manager (.RecursiveMatchRequestBody patternId (path.ContentPath)) data)
  else if path.MainPath = RequestGetKey then
    generateMatchRequestGet path patternId
  else if path.MainPath = RequestPostKey then
    generateMatchRequestPost path patternId
  else if path.MainPath = RequestHeadersKey then
    generateMatchRequestHeaders path patternId
  else if path.MainPath = RequestTimeKey then
    .ok (fun data manager => manager (.MatchRequestTime patternId) data)
  else if path.MainPath = RequestCookiesKey then
    generateMatchRequestCookies path patternId
  else if path.MainPath = RequestLengthKey then
    .ok (fun data manager => manager (.MatchRequestLength patternId) data)
  else if path.MainPath = ResponseKey then
    .ok (fun data manager => manager (.RecursiveMatchResponse patternId) data)
  else if path.MainPath = ResponseBodyKey then
    .ok (fun data manager => manager (.RecursiveMatchResponseBody patternId (path.ContentPath)) data)
  else if path.MainPath = ResponseCodeKey then
    .ok (fun data manager => manager (.MatchResponseCode patternId) data)
  else if path.MainPath = ResponseSourceKey then
    .ok (fun data manager => manager (.MatchResponseSource patternId) data)
  else if path.MainPath = ResponseHeadersKey then
    generateMatchResponseHeaders path patternId
  else if path.MainPath = ResponseLengthKey then
    .ok (fun data manager => manager (.MatchResponseLength patternId) data)
  else .error unknownMainPathError

/-- `createExists`. -/
def createExists (path : DataPath) : Outcome (PredicateWithError H σ V) :=
  if path.MainPath = OptionsKey then
    if !path.ContentPath.IsSimple then .error badContentPathError
    else .ok (fun data manager => manager (.CheckOptionExistence (path.ContentPath.Path)) data)
  else if path.MainPath = RequestGetKey then
    if path.ContentPath.IsEmpty then .error badContentPathError
    else .ok (fun data manager => manager (.CheckRequestGetValueExistence (path.ContentPath)) data)
  else if path.MainPath = RequestPostKey then
    if path.ContentPath.IsEmpty then .error badContentPathError
    else .ok (fun data manager => manager (.CheckRequestPostValueExistence (path.ContentPath)) data)
  else if path.MainPath = RequestHeadersKey then
    if path.ContentPath.IsEmpty then .error badContentPathError
    else .ok (fun data manager => manager (.CheckRequestHeaderValueExistence (path.ContentPath)) data)
  else if path.MainPath = RequestCookiesKey then
    if path.ContentPath.IsEmpty then .error badContentPathError
    else .ok (fun data manager => manager (.CheckRequestCookieValueExistence (path.ContentPath)) data)
  else if path.MainPath = ResponseHeadersKey then
    if path.ContentPath.IsEmpty then .error badContentPathError
    else .ok (fun data manager => manager (.CheckResponseHeaderValueExistence (path.ContentPath)) data)
  else .error unknownMainPathError

/-- `createCheck`. -/
def createCheck (path : DataPath) (predicate : Predicate V) :
    Outcome (PredicateWithError H σ V) :=
  if path.MainPath = HttpDataKey then
    .ok (fun data manager => manager (.RecursiveCheckHttpData predicate) data)
  else if path.MainPath = HttpDataHostKey then
    .ok (fun data manager => manager (.CheckHttpDataHost predicate) data)
  else if path.MainPath = HttpDataProtocolKey then
    .ok (fun data manager => manager (.CheckHttpDataProtocol predicate) data)
  else if path.MainPath = HttpDataPortKey then
    .ok (fun data manager => manager (.CheckHttpDataPort predicate) data)
  else if path.MainPath = HttpDataHttpVersionKey then
    .ok (fun data manager => manager (.CheckHttpDataHttpVersion predicate) data)
  else if path.MainPath = HttpDataTimestampKey then
    .ok (fun data manager => manager (.CheckHttpDataTimestamp predicate) data)
  else if path.MainPath = OptionsKey then
    generateCheckOption path predicate
  else if path.MainPath = ClientKey then
    .ok (fun data manager => manager (.RecursiveCheckClient predicate) data)
  else if path.MainPath = ClientIdKey then
    .ok (fun data manager => manager (.CheckClientId predicate) data)
  else if path.MainPath = ClientIpKey then
    .ok (fun data manager => manager (.CheckClientIp predicate) data)
  else if path.MainPath = GeoIpKey then
    .ok (fun data manager => manager (.RecursiveCheckGeoIp predicate) data)
  else if path.MainPath = GeoIpCountryKey then
    .ok (fun data manager => manager (.CheckGeoIpCountry predicate) data)
  else if path.MainPath = GeoIpCountryCodeKey then
    .ok (fun data manager => manager (.CheckGeoIpCountryCode predicate) data)
  else if path.MainPath = GeoIpCityKey then
    .ok (fun data manager => manager (.CheckGeoIpCity predicate) data)
  else if path.MainPath = GeoIpLatKey then
    .ok (fun data manager => manager (.CheckGeoIpLat predicate) data)
  else if path.MainPath = GeoIpLonKey then
    .ok (fun data manager => manager (.CheckGeoIpLon predicate) data)
  else if path.MainPath = GeoIpAccuracyRadiusKey then
    .ok (fun data manager => manager (.CheckGeoIpAccuracyRadius predicate) data)
  else if path.MainPath = OsKey then
    .ok (fun data manager => manager (.RecursiveCheckOs predicate) data)
  else if path.MainPath = OsNameKey then
    .ok (fun data manager => manager (.CheckOsName predicate) data)
  else if path.MainPath = OsVersionKey then
    .ok (fun data manager => manager (.CheckOsVersion predicate) data)
  else if path.MainPath = BrowserKey then
    .ok (fun data manager => manager (.RecursiveCheckBrowser predicate) data)
  else if path.MainPath = BrowserNameKey then
    .ok (fun data manager => manager (.CheckBrowserName predicate) data)
  else if path.MainPath = BrowserVersionKey then
    .ok (fun data manager => manager (.CheckBrowserVersion predicate) data)
  else if path.MainPath = BasicAuthKey then
    .ok (fun data manager => manager (.RecursiveCheckBasicAuth predicate) data)
  else if path.MainPath = BasicAuthUsernameKey then
    .ok (fun data manager => manager (.CheckBasicAuthUsername predicate) data)
  else if path.MainPath = BasicAuthPasswordKey then
    .ok (fun data manager => manager (.CheckBasicAuthPassword predicate) data)
  else if path.MainPath = RequestKey then
    .ok (fun data manager => manager (.RecursiveCheckRequest predicate) data)
  else if path.MainPath = RequestIdKey then
    .ok (fun data manager => manager (.CheckRequestId predicate) data)
  else if path.MainPath = RequestPathKey then
    .ok (fun data manager => manager (.CheckRequestPath predicate) data)
  else if path.MainPath = RequestPathsKey then
    generateCheckRequestPaths path predicate
  else if path.MainPath = RequestQueryKey then
    .ok (fun data manager => manager (.CheckRequestQuery predicate) data)
  else if path.MainPath = RequestMethodKey then
    .ok (fun data manager => manager (.CheckRequestMethod predicate) data)
  else if path.MainPath = RequestBodyKey then
    .ok (fun data manager => manager (.RecursiveCheckRequestBody predicate (path.ContentPath)) data)
  else if path.MainPath = RequestGetKey then
    generateCheckRequestGet path predicate
  else if path.MainPath = RequestPostKey then
    generateCheckRequestPost path predicate
  else if path.MainPath = RequestHeadersKey then
    generateCheckRequestHeaders path predicate
  else if path.MainPath = RequestTimeKey then
    .ok (fun data manager => manager (.CheckRequestTime predicate) data)
  else if path.MainPath = RequestCookiesKey then
    generateCheckRequestCookies path predicate
  else if path.MainPath = RequestLengthKey then
    .ok (fun data manager => manager (.CheckRequestLength predicate) data)
  else if path.MainPath = ResponseKey then
    .ok (fun data manager => manager (.RecursiveCheckResponse predicate) data)
  else if path.MainPath = ResponseBodyKey then
    .ok (fun data manager => manager (.RecursiveCheckResponseBody predicate (path.ContentPath)) data)
  else if path.MainPath = ResponseCodeKey then
    .ok (fun data manager => manager (.CheckResponseCode predicate) data)
  else if path.MainPath = ResponseSourceKey then
    .ok (fun data manager => manager (.CheckResponseSource predicate) data)
  else if path.MainPath = ResponseHeadersKey then
    generateCheckResponseHeaders path predicate
  else if path.MainPath = ResponseLengthKey then
    .ok (fun data manager => manager (.CheckResponseLength predicate) data)
  else .error unknownMainPathError

/-- `parseExists`. The index expressions `arguments[i]` are in range once
`parseArguments` has returned the expected number of values. -/
def parseExists (storage : parseStorage V) (reader : sourceReader) :
    Outcome (PredicateWithError H σ V × sourceReader) :=
  match reader.readTo (ascii ")") with
  | .error err => .error err
  | .panic => .panic
  | .ok (value, reader) =>
    match parseArguments (trimSuffix value (ascii ")")) 1 with
    | .error err => .error err
    | .panic => .panic
    | .ok arguments =>
      match index storage.knownPath (arguments.getD 0 0) with
      | .error err => .error err
      | .panic => .panic
      | .ok path =>
        match createExists path with
        | .error err => .error err
        | .panic => .panic
        | .ok predicate => .ok (predicate, reader)

/-- `parseMatch`. -/
def parseMatch (storage : parseStorage V) (reader : sourceReader) :
    Outcome (PredicateWithError H σ V × sourceReader) :=
  match reader.readTo (ascii ")") with
  | .error err => .error err
  | .panic => .panic
  | .ok (value, reader) =>
    match parseArguments (trimSuffix value (ascii ")")) 2 with
    | .error err => .error err
    | .panic => .panic
    | .ok arguments =>
      match index storage.knownPath (arguments.getD 0 0) with
      | .error err => .error err
      | .panic => .panic
      | .ok path =>
        let patternId := arguments.getD 1 0
        match createMatch path (toUint patternId) with
        | .error err => .error err
        | .panic => .panic
        | .ok predicate => .ok (predicate, reader)

/-- `parseCheck`. -/
def parseCheck [DecidableEq V] (storage : parseStorage V) (reader : sourceReader) :
    Outcome (PredicateWithError H σ V × sourceReader) :=
  match reader.readTo (ascii ")") with
  | .error err => .error err
  | .panic => .panic
  | .ok (value, reader) =>
    match parseArguments (trimSuffix value (ascii ")")) 3 with
    | .error err => .error err
    | .panic => .panic
    | .ok arguments =>
      match index storage.knownPath (arguments.getD 0 0) with
      | .error err => .error err
      | .panic => .panic
      | .ok path =>
        let operation := arguments.getD 1 0
        match index storage.checkArguments (arguments.getD 2 0) with
        | .error err => .error err
        | .panic => .panic
        | .ok checkArg =>
          match parsePredicate operation checkArg with
          | .error err => .error err
          | .panic => .panic
          | .ok predicate =>
            match createCheck path predicate with
            | .error err => .error err
            | .panic => .panic
            | .ok expression => .ok (expression, reader)

mutual

/-- `parseExpression`; `none` when the fuel is used up. -/
def parseExpression [DecidableEq V] (storage : parseStorage V) :
    Nat → sourceReader → Option (Outcome (PredicateWithError H σ V × sourceReader))
  | 0, _ => none
  | fuel + 1, reader =>
    match reader.readTo (ascii "(") with
    | .error err => some (.error err)
    | .panic => some .panic
    | .ok (expressionHead, reader) =>
      let head := trimSuffix expressionHead (ascii "(")
      if head = ascii "AND" then
        match parseLogicalExpressionArgs storage fuel reader [] with
        | none => none
        | some (.error err) => some (.error err)
        | some .panic => some .panic
        | some (.ok (arguments, reader)) => some (.ok (createLogicalAnd arguments, reader))
      else if head = ascii "OR" then
        match parseLogicalExpressionArgs storage fuel reader [] with
        | none => none
        | some (.error err) => some (.error err)
        | some .panic => some .panic
        | some (.ok (arguments, reader)) => some (.ok (createLogicalOr arguments, reader))
      else if head = ascii "NOT" then
        match parseNotArg storage fuel reader with
        | none => none
        | some (.error err) => some (.error err)
        | some .panic => some .panic
        | some (.ok (innerExpression, reader)) =>
          some (.ok (createLogicalNot innerExpression, reader))
      else if head = ascii "CHECK" then some (parseCheck storage reader)
      else if head = ascii "EXISTS" then some (parseExists storage reader)
      else if head = ascii "MATCH" then some (parseMatch storage reader)
      else some (.error unknownExpressionError)

/-- `parseLogicalExpressionArgs`: the `for` loop, entered with the arguments
collected so far (none at the call). -/
def parseLogicalExpressionArgs [DecidableEq V] (storage : parseStorage V) :
    Nat → sourceReader → List (PredicateWithError H σ V) →
      Option (Outcome (List (PredicateWithError H σ V) × sourceReader))
  | 0, _, _ => none
  | fuel + 1, reader, arguments =>
    match parseExpression storage fuel reader with
    | none => none
    | some (.error err) => some (.error err)
    | some .panic => some .panic
    | some (.ok (argument, reader)) =>
      let arguments := arguments ++ [argument]
      match reader.readCurrent with
      | .error err => some (.error err)
      | .panic => some .panic
      | .ok (currentRune, reader) =>
        if currentRune = ascii "," then parseLogicalExpressionArgs storage fuel reader arguments
        else if currentRune = ascii ")" then
          if arguments.length ≤ 1 then some (.error badArgsError)
          else some (.ok (arguments, reader))
        else some (.error parseError)

/-- `parseNotArg`. -/
def parseNotArg [DecidableEq V] (storage : parseStorage V) :
    Nat → sourceReader → Option (Outcome (PredicateWithError H σ V × sourceReader))
  | 0, _ => none
  | fuel + 1, reader =>
    match parseExpression storage fuel reader with
    | none => none
    | some (.error err) => some (.error err)
    | some .panic => some .panic
    | some (.ok (innerExpression, reader)) =>
      match reader.readCurrent with
      | .error err => some (.error err)
      | .panic => some .panic
      | .ok (currentRune, reader) =>
        if currentRune ≠ ascii ")" then some (.error parseError)
        else some (.ok (innerExpression, reader))

end

/-- `parseExpressionTree`; `none` when the fuel is used up. -/
def parseExpressionTree [DecidableEq V] (fuel : Nat) (source : GoString)
    (storage : parseStorage V) : Option (Outcome (PredicateWithError H σ V)) :=
  let reader := newSourceReader source
  match parseExpression storage fuel reader with
  | none => none
  | some (.error err) => some (.error err)
  | some .panic => some .panic
  | some (.ok (expression, reader)) =>
    if !reader.isEmpty then some (.error parseError)
    else some (.ok expression)

end predicates

/-! ## Values used in the examples -/

/-- The storage of the parse tests: four known paths and two check arguments. -/
def exampleStorage : parseStorage GoString :=
  { knownPath :=
      [CreateDataPathWithMainOnly HttpDataKey,
       CreateDataPathWithSimpleContent OptionsKey (ascii "IDDQD"),
       CreateDataPathWithSimpleContent RequestHeadersKey (ascii "IDKFA"),
       CreateDataPathWithMainOnly RequestTimeKey]
    checkArguments := [ascii "", ascii "IDCLIP"] }

/-! ## Definitions used to state the properties -/

section statements

variable {H σ V : Type}

/-- The world state after the branches have run one after the other from `s`,
provided that each of them returned `(true, nil)`. -/
def allTrue : List (PredicateWithError H σ V) → H → IExecutionManager H σ V → σ → Option σ
  | [], _, _, s => some s
  | predicate :: rest, data, manager, s =>
    match predicate data manager s with
    | ((true, none), s1) => allTrue rest data manager s1
    | _ => none

/-- The world state after the branches have run one after the other from `s`,
provided that each of them returned `(false, nil)`. -/
def allFalse : List (PredicateWithError H σ V) → H → IExecutionManager H σ V → σ → Option σ
  | [], _, _, s => some s
  | predicate :: rest, data, manager, s =>
    match predicate data manager s with
    | ((false, none), s1) => allFalse rest data manager s1
    | _ => none

/-- A branch that makes the backend call `MatchHttpDataHost tag`. -/
def tagged (tag : Nat) : PredicateWithError H σ V :=
  fun data manager => manager (.MatchHttpDataHost tag) data

/-- A backend that records the tag of every `MatchHttpDataHost` call in the
world state and answers with the entry of `answers` for the tag,
`(false, nil)` when there is none. -/
def recordingManager (answers : List Result) : IExecutionManager Unit (List Nat) GoString :=
  fun call _ calls =>
    match call with
    | .MatchHttpDataHost tag => (answers.getD tag (false, none), calls ++ [tag])
    | _ => ((false, none), calls)

end statements

/-- A decimal integer: an optional sign followed by one or more decimal digits. -/
def isDecimalInteger (s : GoString) : Bool :=
  match s with
  | [] => false
  | c :: rest =>
    let digits := if c = 45 ∨ c = 43 then rest else s
    !digits.isEmpty && digits.all (fun d => decide (48 ≤ d ∧ d ≤ 57))

/-- The expressions separated by commas, as they stand between the parentheses
of `AND` and `OR`. -/
def commaSeparated : List GoString → GoString
  | [] => []
  | [e] => e
  | e :: rest => e ++ ascii "," ++ commaSeparated rest

/-- The predicate `EXISTS(1)` compiles to on `exampleStorage`. -/
def existsIDDQD {H σ : Type} : PredicateWithError H σ GoString :=
  fun data manager => manager (.CheckOptionExistence (ascii "IDDQD")) data

/-- Every byte is an ASCII character. -/
def isAscii (s : GoString) : Prop := ∀ b ∈ s, b < 0x80

/-- The string `string([]rune(s))`: what a reader keeps of the text `s` that
follows the part it has read. -/
def renormalize (s : GoString) : GoString := fromRunes (toRunes s)

/-- A function on the unread text that keeps its ASCII beginning in place and
maps only the empty text to the empty text; `renormalize` is one, and so is
every composition of such functions. -/
structure Transparent (g : GoString → GoString) : Prop where
  nil_iff : ∀ u, g u = [] ↔ u = []
  ascii_append : ∀ c u, isAscii c → g (c ++ u) = c ++ g u
  reflect : ∀ c u w, isAscii c → g u = c ++ w → ∃ w0, u = c ++ w0 ∧ g w0 = w

/-- The call `P` on a reader of `s` returns the value `a` and leaves the reader
`r`, and does so by reading an ASCII beginning `c` of `s` only: on every other
text with the same beginning it returns the same value and leaves that text
without `c`, renormalized the same way. -/
def Framed {α : Type} (P : sourceReader → Option (Outcome (α × sourceReader)))
    (s : GoString) (a : α) (r : sourceReader) : Prop :=
  ∃ (c : GoString) (g : GoString → GoString) (u : GoString),
    isAscii c ∧ Transparent g ∧ s = c ++ u ∧ r.source = g u ∧
      ∀ u', P { source := c ++ u' } = some (.ok (a, { source := g u' }))

/-- The three mutually recursive parsing functions read an ASCII beginning of
the source only, at the given fuel. -/
structure FrameInv (H σ : Type) {V : Type} [DecidableEq V] (storage : parseStorage V)
    (fuel : Nat) : Prop where
  expression : ∀ (s : GoString) (p : PredicateWithError H σ V) (r : sourceReader),
    parseExpression storage fuel { source := s } = some (.ok (p, r)) →
      Framed (parseExpression storage fuel) s p r
  arguments : ∀ (s : GoString) (acc args : List (PredicateWithError H σ V)) (r : sourceReader),
    parseLogicalExpressionArgs storage fuel { source := s } acc = some (.ok (args, r)) →
      Framed (fun x => parseLogicalExpressionArgs storage fuel x acc) s args r
  notArg : ∀ (s : GoString) (p : PredicateWithError H σ V) (r : sourceReader),
    parseNotArg storage fuel { source := s } = some (.ok (p, r)) →
      Framed (parseNotArg storage fuel) s p r

/-- A call of one of the three mutually recursive parsing functions that
returns with some fuel returns the same with one more unit of fuel. -/
structure ParseMono (H σ : Type) {V : Type} [DecidableEq V] (storage : parseStorage V)
    (fuel : Nat) : Prop where
  expression : ∀ (reader : sourceReader)
    (x : Outcome (PredicateWithError H σ V × sourceReader)),
    parseExpression storage fuel reader = some x →
      parseExpression storage (fuel + 1) reader = some x
  arguments : ∀ (reader : sourceReader) (acc : List (PredicateWithError H σ V))
    (x : Outcome (List (PredicateWithError H σ V) × sourceReader)),
    parseLogicalExpressionArgs storage fuel reader acc = some x →
      parseLogicalExpressionArgs storage (fuel + 1) reader acc = some x
  notArg : ∀ (reader : sourceReader)
    (x : Outcome (PredicateWithError H σ V × sourceReader)),
    parseNotArg storage fuel reader = some x →
      parseNotArg storage (fuel + 1) reader = some x

end ExpressionTree


/-!
# JSON path: a shallow embedding of `jsonpath`

A value of type `interface{}` is a `Value`: the six kinds of values that JSON
unmarshalling produces and the Go `int`, which the tests put into their data
and which stands for the values that it does not produce. A map is kept as an
association list; a lookup returns the first binding of the key and an
assignment replaces it. A function that returns `(value, error)` returns an
`Outcome`, where the value that comes with a non-nil error is dropped and a
Go panic is the outcome `panic`. `json.Unmarshal` is taken as a function from
the text to the value it decodes (`none` when it fails). Recursion is on the
path, so no fuel is needed.
-/

namespace JsonPath

open ContentParsing (GoString ascii isSpaceRune)

open ExpressionTree (toRunes encodeRune fromRunes split atoi)

/-! ## Library functions used by the package -/

/-- Go `strings.TrimLeft(s, cutset)` for a cutset of ASCII characters. -/
def trimLeft (s cutset : GoString) : GoString :=
  s.dropWhile (fun c => decide (c ∈ cutset))

/-- Go `strings.TrimRight(s, cutset)` for a cutset of ASCII characters. -/
def trimRight (s cutset : GoString) : GoString :=
  (s.reverse.dropWhile (fun c => decide (c ∈ cutset))).reverse

/-- Go `strings.Trim(s, cutset)` for a cutset of ASCII characters. -/
def trim (s cutset : GoString) : GoString :=
  trimLeft (trimRight s cutset) cutset

/-- Go `strings.Contains(s, substr)` for a substring of one byte. -/
def contains (s : GoString) (c : Nat) : Bool := decide (c ∈ s)

/-! ## Values and errors -/

/-- A value of type `interface{}`: `nil`, `bool`, `float64` (its bits),
`int`, `string`, `[]interface{}` or `map[string]interface{}`. -/
inductive Value where
  | null
  | bool (b : Bool)
  | float64 (bits : Nat)
  | int (i : Int)
  | string (s : GoString)
  | array (items : List Value)
  | object (fields : List (GoString × Value))

mutual
/-- Equality of values is decidable. -/
def Value.decEq : (a b : Value) → Decidable (a = b)
  | .null, .null =>
    isTrue rfl
  | .null, .bool _ => isFalse (fun e => by cases e)
  | .null, .float64 _ => isFalse (fun e => by cases e)
  | .null, .int _ => isFalse (fun e => by cases e)
  | .null, .string _ => isFalse (fun e => by cases e)
  | .null, .array _ => isFalse (fun e => by cases e)
  | .null, .object _ => isFalse (fun e => by cases e)
  | .bool _, .null => isFalse (fun e => by cases e)
  | .bool x0, .bool y0 =>
    match (inferInstance : Decidable (x0 = y0)) with
    | isFalse h => isFalse (fun e => by cases e; exact h rfl)
    | isTrue h0 =>
      isTrue (by cases h0; rfl)
  | .bool _, .float64 _ => isFalse (fun e => by cases e)
  | .bool _, .int _ => isFalse (fun e => by cases e)
  | .bool _, .string _ => isFalse (fun e => by cases e)
  | .bool _, .array _ => isFalse (fun e => by cases e)
  | .bool _, .object _ => isFalse (fun e => by cases e)
  | .float64 _, .null => isFalse (fun e => by cases e)
  | .float64 _, .bool _ => isFalse (fun e => by cases e)
  | .float64 x0, .float64 y0 =>
    match (inferInstance : Decidable (x0 = y0)) with
    | isFalse h => isFalse (fun e => by cases e; exact h rfl)
    | isTrue h0 =>
      isTrue (by cases h0; rfl)
  | .float64 _, .int _ => isFalse (fun e => by cases e)
  | .float64 _, .string _ => isFalse (fun e => by cases e)
  | .float64 _, .array _ => isFalse (fun e => by cases e)
  | .float64 _, .object _ => isFalse (fun e => by cases e)
  | .int _, .null => isFalse (fun e => by cases e)
  | .int _, .bool _ => isFalse (fun e => by cases e)
  | .int _, .float64 _ => isFalse (fun e => by cases e)
  | .int x0, .int y0 =>
    match (inferInstance : Decidable (x0 = y0)) with
    | isFalse h => isFalse (fun e => by cases e; exact h rfl)
    | isTrue h0 =>
      isTrue (by cases h0; rfl)
  | .int _, .string _ => isFalse (fun e => by cases e)
  | .int _, .array _ => isFalse (fun e => by cases e)
  | .int _, .object _ => isFalse (fun e => by cases e)
  | .string _, .null => isFalse (fun e => by cases e)
  | .string _, .bool _ => isFalse (fun e => by cases e)
  | .string _, .float64 _ => isFalse (fun e => by cases e)
  | .string _, .int _ => isFalse (fun e => by cases e)
  | .string x0, .string y0 =>
    match (inferInstance : Decidable (x0 = y0)) with
    | isFalse h => isFalse (fun e => by cases e; exact h rfl)
    | isTrue h0 =>
      isTrue (by cases h0; rfl)
  | .string _, .array _ => isFalse (fun e => by cases e)
  | .string _, .object _ => isFalse (fun e => by cases e)
  | .array _, .null => isFalse (fun e => by cases e)
  | .array _, .bool _ => isFalse (fun e => by cases e)
  | .array _, .float64 _ => isFalse (fun e => by cases e)
  | .array _, .int _ => isFalse (fun e => by cases e)
  | .array _, .string _ => isFalse (fun e => by cases e)
  | .array x0, .array y0 =>
    match Value.decEqList x0 y0 with
    | isFalse h => isFalse (fun e => by cases e; exact h rfl)
    | isTrue h0 =>
      isTrue (by cases h0; rfl)
  | .array _, .object _ => isFalse (fun e => by cases e)
  | .object _, .null => isFalse (fun e => by cases e)
  | .object _, .bool _ => isFalse (fun e => by cases e)
  | .object _, .float64 _ => isFalse (fun e => by cases e)
  | .object _, .int _ => isFalse (fun e => by cases e)
  | .object _, .string _ => isFalse (fun e => by cases e)
  | .object _, .array _ => isFalse (fun e => by cases e)
  | .object x0, .object y0 =>
    match Value.decEqFields x0 y0 with
    | isFalse h => isFalse (fun e => by cases e; exact h rfl)
    | isTrue h0 =>
      isTrue (by cases h0; rfl)
termination_by structural a => a
/-- Equality of lists of values is decidable. -/
def Value.decEqList : (a b : List Value) → Decidable (a = b)
  | [], [] => isTrue rfl
  | [], _ :: _ => isFalse (fun e => by cases e)
  | _ :: _, [] => isFalse (fun e => by cases e)
  | x0 :: x1, y0 :: y1 =>
    match Value.decEq x0 y0 with
    | isFalse h => isFalse (fun e => by cases e; exact h rfl)
    | isTrue h0 =>
      match Value.decEqList x1 y1 with
      | isFalse h => isFalse (fun e => by cases e; exact h rfl)
      | isTrue h1 =>
        isTrue (by cases h0; cases h1; rfl)
termination_by structural a => a
/-- Equality of maps of values is decidable. -/
def Value.decEqFields : (a b : List (GoString × Value)) → Decidable (a = b)
  | [], [] => isTrue rfl
  | [], _ :: _ => isFalse (fun e => by cases e)
  | _ :: _, [] => isFalse (fun e => by cases e)
  | (k0, x0) :: x1, (l0, y0) :: y1 =>
    match (inferInstance : Decidable (k0 = l0)) with
    | isFalse h => isFalse (fun e => by cases e; exact h rfl)
    | isTrue h0 =>
      match Value.decEq x0 y0 with
      | isFalse h => isFalse (fun e => by cases e; exact h rfl)
      | isTrue h1 =>
        match Value.decEqFields x1 y1 with
        | isFalse h => isFalse (fun e => by cases e; exact h rfl)
        | isTrue h2 =>
          isTrue (by cases h0; cases h1; cases h2; rfl)
termination_by structural a => a
end

instance : DecidableEq Value := Value.decEq


/-- The errors of the package: `errNotFound`, the errors made with
`errors.New` and `fmt.Errorf`, and the error of `strconv.Atoi`. -/
inductive Error where
  | errNotFound
  | badSliceDefinition
  | badIndex
  | badJSONPath
  | numError
  | cannotSet
  | getFloatError (err : Error)
  | getNumberWrongType
  | getFloatMustReturnFloat
  deriving DecidableEq, Repr

open Error

/-- What a call of a function that returns `(value, error)` does: it returns a
value with a `nil` error, returns an error, or panics. -/
inductive Outcome (α : Type) where
  | ok (value : α)
  | error (err : Error)
  | panic
  deriving DecidableEq

/-- Whether the outcome is a value. -/
def Outcome.isOk {α : Type} : Outcome α → Bool
  | .ok _ => true
  | _ => false

/-- What a call does that may return a pair with a non-nil value and a
non-nil error: it returns, or panics. -/
inductive Run (α : Type) where
  | returned (result : α)
  | panic
  deriving DecidableEq

/-- The map index expression `value, ok := m[key]`. -/
def mapGet : List (GoString × Value) → GoString → Option Value
  | [], _ => none
  | (k, v) :: rest, key => if k = key then some v else mapGet rest key

/-- The assignment `m[key] = value` on a map. -/
def mapSet : List (GoString × Value) → GoString → Value → List (GoString × Value)
  | [], key, value => [(key, value)]
  | (k, v) :: rest, key, value =>
    if k = key then (key, value) :: rest else (k, v) :: mapSet rest key value

/-! ## jsonpath.go -/

/-- `Path`. -/
structure Path where
  path : List GoString
  deriving DecidableEq, Repr

/-- `getValueByIndex`; the index expressions are in range after the test. -/
def getValueByIndex {T : Type} (source : List T) (index : Int) : List T :=
  if index ≥ source.length ∨ index < -(source.length : Int) then []
  else if index < 0 then (source.get? ((source.length : Int) + index).toNat).toList
  else (source.get? index.toNat).toList

/-- `appendResult`. -/
def appendResult (dest : List Value) (result : Value) : List Value :=
  match result with
  | .array items => dest ++ items
  | _ => dest ++ [result]

/-- `extractSliceIndices`. -/
def extractSliceIndices (source : GoString) (dataSize : Int) : Outcome (Int × Int) :=
  match split source 58 with
  | [part0, part1] =>
    let sliceFrom := trim part0 (ascii " ")
    let sliceTo := trim part1 (ascii " ")
    if sliceFrom.length = 0 ∧ sliceTo.length = 0 then .ok (0, dataSize)
    else
      match (if sliceFrom.length > 0 then atoi (trim sliceFrom (ascii " ")) else some 0) with
      | none => .error numError
      | some indexFrom =>
        match (if sliceTo.length > 0 then atoi (trim sliceTo (ascii " ")) else some 0) with
        | none => .error numError
        | some indexTo =>
          let indexFrom :=
            if sliceFrom.length = 0 then (if indexTo ≥ 0 then 0 else -dataSize) else indexFrom
          let indexTo :=
            if sliceTo.length = 0 then (if indexFrom ≥ 0 then dataSize else 0) else indexTo
          let indexFrom :=
            if indexFrom > 0 then min indexFrom dataSize else max indexFrom (-dataSize)
          let indexTo :=
            if indexTo > 0 then min indexTo dataSize else max indexTo (-dataSize)
          .ok (indexFrom, indexTo)
  | _ => .error badSliceDefinition

/-- The loop `for index := indexFrom; index < indexTo; index++` of
`filterInterfaces`, with the number of iterations left. -/
def sliceLoop (source : List Value) : Int → Nat → List Value → List Value
  | _, 0, dest => dest
  | index, count + 1, dest =>
    sliceLoop source (index + 1) count (dest ++ getValueByIndex source index)

/-- The loop over the parts of a union in `filterInterfaces`. -/
def unionLoop (source : List Value) : List GoString → List Value → Outcome (List Value)
  | [], dest => .ok dest
  | part :: rest, dest =>
    match atoi (trim part (ascii " ")) with
    | none => .error numError
    | some index => unionLoop source rest (dest ++ getValueByIndex source index)

/-- `filterInterfaces`: the elements selected and whether the filter is a
single index. -/
def filterInterfaces (source : List Value) (filter : GoString) : Outcome (List Value × Bool) :=
  let trimmedFilter := trim filter (ascii "[]")
  let filterParts := split trimmedFilter 44
  match filterParts with
  | [part] =>
    if !contains part 58 then
      match atoi (trim part (ascii " ")) with
      | none => .error numError
      | some index =>
        let dest := getValueByIndex source index
        if dest.length = 0 then .error badIndex else .ok (dest, true)
    else
      match extractSliceIndices part source.length with
      | .error err => .error err
      | .panic => .panic
      | .ok (indexFrom, indexTo) =>
        .ok (sliceLoop source indexFrom (indexTo - indexFrom).toNat [], false)
  | _ =>
    match unionLoop source filterParts [] with
    | .error err => .error err
    | .panic => .panic
    | .ok dest => .ok (dest, false)

/-- The loop of `recursiveGet` over the selected elements; `get` resolves the
rest of the path on an element. -/
def combineLoop (get : Value → Outcome Value) : List Value → List Value → Outcome (List Value)
  | [], combinedResult => .ok combinedResult
  | fd :: rest, combinedResult =>
    match get fd with
    | .error err => .error err
    | .panic => .panic
    | .ok result => combineLoop get rest (appendResult combinedResult result)

/-- `recursiveGet`. -/
def recursiveGet (unmarshal : GoString → Option Value) : Value → List GoString → Outcome Value
  | data, [] => .ok data
  | data, segment :: path =>
    match data with
    | .null => .error errNotFound
    | .array items =>
      match filterInterfaces items segment with
      | .error err => .error err
      | .panic => .panic
      | .ok (dest, isSingle) =>
        if isSingle then
          match dest with
          | [] => .panic
          | value :: _ =>
            if path.length = 0 then .ok value else recursiveGet unmarshal value path
        else if path.length = 0 then .ok (.array dest)
        else
          match combineLoop (fun fd => recursiveGet unmarshal fd path) dest [] with
          | .error err => .error err
          | .panic => .panic
          | .ok combinedResult => .ok (.array combinedResult)
    | .object fields =>
      match mapGet fields segment with
      | none => .error errNotFound
      | some value => recursiveGet unmarshal value path
    | .string jsonStr =>
      match unmarshal jsonStr with
      | none => .error errNotFound
      | some .null => .error errNotFound
      | some (.object mapStruct) =>
        match mapGet mapStruct segment with
        | none => .error errNotFound
        | some value => recursiveGet unmarshal value path
      | some _ => .error errNotFound
    | _ => .error errNotFound

/-- The type switch of `recursiveSet`: the map `data` when it is one, a new
map when it is any other value or `nil`. -/
def dataMapOf : Value → List (GoString × Value)
  | .object fields => fields
  | _ => []

/-- `recursiveSet`; on the empty path the index expression `path[0]` panics. -/
def recursiveSet : Value → Value → List GoString → Outcome (List (GoString × Value))
  | _, _, [] => .panic
  | data, value, segment :: path =>
    let dataMap := dataMapOf data
    if path.length = 0 then .ok (mapSet dataMap segment value)
    else
      match recursiveSet ((mapGet dataMap segment).getD .null) value path with
      | .error err => .error err
      | .panic => .panic
      | .ok inner => .ok (mapSet dataMap segment (.object inner))

/-- `(*Path).Get`; a nil `*Path` is `none`. -/
def Path.Get (unmarshal : GoString → Option Value) (path : Option Path) (input : Value) :
    Outcome Value :=
  match path with
  | none => .ok input
  | some p => recursiveGet unmarshal input p.path

/-- `(*Path).Set`; a nil `*Path` is `none`. -/
def Path.Set (path : Option Path) (input value : Value) : Outcome Value :=
  let setPath : List GoString :=
    match path with
    | none => []
    | some p => p.path
  if setPath.length = 0 then
    match value with
    | .object _ => .ok value
    | .array _ => .ok value
    | .float64 _ => .ok value
    | .string _ => .ok value
    | .bool _ => .ok value
    | _ => .error cannotSet
  else
    match recursiveSet input value setPath with
    | .error err => .error err
    | .panic => .panic
    | .ok dataMap => .ok (.object dataMap)

/-- `(*Path).GetNumber`: the `*float64` returned (`none` is `nil`) and the
error. In the array case `output, ok := ...` declares a new variable, so the
`output` of the final `return &output, nil` is still zero. -/
def Path.GetNumber (unmarshal : GoString → Option Value) (float64OfInt : Int → Nat)
    (path : Option Path) (input : Value) : Run (Option Nat × Option Error) :=
  match Path.Get unmarshal path input with
  | .panic => .panic
  | .error err => .returned (none, some (.getFloatError err))
  | .ok outputValue =>
    match outputValue with
    | .float64 bits => .returned (some bits, none)
    | .int i => .returned (some (float64OfInt i), none)
    | .array items =>
      match items with
      | [] => .panic
      | .float64 _ :: _ => .returned (some 0, none)
      | _ :: _ => .returned (some 0, some getNumberWrongType)
    | _ => .returned (none, some getFloatMustReturnFloat)

/-! ## jsonpath_parser.go -/

/-- `eofRune`. -/
def eofRune : Nat := 0

/-- `parserNoneState`. -/
def parserNoneState : Int := 0

/-- `parserNeutralState`. -/
def parserNeutralState : Int := 100

/-- `parserDotState`. -/
def parserDotState : Int := 200

/-- `parserBracketState`. -/
def parserBracketState : Int := 300

/-- `parserSingleQuoteNameState`. -/
def parserSingleQuoteNameState : Int := 400

/-- `parserDoubleQuoteNameState`. -/
def parserDoubleQuoteNameState : Int := 500

/-- A value of type `stateHandler`: one of the six handler functions. -/
inductive stateHandler where
  | none
  | neutral
  | dot
  | bracket
  | singleQuoteName
  | doubleQuoteName
  deriving DecidableEq, Repr

/-- `parseState`; `part` is the content of the `strings.Builder`. -/
structure parseState where
  id : Int
  handler : stateHandler
  path : List GoString
  part : GoString
  deriving DecidableEq, Repr

/-- `initState`. -/
def initState : parseState :=
  { id := parserNoneState, handler := .none, path := [], part := [] }

/-- `(*parseState).updateState`. -/
def parseState.updateState (state : parseState) (id : Int) (handler : stateHandler) :
    parseState :=
  { state with id := id, handler := handler }

/-- `(*parseState).appendPart`. -/
def parseState.appendPart (state : parseState) : parseState :=
  { state with path := state.path ++ [state.part], part := [] }

/-- The call `state.part.WriteRune(char)`. -/
def parseState.writeRune (state : parseState) (char : Nat) : parseState :=
  { state with part := state.part ++ encodeRune char }

/-- The call `state.part.Reset()`. -/
def parseState.resetPart (state : parseState) : parseState :=
  { state with part := [] }

/-- `processNoneState`. -/
def processNoneState (char : Nat) (state : parseState) : Outcome parseState :=
  if char = 36 then .ok (state.updateState parserNeutralState .neutral)
  else .error badJSONPath

/-- `processNeutralState`. -/
def processNeutralState (char : Nat) (state : parseState) : Outcome parseState :=
  if char = 46 then .ok (state.updateState parserDotState .dot)
  else if char = 91 then .ok ((state.writeRune char).updateState parserBracketState .bracket)
  else if char = eofRune then .ok state
  else .error badJSONPath

/-- `processDotState`. -/
def processDotState (char : Nat) (state : parseState) : Outcome parseState :=
  if isSpaceRune char then .error badJSONPath
  else if char = 46 ∧ state.part.length = 0 then .error badJSONPath
  else if char = 46 then .ok state.appendPart
  else if char = 91 ∧ state.part.length = 0 then
    .ok ((state.writeRune char).updateState parserBracketState .bracket)
  else if char = 91 then
    .ok ((state.appendPart.writeRune char).updateState parserBracketState .bracket)
  else if char = 93 then .error badJSONPath
  else if char = eofRune ∧ state.part.length = 0 then .error badJSONPath
  else if char = eofRune then .ok state.appendPart
  else .ok (state.writeRune char)

/-- `processBracketState`. -/
def processBracketState (char : Nat) (state : parseState) : Outcome parseState :=
  if isSpaceRune char ∧ state.part.length = 1 then .ok state
  else if char = 93 ∧ state.part.length = 1 then .error badJSONPath
  else if char = 93 then
    .ok ((state.writeRune char).appendPart.updateState parserNeutralState .neutral)
  else if char = 39 ∧ state.part.length > 1 then .error badJSONPath
  else if char = 39 then
    .ok (state.resetPart.updateState parserSingleQuoteNameState .singleQuoteName)
  else if char = 34 ∧ state.part.length > 1 then .error badJSONPath
  else if char = 34 then
    .ok (state.resetPart.updateState parserDoubleQuoteNameState .doubleQuoteName)
  else if char = 91 then .error badJSONPath
  else if char = 46 then .error badJSONPath
  else .ok (state.writeRune char)

/-- `processSingleQuoteNameState`. -/
def processSingleQuoteNameState (char : Nat) (state : parseState) : Outcome parseState :=
  let parserSingleQuoteNameEndState := parserSingleQuoteNameState + 1
  if state.id = parserSingleQuoteNameState ∧ char = 39 ∧ state.part.length = 0 then
    .error badJSONPath
  else if state.id = parserSingleQuoteNameState ∧ char = 39 then
    .ok (state.updateState parserSingleQuoteNameEndState .singleQuoteName)
  else if state.id = parserSingleQuoteNameEndState ∧ isSpaceRune char then .ok state
  else if state.id = parserSingleQuoteNameEndState ∧ char = 93 then
    .ok (state.appendPart.updateState parserNeutralState .neutral)
  else if state.id = parserSingleQuoteNameEndState ∧ char ≠ 93 then .error badJSONPath
  else .ok (state.writeRune char)

/-- `processDoubleQuoteNameState`. -/
def processDoubleQuoteNameState (char : Nat) (state : parseState) : Outcome parseState :=
  let parserDoubleQuoteNameEndState := parserDoubleQuoteNameState + 1
  if state.id = parserDoubleQuoteNameState ∧ char = 39 ∧ state.part.length = 0 then
    .error badJSONPath
  else if state.id = parserDoubleQuoteNameState ∧ char = 34 then
    .ok (state.updateState parserDoubleQuoteNameEndState .doubleQuoteName)
  else if state.id = parserDoubleQuoteNameEndState ∧ isSpaceRune char then .ok state
  else if state.id = parserDoubleQuoteNameEndState ∧ char = 93 then
    .ok (state.appendPart.updateState parserNeutralState .neutral)
  else if state.id = parserDoubleQuoteNameEndState ∧ char ≠ 93 then .error badJSONPath
  else .ok (state.writeRune char)

/-- The call `state.handler(char, state)`. -/
def parseState.handle (state : parseState) (char : Nat) : Outcome parseState :=
  match state.handler with
  | .none => processNoneState char state
  | .neutral => processNeutralState char state
  | .dot => processDotState char state
  | .bracket => processBracketState char state
  | .singleQuoteName => processSingleQuoteNameState char state
  | .doubleQuoteName => processDoubleQuoteNameState char state

/-- The loop of `parsePathString` over the runes of the source. -/
def parseLoop : List Nat → parseState → Outcome parseState
  | [], state => .ok state
  | ch :: rest, state =>
    match state.handle ch with
    | .error err => .error err
    | .panic => .panic
    | .ok state => parseLoop rest state

/-- `parsePathString`. -/
def parsePathString (source : GoString) : Outcome (List GoString) :=
  match parseLoop (toRunes source) initState with
  | .error err => .error err
  | .panic => .panic
  | .ok state =>
    match state.handle eofRune with
    | .error err => .error err
    | .panic => .panic
    | .ok state => .ok state.path

/-- `NewPath`: the path returned, whose segments are `nil` when the error is
not. -/
def NewPath (pathString : GoString) : Path × Option Error :=
  match parsePathString pathString with
  | .ok pathArray => ({ path := pathArray }, none)
  | .error err => ({ path := [] }, some err)
  | .panic => ({ path := [] }, none)

/-! ## Definitions used to state the properties -/

/-- The element at `index`, where a negative index counts from the end of the
array; `none` when the index is out of range. -/
def elementAt (source : List Value) (index : Int) : Option Value :=
  if 0 ≤ index then source.get? index.toNat
  else if -(source.length : Int) ≤ index then source.get? ((source.length : Int) + index).toNat
  else none

/-- The value `x` clamped into `[-n, n]`. -/
def clamp (n x : Int) : Int := max (-n) (min x n)

/-- One side of a slice body once the spaces around it are removed: no number
when it is empty, the number it denotes, or an error when it is not one. -/
def sliceSide (text : GoString) : Outcome (Option Int) :=
  if text = [] then .ok none
  else
    match atoi text with
    | none => .error numError
    | some i => .ok (some i)

/-- The bounds of a slice over an array of length `n` as the specification
gives them: `[0, n)` when both sides are missing, a missing side defaulted
from the sign of the other one, and each side clamped into `[-n, n]`. -/
def sliceBounds (sideFrom sideTo : Option Int) (n : Int) : Int × Int :=
  match sideFrom, sideTo with
  | none, none => (0, n)
  | none, some t => (clamp n (if t ≥ 0 then 0 else -n), clamp n t)
  | some f, none => (clamp n f, clamp n (if f ≥ 0 then n else 0))
  | some f, some t => (clamp n f, clamp n t)

/-- What a result of the rest of the path contributes to the combined result:
the elements of an array, any other value itself. -/
def contribution (result : Value) : List Value :=
  match result with
  | .array items => items
  | _ => [result]

/-- The elements at the indices `indexFrom`, ..., `indexTo - 1`, in that order. -/
def sliceSelection (source : List Value) (indexFrom indexTo : Int) : List Value :=
  (List.range (indexTo - indexFrom).toNat).filterMap
    (fun k => elementAt source (indexFrom + (k : Nat)))

/-- Some values and arrays for the examples: the array `[666, 667, 668, 669]`
of the tests. -/
def simpleValues : List Value := [.int 666, .int 667, .int 668, .int 669]

/-- The objects `\x7b"id": id\x7d` of the tests. -/
def createObjects (ids : List Int) : List Value :=
  ids.map (fun id => Value.object [(ascii "id", .int id)])

/-- A `json.Unmarshal` that fails on every text, for the examples that hold no
string with JSON inside. -/
def noUnmarshal : GoString → Option Value := fun _ => none

/-- A JSON value as JSON unmarshalling produces it, by the kind of the value:
an object, an array, a number, a string, a boolean or null. -/
def isJsonValue : Value → Bool
  | .int _ => false
  | _ => true

/-- A number: a `float64` or an `int`. -/
def isNumber : Value → Bool
  | .float64 _ => true
  | .int _ => true
  | _ => false

/-- An array. -/
def isArray : Value → Bool
  | .array _ => true
  | _ => false

/-- A conversion `float64(i)` for the examples, which convert no `int`. -/
def noFloat64OfInt : Int → Nat := fun _ => 0

/-- Go `utf8.ValidString`: converting to runes and back gives the same bytes. -/
def validString (s : GoString) : Bool := fromRunes (toRunes s) == s

/-- A character that ends or breaks a dotted name: a dot, a bracket, white
space or the end-of-input rune. -/
def isNameBreak (r : Nat) : Bool :=
  r == 46 || r == 91 || r == 93 || isSpaceRune r || r == eofRune

/-- A name that can follow a dot: non-empty, with no dot, bracket, white space
or NUL among its characters. -/
def isDottedName (name : GoString) : Bool :=
  !name.isEmpty && (toRunes name).all (fun r => !isNameBreak r)

/-- The path text `$.n1.n2...nk` for the names `n1`, ..., `nk`. -/
def dottedPath (names : List GoString) : GoString :=
  ascii "$" ++ (names.map (fun name => 46 :: name)).flatten

/-- The parser state inside a dotted name: the segments so far and the text of
the name so far. -/
def dotState (path : List GoString) (part : GoString) : parseState :=
  { id := parserDotState, handler := .dot, path := path, part := part }

/-- The parser state inside a name in single quotes: the segments so far and
the text of the name so far. -/
def singleQuoteState (path : List GoString) (part : GoString) : parseState :=
  { id := parserSingleQuoteNameState, handler := .singleQuoteName, path := path, part := part }

/-- The parser state inside a name in double quotes: the segments so far and
the text of the name so far. -/
def doubleQuoteState (path : List GoString) (part : GoString) : parseState :=
  { id := parserDoubleQuoteNameState, handler := .doubleQuoteName, path := path, part := part }

/-- The parser state between two segments. -/
def neutralState (path : List GoString) : parseState :=
  { id := parserNeutralState, handler := .neutral, path := path, part := [] }

/-- A state in which the parser reads the text of a quoted name: after the
opening quote and before the closing one. -/
def parseState.inQuotedName (state : parseState) : Bool :=
  (state.handler == .singleQuoteName && state.id == parserSingleQuoteNameState) ||
    (state.handler == .doubleQuoteName && state.id == parserDoubleQuoteNameState)

/-- A state in which a bracket segment is open: after `[` and before its `]`,
the closing quote of a quoted name not yet read. -/
def parseState.bracketOpen (state : parseState) : Bool :=
  state.handler == .bracket || state.inQuotedName

/-- The text ends inside a quoted name: the parser has read it without error
and is reading the text of a quoted name. -/
def endsInsideQuotes (source : GoString) : Bool :=
  match parseLoop (toRunes source) initState with
  | .ok state => state.inQuotedName
  | _ => false

/-- The value found in `data` by descending through maps along `keys`, if
there is one. -/
def lookupKeys : Value → List GoString → Option Value
  | data, [] => some data
  | .object fields, key :: rest =>
    match mapGet fields key with
    | some child => lookupKeys child rest
    | none => none
  | _, _ :: _ => none

/-- The segments read so far are non-empty, and so is the text of a segment
that can be closed next: the body of an open bracket and a name in single
quotes whose closing quote has been read; no name in double quotes is open. -/
def segmentsNonEmpty (state : parseState) : Prop :=
  (∀ s ∈ state.path, s ≠ []) ∧ (state.handler = .bracket → state.part ≠ []) ∧
    (state.handler = .singleQuoteName → state.id ≠ parserSingleQuoteNameState →
      state.part ≠ []) ∧
    state.handler ≠ .doubleQuoteName

/-- What holds of every state the parser reaches: between segments no text is
pending, and a quoted-name state is before or after the closing quote. -/
def wellFormed (state : parseState) : Prop :=
  (state.handler = .none → state.part = []) ∧ (state.handler = .neutral → state.part = []) ∧
    (state.handler = .singleQuoteName →
      state.id = parserSingleQuoteNameState ∨ state.id = parserSingleQuoteNameState + 1) ∧
    (state.handler = .doubleQuoteName →
      state.id = parserDoubleQuoteNameState ∨ state.id = parserDoubleQuoteNameState + 1)

end JsonPath


/-! ## Theorems -/

namespace ContentParsing

open ContentType ParseError


/-- The empty string is classified Base64 and decodes to itself. -/
theorem detect_nil : detectProbableContentType (trimSpace []) = ([], ContentTypeBase64) := by
  decide

/-- On the empty source `parseContent` calls itself with the same arguments:
no amount of fuel lets it return. -/
theorem parseContent_nil (D : Decoders) (state : contentParserState) (fuel : Nat) :
    parseContent D fuel [] state = none := by
  induction fuel with
  | zero => rfl
  | succ n ih => simp [parseContent, detect_nil, ih]

/-! ### Fuel -/

/-- With no fuel no function returns, so monotonicity holds. -/
theorem fuelMono_zero (D : Decoders) : FuelMono D 0 := by
  constructor <;> intros <;> simp_all [parseContent, jsonDataParser.parse,
    jsonDataParser.parseValue, jsonDataParser.parseComplexEntity, jsonDataParser.parseObject,
    jsonDataParser.parseObjectLoop, jsonDataParser.parseArray, jsonDataParser.parseArrayLoop,
    xmlDataParser.parse, xmlDataParser.parseLoop, xmlDataParser.parseElement,
    xmlDataParser.parseElementLoop, xmlDataParser.parseCharData]

/-- Monotonicity passes from the calls of `parseContent` to `parseContent`. -/
theorem mono_content {D : Decoders} {fuel : Nat} (ih : FuelMono D fuel) :
    ∀ source state r, parseContent D (fuel + 1) source state = some r →
    parseContent D (fuel + 1 + 1) source state = some r := by
  intro source state r h
  rw [parseContent] at h ⊢
  try dsimp only at h ⊢
  split at h
  · exact h
  · split at h
    · exact absurd h (by simp)
    · next hx => simp only [ih.xmlParse _ _ _ hx]; exact h
    · next hx => simp only [ih.xmlParse _ _ _ hx]; exact h
  · split at h
    · exact absurd h (by simp)
    · next hx => simp only [ih.jsonParse _ _ _ hx]; exact h
    · next hx => simp only [ih.jsonParse _ _ _ hx]; exact h
  · split at h
    · exact absurd h (by simp)
    · next hx => simp only [ih.content _ _ _ hx]; exact h

/-- Monotonicity passes to `(*jsonDataParser).parse`. -/
theorem mono_jsonParse {D : Decoders} {fuel : Nat} (ih : FuelMono D fuel) :
    ∀ state source r, jsonDataParser.parse D (fuel + 1) state source = some r →
    jsonDataParser.parse D (fuel + 1 + 1) state source = some r := by
  intro state source r h
  rw [jsonDataParser.parse] at h ⊢
  try dsimp only at h ⊢
  split at h
  · exact absurd h (by simp)
  · next hx => simp only [ih.value _ _ hx]; exact h
  · next hx => simp only [ih.value _ _ hx]; exact h

/-- Monotonicity passes to `parseValue`. -/
theorem mono_value {D : Decoders} {fuel : Nat} (ih : FuelMono D fuel) :
    ∀ parser r, jsonDataParser.parseValue D (fuel + 1) parser = some r →
    jsonDataParser.parseValue D (fuel + 1 + 1) parser = some r := by
  intro parser r h
  rw [jsonDataParser.parseValue] at h ⊢
  try dsimp only at h ⊢
  split at h
  · exact h
  · exact h
  · split at h
    · exact ih.complexEntity _ _ _ _ h
    · exact h
    · exact h
    · exact h
    · split at h
      · exact absurd h (by simp)
      · next hx => simp only [ih.content _ _ _ hx]; exact h

/-- Monotonicity passes to `parseComplexEntity`. -/
theorem mono_complexEntity {D : Decoders} {fuel : Nat} (ih : FuelMono D fuel) :
    ∀ parser d e r, jsonDataParser.parseComplexEntity D (fuel + 1) parser d e = some r →
    jsonDataParser.parseComplexEntity D (fuel + 1 + 1) parser d e = some r := by
  intro parser d e r h
  cases d
  · simp only [jsonDataParser.parseComplexEntity] at h ⊢
    exact ih.array _ _ h
  · simp only [jsonDataParser.parseComplexEntity] at h ⊢
    exact h
  · simp only [jsonDataParser.parseComplexEntity] at h ⊢
    exact ih.object _ _ h
  · simp only [jsonDataParser.parseComplexEntity] at h ⊢
    exact h

/-- Monotonicity passes to `parseObject`. -/
theorem mono_object {D : Decoders} {fuel : Nat} (ih : FuelMono D fuel) :
    ∀ parser r, jsonDataParser.parseObject D (fuel + 1) parser = some r →
    jsonDataParser.parseObject D (fuel + 1 + 1) parser = some r := by
  intro parser r h
  rw [jsonDataParser.parseObject] at h ⊢
  try dsimp only at h ⊢
  split at h
  · exact h
  · split at h
    · exact h
    · split at h
      · exact absurd h (by simp)
      · next hx => simp only [ih.objectLoop _ _ _ hx]; exact h

/-- Monotonicity passes to the loop of `parseObject`. -/
theorem mono_objectLoop {D : Decoders} {fuel : Nat} (ih : FuelMono D fuel) :
    ∀ parser dest r, jsonDataParser.parseObjectLoop D (fuel + 1) parser dest = some r →
    jsonDataParser.parseObjectLoop D (fuel + 1 + 1) parser dest = some r := by
  intro parser dest r h
  rw [jsonDataParser.parseObjectLoop] at h ⊢
  try dsimp only at h ⊢
  by_cases hm : parser.decoder.More = true
  · rw [if_pos hm] at h ⊢
    by_cases hl : (dest.length : Int) = parser.state.maxFieldCount
    · rw [if_pos hl] at h ⊢
      exact h
    · rw [if_neg hl] at h ⊢
      split at h
      · exact h
      · split at h
        · exact absurd h (by simp)
        · next hx => simp only [ih.value _ _ hx]; exact h
        · next hx => simp only [ih.value _ _ hx]; exact ih.objectLoop _ _ _ h
  · rw [if_neg hm] at h ⊢
    exact h

/-- Monotonicity passes to `parseArray`. -/
theorem mono_array {D : Decoders} {fuel : Nat} (ih : FuelMono D fuel) :
    ∀ parser r, jsonDataParser.parseArray D (fuel + 1) parser = some r →
    jsonDataParser.parseArray D (fuel + 1 + 1) parser = some r := by
  intro parser r h
  rw [jsonDataParser.parseArray] at h ⊢
  try dsimp only at h ⊢
  split at h
  · exact h
  · split at h
    · exact h
    · split at h
      · exact absurd h (by simp)
      · next hx => simp only [ih.arrayLoop _ _ _ hx]; exact h

/-- Monotonicity passes to the loop of `parseArray`. -/
theorem mono_arrayLoop {D : Decoders} {fuel : Nat} (ih : FuelMono D fuel) :
    ∀ parser dest r, jsonDataParser.parseArrayLoop D (fuel + 1) parser dest = some r →
    jsonDataParser.parseArrayLoop D (fuel + 1 + 1) parser dest = some r := by
  intro parser dest r h
  rw [jsonDataParser.parseArrayLoop] at h ⊢
  try dsimp only at h ⊢
  by_cases hm : parser.decoder.More = true
  · rw [if_pos hm] at h ⊢
    by_cases hl : (dest.length : Int) = parser.state.maxFieldCount
    · rw [if_pos hl] at h ⊢
      exact h
    · rw [if_neg hl] at h ⊢
      split at h
      · exact absurd h (by simp)
      · next hx => simp only [ih.value _ _ hx]; exact h
      · next hx => simp only [ih.value _ _ hx]; exact ih.arrayLoop _ _ _ h
  · rw [if_neg hm] at h ⊢
    exact h

/-- Monotonicity passes to `parseCharData`. -/
theorem mono_charData {D : Decoders} {fuel : Nat} (ih : FuelMono D fuel) :
    ∀ parser token r, xmlDataParser.parseCharData D (fuel + 1) parser token = some r →
    xmlDataParser.parseCharData D (fuel + 1 + 1) parser token = some r := by
  intro parser token r h
  rw [xmlDataParser.parseCharData] at h ⊢
  try dsimp only at h ⊢
  split at h
  · exact absurd h (by simp)
  · next hx => simp only [ih.content _ _ _ hx]; exact h

/-- Monotonicity passes to the loop of `parseElement`. -/
theorem mono_elementLoop {D : Decoders} {fuel : Nat} (ih : FuelMono D fuel) :
    ∀ parser name attr children value r,
    xmlDataParser.parseElementLoop D (fuel + 1) parser name attr children value = some r →
    xmlDataParser.parseElementLoop D (fuel + 1 + 1) parser name attr children value = some r := by
  intro parser name attr children value r h
  rw [xmlDataParser.parseElementLoop] at h ⊢
  try dsimp only at h ⊢
  split at h
  · exact h
  · exact h
  · split at h
    · split at h
      · exact absurd h (by simp)
      · next hx => simp only [ih.charData _ _ _ hx]; exact ih.elementLoop _ _ _ _ _ _ h
    · exact ih.elementLoop _ _ _ _ _ _ h
    · exact ih.elementLoop _ _ _ _ _ _ h
    · exact ih.elementLoop _ _ _ _ _ _ h
    · exact h
    · split at h
      · exact absurd h (by simp)
      · next hx => simp only [ih.element _ _ _ _ hx]; exact h
      · next hx => simp only [ih.element _ _ _ _ hx]; exact ih.elementLoop _ _ _ _ _ _ h

/-- Monotonicity passes to `parseElement`. -/
theorem mono_element {D : Decoders} {fuel : Nat} (ih : FuelMono D fuel) :
    ∀ parser name attr r, xmlDataParser.parseElement D (fuel + 1) parser name attr = some r →
    xmlDataParser.parseElement D (fuel + 1 + 1) parser name attr = some r := by
  intro parser name attr r h
  rw [xmlDataParser.parseElement] at h ⊢
  try dsimp only at h ⊢
  split at h
  · exact h
  · split at h
    · exact h
    · split at h
      · exact absurd h (by simp)
      · next hx => simp only [ih.elementLoop _ _ _ _ _ _ hx]; exact h

/-- Monotonicity passes to the loop of `(*xmlDataParser).parse`. -/
theorem mono_xmlLoop {D : Decoders} {fuel : Nat} (ih : FuelMono D fuel) :
    ∀ parser r, xmlDataParser.parseLoop D (fuel + 1) parser = some r →
    xmlDataParser.parseLoop D (fuel + 1 + 1) parser = some r := by
  intro parser r h
  rw [xmlDataParser.parseLoop] at h ⊢
  try dsimp only at h ⊢
  split at h
  · exact h
  · exact h
  · split at h
    · exact h
    · exact ih.xmlLoop _ _ h
    · exact ih.xmlLoop _ _ h
    · exact ih.xmlLoop _ _ h
    · exact h
    · split at h
      · exact h
      · split at h
        · exact absurd h (by simp)
        · next hx => simp only [ih.element _ _ _ _ hx]; exact h
        · next hx => simp only [ih.element _ _ _ _ hx]; exact ih.xmlLoop _ _ h

/-- Monotonicity passes to `(*xmlDataParser).parse`. -/
theorem mono_xmlParse {D : Decoders} {fuel : Nat} (ih : FuelMono D fuel) :
    ∀ state source r, xmlDataParser.parse D (fuel + 1) state source = some r →
    xmlDataParser.parse D (fuel + 1 + 1) state source = some r := by
  intro state source r h
  rw [xmlDataParser.parse] at h ⊢
  try dsimp only at h ⊢
  split at h
  · exact absurd h (by simp)
  · next hx => simp only [ih.xmlLoop _ _ hx]; exact h
  · next hx => simp only [ih.xmlLoop _ _ hx]; exact h

/-- Fuel monotonicity holds at every fuel. -/
theorem fuelMono_all (D : Decoders) : ∀ fuel, FuelMono D fuel := by
  intro fuel
  induction fuel with
  | zero => exact fuelMono_zero D
  | succ fuel ih =>
    exact ⟨mono_content ih, mono_jsonParse ih, mono_value ih, mono_complexEntity ih,
      mono_object ih, mono_objectLoop ih, mono_array ih, mono_arrayLoop ih,
      mono_xmlParse ih, mono_xmlLoop ih, mono_element ih, mono_elementLoop ih, mono_charData ih⟩

/-- A call of `parseContent` that returns with some fuel returns the same
content and state with any larger fuel: the fuel bounds the recursion and has
no other effect on the result. -/
theorem parseContent_fuel_le (D : Decoders) (fuel fuel2 : Nat) (source : GoString)
    (state : contentParserState) (r : Content × contentParserState)
    (h : parseContent D fuel source state = some r) (hle : fuel ≤ fuel2) :
    parseContent D fuel2 source state = some r := by
  induction hle with
  | refl => exact h
  | step _ ih2 => exact (fuelMono_all D _).content _ _ _ ih2

/-- A call of `ParseContent` that returns with some fuel returns the same
content with any larger fuel. -/
theorem ParseContent_fuel_le (D : Decoders) (fuel fuel2 : Nat) (source : GoString)
    (params : ParseParams) (c : Content)
    (h : ParseContent D fuel source params = some c) (hle : fuel ≤ fuel2) :
    ParseContent D fuel2 source params = some c := by
  cases hr : parseContent D fuel source
      (newContentParserState params.MaxGlobalLevel params.MaxLocalLevel params.MaxFieldCount) with
  | none => simp [ParseContent, hr] at h
  | some r =>
    have h2 := parseContent_fuel_le D fuel fuel2 _ _ r hr hle
    simp only [ParseContent, hr, Option.map_some'] at h
    simp only [ParseContent, h2, Option.map_some']
    exact h

/-! ### The claims -/

/-- C1 (code defect): `ParseContent` does not terminate on the empty source.
The empty string decodes as Base64 to the empty string, so the Base64 branch
of `parseContent` recurses on its own argument: for every decoder pair, every
parameter set and every amount of fuel the call has not returned. -/
theorem ParseContent_empty_never_returns :
    ∀ (D : Decoders) (fuel : Nat) (params : ParseParams),
      ParseContent D fuel [] params = none := by
  intro D fuel params
  simp [ParseContent, parseContent_nil]

/-- C2 (code defect): an overflow of the global limit in one leaf changes how
its sibling is parsed. With `max_global_level = 2`, the leaf `[1]` of
`["[[1]]", "[1]"]` stays a text, while the same leaf of `["x", "[1]"]` is
parsed as a JSON array: the failed `enter` of the first leaf left the global
counter one too high. Both results hold for every fuel from 24 on. -/
theorem global_overflow_changes_sibling :
    ∀ extra : Nat,
      ParseContent exampleDecoders (24 + extra) (ascii "[\"[[1]]\", \"[1]\"]") ⟨2, 4, 4⟩ =
          some (.json (.mk (.array [.content (.text (ascii "[[1]]")),
            .content (.text (ascii "[1]"))]))) ∧
        ParseContent exampleDecoders (24 + extra) (ascii "[\"x\", \"[1]\"]") ⟨2, 4, 4⟩ =
          some (.json (.mk (.array [.content (.text (ascii "x")),
            .content (.json (.mk (.array [.float64 float64One])))]))) := by
  intro extra
  exact ⟨ParseContent_fuel_le _ 24 _ _ _ _ (by decide!) (Nat.le_add_right 24 extra),
    ParseContent_fuel_le _ 24 _ _ _ _ (by decide!) (Nat.le_add_right 24 extra)⟩

/-- C3 (counterexample): `QR==` has non-zero trailing padding bits. A strict
decoder rejects it, so the classification worded with a strict decode is
Unspecified, but `detectProbableContentType` classifies it Base64 with the
decoded string `A`. -/
theorem detect_differs_from_strict_classification :
    classifyStrict (ascii "QR==") = (ascii "QR==", ContentTypeUnspecified) ∧
      detectProbableContentType (ascii "QR==") = (ascii "A", ContentTypeBase64) := by
  decide

/-- C3 (amended): `detectProbableContentType` returns one outcome in priority
order: Xml for `<...>`, else Json for `{...}` or `[...]`, else Base64 with the
decoded bytes when `base64.StdEncoding.DecodeString` (padded, not strict)
succeeds, else Unspecified; `true` and `null` are Base64 with bytes
`b6 bb 9e` and `9e e9 65`. -/
theorem detectProbableContentType_priority (s : GoString) :
    ((hasPrefix s (ascii "<") && hasSuffix s (ascii ">")) = true →
        detectProbableContentType s = (s, ContentTypeXml)) ∧
      ((hasPrefix s (ascii "<") && hasSuffix s (ascii ">")) = false →
        ((hasPrefix s (ascii "\x7b") && hasSuffix s (ascii "\x7d")) ||
          (hasPrefix s (ascii "[") && hasSuffix s (ascii "]"))) = true →
        detectProbableContentType s = (s, ContentTypeJson)) ∧
      ((hasPrefix s (ascii "<") && hasSuffix s (ascii ">")) = false →
        ((hasPrefix s (ascii "\x7b") && hasSuffix s (ascii "\x7d")) ||
          (hasPrefix s (ascii "[") && hasSuffix s (ascii "]"))) = false →
        ∀ decoded, stdDecodeString s = some decoded →
          detectProbableContentType s = (decoded, ContentTypeBase64)) ∧
      ((hasPrefix s (ascii "<") && hasSuffix s (ascii ">")) = false →
        ((hasPrefix s (ascii "\x7b") && hasSuffix s (ascii "\x7d")) ||
          (hasPrefix s (ascii "[") && hasSuffix s (ascii "]"))) = false →
        stdDecodeString s = none →
          detectProbableContentType s = (s, ContentTypeUnspecified)) ∧
      detectProbableContentType (ascii "true") = ([0xb6, 0xbb, 0x9e], ContentTypeBase64) ∧
      detectProbableContentType (ascii "null") = ([0x9e, 0xe9, 0x65], ContentTypeBase64) := by
  have hlt : ascii "<" = [60] := by decide
  have hgt : ascii ">" = [62] := by decide
  have hlb : ascii "\x7b" = [123] := by decide
  have hrb : ascii "\x7d" = [125] := by decide
  have hls : ascii "[" = [91] := by decide
  have hrs : ascii "]" = [93] := by decide
  rw [hlt, hgt, hlb, hrb, hls, hrs]
  refine ⟨?_, ?_, ?_, ?_, by decide, by decide⟩
  · intro hx
    simp [detectProbableContentType, hx]
  · intro hx hj
    unfold detectProbableContentType
    rw [if_neg (by simp [hx])]
    rcases Bool.or_eq_true_iff.mp hj with h | h
    · rw [if_pos h]
    · by_cases h1 : (hasPrefix s [123] && hasSuffix s [125]) = true
      · rw [if_pos h1]
      · rw [if_neg h1, if_pos h]
  · intro hx hj decoded hd
    unfold detectProbableContentType
    rw [Bool.or_eq_false_iff] at hj
    rw [if_neg (by simp [hx]), if_neg (by simp [hj.1]), if_neg (by simp [hj.2])]
    simp [tryParseBase64, hd]
  · intro hx hj hd
    unfold detectProbableContentType
    rw [Bool.or_eq_false_iff] at hj
    rw [if_neg (by simp [hx]), if_neg (by simp [hj.1]), if_neg (by simp [hj.2])]
    simp [tryParseBase64, hd]

/-- Witness for C3 (amended): the Base64 case at `SUREUUQrSURLRkE=`, which
decodes to `IDDQD+IDKFA`. -/
theorem detectProbableContentType_priority_witness :
    detectProbableContentType (ascii "SUREUUQrSURLRkE=") =
      (ascii "IDDQD+IDKFA", ContentTypeBase64) :=
  (detectProbableContentType_priority (ascii "SUREUUQrSURLRkE=")).2.2.1
    (by decide) (by decide) (ascii "IDDQD+IDKFA") (by decide)

/-- C4: when the trimmed source is classified Unspecified, or classified Xml
or Json and the parser returns an error, `parseContent` returns the original
source, untrimmed, as a text leaf (`state2` is the parser state left behind). -/
theorem parseContent_returns_source_on_failure (D : Decoders) (fuel : Nat) (source : GoString)
    (state state2 : contentParserState)
    (h : (∃ data, detectProbableContentType (trimSpace source) = (data, ContentTypeUnspecified) ∧
            state2 = state) ∨
         (∃ data e, detectProbableContentType (trimSpace source) = (data, ContentTypeXml) ∧
            xmlDataParser.parse D fuel state data = some (.error e, state2)) ∨
         (∃ data e, detectProbableContentType (trimSpace source) = (data, ContentTypeJson) ∧
            jsonDataParser.parse D fuel state data = some (.error e, state2))) :
    parseContent D (fuel + 1) source state = some (.text source, state2) := by
  rcases h with ⟨data, hd, hs⟩ | ⟨data, e, hd, hp⟩ | ⟨data, e, hd, hp⟩
  · simp [parseContent, hd, hs]
  · simp [parseContent, hd, hp]
  · simp [parseContent, hd, hp]

/-- Witness for C4: ` [1,] ` is trimmed to `[1,]`, classified Json, the JSON
parser fails on it, and the source comes back with its spaces. -/
theorem parseContent_returns_source_on_failure_witness :
    parseContent exampleDecoders 8 (ascii " [1,] ") (newContentParserState 6 4 4) =
      some (.text (ascii " [1,] "), newContentParserState 6 4 4) :=
  parseContent_returns_source_on_failure exampleDecoders 7 (ascii " [1,] ")
    (newContentParserState 6 4 4) (newContentParserState 6 4 4)
    (Or.inr (Or.inr ⟨ascii "[1,]", decoderError 0, by decide, by decide!⟩))

/-- C5 (code defect): `ICA=` is the Base64 form of two spaces. It is classified
Base64, the decoded string is trimmed to the empty string, and `parseContent`
never returns on it: no `Base64Data` wrapper is produced, whatever the fuel. -/
theorem parseContent_base64_of_spaces_never_returns :
    ∀ (D : Decoders) (fuel : Nat) (state : contentParserState),
      detectProbableContentType (trimSpace (ascii "ICA=")) = (ascii "  ", ContentTypeBase64) ∧
        parseContent D fuel (ascii "ICA=") state = none := by
  intro D fuel state
  have h1 : detectProbableContentType (trimSpace (ascii "ICA=")) =
      (ascii "  ", ContentTypeBase64) := by decide
  have h2 : detectProbableContentType (trimSpace (ascii "  ")) = ([], ContentTypeBase64) := by
    decide
  refine ⟨h1, ?_⟩
  cases fuel with
  | zero => rfl
  | succ n =>
    cases n with
    | zero => simp [parseContent, h1]
    | succ m => simp [parseContent, h1, h2, parseContent_nil]

/-- C6 (code defect): with `max_global_level = 3` and `max_local_level = 4`
the document `[[2]]` (depth 2) nested at depth 1 fits both limits, and it is
parsed inside `["x", "[[2]]"]`; inside `["[[[1]]]", "[[2]]"]` it is not: the
overflow of the leaf before it left the global counter one too high. Both
results hold for every fuel from 40 on. -/
theorem nested_document_within_limits_not_parsed :
    ∀ extra : Nat,
      ParseContent exampleDecoders (40 + extra) (ascii "[\"[[[1]]]\", \"[[2]]\"]") ⟨3, 4, 4⟩ =
          some (.json (.mk (.array [.content (.text (ascii "[[[1]]]")),
            .content (.text (ascii "[[2]]"))]))) ∧
        ParseContent exampleDecoders (40 + extra) (ascii "[\"x\", \"[[2]]\"]") ⟨3, 4, 4⟩ =
          some (.json (.mk (.array [.content (.text (ascii "x")),
            .content (.json (.mk (.array [.array [.float64 float64Two]])))]))) := by
  intro extra
  exact ⟨ParseContent_fuel_le _ 40 _ _ _ _ (by decide!) (Nat.le_add_right 40 extra),
    ParseContent_fuel_le _ 40 _ _ _ _ (by decide!) (Nat.le_add_right 40 extra)⟩

/-- C7 (counterexample): with `max_global_level = 1`, the array `[1]` (depth 1)
reached through one Base64 unwrap (`WzFd`) is parsed, although depth plus
unwraps is 2; the global counter is back at 0 afterwards. -/
theorem base64_unwrap_not_counted :
    detectProbableContentType (trimSpace (ascii "WzFd")) = (ascii "[1]", ContentTypeBase64) ∧
      parseContent exampleDecoders 20 (ascii "WzFd") (newContentParserState 1 1 4) =
        some (.base64 (.json (.mk (.array [.float64 float64One]))),
          newContentParserState 1 1 4) := by
  constructor
  · decide
  · decide!

/-- C7 (amended): a Base64 unwrap leaves the global counter as it is. When
`inner` is reached from `source` through `k` Base64 unwraps and `parseContent`
returns on `inner` from a given state, it returns on `source` from the same
state the same content wrapped `k` times, with the same final state. -/
theorem base64_layers_keep_counter (D : Decoders) (k fuel : Nat) (source inner : GoString)
    (state : contentParserState) (r : Content × contentParserState)
    (hlayers : base64Layers k source = some inner)
    (hinner : parseContent D fuel inner state = some r) :
    parseContent D (fuel + k) source state = some (wrapBase64 k r.1, r.2) := by
  induction k generalizing source with
  | zero =>
    simp only [base64Layers, Option.some.injEq] at hlayers
    subst hlayers
    simpa [wrapBase64] using hinner
  | succ k ih =>
    unfold base64Layers at hlayers
    split at hlayers
    · next data hd =>
      have := ih data hlayers
      rw [← Nat.add_assoc]
      simp [parseContent, hd, this, wrapBase64]
    · exact absurd hlayers (by simp)

/-- Witness for C7 (amended): one unwrap, from `WzFd` to `[1]`. -/
theorem base64_layers_keep_counter_witness :
    parseContent exampleDecoders (10 + 1) (ascii "WzFd") (newContentParserState 1 1 4) =
      some (wrapBase64 1 (.json (.mk (.array [.float64 float64One]))),
        newContentParserState 1 1 4) :=
  base64_layers_keep_counter exampleDecoders 1 10 (ascii "WzFd") (ascii "[1]")
    (newContentParserState 1 1 4)
    (.json (.mk (.array [.float64 float64One])), newContentParserState 1 1 4)
    (by decide) (by decide!)

/-- C8 (counterexample): at the local limit, entering an array, an object or
an element fails with `maxLevelExceedError` after incrementing the local
counter only: the global counter is still 0. -/
theorem entry_at_local_limit_keeps_global :
    jsonDataParser.parseArray exampleDecoders 1 jsonParserAtLocalLimit =
        some (.error maxLevelExceedError,
          { jsonParserAtLocalLimit with localLevelChecker := ⟨1, 0⟩ }) ∧
      jsonDataParser.parseObject exampleDecoders 1 jsonParserAtLocalLimit =
        some (.error maxLevelExceedError,
          { jsonParserAtLocalLimit with localLevelChecker := ⟨1, 0⟩ }) ∧
      xmlDataParser.parseElement exampleDecoders 1 xmlParserAtLocalLimit ⟨[], ascii "a"⟩ [] =
        some (.error maxLevelExceedError,
          { xmlParserAtLocalLimit with localLevelChecker := ⟨1, 0⟩ }) ∧
      jsonParserAtLocalLimit.state.globalLevelChecker.currentLevel = 0 := by
  decide!

/-- C8 (amended): entering a JSON array, a JSON object or an XML element
increments the local counter and, when the local check passes, the global
counter. The entry fails with `maxLevelExceedError` exactly when the
incremented local count exceeds its maximum (global counter untouched) or the
incremented global count exceeds its maximum; otherwise the body runs with
both counters incremented and both are decremented when it returns. -/
theorem entering_checks_levels (D : Decoders) (fuel : Nat) (parser : jsonDataParser)
    (xparser : xmlDataParser) (name : XmlName) (attr : List XmlAttr) :
    jsonDataParser.parseArray D (fuel + 1) parser =
        (if parser.localLevelChecker.maxLevel < parser.localLevelChecker.currentLevel + 1 then
          some (.error maxLevelExceedError,
            { parser with localLevelChecker := parser.localLevelChecker.enter.2 })
        else if parser.state.globalLevelChecker.maxLevel <
            parser.state.globalLevelChecker.currentLevel + 1 then
          some (.error maxLevelExceedError, parser.entered)
        else
          (jsonDataParser.parseArrayLoop D fuel parser.entered []).map
            (fun r => (r.1, r.2.exitLevels))) ∧
      jsonDataParser.parseObject D (fuel + 1) parser =
        (if parser.localLevelChecker.maxLevel < parser.localLevelChecker.currentLevel + 1 then
          some (.error maxLevelExceedError,
            { parser with localLevelChecker := parser.localLevelChecker.enter.2 })
        else if parser.state.globalLevelChecker.maxLevel <
            parser.state.globalLevelChecker.currentLevel + 1 then
          some (.error maxLevelExceedError, parser.entered)
        else
          (jsonDataParser.parseObjectLoop D fuel parser.entered []).map
            (fun r => (r.1, r.2.exitLevels))) ∧
      xmlDataParser.parseElement D (fuel + 1) xparser name attr =
        (if xparser.localLevelChecker.maxLevel < xparser.localLevelChecker.currentLevel + 1 then
          some (.error maxLevelExceedError,
            { xparser with localLevelChecker := xparser.localLevelChecker.enter.2 })
        else if xparser.state.globalLevelChecker.maxLevel <
            xparser.state.globalLevelChecker.currentLevel + 1 then
          some (.error maxLevelExceedError, xparser.entered)
        else
          (xmlDataParser.parseElementLoop D fuel xparser.entered name attr [] none).map
            (fun r => (r.1, r.2.exitLevels))) := by
  refine ⟨?_, ?_, ?_⟩
  · by_cases hl : parser.localLevelChecker.maxLevel < parser.localLevelChecker.currentLevel + 1
    · simp [jsonDataParser.parseArray, levelChecker.enter, hl, not_le.mpr hl]
    · by_cases hg : parser.state.globalLevelChecker.maxLevel <
          parser.state.globalLevelChecker.currentLevel + 1
      · simp [jsonDataParser.parseArray, jsonDataParser.entered, levelChecker.enter, hl, hg,
          not_lt.mp hl, not_le.mpr hg]
      · simp only [jsonDataParser.parseArray, jsonDataParser.entered, levelChecker.enter, hl, hg,
          not_lt.mp hl, not_lt.mp hg, decide_True, if_false]
        cases jsonDataParser.parseArrayLoop D fuel _ [] <;> rfl
  · by_cases hl : parser.localLevelChecker.maxLevel < parser.localLevelChecker.currentLevel + 1
    · simp [jsonDataParser.parseObject, levelChecker.enter, hl, not_le.mpr hl]
    · by_cases hg : parser.state.globalLevelChecker.maxLevel <
          parser.state.globalLevelChecker.currentLevel + 1
      · simp [jsonDataParser.parseObject, jsonDataParser.entered, levelChecker.enter, hl, hg,
          not_lt.mp hl, not_le.mpr hg]
      · simp only [jsonDataParser.parseObject, jsonDataParser.entered, levelChecker.enter, hl, hg,
          not_lt.mp hl, not_lt.mp hg, decide_True, if_false]
        cases jsonDataParser.parseObjectLoop D fuel _ [] <;> rfl
  · by_cases hl : xparser.localLevelChecker.maxLevel < xparser.localLevelChecker.currentLevel + 1
    · simp [xmlDataParser.parseElement, levelChecker.enter, hl, not_le.mpr hl]
    · by_cases hg : xparser.state.globalLevelChecker.maxLevel <
          xparser.state.globalLevelChecker.currentLevel + 1
      · simp [xmlDataParser.parseElement, xmlDataParser.entered, levelChecker.enter, hl, hg,
          not_lt.mp hl, not_le.mpr hg]
      · simp only [xmlDataParser.parseElement, xmlDataParser.entered, levelChecker.enter, hl, hg,
          not_lt.mp hl, not_lt.mp hg, decide_True, if_false]
        cases xmlDataParser.parseElementLoop D fuel _ name attr [] none <;> rfl

/-! ### The size invariant -/

/-- With no fuel no function returns, so the invariant holds. -/
theorem sizeInv_zero (D : Decoders) (n : Int) (p : JsonValue → Bool) : SizeInv D n p 0 := by
  constructor <;> intros <;> simp_all [parseContent, jsonDataParser.parse, jsonDataParser.parseValue, jsonDataParser.parseComplexEntity, jsonDataParser.parseObject, jsonDataParser.parseObjectLoop, jsonDataParser.parseArray, jsonDataParser.parseArrayLoop, xmlDataParser.parse, xmlDataParser.parseLoop, xmlDataParser.parseElement, xmlDataParser.parseElementLoop, xmlDataParser.parseCharData]

/-- The invariant passes from the calls of `parseContent` to `parseContent`. -/
theorem step_content {D : Decoders} {n : Int} {p : JsonValue → Bool} {fuel : Nat} (ih : SizeInv D n p fuel) :
    ∀ source state c state2, parseContent D (fuel + 1) source state = some (c, state2) →
    state.maxFieldCount = n → state2.maxFieldCount = n ∧ c.allJson p = true := by
  intro source state c state2 h hn
  simp only [parseContent] at h
  split at h
  · simp only [Option.some.injEq, Prod.mk.injEq] at h
    obtain ⟨rfl, rfl⟩ := h
    exact ⟨hn, rfl⟩
  · split at h
    · exact absurd h (by simp)
    · next e st hx =>
      simp only [Option.some.injEq, Prod.mk.injEq] at h
      obtain ⟨rfl, rfl⟩ := h
      exact ⟨(ih.xmlParse _ _ _ _ hx hn).1, rfl⟩
    · next d st hx =>
      simp only [Option.some.injEq, Prod.mk.injEq] at h
      obtain ⟨rfl, rfl⟩ := h
      have := ih.xmlParse _ _ _ _ hx hn
      exact ⟨this.1, by simpa [Content.allJson] using this.2 d rfl⟩
  · split at h
    · exact absurd h (by simp)
    · next e st hx =>
      simp only [Option.some.injEq, Prod.mk.injEq] at h
      obtain ⟨rfl, rfl⟩ := h
      exact ⟨(ih.jsonParse _ _ _ _ hx hn).1, rfl⟩
    · next d st hx =>
      simp only [Option.some.injEq, Prod.mk.injEq] at h
      obtain ⟨rfl, rfl⟩ := h
      have := ih.jsonParse _ _ _ _ hx hn
      exact ⟨this.1, by simpa [Content.allJson] using this.2 d rfl⟩
  · split at h
    · exact absurd h (by simp)
    · next r st hx =>
      simp only [Option.some.injEq, Prod.mk.injEq] at h
      obtain ⟨rfl, rfl⟩ := h
      have := ih.content _ _ _ _ hx hn
      exact ⟨this.1, by simpa [Content.allJson] using this.2⟩

/-- The invariant passes to `(*jsonDataParser).parse`. -/
theorem step_jsonParse {D : Decoders} {n : Int} {p : JsonValue → Bool} {fuel : Nat} (ih : SizeInv D n p fuel) :
    ∀ state source r state2, jsonDataParser.parse D (fuel + 1) state source = some (r, state2) →
    state.maxFieldCount = n →
    state2.maxFieldCount = n ∧ ∀ d, r = .ok d → d.allJson p = true := by
  intro state source r state2 h hn
  simp only [jsonDataParser.parse] at h
  split at h
  · exact absurd h (by simp)
  · next e p hx =>
    simp only [Option.some.injEq, Prod.mk.injEq] at h
    obtain ⟨rfl, rfl⟩ := h
    exact ⟨(ih.value _ _ _ hx hn).1, by intro d hd; cases hd⟩
  · next v p hx =>
    have hv := ih.value _ _ _ hx hn
    split at h
    · simp only [Option.some.injEq, Prod.mk.injEq] at h
      obtain ⟨rfl, rfl⟩ := h
      refine ⟨hv.1, ?_⟩
      intro d hd
      cases hd
      simpa [JsonData.allJson] using hv.2 v rfl
    · simp only [Option.some.injEq, Prod.mk.injEq] at h
      obtain ⟨rfl, rfl⟩ := h
      exact ⟨hv.1, by intro d hd; cases hd⟩

/-- The invariant passes to `parseValue`. -/
theorem step_value {D : Decoders} {n : Int} {p : JsonValue → Bool} {fuel : Nat}
    (hp : Admits n p) (ih : SizeInv D n p fuel) :
    ∀ parser r parser2, jsonDataParser.parseValue D (fuel + 1) parser = some (r, parser2) →
    parser.state.maxFieldCount = n →
    parser2.state.maxFieldCount = n ∧ ∀ v, r = .ok v → v.allJson p = true := by
  intro parser r parser2 h hn
  simp only [jsonDataParser.parseValue] at h
  split at h
  · simp only [Option.some.injEq, Prod.mk.injEq] at h
    obtain ⟨rfl, rfl⟩ := h
    exact ⟨hn, by intro v hv; cases hv⟩
  · simp only [Option.some.injEq, Prod.mk.injEq] at h
    obtain ⟨rfl, rfl⟩ := h
    exact ⟨hn, by intro v hv; cases hv⟩
  · split at h
    · exact ih.complexEntity _ _ _ _ _ h hn
    · simp only [Option.some.injEq, Prod.mk.injEq] at h
      obtain ⟨rfl, rfl⟩ := h
      exact ⟨hn, by intro v hv; cases hv; simp [JsonValue.allJson, hp.null, hp.bool, hp.float64]⟩
    · simp only [Option.some.injEq, Prod.mk.injEq] at h
      obtain ⟨rfl, rfl⟩ := h
      exact ⟨hn, by intro v hv; cases hv; simp [JsonValue.allJson, hp.null, hp.bool, hp.float64]⟩
    · simp only [Option.some.injEq, Prod.mk.injEq] at h
      obtain ⟨rfl, rfl⟩ := h
      exact ⟨hn, by intro v hv; cases hv; simp [JsonValue.allJson, hp.null, hp.bool, hp.float64]⟩
    · split at h
      · exact absurd h (by simp)
      · next c st hx =>
        simp only [Option.some.injEq, Prod.mk.injEq] at h
        obtain ⟨rfl, rfl⟩ := h
        have hc := ih.content _ _ _ _ hx hn
        refine ⟨hc.1, ?_⟩
        intro v hv
        cases hv
        simp [JsonValue.allJson, hc.2, hp.content]

/-- The invariant passes to `parseComplexEntity`. -/
theorem step_complexEntity {D : Decoders} {n : Int} {p : JsonValue → Bool} {fuel : Nat} (ih : SizeInv D n p fuel) :
    ∀ parser d e r parser2,
    jsonDataParser.parseComplexEntity D (fuel + 1) parser d e = some (r, parser2) →
    parser.state.maxFieldCount = n →
    parser2.state.maxFieldCount = n ∧ ∀ v, r = .ok v → v.allJson p = true := by
  intro parser d e r parser2 h hn
  simp only [jsonDataParser.parseComplexEntity] at h
  split at h
  · exact ih.object _ _ _ h hn
  · exact ih.array _ _ _ h hn
  · simp only [Option.some.injEq, Prod.mk.injEq] at h
    obtain ⟨rfl, rfl⟩ := h
    exact ⟨hn, by intro v hv; cases hv⟩

/-- `parseFieldName` leaves the parser state as it is. -/
theorem parseFieldName_state (parser : jsonDataParser) :
    parser.parseFieldName.2.state = parser.state := by
  unfold jsonDataParser.parseFieldName
  split
  · rfl
  · rfl
  · split <;> rfl

/-- `parseEndDelimiter` leaves the parser state as it is. -/
theorem parseEndDelimiter_state (parser : jsonDataParser) (d : Delim) (e : ParseError) :
    (parser.parseEndDelimiter d e).2.state = parser.state := by
  unfold jsonDataParser.parseEndDelimiter
  split
  · rfl
  · rfl
  · split
    · split <;> rfl
    · rfl

/-- A map assignment adds at most one entry. -/
theorem mapSet_length_le (m : List (GoString × JsonValue)) (k : GoString) (v : JsonValue) :
    (mapSet m k v).length ≤ m.length + 1 := by
  induction m with
  | nil => simp [mapSet]
  | cons hd tl ih =>
    obtain ⟨k2, v2⟩ := hd
    unfold mapSet
    split
    · simp
    · simpa using ih

/-- A map assignment of a value that passes keeps the fields passing. -/
theorem allJsonFields_mapSet (p : JsonValue → Bool) (m : List (GoString × JsonValue))
    (k : GoString) (v : JsonValue) (hm : JsonValue.allJsonFields p m = true)
    (hv : v.allJson p = true) : JsonValue.allJsonFields p (mapSet m k v) = true := by
  induction m with
  | nil => simp [mapSet, JsonValue.allJsonFields, hv]
  | cons hd tl ih =>
    obtain ⟨k2, v2⟩ := hd
    simp only [JsonValue.allJsonFields, Bool.and_eq_true] at hm
    unfold mapSet
    split
    · simp [JsonValue.allJsonFields, hv, hm.2]
    · simp [JsonValue.allJsonFields, hm.1, ih hm.2]

/-- Appending a value that passes keeps the list passing. -/
theorem allJsonList_append (p : JsonValue → Bool) (l : List JsonValue) (v : JsonValue)
    (hl : JsonValue.allJsonList p l = true) (hv : v.allJson p = true) :
    JsonValue.allJsonList p (l ++ [v]) = true := by
  induction l with
  | nil => simp [JsonValue.allJsonList, hv]
  | cons hd tl ih =>
    simp only [JsonValue.allJsonList, Bool.and_eq_true] at hl
    simp [JsonValue.allJsonList, hl.1, ih hl.2]

/-- The invariant passes to the loop of `parseObject`. -/
theorem step_objectLoop {D : Decoders} {n : Int} {p : JsonValue → Bool} {fuel : Nat}
    (hp : Admits n p) (ih : SizeInv D n p fuel) :
    ∀ parser dest r parser2,
    jsonDataParser.parseObjectLoop D (fuel + 1) parser dest = some (r, parser2) →
    parser.state.maxFieldCount = n → JsonValue.allJsonFields p dest = true →
    (dest.length : Int) ≤ n →
    parser2.state.maxFieldCount = n ∧ ∀ v, r = .ok v → v.allJson p = true := by
  intro parser dest r parser2 h hn hdest hlen
  simp only [jsonDataParser.parseObjectLoop] at h
  split at h
  · split at h
    · simp only [Option.some.injEq, Prod.mk.injEq] at h
      obtain ⟨rfl, rfl⟩ := h
      exact ⟨hn, by intro v hv; cases hv⟩
    · next hne =>
      split at h
      · next e p hf =>
        simp only [Option.some.injEq, Prod.mk.injEq] at h
        obtain ⟨rfl, rfl⟩ := h
        have hst : p.state = parser.state := by simpa [hf] using parseFieldName_state parser
        exact ⟨by rw [hst]; exact hn, by intro v hv; cases hv⟩
      · next name p hf =>
        have hp : p.state.maxFieldCount = n := by
          have hst : p.state = parser.state := by simpa [hf] using parseFieldName_state parser
          rw [hst]; exact hn
        split at h
        · exact absurd h (by simp)
        · next e p2 hx =>
          simp only [Option.some.injEq, Prod.mk.injEq] at h
          obtain ⟨rfl, rfl⟩ := h
          exact ⟨(ih.value _ _ _ hx hp).1, by intro v hv; cases hv⟩
        · next value p2 hx =>
          have hv := ih.value _ _ _ hx hp
          refine ih.objectLoop _ _ _ _ h hv.1 (allJsonFields_mapSet _ _ _ _ hdest (hv.2 _ rfl)) ?_
          have h1 := mapSet_length_le dest name value
          rw [hn] at hne
          omega
  · split at h
    · next e p hf =>
      simp only [Option.some.injEq, Prod.mk.injEq] at h
      obtain ⟨rfl, rfl⟩ := h
      have hst : p.state = parser.state := by simpa [hf] using parseEndDelimiter_state parser .rbrace unexpectedEndOfObjectError
      exact ⟨by rw [hst]; exact hn, by intro v hv; cases hv⟩
    · next p hf =>
      simp only [Option.some.injEq, Prod.mk.injEq] at h
      obtain ⟨rfl, rfl⟩ := h
      have hst : p.state = parser.state := by simpa [hf] using parseEndDelimiter_state parser .rbrace unexpectedEndOfObjectError
      refine ⟨by rw [hst]; exact hn, ?_⟩
      intro v hv
      cases hv
      simp [JsonValue.allJson, hdest, hp.object _ hlen]

/-- The invariant passes to the loop of `parseArray`. -/
theorem step_arrayLoop {D : Decoders} {n : Int} {p : JsonValue → Bool} {fuel : Nat}
    (hp : Admits n p) (ih : SizeInv D n p fuel) :
    ∀ parser dest r parser2,
    jsonDataParser.parseArrayLoop D (fuel + 1) parser dest = some (r, parser2) →
    parser.state.maxFieldCount = n → JsonValue.allJsonList p dest = true →
    (dest.length : Int) ≤ n →
    parser2.state.maxFieldCount = n ∧ ∀ v, r = .ok v → v.allJson p = true := by
  intro parser dest r parser2 h hn hdest hlen
  simp only [jsonDataParser.parseArrayLoop] at h
  split at h
  · split at h
    · simp only [Option.some.injEq, Prod.mk.injEq] at h
      obtain ⟨rfl, rfl⟩ := h
      exact ⟨hn, by intro v hv; cases hv⟩
    · next hne =>
      split at h
      · exact absurd h (by simp)
      · next e p2 hx =>
        simp only [Option.some.injEq, Prod.mk.injEq] at h
        obtain ⟨rfl, rfl⟩ := h
        exact ⟨(ih.value _ _ _ hx hn).1, by intro v hv; cases hv⟩
      · next value p2 hx =>
        have hv := ih.value _ _ _ hx hn
        refine ih.arrayLoop _ _ _ _ h hv.1 (allJsonList_append _ _ _ hdest (hv.2 _ rfl)) ?_
        rw [hn] at hne
        simp only [List.length_append, List.length_singleton, Nat.cast_add, Nat.cast_one]
        omega
  · split at h
    · next e p hf =>
      simp only [Option.some.injEq, Prod.mk.injEq] at h
      obtain ⟨rfl, rfl⟩ := h
      have hst : p.state = parser.state := by simpa [hf] using parseEndDelimiter_state parser .rbracket unexpectedEndOfArrayError
      exact ⟨by rw [hst]; exact hn, by intro v hv; cases hv⟩
    · next p hf =>
      simp only [Option.some.injEq, Prod.mk.injEq] at h
      obtain ⟨rfl, rfl⟩ := h
      have hst : p.state = parser.state := by simpa [hf] using parseEndDelimiter_state parser .rbracket unexpectedEndOfArrayError
      refine ⟨by rw [hst]; exact hn, ?_⟩
      intro v hv
      cases hv
      simp [JsonValue.allJson, hdest, hp.array _ hlen]

/-- The invariant passes to `parseObject`. -/
theorem step_object {D : Decoders} {n : Int} {p : JsonValue → Bool} {fuel : Nat} (hn0 : 0 ≤ n) (ih : SizeInv D n p fuel) :
    ∀ parser r parser2, jsonDataParser.parseObject D (fuel + 1) parser = some (r, parser2) →
    parser.state.maxFieldCount = n →
    parser2.state.maxFieldCount = n ∧ ∀ v, r = .ok v → v.allJson p = true := by
  intro parser r parser2 h hn
  simp only [jsonDataParser.parseObject] at h
  split at h
  · simp only [Option.some.injEq, Prod.mk.injEq] at h
    obtain ⟨rfl, rfl⟩ := h
    exact ⟨hn, by intro v hv; cases hv⟩
  · split at h
    · simp only [Option.some.injEq, Prod.mk.injEq] at h
      obtain ⟨rfl, rfl⟩ := h
      exact ⟨hn, by intro v hv; cases hv⟩
    · split at h
      · exact absurd h (by simp)
      · next res p hx =>
        simp only [Option.some.injEq, Prod.mk.injEq] at h
        obtain ⟨rfl, rfl⟩ := h
        have := ih.objectLoop _ _ _ _ hx hn rfl (by simpa using hn0)
        exact ⟨by simpa [jsonDataParser.exitLevels] using this.1, this.2⟩

/-- The invariant passes to `parseArray`. -/
theorem step_array {D : Decoders} {n : Int} {p : JsonValue → Bool} {fuel : Nat} (hn0 : 0 ≤ n) (ih : SizeInv D n p fuel) :
    ∀ parser r parser2, jsonDataParser.parseArray D (fuel + 1) parser = some (r, parser2) →
    parser.state.maxFieldCount = n →
    parser2.state.maxFieldCount = n ∧ ∀ v, r = .ok v → v.allJson p = true := by
  intro parser r parser2 h hn
  simp only [jsonDataParser.parseArray] at h
  split at h
  · simp only [Option.some.injEq, Prod.mk.injEq] at h
    obtain ⟨rfl, rfl⟩ := h
    exact ⟨hn, by intro v hv; cases hv⟩
  · split at h
    · simp only [Option.some.injEq, Prod.mk.injEq] at h
      obtain ⟨rfl, rfl⟩ := h
      exact ⟨hn, by intro v hv; cases hv⟩
    · split at h
      · exact absurd h (by simp)
      · next res p hx =>
        simp only [Option.some.injEq, Prod.mk.injEq] at h
        obtain ⟨rfl, rfl⟩ := h
        have := ih.arrayLoop _ _ _ _ hx hn rfl (by simpa using hn0)
        exact ⟨by simpa [jsonDataParser.exitLevels] using this.1, this.2⟩

/-- `parseDirective` leaves the parser state as it is. -/
theorem parseDirective_state (parser : xmlDataParser) (directive : GoString) :
    (parser.parseDirective directive).state = parser.state := by
  unfold xmlDataParser.parseDirective
  split
  split
  · rfl
  · split <;> rfl

/-- `parseDirective` changes the directive lists only. -/
theorem parseDirective_allJson (p : JsonValue → Bool) (parser : xmlDataParser)
    (directive : GoString) :
    (parser.parseDirective directive).data.allJson p = parser.data.allJson p := by
  unfold xmlDataParser.parseDirective
  split
  next e d o root hdata =>
  rw [hdata]
  split
  · cases root <;> rfl
  · split <;> cases root <;> rfl

/-- After `data.Root = root` the JSON values of the document are those of the root. -/
theorem setRoot_allJson (p : JsonValue → Bool) (data : XmlData) (root : XmlElement) :
    (data.setRoot root).allJson p = root.allJson p := by
  cases data
  rfl

/-- Appending an element that passes keeps the children passing. -/
theorem allJsonList_append_element (p : JsonValue → Bool) (l : List XmlElement) (e : XmlElement)
    (hl : XmlElement.allJsonList p l = true) (he : e.allJson p = true) :
    XmlElement.allJsonList p (l ++ [e]) = true := by
  induction l with
  | nil => simp [XmlElement.allJsonList, he]
  | cons hd tl ih =>
    simp only [XmlElement.allJsonList, Bool.and_eq_true] at hl
    simp [XmlElement.allJsonList, hl.1, ih hl.2]

/-- The invariant passes to `parseCharData`. -/
theorem step_charData {D : Decoders} {n : Int} {p : JsonValue → Bool} {fuel : Nat} (ih : SizeInv D n p fuel) :
    ∀ parser token c parser2,
    xmlDataParser.parseCharData D (fuel + 1) parser token = some (c, parser2) →
    parser.state.maxFieldCount = n → parser.data.allJson p = true →
    parser2.state.maxFieldCount = n ∧ parser2.data.allJson p = true ∧
      c.allJson p = true := by
  intro parser token c parser2 h hn hdata
  simp only [xmlDataParser.parseCharData] at h
  split at h
  · exact absurd h (by simp)
  · next content st hx =>
    simp only [Option.some.injEq, Prod.mk.injEq] at h
    obtain ⟨rfl, rfl⟩ := h
    have := ih.content _ _ _ _ hx hn
    exact ⟨this.1, hdata, this.2⟩

/-- The invariant passes to the loop of `parseElement`. -/
theorem step_elementLoop {D : Decoders} {n : Int} {p : JsonValue → Bool} {fuel : Nat} (ih : SizeInv D n p fuel) :
    ∀ parser name attr children value r parser2,
    xmlDataParser.parseElementLoop D (fuel + 1) parser name attr children value =
      some (r, parser2) →
    parser.state.maxFieldCount = n → parser.data.allJson p = true →
    XmlElement.allJsonList p children = true →
    (∀ c, value = some c → c.allJson p = true) →
    parser2.state.maxFieldCount = n ∧ parser2.data.allJson p = true ∧
      ∀ e, r = .ok e → e.allJson p = true := by
  intro parser name attr children value r parser2 h hn hdata hch hval
  simp only [xmlDataParser.parseElementLoop] at h
  split at h
  · simp only [Option.some.injEq, Prod.mk.injEq] at h
    obtain ⟨rfl, rfl⟩ := h
    exact ⟨hn, hdata, by intro v hv; cases hv⟩
  · simp only [Option.some.injEq, Prod.mk.injEq] at h
    obtain ⟨rfl, rfl⟩ := h
    exact ⟨hn, hdata, by intro v hv; cases hv⟩
  · split at h
    · split at h
      · exact absurd h (by simp)
      · next content p hx =>
        have hc := ih.charData _ _ _ _ hx hn hdata
        exact ih.elementLoop _ _ _ _ _ _ _ h hc.1 hc.2.1 hch
          (by intro c hcv; cases hcv; exact hc.2.2)
    · exact ih.elementLoop _ _ _ _ _ _ _ h hn hdata hch hval
    · refine ih.elementLoop _ _ _ _ _ _ _ h ?_ ?_ hch hval
      · rw [parseDirective_state]; exact hn
      · rw [parseDirective_allJson]; exact hdata
    · exact ih.elementLoop _ _ _ _ _ _ _ h hn hdata hch hval
    · split at h
      · simp only [Option.some.injEq, Prod.mk.injEq] at h
        obtain ⟨rfl, rfl⟩ := h
        exact ⟨hn, hdata, by intro v hv; cases hv⟩
      · simp only [Option.some.injEq, Prod.mk.injEq] at h
        obtain ⟨rfl, rfl⟩ := h
        refine ⟨hn, hdata, ?_⟩
        intro e he
        cases he
        cases value with
        | none => simp [XmlElement.allJson, hch]
        | some c => simp [XmlElement.allJson, hch, hval c rfl]
    · split at h
      · exact absurd h (by simp)
      · next e p hx =>
        simp only [Option.some.injEq, Prod.mk.injEq] at h
        obtain ⟨rfl, rfl⟩ := h
        have he := ih.element _ _ _ _ _ hx hn hdata
        exact ⟨he.1, he.2.1, by intro v hv; cases hv⟩
      · next child p hx =>
        have he := ih.element _ _ _ _ _ hx hn hdata
        exact ih.elementLoop _ _ _ _ _ _ _ h he.1 he.2.1
          (allJsonList_append_element _ _ _ hch (he.2.2 _ rfl)) hval

/-- The invariant passes to `parseElement`. -/
theorem step_element {D : Decoders} {n : Int} {p : JsonValue → Bool} {fuel : Nat} (ih : SizeInv D n p fuel) :
    ∀ parser name attr r parser2,
    xmlDataParser.parseElement D (fuel + 1) parser name attr = some (r, parser2) →
    parser.state.maxFieldCount = n → parser.data.allJson p = true →
    parser2.state.maxFieldCount = n ∧ parser2.data.allJson p = true ∧
      ∀ e, r = .ok e → e.allJson p = true := by
  intro parser name attr r parser2 h hn hdata
  simp only [xmlDataParser.parseElement] at h
  split at h
  · simp only [Option.some.injEq, Prod.mk.injEq] at h
    obtain ⟨rfl, rfl⟩ := h
    exact ⟨hn, hdata, by intro v hv; cases hv⟩
  · split at h
    · simp only [Option.some.injEq, Prod.mk.injEq] at h
      obtain ⟨rfl, rfl⟩ := h
      exact ⟨hn, hdata, by intro v hv; cases hv⟩
    · split at h
      · exact absurd h (by simp)
      · next res p hx =>
        simp only [Option.some.injEq, Prod.mk.injEq] at h
        obtain ⟨rfl, rfl⟩ := h
        have := ih.elementLoop _ _ _ _ _ _ _ hx hn hdata rfl (by intro c hc; cases hc)
        exact ⟨by simpa [xmlDataParser.exitLevels] using this.1,
          by simpa [xmlDataParser.exitLevels] using this.2.1, this.2.2⟩

/-- The invariant passes to the loop of `(*xmlDataParser).parse`. -/
theorem step_xmlLoop {D : Decoders} {n : Int} {p : JsonValue → Bool} {fuel : Nat} (ih : SizeInv D n p fuel) :
    ∀ parser r parser2, xmlDataParser.parseLoop D (fuel + 1) parser = some (r, parser2) →
    parser.state.maxFieldCount = n → parser.data.allJson p = true →
    parser2.state.maxFieldCount = n ∧ ∀ d, r = .ok d → d.allJson p = true := by
  intro parser r parser2 h hn hdata
  simp only [xmlDataParser.parseLoop] at h
  split at h
  · simp only [Option.some.injEq, Prod.mk.injEq] at h
    obtain ⟨rfl, rfl⟩ := h
    exact ⟨hn, by intro d hd; cases hd; exact hdata⟩
  · simp only [Option.some.injEq, Prod.mk.injEq] at h
    obtain ⟨rfl, rfl⟩ := h
    exact ⟨hn, by intro v hv; cases hv⟩
  · split at h
    · simp only [Option.some.injEq, Prod.mk.injEq] at h
      obtain ⟨rfl, rfl⟩ := h
      exact ⟨hn, by intro v hv; cases hv⟩
    · exact ih.xmlLoop _ _ _ h hn hdata
    · refine ih.xmlLoop _ _ _ h ?_ ?_
      · rw [parseDirective_state]; exact hn
      · rw [parseDirective_allJson]; exact hdata
    · exact ih.xmlLoop _ _ _ h hn hdata
    · simp only [Option.some.injEq, Prod.mk.injEq] at h
      obtain ⟨rfl, rfl⟩ := h
      exact ⟨hn, by intro v hv; cases hv⟩
    · split at h
      · simp only [Option.some.injEq, Prod.mk.injEq] at h
        obtain ⟨rfl, rfl⟩ := h
        exact ⟨hn, by intro v hv; cases hv⟩
      · split at h
        · exact absurd h (by simp)
        · next e p hx =>
          simp only [Option.some.injEq, Prod.mk.injEq] at h
          obtain ⟨rfl, rfl⟩ := h
          exact ⟨(ih.element _ _ _ _ _ hx hn hdata).1, by intro v hv; cases hv⟩
        · next root p hx =>
          have he := ih.element _ _ _ _ _ hx hn hdata
          refine ih.xmlLoop _ _ _ h he.1 ?_
          simp only [setRoot_allJson]
          exact he.2.2 _ rfl

/-- The invariant passes to `(*xmlDataParser).parse`. -/
theorem step_xmlParse {D : Decoders} {n : Int} {p : JsonValue → Bool} {fuel : Nat} (ih : SizeInv D n p fuel) :
    ∀ state source r state2, xmlDataParser.parse D (fuel + 1) state source = some (r, state2) →
    state.maxFieldCount = n →
    state2.maxFieldCount = n ∧ ∀ d, r = .ok d → d.allJson p = true := by
  intro state source r state2 h hn
  simp only [xmlDataParser.parse] at h
  split at h
  · exact absurd h (by simp)
  · next e p hx =>
    simp only [Option.some.injEq, Prod.mk.injEq] at h
    obtain ⟨rfl, rfl⟩ := h
    exact ⟨(ih.xmlLoop _ _ _ hx hn rfl).1, by intro v hv; cases hv⟩
  · next d p hx =>
    simp only [Option.some.injEq, Prod.mk.injEq] at h
    obtain ⟨rfl, rfl⟩ := h
    have := ih.xmlLoop _ _ _ hx hn rfl
    exact ⟨this.1, by intro v hv; cases hv; exact this.2 _ rfl⟩

/-- The size invariant holds at every fuel: with a non-negative `maxFieldCount = n`, every function returns a state with the same `maxFieldCount` and values whose arrays and objects have at most `n` entries. -/
theorem sizeInv_all (D : Decoders) (n : Int) (p : JsonValue → Bool) (hp : Admits n p)
    (hn0 : 0 ≤ n) : ∀ fuel, SizeInv D n p fuel := by
  intro fuel
  induction fuel with
  | zero => exact sizeInv_zero D n p
  | succ fuel ih =>
    exact ⟨step_content ih, step_jsonParse ih, step_value hp ih, step_complexEntity ih,
      step_object hn0 ih, step_objectLoop hp ih, step_array hn0 ih, step_arrayLoop hp ih,
      step_xmlParse ih, step_xmlLoop ih, step_element ih, step_elementLoop ih, step_charData ih⟩

/-- The test `arrayWithin n` passes leaves, objects, and arrays of at most `n`
elements. -/
theorem admits_arrayWithin (n : Int) : Admits n (arrayWithin n) := by
  constructor <;> intros <;> simp_all [arrayWithin]

/-- The test `objectWithin n` passes leaves, arrays, and objects of at most `n`
fields. -/
theorem admits_objectWithin (n : Int) : Admits n (objectWithin n) := by
  constructor <;> intros <;> simp_all [objectWithin]

/-- The number of entries after a map assignment: unchanged for a name already
present, one more for a new name. -/
theorem mapSet_length (destObject : List (GoString × JsonValue)) (fieldName : GoString)
    (value : JsonValue) :
    (mapSet destObject fieldName value).length =
      if fieldName ∈ fieldNames destObject then destObject.length else destObject.length + 1 := by
  induction destObject with
  | nil => simp [mapSet, fieldNames]
  | cons hd tl ih =>
    obtain ⟨k, v⟩ := hd
    unfold mapSet
    by_cases hk : k = fieldName
    · simp [hk, fieldNames]
    · have hk2 : ¬ fieldName = k := fun h => hk h.symm
      simp only [fieldNames] at ih
      simp only [hk, if_false, List.length_cons, ih, fieldNames, List.map_cons, List.mem_cons, hk2,
        false_or]
      split <;> rfl

/-- C9 (counterexample): with `max_field_count = 2` the object
`{"a":1,"a":1,"a":2}` lists three fields and is parsed without error: each
field overwrites the one before and the map never holds more than one entry. -/
theorem repeated_field_names_not_counted :
    ParseContent exampleDecoders 30 (ascii "\x7b\"a\":1,\"a\":1,\"a\":2\x7d") ⟨6, 4, 2⟩ =
      some (.json (.mk (.object [(ascii "a", .float64 float64Two)]))) := by
  decide!

/-- C9 (amended): the cap counts the fields stored in the object. For
`max_field_count ≥ 0` every object in a successfully parsed JSON tree has at
most `max_field_count` fields; the loop of `parseObject` fails with
`maxFieldCountExceedError` as soon as a further field follows while the map
holds `max_field_count` entries; a field whose name is already present
overwrites it and leaves the number of entries unchanged. -/
theorem object_field_count_cap (D : Decoders) (fuel : Nat) (state state2 : contentParserState)
    (source : GoString) (data : JsonData) (h0 : 0 ≤ state.maxFieldCount)
    (hparse : jsonDataParser.parse D fuel state source = some (.ok data, state2)) :
    data.allJson (objectWithin state.maxFieldCount) = true ∧
      (∀ (fuel2 : Nat) (parser : jsonDataParser) (destObject : List (GoString × JsonValue)),
        parser.decoder.More = true → (destObject.length : Int) = parser.state.maxFieldCount →
        jsonDataParser.parseObjectLoop D (fuel2 + 1) parser destObject =
          some (.error maxFieldCountExceedError, parser)) ∧
      (∀ (destObject : List (GoString × JsonValue)) (fieldName : GoString) (value : JsonValue),
        (mapSet destObject fieldName value).length =
          if fieldName ∈ fieldNames destObject then destObject.length
          else destObject.length + 1) := by
  refine ⟨?_, ?_, mapSet_length⟩
  · exact ((sizeInv_all D state.maxFieldCount _ (admits_objectWithin _) h0 fuel).jsonParse
      _ _ _ _ hparse rfl).2 data rfl
  · intro fuel2 parser destObject hmore hlen
    simp [jsonDataParser.parseObjectLoop, hmore, hlen]

/-- Witness for C9 (amended): the parse of `{"a":1,"a":1,"a":2}` with
`max_field_count = 2`. -/
theorem object_field_count_cap_witness :
    (JsonData.mk (.object [(ascii "a", .float64 float64Two)])).allJson
      (objectWithin (newContentParserState 6 4 2).maxFieldCount) = true :=
  (object_field_count_cap exampleDecoders 20 (newContentParserState 6 4 2)
    (newContentParserState 6 4 2) (ascii "\x7b\"a\":1,\"a\":1,\"a\":2\x7d")
    (.mk (.object [(ascii "a", .float64 float64Two)])) (by decide) (by decide!)).1

/-- C10: for `max_field_count ≥ 0` every array in a successfully parsed JSON
tree has at most `max_field_count` elements. The loop of `parseArray` fails
with `maxFieldCountExceedError` as soon as a further element follows while
`max_field_count` elements are stored; while fewer are stored a further element
is parsed and appended, and at the closing delimiter the array is returned
whatever its length: the element count fails no array within the cap. -/
theorem array_element_count_cap (D : Decoders) (fuel : Nat) (state state2 : contentParserState)
    (source : GoString) (data : JsonData) (h0 : 0 ≤ state.maxFieldCount)
    (hparse : jsonDataParser.parse D fuel state source = some (.ok data, state2)) :
    data.allJson (arrayWithin state.maxFieldCount) = true ∧
      (∀ (fuel2 : Nat) (parser : jsonDataParser) (destArray : List JsonValue),
        parser.decoder.More = true → (destArray.length : Int) = parser.state.maxFieldCount →
        jsonDataParser.parseArrayLoop D (fuel2 + 1) parser destArray =
          some (.error maxFieldCountExceedError, parser)) ∧
      (∀ (fuel2 : Nat) (parser : jsonDataParser) (destArray : List JsonValue),
        parser.decoder.More = true → (destArray.length : Int) < parser.state.maxFieldCount →
        jsonDataParser.parseArrayLoop D (fuel2 + 1) parser destArray =
          match jsonDataParser.parseValue D fuel2 parser with
          | none => none
          | some (.error valueError, parser2) => some (.error valueError, parser2)
          | some (.ok value, parser2) =>
            jsonDataParser.parseArrayLoop D fuel2 parser2 (destArray ++ [value])) ∧
      (∀ (fuel2 : Nat) (parser : jsonDataParser) (destArray : List JsonValue),
        parser.decoder.More = false →
        jsonDataParser.parseArrayLoop D (fuel2 + 1) parser destArray =
          match parser.parseEndDelimiter .rbracket unexpectedEndOfArrayError with
          | (some endDelimiterError, parser2) => some (.error endDelimiterError, parser2)
          | (none, parser2) => some (.ok (.array destArray), parser2)) := by
  refine ⟨?_, ?_, ?_, ?_⟩
  · exact ((sizeInv_all D state.maxFieldCount _ (admits_arrayWithin _) h0 fuel).jsonParse
      _ _ _ _ hparse rfl).2 data rfl
  · intro fuel2 parser destArray hmore hlen
    simp [jsonDataParser.parseArrayLoop, hmore, hlen]
  · intro fuel2 parser destArray hmore hlen
    simp only [jsonDataParser.parseArrayLoop, hmore, if_true, ne_of_lt hlen, if_false]
  · intro fuel2 parser destArray hmore
    simp [jsonDataParser.parseArrayLoop, hmore]

/-- Witness for C10: the parse of `[1]` with `max_field_count = 4`. -/
theorem array_element_count_cap_witness :
    (JsonData.mk (.array [.float64 float64One])).allJson
      (arrayWithin (newContentParserState 6 4 4).maxFieldCount) = true :=
  (array_element_count_cap exampleDecoders 20 (newContentParserState 6 4 4)
    (newContentParserState 6 4 4) (ascii "[1]")
    (.mk (.array [.float64 float64One])) (by decide) (by decide!)).1

/-- C11: a stream that holds a comment and then ends is parsed with success,
and the `XmlData` returned has a nil `Root`: a document without a root element
is accepted. A `StartElement` at top level once `Root` is set does make the
parse fail with `badXMLStructureError`. -/
theorem parse_accepts_document_without_root (D : Decoders) (state : contentParserState)
    (source comment : GoString) (extra : Nat) :
    (D.xml source = ⟨[.Comment comment], none⟩ →
      xmlDataParser.parse D (extra + 3) state source = some (.ok NewXmlData, state) ∧
        NewXmlData.Root = none) ∧
    (∀ (parser : xmlDataParser) (root : XmlElement) (name : XmlName) (attr : List XmlAttr)
        (rest : List XmlToken),
      parser.data.Root = some root →
      parser.decoder.tokens = .StartElement name attr :: rest →
      ∃ p, xmlDataParser.parseLoop D (extra + 1) parser = some (.error badXMLStructureError, p)) := by
  constructor
  · intro h
    refine ⟨?_, rfl⟩
    simp [xmlDataParser.parse, xmlDataParser.parseLoop, h, xmlDecoder.Token]
  · intro parser root name attr rest hroot htok
    rw [xmlDataParser.parseLoop]
    simp [xmlDecoder.Token, htok, hroot]

/-- Witness for C11: the source `<!--c-->` is parsed with success and has no
root element. -/
theorem parse_accepts_document_without_root_witness :
    xmlDataParser.parse commentDecoders 3 (newContentParserState 4 4 4) (ascii "<!--c-->") =
      some (.ok NewXmlData, newContentParserState 4 4 4) ∧ NewXmlData.Root = none :=
  (parse_accepts_document_without_root commentDecoders (newContentParserState 4 4 4)
    (ascii "<!--c-->") (ascii "c") 0).1 (by decide)

/-- C35 (code defect): a call of `parseArray`, `parseObject` or `parseElement`
that fails on the global limit returns `maxLevelExceedError` with the global
counter one above its level before the call; and `parseContent` on `[[1]]`
with `max_global_level = 1` returns with the counter at 1, having started
at 0, for every fuel from 24 on. -/
theorem global_counter_not_released (D : Decoders) (fuel : Nat) (parser : jsonDataParser)
    (xparser : xmlDataParser) (name : XmlName) (attr : List XmlAttr)
    (hl : parser.localLevelChecker.currentLevel + 1 ≤ parser.localLevelChecker.maxLevel)
    (hg : parser.state.globalLevelChecker.maxLevel <
      parser.state.globalLevelChecker.currentLevel + 1)
    (hxl : xparser.localLevelChecker.currentLevel + 1 ≤ xparser.localLevelChecker.maxLevel)
    (hxg : xparser.state.globalLevelChecker.maxLevel <
      xparser.state.globalLevelChecker.currentLevel + 1) :
    (∃ after, jsonDataParser.parseArray D (fuel + 1) parser =
        some (.error maxLevelExceedError, after) ∧
      after.state.globalLevelChecker.currentLevel =
        parser.state.globalLevelChecker.currentLevel + 1) ∧
    (∃ after, jsonDataParser.parseObject D (fuel + 1) parser =
        some (.error maxLevelExceedError, after) ∧
      after.state.globalLevelChecker.currentLevel =
        parser.state.globalLevelChecker.currentLevel + 1) ∧
    (∃ after, xmlDataParser.parseElement D (fuel + 1) xparser name attr =
        some (.error maxLevelExceedError, after) ∧
      after.state.globalLevelChecker.currentLevel =
        xparser.state.globalLevelChecker.currentLevel + 1) ∧
    (∀ extra : Nat,
      parseContent exampleDecoders (24 + extra) (ascii "[[1]]") (newContentParserState 1 4 4) =
        some (.text (ascii "[[1]]"),
          { newContentParserState 1 4 4 with globalLevelChecker := ⟨1, 1⟩ })) := by
  refine ⟨⟨parser.entered, ?_, rfl⟩, ⟨parser.entered, ?_, rfl⟩, ⟨xparser.entered, ?_, rfl⟩, ?_⟩
  · simp [jsonDataParser.parseArray, jsonDataParser.entered, levelChecker.enter, hl,
      not_le.mpr hg]
  · simp [jsonDataParser.parseObject, jsonDataParser.entered, levelChecker.enter, hl,
      not_le.mpr hg]
  · simp [xmlDataParser.parseElement, xmlDataParser.entered, levelChecker.enter, hxl,
      not_le.mpr hxg]
  · intro extra
    exact parseContent_fuel_le _ 24 _ _ _ _ (by decide!) (Nat.le_add_right 24 extra)

/-- Witness for C35: at the global limit `parseArray` fails and leaves the
global counter at 1. -/
theorem global_counter_not_released_witness :
    ∃ after, jsonDataParser.parseArray exampleDecoders 1 jsonParserAtGlobalLimit =
        some (.error maxLevelExceedError, after) ∧
      after.state.globalLevelChecker.currentLevel =
        jsonParserAtGlobalLimit.state.globalLevelChecker.currentLevel + 1 :=
  (global_counter_not_released exampleDecoders 0 jsonParserAtGlobalLimit xmlParserAtGlobalLimit
    ⟨[], ascii "a"⟩ [] (by decide) (by decide) (by decide) (by decide)).1

end ContentParsing

namespace ExpressionTree

open ContentParsing (GoString ascii decodeRune runeError)

open Error

section theorems

variable {H σ V : Type}

/-! ### Fuel -/

theorem parseMono_zero [DecidableEq V] (storage : parseStorage V) : ParseMono H σ storage 0 :=
  ⟨fun r x h => by simp [parseExpression] at h,
   fun r acc x h => by simp [parseLogicalExpressionArgs] at h,
   fun r x h => by simp [parseNotArg] at h⟩

theorem mono_expression [DecidableEq V] (storage : parseStorage V) (fuel : Nat)
    (ih : ParseMono H σ storage fuel) (reader : sourceReader)
    (x : Outcome (PredicateWithError H σ V × sourceReader))
    (h : parseExpression storage (fuel + 1) reader = some x) :
    parseExpression storage (fuel + 1 + 1) reader = some x := by
  rw [parseExpression] at h ⊢
  rcases hrt : reader.readTo (ascii "(") with ⟨value, r1⟩ | e | _ <;> rw [hrt] at h <;>
    simp only at h ⊢ <;> try exact h
  by_cases hAnd : trimSuffix value (ascii "(") = ascii "AND"
  · rw [if_pos hAnd] at h ⊢
    rcases hl : (parseLogicalExpressionArgs storage fuel r1 [] :
        Option (Outcome (List (PredicateWithError H σ V) × sourceReader))) with _ | y
    · rw [hl] at h; simp at h
    · rw [ih.arguments _ _ _ hl]; rw [hl] at h; exact h
  · rw [if_neg hAnd] at h ⊢
    by_cases hOr : trimSuffix value (ascii "(") = ascii "OR"
    · rw [if_pos hOr] at h ⊢
      rcases hl : (parseLogicalExpressionArgs storage fuel r1 [] :
          Option (Outcome (List (PredicateWithError H σ V) × sourceReader))) with _ | y
      · rw [hl] at h; simp at h
      · rw [ih.arguments _ _ _ hl]; rw [hl] at h; exact h
    · rw [if_neg hOr] at h ⊢
      by_cases hNot : trimSuffix value (ascii "(") = ascii "NOT"
      · rw [if_pos hNot] at h ⊢
        rcases hl : (parseNotArg storage fuel r1 :
            Option (Outcome (PredicateWithError H σ V × sourceReader))) with _ | y
        · rw [hl] at h; simp at h
        · rw [ih.notArg _ _ hl]; rw [hl] at h; exact h
      · rw [if_neg hNot] at h ⊢
        exact h

theorem mono_arguments [DecidableEq V] (storage : parseStorage V) (fuel : Nat)
    (ih : ParseMono H σ storage fuel) (reader : sourceReader)
    (acc : List (PredicateWithError H σ V))
    (x : Outcome (List (PredicateWithError H σ V) × sourceReader))
    (h : parseLogicalExpressionArgs storage (fuel + 1) reader acc = some x) :
    parseLogicalExpressionArgs storage (fuel + 1 + 1) reader acc = some x := by
  rw [parseLogicalExpressionArgs] at h ⊢
  rcases hpe : (parseExpression storage fuel reader :
      Option (Outcome (PredicateWithError H σ V × sourceReader))) with _ | y
  · rw [hpe] at h; simp at h
  · rw [ih.expression _ _ hpe]
    rw [hpe] at h
    rcases y with ⟨argument, r1⟩ | e | _ <;> simp only at h ⊢ <;> try exact h
    rcases hrc : r1.readCurrent with ⟨cur, r2⟩ | e | _ <;> rw [hrc] at h <;>
      simp only at h ⊢ <;> try exact h
    by_cases hcomma : cur = ascii ","
    · rw [if_pos hcomma] at h ⊢
      exact ih.arguments _ _ _ h
    · rw [if_neg hcomma] at h ⊢
      exact h

theorem mono_notArg [DecidableEq V] (storage : parseStorage V) (fuel : Nat)
    (ih : ParseMono H σ storage fuel) (reader : sourceReader)
    (x : Outcome (PredicateWithError H σ V × sourceReader))
    (h : parseNotArg storage (fuel + 1) reader = some x) :
    parseNotArg storage (fuel + 1 + 1) reader = some x := by
  rw [parseNotArg] at h ⊢
  rcases hpe : (parseExpression storage fuel reader :
      Option (Outcome (PredicateWithError H σ V × sourceReader))) with _ | y
  · rw [hpe] at h; simp at h
  · rw [ih.expression _ _ hpe]
    rw [hpe] at h
    exact h

theorem parseMono_all [DecidableEq V] (storage : parseStorage V) (fuel : Nat) :
    ParseMono H σ storage fuel := by
  induction fuel with
  | zero => exact parseMono_zero storage
  | succ fuel ih =>
    exact ⟨mono_expression storage fuel ih, mono_arguments storage fuel ih,
      mono_notArg storage fuel ih⟩

theorem parseExpression_fuel_le [DecidableEq V] (storage : parseStorage V) (fuel extra : Nat)
    (reader : sourceReader) (x : Outcome (PredicateWithError H σ V × sourceReader))
    (h : parseExpression storage fuel reader = some x) :
    parseExpression storage (fuel + extra) reader = some x := by
  induction extra with
  | zero => exact h
  | succ extra ih => exact (parseMono_all storage (fuel + extra)).expression _ _ ih

theorem parseExpressionTree_fuel_le [DecidableEq V] (storage : parseStorage V)
    (fuel extra : Nat) (source : GoString) (x : Outcome (PredicateWithError H σ V))
    (h : parseExpressionTree fuel source storage = some x) :
    parseExpressionTree (fuel + extra) source storage = some x := by
  simp only [parseExpressionTree] at h ⊢
  rcases hpe : (parseExpression storage fuel (newSourceReader source) :
      Option (Outcome (PredicateWithError H σ V × sourceReader))) with _ | y
  · rw [hpe] at h; simp at h
  · rw [parseExpression_fuel_le storage fuel extra _ _ hpe]
    rw [hpe] at h
    exact h

/-! ### Runes -/

theorem decodeRune_ascii (b : Nat) (s : GoString) (h : b < 0x80) :
    decodeRune (b :: s) = (b, 1) := by
  simp [decodeRune, h]

theorem decodeRune_size_pos (b : Nat) (s : GoString) : 1 ≤ (decodeRune (b :: s)).2 := by
  simp only [decodeRune]
  split_ifs <;> (try split) <;> (try split_ifs) <;> simp

theorem decodeRune_lt (b : Nat) (s : GoString) (h : (decodeRune (b :: s)).1 < 0x80) :
    b < 0x80 := by
  by_contra hb
  simp only [decodeRune] at h
  rw [if_neg hb] at h
  simp only [runeError, ContentParsing.isCont] at h
  split_ifs at h <;> (try split at h) <;> (try split_ifs at h) <;>
    simp only [Bool.and_eq_true, decide_eq_true_eq, beq_iff_eq] at * <;> omega

theorem runesAux_fuel (f1 f2 : Nat) (s : GoString) (h1 : s.length ≤ f1) (h2 : s.length ≤ f2) :
    runesAux f1 s = runesAux f2 s := by
  induction f1 generalizing f2 s with
  | zero =>
    have : s = [] := List.length_eq_zero.mp (Nat.le_zero.mp h1)
    subst this
    cases f2 <;> rfl
  | succ f1 ih =>
    cases s with
    | nil => cases f2 <;> rfl
    | cons b s =>
      cases f2 with
      | zero => simp at h2
      | succ f2 =>
        simp only [runesAux]
        have hpos := decodeRune_size_pos b s
        have hlen : ((b :: s).drop (decodeRune (b :: s)).2).length ≤ s.length := by
          simp only [List.length_drop, List.length_cons]; omega
        simp only [List.length_cons] at h1 h2
        rw [ih f2 _ (by omega) (by omega)]

theorem toRunes_nil : toRunes [] = [] := rfl

theorem toRunes_cons (b : Nat) (s : GoString) :
    toRunes (b :: s) =
      (decodeRune (b :: s)).1 :: toRunes ((b :: s).drop (decodeRune (b :: s)).2) := by
  simp only [toRunes, List.length_cons, runesAux]
  have hpos := decodeRune_size_pos b s
  rw [runesAux_fuel s.length _ _ _ (le_refl _)]
  simp only [List.length_drop, List.length_cons]; omega

theorem toRunes_cons_ascii (b : Nat) (s : GoString) (h : b < 0x80) :
    toRunes (b :: s) = b :: toRunes s := by
  rw [toRunes_cons, decodeRune_ascii b s h]; rfl

theorem isAscii_nil : isAscii [] := by intro b hb; simp at hb

theorem isAscii_cons {b : Nat} {s : GoString} : isAscii (b :: s) ↔ b < 0x80 ∧ isAscii s := by
  simp [isAscii]

theorem isAscii_append {s t : GoString} : isAscii (s ++ t) ↔ isAscii s ∧ isAscii t := by
  simp only [isAscii, List.mem_append]
  constructor
  · intro h; exact ⟨fun b hb => h b (Or.inl hb), fun b hb => h b (Or.inr hb)⟩
  · rintro ⟨h1, h2⟩ b (hb | hb)
    · exact h1 b hb
    · exact h2 b hb

theorem toRunes_ascii_append (c u : GoString) (hc : isAscii c) :
    toRunes (c ++ u) = c ++ toRunes u := by
  induction c with
  | nil => rfl
  | cons b c ih =>
    rw [isAscii_cons] at hc
    rw [List.cons_append, toRunes_cons_ascii _ _ hc.1, ih hc.2]; rfl

theorem encodeRune_ascii (b : Nat) (h : b < 0x80) : encodeRune b = [b] := by
  simp [encodeRune, h]

theorem encodeRune_ne_nil (r : Nat) : encodeRune r ≠ [] := by
  unfold encodeRune
  split_ifs <;> simp

theorem encodeRune_head (r b : Nat) (rest : GoString) (h : encodeRune r = b :: rest)
    (hb : b < 0x80) : r = b ∧ rest = [] := by
  unfold encodeRune at h
  split_ifs at h with h1 h2 h3 h4 <;> simp only [List.cons.injEq] at h
  · exact ⟨h.1, h.2.symm⟩
  all_goals omega

theorem fromRunes_ascii_append (c rs : List Nat) (hc : isAscii c) :
    fromRunes (c ++ rs) = c ++ fromRunes rs := by
  induction c with
  | nil => rfl
  | cons b c ih =>
    rw [isAscii_cons] at hc
    have : fromRunes (b :: (c ++ rs)) = encodeRune b ++ fromRunes (c ++ rs) := rfl
    rw [List.cons_append, this, encodeRune_ascii b hc.1, ih hc.2]; rfl

theorem fromRunes_eq_nil (rs : List Nat) : fromRunes rs = [] ↔ rs = [] := by
  cases rs with
  | nil => simp [fromRunes]
  | cons r rs =>
    simp only [fromRunes, List.append_eq_nil, reduceCtorEq, iff_false, not_and]
    intro h; exact absurd h (encodeRune_ne_nil r)

theorem toRunes_eq_nil (s : GoString) : toRunes s = [] ↔ s = [] := by
  cases s with
  | nil => simp [toRunes_nil]
  | cons b s => simp [toRunes_cons]

theorem renormalize_eq_nil (s : GoString) : renormalize s = [] ↔ s = [] := by
  simp [renormalize, fromRunes_eq_nil, toRunes_eq_nil]

theorem renormalize_ascii_append (c u : GoString) (hc : isAscii c) :
    renormalize (c ++ u) = c ++ renormalize u := by
  simp [renormalize, toRunes_ascii_append c u hc, fromRunes_ascii_append c _ hc]

/-- A rune list whose encoding starts with an ASCII byte starts with that rune. -/
theorem fromRunes_head (rs : List Nat) (b : Nat) (w : GoString) (hb : b < 0x80)
    (h : fromRunes rs = b :: w) : ∃ rs0, rs = b :: rs0 ∧ fromRunes rs0 = w := by
  cases rs with
  | nil => simp [fromRunes] at h
  | cons r rs =>
    simp only [fromRunes] at h
    rcases he : encodeRune r with _ | ⟨b0, rest⟩
    · exact absurd he (encodeRune_ne_nil r)
    · rw [he] at h
      simp only [List.cons_append, List.cons.injEq] at h
      obtain ⟨hb0, hw⟩ := h
      subst hb0
      obtain ⟨hr, hrest⟩ := encodeRune_head r b0 rest he hb
      subst hr hrest
      exact ⟨rs, rfl, by simpa using hw⟩

/-- A string whose runes start with an ASCII rune starts with that byte. -/
theorem toRunes_head (s : GoString) (b : Nat) (rs : List Nat) (hb : b < 0x80)
    (h : toRunes s = b :: rs) : ∃ s0, s = b :: s0 ∧ toRunes s0 = rs := by
  cases s with
  | nil => simp [toRunes_nil] at h
  | cons b0 s0 =>
    rw [toRunes_cons] at h
    simp only [List.cons.injEq] at h
    have hlt : b0 < 0x80 := decodeRune_lt b0 s0 (by rw [h.1]; exact hb)
    rw [decodeRune_ascii b0 s0 hlt] at h
    exact ⟨s0, by rw [← h.1], by simpa using h.2⟩

theorem renormalize_reflect (c u w : GoString) (hc : isAscii c) (h : renormalize u = c ++ w) :
    ∃ w0, u = c ++ w0 ∧ renormalize w0 = w := by
  induction c generalizing u with
  | nil => exact ⟨u, rfl, h⟩
  | cons b c ih =>
    rw [isAscii_cons] at hc
    obtain ⟨rs0, hrs, hw⟩ := fromRunes_head (toRunes u) b (c ++ w) hc.1 h
    obtain ⟨s0, hs, hs0⟩ := toRunes_head u b rs0 hc.1 hrs
    subst hs0
    obtain ⟨w0, hw0, hn⟩ := ih s0 hc.2 hw
    exact ⟨w0, by rw [hs, hw0]; rfl, hn⟩

theorem transparent_renormalize : Transparent renormalize :=
  ⟨renormalize_eq_nil, renormalize_ascii_append, renormalize_reflect⟩

theorem transparent_id : Transparent (fun u => u) :=
  ⟨fun _ => Iff.rfl, fun _ _ _ => rfl, fun _ _ w _ h => ⟨w, h, rfl⟩⟩

theorem transparent_comp {g1 g2 : GoString → GoString} (h1 : Transparent g1)
    (h2 : Transparent g2) : Transparent (fun u => g1 (g2 u)) := by
  refine ⟨?_, ?_, ?_⟩
  · intro u; rw [h1.nil_iff, h2.nil_iff]
  · intro c u hc; rw [h2.ascii_append c u hc, h1.ascii_append c _ hc]
  · intro c u w hc h
    obtain ⟨w1, hw1, hg1⟩ := h1.reflect c _ w hc h
    obtain ⟨w0, hw0, hg2⟩ := h2.reflect c u w1 hc hw1
    exact ⟨w0, hw0, by rw [hg2, hg1]⟩

theorem transparent_ascii {g : GoString → GoString} (hg : Transparent g) (c : GoString)
    (hc : isAscii c) : g c = c := by
  have := hg.ascii_append c [] hc
  rw [List.append_nil, (hg.nil_iff []).mpr rfl, List.append_nil] at this
  exact this

/-! ### The reader -/

theorem indexAny_found (s chars : GoString) (k : Nat) (h : indexAny s chars = some k) :
    ∃ pre y post, s = pre ++ y :: post ∧ y ∈ chars ∧ (∀ z ∈ pre, z ∉ chars) ∧ pre.length = k := by
  induction s generalizing k with
  | nil => simp [indexAny] at h
  | cons b s ih =>
    simp only [indexAny] at h
    by_cases hb : b ∈ chars
    · rw [if_pos hb] at h
      simp only [Option.some.injEq] at h
      exact ⟨[], b, s, rfl, hb, by simp, by simpa using h⟩
    · rw [if_neg hb] at h
      cases hi : indexAny s chars with
      | none => rw [hi] at h; simp at h
      | some j =>
        rw [hi] at h
        simp only [Option.some.injEq] at h
        obtain ⟨pre, y, post, hs, hy, hpre, hlen⟩ := ih j hi
        refine ⟨b :: pre, y, post, by rw [hs]; rfl, hy, ?_, by simp [hlen, h]⟩
        intro z hz
        rcases List.mem_cons.mp hz with hz | hz
        · rw [hz]; exact hb
        · exact hpre z hz

theorem indexAny_append (pre post chars : GoString) (y : Nat) (hy : y ∈ chars)
    (hpre : ∀ z ∈ pre, z ∉ chars) : indexAny (pre ++ y :: post) chars = some pre.length := by
  induction pre with
  | nil => simp [indexAny, hy]
  | cons b pre ih =>
    have hb : b ∉ chars := hpre b (List.mem_cons_self _ _)
    have := ih (fun z hz => hpre z (List.mem_cons_of_mem _ hz))
    simp [indexAny, hb, this]

/-- The first `n` runes of a string, when they are ASCII, are its first `n` bytes. -/
theorem take_runes_ascii (n : Nat) (s : GoString) (hn : n ≤ (toRunes s).length)
    (h : isAscii (fromRunes ((toRunes s).take n))) :
    ∃ u, s = fromRunes ((toRunes s).take n) ++ u ∧ (toRunes s).drop n = toRunes u ∧
      (fromRunes ((toRunes s).take n)).length = n := by
  induction n generalizing s with
  | zero => exact ⟨s, by simp [fromRunes], by simp, by simp [fromRunes]⟩
  | succ n ih =>
    cases s with
    | nil => simp [toRunes_nil] at hn
    | cons b s =>
      rw [toRunes_cons] at h hn ⊢
      simp only [List.take_succ_cons, List.length_cons, List.drop_succ_cons] at h hn ⊢
      have hf : ∀ rs, fromRunes ((decodeRune (b :: s)).1 :: rs) =
          encodeRune (decodeRune (b :: s)).1 ++ fromRunes rs := fun _ => rfl
      rw [hf] at h ⊢
      rw [isAscii_append] at h
      rcases he : encodeRune (decodeRune (b :: s)).1 with _ | ⟨b0, rest⟩
      · exact absurd he (encodeRune_ne_nil _)
      · have hb0 : b0 < 0x80 := by
          have := h.1; rw [he] at this; exact (isAscii_cons.mp this).1
        obtain ⟨hr, hrest⟩ := encodeRune_head _ b0 rest he hb0
        have hlt : b < 0x80 := decodeRune_lt b s (by rw [hr]; exact hb0)
        have hd := decodeRune_ascii b s hlt
        rw [hd] at hr h hn ⊢
        simp only at hr h hn ⊢
        subst hr hrest
        simp only [List.drop_succ_cons, List.drop_zero] at h hn ⊢
        obtain ⟨u, hu1, hu2, hu3⟩ := ih s (by omega) h.2
        refine ⟨u, ?_, hu2, ?_⟩
        · simp only [List.singleton_append, List.cons_append, List.cons.injEq, true_and]
          exact hu1
        · simp [hu3]

theorem readTo_framed (s chars value : GoString) (r1 : sourceReader)
    (h : sourceReader.readTo { source := s } chars = .ok (value, r1)) (hv : isAscii value) :
    Framed (fun r => some (r.readTo chars)) s value r1 := by
  simp only [sourceReader.readTo] at h
  cases hi : indexAny s chars with
  | none => rw [hi] at h; simp at h
  | some k =>
    rw [hi] at h
    simp only at h
    by_cases hk : k + 1 ≤ (toRunes s).length
    · rw [if_pos hk] at h
      simp only [Outcome.ok.injEq, Prod.mk.injEq] at h
      obtain ⟨hval, hr1⟩ := h
      rw [← hval] at hv
      obtain ⟨u, hu1, hu2, hu3⟩ := take_runes_ascii (k + 1) s hk hv
      rw [hval] at hu1 hu3 hv
      obtain ⟨pre, y, post, hs, hy, hpre, hlen⟩ := indexAny_found s chars k hi
      have hvalue : value = pre ++ [y] := by
        have h1 : value = s.take (k + 1) := by
          rw [hu1]; simp [hu3]
        rw [h1, hs, ← hlen, List.take_append_eq_append_take]
        simp
      refine ⟨value, renormalize, u, hv, transparent_renormalize, hu1, ?_, ?_⟩
      · rw [← hr1, hu2]; rfl
      · intro u'
        have hidx : indexAny (value ++ u') chars = some k := by
          rw [hvalue, List.append_assoc, List.singleton_append, ← hlen]
          exact indexAny_append pre _ chars y hy hpre
        have hrunes : toRunes (value ++ u') = value ++ toRunes u' := toRunes_ascii_append _ _ hv
        simp only [sourceReader.readTo, hidx, hrunes]
        have hk' : k + 1 ≤ (value ++ toRunes u').length := by
          simp [hu3]
        rw [if_pos hk']
        have ht : (value ++ toRunes u').take (k + 1) = value := by
          rw [← hu3]; simp
        have hdr : (value ++ toRunes u').drop (k + 1) = toRunes u' := by
          rw [← hu3]; simp
        rw [ht, hdr]
        have hfv : fromRunes value = value := by
          have := fromRunes_ascii_append value [] hv
          simpa [fromRunes] using this
        rw [hfv]; rfl
    · rw [if_neg hk] at h; simp at h

theorem readCurrent_framed (s cur : GoString) (r1 : sourceReader)
    (h : sourceReader.readCurrent { source := s } = .ok (cur, r1)) (hv : isAscii cur) :
    Framed (fun r => some r.readCurrent) s cur r1 := by
  simp only [sourceReader.readCurrent] at h
  by_cases hlen : s.length = 0
  · rw [if_pos hlen] at h; simp at h
  · rw [if_neg hlen] at h
    cases hr : toRunes s with
    | nil => rw [hr] at h; simp at h
    | cons c rest =>
      rw [hr] at h
      simp only [Outcome.ok.injEq, Prod.mk.injEq] at h
      obtain ⟨hcur, hr1⟩ := h
      rcases he : encodeRune c with _ | ⟨b0, tail⟩
      · exact absurd he (encodeRune_ne_nil _)
      · have hb0 : b0 < 0x80 := by
          rw [← hcur, he] at hv; exact (isAscii_cons.mp hv).1
        obtain ⟨hc, htail⟩ := encodeRune_head c b0 tail he hb0
        subst hc htail
        obtain ⟨s0, hs, hs0⟩ := toRunes_head s c rest hb0 hr
        refine ⟨[c], renormalize, s0, ?_, transparent_renormalize, by rw [hs]; rfl, ?_, ?_⟩
        · exact isAscii_cons.mpr ⟨hb0, isAscii_nil⟩
        · rw [← hr1, ← hs0]; rfl
        · intro u'
          simp only [sourceReader.readCurrent, List.singleton_append, List.length_cons,
            Nat.add_one_ne_zero, if_false, toRunes_cons_ascii c u' hb0]
          rw [← hcur, he]; rfl

/-! ### Composition of framed calls -/

theorem framed_shift {α : Type} (P : sourceReader → Option (Outcome (α × sourceReader)))
    (g0 : GoString → GoString) (u0 : GoString) (a : α) (r : sourceReader)
    (h0 : Transparent g0) (h : Framed P (g0 u0) a r) :
    ∃ (c : GoString) (g : GoString → GoString) (w : GoString),
      isAscii c ∧ Transparent g ∧ u0 = c ++ w ∧ r.source = g w ∧
        ∀ u', P { source := g0 (c ++ u') } = some (.ok (a, { source := g u' })) := by
  obtain ⟨c, g, u, hc, hg, hs, hr, hP⟩ := h
  obtain ⟨w, hw, hgw⟩ := h0.reflect c u0 u hc hs
  refine ⟨c, fun x => g (g0 x), w, hc, transparent_comp hg h0, hw, by rw [hr, ← hgw], ?_⟩
  intro u'
  rw [h0.ascii_append c u' hc]
  exact hP (g0 u')

theorem framed_map {α β : Type} (P1 : sourceReader → Option (Outcome (α × sourceReader)))
    (P : sourceReader → Option (Outcome (β × sourceReader)))
    (s : GoString) (a1 : α) (a : β) (r1 : sourceReader)
    (h1 : Framed P1 s a1 r1)
    (hP : ∀ x y, P1 x = some (.ok (a1, y)) → P x = some (.ok (a, y))) :
    Framed P s a r1 := by
  obtain ⟨c, g, u, hc, hg, hs, hr, hF⟩ := h1
  exact ⟨c, g, u, hc, hg, hs, hr, fun u' => hP _ _ (hF u')⟩

theorem framed_seq {α β γ : Type} (P1 : sourceReader → Option (Outcome (α × sourceReader)))
    (P2 : sourceReader → Option (Outcome (β × sourceReader)))
    (P : sourceReader → Option (Outcome (γ × sourceReader)))
    (s : GoString) (a1 : α) (a2 : β) (a : γ) (r1 r2 : sourceReader)
    (h1 : Framed P1 s a1 r1) (h2 : Framed P2 r1.source a2 r2)
    (hP : ∀ x y z, P1 x = some (.ok (a1, y)) → P2 y = some (.ok (a2, z)) →
      P x = some (.ok (a, z))) :
    Framed P s a r2 := by
  obtain ⟨c1, g1, u1, hc1, hg1, hs1, hr1, hF1⟩ := h1
  rw [hr1] at h2
  obtain ⟨c2, g2, w, hc2, hg2, hu1, hr2, hF2⟩ := framed_shift P2 g1 u1 a2 r2 hg1 h2
  refine ⟨c1 ++ c2, g2, w, isAscii_append.mpr ⟨hc1, hc2⟩, hg2, ?_, hr2, ?_⟩
  · rw [hs1, hu1, List.append_assoc]
  · intro u'
    rw [List.append_assoc]
    exact hP _ _ _ (hF1 (c2 ++ u')) (hF2 u')

theorem framed_seq3 {α β γ δ : Type} (P1 : sourceReader → Option (Outcome (α × sourceReader)))
    (P2 : sourceReader → Option (Outcome (β × sourceReader)))
    (P3 : sourceReader → Option (Outcome (γ × sourceReader)))
    (P : sourceReader → Option (Outcome (δ × sourceReader)))
    (s : GoString) (a1 : α) (a2 : β) (a3 : γ) (a : δ) (r1 r2 r3 : sourceReader)
    (h1 : Framed P1 s a1 r1) (h2 : Framed P2 r1.source a2 r2) (h3 : Framed P3 r2.source a3 r3)
    (hP : ∀ x y z w, P1 x = some (.ok (a1, y)) → P2 y = some (.ok (a2, z)) →
      P3 z = some (.ok (a3, w)) → P x = some (.ok (a, w))) :
    Framed P s a r3 := by
  obtain ⟨c1, g1, u1, hc1, hg1, hs1, hr1, hF1⟩ := h1
  rw [hr1] at h2
  obtain ⟨c2, g2, w2, hc2, hg2, hu1, hr2, hF2⟩ := framed_shift P2 g1 u1 a2 r2 hg1 h2
  rw [hr2] at h3
  obtain ⟨c3, g3, w3, hc3, hg3, hu2, hr3, hF3⟩ := framed_shift P3 g2 w2 a3 r3 hg2 h3
  refine ⟨c1 ++ c2 ++ c3, g3, w3, isAscii_append.mpr ⟨isAscii_append.mpr ⟨hc1, hc2⟩, hc3⟩, hg3,
    ?_, hr3, ?_⟩
  · rw [hs1, hu1, hu2]; simp [List.append_assoc]
  · intro u'
    have e : c1 ++ c2 ++ c3 ++ u' = c1 ++ (c2 ++ (c3 ++ u')) := by simp [List.append_assoc]
    rw [e]
    exact hP _ _ _ _ (hF1 _) (hF2 _) (hF3 u')

/-! ### The arguments of `CHECK`, `EXISTS` and `MATCH` are ASCII -/

theorem digitsValue_ascii (s : GoString) (acc n : Nat) (h : digitsValue s acc = some n) :
    isAscii s := by
  induction s generalizing acc with
  | nil => exact isAscii_nil
  | cons c s ih =>
    simp only [digitsValue] at h
    by_cases hc : 48 ≤ c ∧ c ≤ 57
    · rw [if_pos hc] at h
      exact isAscii_cons.mpr ⟨by omega, ih _ h⟩
    · rw [if_neg hc] at h; simp at h

theorem atoi_ascii (s : GoString) (v : Int) (h : atoi s = some v) : isAscii s := by
  cases s with
  | nil => simp [atoi] at h
  | cons c rest =>
    simp only [atoi] at h
    by_cases h1 : c = 45 ∨ c = 43
    · rw [if_pos h1] at h
      rcases hd : digitsValue rest 0 with _ | n
      · rw [hd] at h; split_ifs at h
      · exact isAscii_cons.mpr ⟨by omega, digitsValue_ascii _ _ _ hd⟩
    · rw [if_neg h1] at h
      rcases hd : digitsValue (c :: rest) 0 with _ | n
      · rw [hd] at h; split_ifs at h
      · exact digitsValue_ascii _ _ _ hd

theorem split_mem (s : GoString) (sep b : Nat) (hb : b ∈ s) :
    b = sep ∨ ∃ part ∈ split s sep, b ∈ part := by
  induction s with
  | nil => simp at hb
  | cons c s ih =>
    simp only [split]
    by_cases hc : c = sep
    · rw [if_pos hc]
      rcases List.mem_cons.mp hb with h | h
      · left; rw [h, hc]
      · rcases ih h with h | ⟨part, hp, hbp⟩
        · left; exact h
        · right; exact ⟨part, List.mem_cons_of_mem _ hp, hbp⟩
    · rw [if_neg hc]
      rcases hsp : split s sep with _ | ⟨part0, parts⟩
      · simp only
        rcases List.mem_cons.mp hb with h | h
        · right; exact ⟨[c], by simp, by simp [h]⟩
        · rcases ih h with h | ⟨part, hp, hbp⟩
          · left; exact h
          · rw [hsp] at hp; simp at hp
      · simp only
        rcases List.mem_cons.mp hb with h | h
        · right; exact ⟨c :: part0, by simp, by simp [h]⟩
        · rcases ih h with h | ⟨part, hp, hbp⟩
          · left; exact h
          · rw [hsp] at hp
            rcases List.mem_cons.mp hp with hp | hp
            · right; exact ⟨c :: part0, by simp, by rw [← hp]; exact List.mem_cons_of_mem _ hbp⟩
            · right; exact ⟨part, by simp [hp], hbp⟩

theorem parseArgumentsLoop_ok (parts : List GoString) (values : List Int)
    (h : parseArgumentsLoop parts = .ok values) : ∀ part ∈ parts, isAscii part := by
  induction parts generalizing values with
  | nil => intro part hp; simp at hp
  | cons p parts ih =>
    simp only [parseArgumentsLoop] at h
    rcases ha : atoi p with _ | v
    · rw [ha] at h; simp at h
    · rw [ha] at h
      simp only at h
      rcases hl : parseArgumentsLoop parts with vs | e | _
      · intro part hp
        rcases List.mem_cons.mp hp with hp | hp
        · rw [hp]; exact atoi_ascii p v ha
        · exact ih vs hl part hp
      · rw [hl] at h; simp at h
      · rw [hl] at h; simp at h

theorem parseArguments_ascii (source : GoString) (n : Nat) (values : List Int)
    (h : parseArguments source n = .ok values) : isAscii source := by
  simp only [parseArguments] at h
  split_ifs at h with hlen
  intro b hb
  rcases split_mem source 44 b hb with hb | ⟨part, hp, hbp⟩
  · omega
  · exact parseArgumentsLoop_ok _ _ h part hp b hbp

theorem trimSuffix_ascii (value suffix : GoString) (hs : isAscii suffix)
    (h : isAscii (trimSuffix value suffix)) : isAscii value := by
  simp only [trimSuffix] at h
  split_ifs at h with hsuf
  · rw [List.isSuffixOf_iff_suffix] at hsuf
    obtain ⟨t, ht⟩ := hsuf
    rw [← ht] at h ⊢
    simp only [List.length_append, Nat.add_sub_cancel, List.take_left'] at h
    exact isAscii_append.mpr ⟨h, hs⟩
  · exact h

theorem isAscii_ascii_paren : isAscii (ascii ")") := by
  intro b hb; simp [ascii] at hb; omega

theorem isAscii_ascii_open : isAscii (ascii "(") := by
  intro b hb; simp [ascii] at hb; omega

/-! ### The frame property of the parser -/

theorem parseExists_framed (storage : parseStorage V) (s : GoString)
    (p : PredicateWithError H σ V) (r : sourceReader)
    (h : parseExists storage { source := s } = .ok (p, r)) :
    Framed (fun x => some (parseExists storage x)) s p r := by
  simp only [parseExists] at h
  rcases hrt : sourceReader.readTo { source := s } (ascii ")") with ⟨value, r1⟩ | e | _
  · rw [hrt] at h
    simp only at h
    rcases hpa : parseArguments (trimSuffix value (ascii ")")) 1 with arguments | e | _
    · rw [hpa] at h
      simp only at h
      have hv : isAscii value :=
        trimSuffix_ascii _ _ isAscii_ascii_paren (parseArguments_ascii _ _ _ hpa)
      rcases hix : index storage.knownPath (arguments.getD 0 0) with path | e | _
      · rw [hix] at h
        simp only at h
        rcases hc : (createExists path : Outcome (PredicateWithError H σ V)) with q | e | _
        · rw [hc] at h
          simp only [Outcome.ok.injEq, Prod.mk.injEq] at h
          obtain ⟨hq, hr⟩ := h
          subst hq hr
          refine framed_map _ _ s value q r1 (readTo_framed s _ value r1 hrt hv) ?_
          intro x y hxy
          simp only [Option.some.injEq] at hxy
          simp only [parseExists, hxy, hpa, hix, hc]
        · rw [hc] at h; simp at h
        · rw [hc] at h; simp at h
      · rw [hix] at h; simp at h
      · rw [hix] at h; simp at h
    · rw [hpa] at h; simp at h
    · rw [hpa] at h; simp at h
  · rw [hrt] at h; simp at h
  · rw [hrt] at h; simp at h

theorem parseMatch_framed (storage : parseStorage V) (s : GoString)
    (p : PredicateWithError H σ V) (r : sourceReader)
    (h : parseMatch storage { source := s } = .ok (p, r)) :
    Framed (fun x => some (parseMatch storage x)) s p r := by
  simp only [parseMatch] at h
  rcases hrt : sourceReader.readTo { source := s } (ascii ")") with ⟨value, r1⟩ | e | _
  · rw [hrt] at h
    simp only at h
    rcases hpa : parseArguments (trimSuffix value (ascii ")")) 2 with arguments | e | _
    · rw [hpa] at h
      simp only at h
      have hv : isAscii value :=
        trimSuffix_ascii _ _ isAscii_ascii_paren (parseArguments_ascii _ _ _ hpa)
      rcases hix : index storage.knownPath (arguments.getD 0 0) with path | e | _
      · rw [hix] at h
        simp only at h
        rcases hc : (createMatch path (toUint (arguments.getD 1 0)) :
            Outcome (PredicateWithError H σ V)) with q | e | _
        · rw [hc] at h
          simp only [Outcome.ok.injEq, Prod.mk.injEq] at h
          obtain ⟨hq, hr⟩ := h
          subst hq hr
          refine framed_map _ _ s value q r1 (readTo_framed s _ value r1 hrt hv) ?_
          intro x y hxy
          simp only [Option.some.injEq] at hxy
          simp only [parseMatch, hxy, hpa, hix, hc]
        · rw [hc] at h; simp at h
        · rw [hc] at h; simp at h
      · rw [hix] at h; simp at h
      · rw [hix] at h; simp at h
    · rw [hpa] at h; simp at h
    · rw [hpa] at h; simp at h
  · rw [hrt] at h; simp at h
  · rw [hrt] at h; simp at h

theorem parseCheck_framed [DecidableEq V] (storage : parseStorage V) (s : GoString)
    (p : PredicateWithError H σ V) (r : sourceReader)
    (h : parseCheck storage { source := s } = .ok (p, r)) :
    Framed (fun x => some (parseCheck storage x)) s p r := by
  simp only [parseCheck] at h
  rcases hrt : sourceReader.readTo { source := s } (ascii ")") with ⟨value, r1⟩ | e | _
  · rw [hrt] at h
    simp only at h
    rcases hpa : parseArguments (trimSuffix value (ascii ")")) 3 with arguments | e | _
    · rw [hpa] at h
      simp only at h
      have hv : isAscii value :=
        trimSuffix_ascii _ _ isAscii_ascii_paren (parseArguments_ascii _ _ _ hpa)
      rcases hix : index storage.knownPath (arguments.getD 0 0) with path | e | _
      · rw [hix] at h
        simp only at h
        rcases hia : index storage.checkArguments (arguments.getD 2 0) with checkArg | e | _
        · rw [hia] at h
          simp only at h
          rcases hpp : parsePredicate (arguments.getD 1 0) checkArg with predicate | e | _
          · rw [hpp] at h
            simp only at h
            rcases hc : (createCheck path predicate : Outcome (PredicateWithError H σ V))
              with q | e | _
            · rw [hc] at h
              simp only [Outcome.ok.injEq, Prod.mk.injEq] at h
              obtain ⟨hq, hr⟩ := h
              subst hq hr
              refine framed_map _ _ s value q r1 (readTo_framed s _ value r1 hrt hv) ?_
              intro x y hxy
              simp only [Option.some.injEq] at hxy
              simp only [parseCheck, hxy, hpa, hix, hia, hpp, hc]
            · rw [hc] at h; simp at h
            · rw [hc] at h; simp at h
          · rw [hpp] at h; simp at h
          · rw [hpp] at h; simp at h
        · rw [hia] at h; simp at h
        · rw [hia] at h; simp at h
      · rw [hix] at h; simp at h
      · rw [hix] at h; simp at h
    · rw [hpa] at h; simp at h
    · rw [hpa] at h; simp at h
  · rw [hrt] at h; simp at h
  · rw [hrt] at h; simp at h

theorem isAscii_ascii_comma : isAscii (ascii ",") := by
  intro b hb; simp [ascii] at hb; omega

theorem frameInv_zero [DecidableEq V] (storage : parseStorage V) : FrameInv H σ storage 0 :=
  ⟨fun s p r h => by simp [parseExpression] at h,
   fun s acc args r h => by simp [parseLogicalExpressionArgs] at h,
   fun s p r h => by simp [parseNotArg] at h⟩

theorem frame_notArg [DecidableEq V] (storage : parseStorage V) (fuel : Nat)
    (ih : FrameInv H σ storage fuel) (s : GoString) (p : PredicateWithError H σ V)
    (r : sourceReader)
    (h : parseNotArg storage (fuel + 1) { source := s } = some (.ok (p, r))) :
    Framed (parseNotArg storage (fuel + 1)) s p r := by
  rw [parseNotArg] at h
  rcases hpe : (parseExpression storage fuel { source := s } :
      Option (Outcome (PredicateWithError H σ V × sourceReader))) with _ | ⟨⟨inner, r1⟩ | e | _⟩
  · rw [hpe] at h; simp at h
  · rw [hpe] at h
    simp only at h
    rcases hrc : r1.readCurrent with ⟨cur, r2⟩ | e | _
    · rw [hrc] at h
      simp only at h
      by_cases hcur : cur ≠ ascii ")"
      · rw [if_pos hcur] at h; simp at h
      · rw [if_neg hcur] at h
        simp only [Option.some.injEq, Outcome.ok.injEq, Prod.mk.injEq] at h
        obtain ⟨hq, hr⟩ := h
        subst hq hr
        have hcur' : cur = ascii ")" := not_not.mp hcur
        refine framed_seq (parseExpression storage fuel) (fun x => some x.readCurrent) _ s inner cur
          inner r1 r2 (ih.expression s inner r1 hpe)
          (readCurrent_framed r1.source cur r2 hrc (by rw [hcur']; exact isAscii_ascii_paren)) ?_
        intro x y z hx hy
        simp only [Option.some.injEq] at hy
        rw [parseNotArg]
        simp only [hx, hy, if_neg hcur]
    · rw [hrc] at h; simp at h
    · rw [hrc] at h; simp at h
  · rw [hpe] at h; simp at h
  · rw [hpe] at h; simp at h

theorem frame_arguments [DecidableEq V] (storage : parseStorage V) (fuel : Nat)
    (ih : FrameInv H σ storage fuel) (s : GoString) (acc args : List (PredicateWithError H σ V))
    (r : sourceReader)
    (h : parseLogicalExpressionArgs storage (fuel + 1) { source := s } acc = some (.ok (args, r))) :
    Framed (fun x => parseLogicalExpressionArgs storage (fuel + 1) x acc) s args r := by
  rw [parseLogicalExpressionArgs] at h
  rcases hpe : (parseExpression storage fuel { source := s } :
      Option (Outcome (PredicateWithError H σ V × sourceReader))) with _ | ⟨⟨argument, r1⟩ | e | _⟩
  · rw [hpe] at h; simp at h
  · rw [hpe] at h
    simp only at h
    rcases hrc : r1.readCurrent with ⟨cur, r2⟩ | e | _
    · rw [hrc] at h
      simp only at h
      by_cases hcomma : cur = ascii ","
      · rw [if_pos hcomma] at h
        refine framed_seq3 (parseExpression storage fuel) (fun x => some x.readCurrent)
          (fun x => parseLogicalExpressionArgs storage fuel x (acc ++ [argument])) _ s argument cur
          args args r1 r2 r (ih.expression s argument r1 hpe)
          (readCurrent_framed r1.source cur r2 hrc (by rw [hcomma]; exact isAscii_ascii_comma))
          (ih.arguments r2.source (acc ++ [argument]) args r h) ?_
        intro x y z w hx hy hz
        simp only [Option.some.injEq] at hy
        rw [parseLogicalExpressionArgs]
        simp only [hx, hy, if_pos hcomma]
        exact hz
      · rw [if_neg hcomma] at h
        by_cases hparen : cur = ascii ")"
        · rw [if_pos hparen] at h
          by_cases hlen : (acc ++ [argument]).length ≤ 1
          · rw [if_pos hlen] at h; simp at h
          · rw [if_neg hlen] at h
            simp only [Option.some.injEq, Outcome.ok.injEq, Prod.mk.injEq] at h
            obtain ⟨hq, hr⟩ := h
            subst hq hr
            refine framed_seq (parseExpression storage fuel) (fun x => some x.readCurrent) _ s
              argument cur _ r1 r2 (ih.expression s argument r1 hpe)
              (readCurrent_framed r1.source cur r2 hrc (by rw [hparen]; exact isAscii_ascii_paren))
              ?_
            intro x y z hx hy
            simp only [Option.some.injEq] at hy
            rw [parseLogicalExpressionArgs]
            simp only [hx, hy, if_neg hcomma, if_pos hparen, if_neg hlen]
        · rw [if_neg hparen] at h; simp at h
    · rw [hrc] at h; simp at h
    · rw [hrc] at h; simp at h
  · rw [hpe] at h; simp at h
  · rw [hpe] at h; simp at h

theorem isAscii_keyword (value : GoString)
    (h : trimSuffix value (ascii "(") = ascii "AND" ∨ trimSuffix value (ascii "(") = ascii "OR" ∨
      trimSuffix value (ascii "(") = ascii "NOT" ∨ trimSuffix value (ascii "(") = ascii "CHECK" ∨
      trimSuffix value (ascii "(") = ascii "EXISTS" ∨
      trimSuffix value (ascii "(") = ascii "MATCH") : isAscii value := by
  apply trimSuffix_ascii value (ascii "(") isAscii_ascii_open
  rcases h with h | h | h | h | h | h <;> rw [h] <;> intro b hb <;> simp [ascii] at hb <;> omega

theorem frame_expression [DecidableEq V] (storage : parseStorage V) (fuel : Nat)
    (ih : FrameInv H σ storage fuel) (s : GoString) (p : PredicateWithError H σ V)
    (r : sourceReader)
    (h : parseExpression storage (fuel + 1) { source := s } = some (.ok (p, r))) :
    Framed (parseExpression storage (fuel + 1)) s p r := by
  rw [parseExpression] at h
  rcases hrt : sourceReader.readTo { source := s } (ascii "(") with ⟨value, r1⟩ | e | _
  · rw [hrt] at h
    simp only at h
    by_cases hAnd : trimSuffix value (ascii "(") = ascii "AND"
    · rw [if_pos hAnd] at h
      have hv : isAscii value := isAscii_keyword value (Or.inl hAnd)
      rcases hl : (parseLogicalExpressionArgs storage fuel r1 [] :
          Option (Outcome (List (PredicateWithError H σ V) × sourceReader)))
        with _ | ⟨⟨arguments, r2⟩ | e | _⟩
      · rw [hl] at h; simp at h
      · rw [hl] at h
        simp only [Option.some.injEq, Outcome.ok.injEq, Prod.mk.injEq] at h
        obtain ⟨hq, hr⟩ := h
        subst hq hr
        refine framed_seq (fun x => some (x.readTo (ascii "(")))
          (fun x => parseLogicalExpressionArgs storage fuel x []) _ s value arguments _ r1 r2
          (readTo_framed s _ value r1 hrt hv) (ih.arguments r1.source [] arguments r2 hl) ?_
        intro x y z hx hy
        simp only [Option.some.injEq] at hx
        rw [parseExpression]
        simp only [hx, if_pos hAnd, hy]
      · rw [hl] at h; simp at h
      · rw [hl] at h; simp at h
    · rw [if_neg hAnd] at h
      by_cases hOr : trimSuffix value (ascii "(") = ascii "OR"
      · rw [if_pos hOr] at h
        have hv : isAscii value := isAscii_keyword value (Or.inr (Or.inl hOr))
        rcases hl : (parseLogicalExpressionArgs storage fuel r1 [] :
            Option (Outcome (List (PredicateWithError H σ V) × sourceReader)))
          with _ | ⟨⟨arguments, r2⟩ | e | _⟩
        · rw [hl] at h; simp at h
        · rw [hl] at h
          simp only [Option.some.injEq, Outcome.ok.injEq, Prod.mk.injEq] at h
          obtain ⟨hq, hr⟩ := h
          subst hq hr
          refine framed_seq (fun x => some (x.readTo (ascii "(")))
            (fun x => parseLogicalExpressionArgs storage fuel x []) _ s value arguments _ r1 r2
            (readTo_framed s _ value r1 hrt hv) (ih.arguments r1.source [] arguments r2 hl) ?_
          intro x y z hx hy
          simp only [Option.some.injEq] at hx
          rw [parseExpression]
          simp only [hx, if_neg hAnd, if_pos hOr, hy]
        · rw [hl] at h; simp at h
        · rw [hl] at h; simp at h
      · rw [if_neg hOr] at h
        by_cases hNot : trimSuffix value (ascii "(") = ascii "NOT"
        · rw [if_pos hNot] at h
          have hv : isAscii value := isAscii_keyword value (Or.inr (Or.inr (Or.inl hNot)))
          rcases hl : (parseNotArg storage fuel r1 :
              Option (Outcome (PredicateWithError H σ V × sourceReader)))
            with _ | ⟨⟨inner, r2⟩ | e | _⟩
          · rw [hl] at h; simp at h
          · rw [hl] at h
            simp only [Option.some.injEq, Outcome.ok.injEq, Prod.mk.injEq] at h
            obtain ⟨hq, hr⟩ := h
            subst hq hr
            refine framed_seq (fun x => some (x.readTo (ascii "(")))
              (parseNotArg storage fuel) _ s value inner _ r1 r2
              (readTo_framed s _ value r1 hrt hv) (ih.notArg r1.source inner r2 hl) ?_
            intro x y z hx hy
            simp only [Option.some.injEq] at hx
            rw [parseExpression]
            simp only [hx, if_neg hAnd, if_neg hOr, if_pos hNot, hy]
          · rw [hl] at h; simp at h
          · rw [hl] at h; simp at h
        · rw [if_neg hNot] at h
          by_cases hCheck : trimSuffix value (ascii "(") = ascii "CHECK"
          · rw [if_pos hCheck] at h
            have hv : isAscii value :=
              isAscii_keyword value (Or.inr (Or.inr (Or.inr (Or.inl hCheck))))
            simp only [Option.some.injEq] at h
            refine framed_seq (fun x => some (x.readTo (ascii "(")))
              (fun x => some (parseCheck storage x)) _ s value p p r1 r
              (readTo_framed s _ value r1 hrt hv) (parseCheck_framed storage r1.source p r h) ?_
            intro x y z hx hy
            simp only [Option.some.injEq] at hx
            rw [parseExpression]
            simp only [hx, if_neg hAnd, if_neg hOr, if_neg hNot, if_pos hCheck]
            exact hy
          · rw [if_neg hCheck] at h
            by_cases hExists : trimSuffix value (ascii "(") = ascii "EXISTS"
            · rw [if_pos hExists] at h
              have hv : isAscii value :=
                isAscii_keyword value (Or.inr (Or.inr (Or.inr (Or.inr (Or.inl hExists)))))
              simp only [Option.some.injEq] at h
              refine framed_seq (fun x => some (x.readTo (ascii "(")))
                (fun x => some (parseExists storage x)) _ s value p p r1 r
                (readTo_framed s _ value r1 hrt hv) (parseExists_framed storage r1.source p r h) ?_
              intro x y z hx hy
              simp only [Option.some.injEq] at hx
              rw [parseExpression]
              simp only [hx, if_neg hAnd, if_neg hOr, if_neg hNot, if_neg hCheck, if_pos hExists]
              exact hy
            · rw [if_neg hExists] at h
              by_cases hMatch : trimSuffix value (ascii "(") = ascii "MATCH"
              · rw [if_pos hMatch] at h
                have hv : isAscii value :=
                  isAscii_keyword value (Or.inr (Or.inr (Or.inr (Or.inr (Or.inr hMatch)))))
                simp only [Option.some.injEq] at h
                refine framed_seq (fun x => some (x.readTo (ascii "(")))
                  (fun x => some (parseMatch storage x)) _ s value p p r1 r
                  (readTo_framed s _ value r1 hrt hv) (parseMatch_framed storage r1.source p r h) ?_
                intro x y z hx hy
                simp only [Option.some.injEq] at hx
                rw [parseExpression]
                simp only [hx, if_neg hAnd, if_neg hOr, if_neg hNot, if_neg hCheck,
                  if_neg hExists, if_pos hMatch]
                exact hy
              · rw [if_neg hMatch] at h; simp at h
  · rw [hrt] at h; simp at h
  · rw [hrt] at h; simp at h

theorem frameInv_all [DecidableEq V] (storage : parseStorage V) (fuel : Nat) :
    FrameInv H σ storage fuel := by
  induction fuel with
  | zero => exact frameInv_zero storage
  | succ fuel ih =>
    exact ⟨frame_expression storage fuel ih, frame_arguments storage fuel ih,
      frame_notArg storage fuel ih⟩

/-- A source that parses as a complete expression is ASCII, and the expression
is parsed the same way whatever text follows it. -/
theorem complete_parse [DecidableEq V] (storage : parseStorage V) (fuel : Nat) (e : GoString)
    (p : PredicateWithError H σ V) (he : parseExpressionTree fuel e storage = some (.ok p)) :
    isAscii e ∧ ∃ g, Transparent g ∧
      ∀ u', parseExpression storage fuel { source := e ++ u' } =
        some (.ok (p, { source := g u' })) := by
  simp only [parseExpressionTree, newSourceReader] at he
  rcases hpe : (parseExpression storage fuel { source := e } :
      Option (Outcome (PredicateWithError H σ V × sourceReader))) with _ | ⟨⟨q, r⟩ | err | _⟩
  · rw [hpe] at he; simp at he
  · rw [hpe] at he
    simp only at he
    by_cases hemp : (!r.isEmpty) = true
    · rw [if_pos hemp] at he; simp at he
    · rw [if_neg hemp] at he
      simp only [Option.some.injEq, Outcome.ok.injEq] at he
      subst he
      obtain ⟨c, g, u, hc, hg, hs, hr, hF⟩ := (frameInv_all storage fuel).expression e q r hpe
      have hnil : r.source = [] := by
        simpa [sourceReader.isEmpty] using hemp
      have hu : u = [] := (hg.nil_iff u).mp (by rw [← hr]; exact hnil)
      subst hu
      rw [List.append_nil] at hs
      subst hs
      exact ⟨hc, g, hg, hF⟩
  · rw [hpe] at he; simp at he
  · rw [hpe] at he; simp at he

theorem readCurrent_cons (b : Nat) (u : GoString) (hb : b < 0x80) :
    sourceReader.readCurrent { source := b :: u } = .ok ([b], { source := renormalize u }) := by
  simp only [sourceReader.readCurrent, List.length_cons, Nat.add_one_ne_zero, if_false,
    toRunes_cons_ascii b u hb, encodeRune_ascii b hb]
  rfl

theorem readTo_keyword (kw u : GoString) (hk : isAscii kw) (hn : 40 ∉ kw) :
    sourceReader.readTo { source := kw ++ 40 :: u } (ascii "(") =
      .ok (kw ++ [40], { source := renormalize u }) := by
  have hmem : (40 : Nat) ∈ ascii "(" := by decide
  have hpre : ∀ z ∈ kw, z ∉ ascii "(" := by
    intro z hz hz'
    have : z = 40 := by simpa [ascii] using hz'
    exact hn (this ▸ hz)
  have hv : isAscii (kw ++ [40]) :=
    isAscii_append.mpr ⟨hk, isAscii_cons.mpr ⟨by omega, isAscii_nil⟩⟩
  have hidx := indexAny_append kw u (ascii "(") 40 hmem hpre
  have hsrc : kw ++ 40 :: u = (kw ++ [40]) ++ u := by simp
  have hrunes : toRunes (kw ++ 40 :: u) = (kw ++ [40]) ++ toRunes u := by
    rw [hsrc]; exact toRunes_ascii_append _ _ hv
  simp only [sourceReader.readTo, hidx, hrunes]
  have hk' : kw.length + 1 ≤ ((kw ++ [40]) ++ toRunes u).length := by simp
  rw [if_pos hk']
  have hl : (kw ++ [40]).length = kw.length + 1 := by simp
  have ht : ((kw ++ [40]) ++ toRunes u).take (kw.length + 1) = kw ++ [40] :=
    List.take_left' hl
  have hdr : ((kw ++ [40]) ++ toRunes u).drop (kw.length + 1) = toRunes u :=
    List.drop_left' hl
  rw [ht, hdr]
  have hfv : fromRunes (kw ++ [40]) = kw ++ [40] := by
    have := fromRunes_ascii_append (kw ++ [40]) [] hv
    simpa [fromRunes] using this
  rw [hfv]; rfl

theorem isAscii_commaSeparated (es : List GoString) (h : ∀ e ∈ es, isAscii e) :
    isAscii (commaSeparated es) := by
  induction es with
  | nil => exact isAscii_nil
  | cons e rest ih =>
    cases rest with
    | nil => exact h e (by simp)
    | cons e2 rest =>
      simp only [commaSeparated]
      exact isAscii_append.mpr ⟨isAscii_append.mpr ⟨h e (by simp), isAscii_ascii_comma⟩,
        ih (fun x hx => h x (List.mem_cons_of_mem _ hx))⟩

/-- The loop of `parseLogicalExpressionArgs` on a list of complete expressions
separated by commas and closed by a parenthesis. -/
theorem arguments_list [DecidableEq V] (storage : parseStorage V) (fuel : Nat)
    (es : List (GoString × PredicateWithError H σ V))
    (hes : ∀ x ∈ es, parseExpressionTree fuel x.1 storage = some (.ok x.2)) (hne : es ≠ [])
    (acc : List (PredicateWithError H σ V)) :
    parseLogicalExpressionArgs storage (fuel + es.length)
        { source := commaSeparated (es.map Prod.fst) ++ ascii ")" } acc =
      some (if (acc ++ es.map Prod.snd).length ≤ 1 then .error badArgsError
        else .ok (acc ++ es.map Prod.snd, { source := [] })) := by
  induction es generalizing acc with
  | nil => exact absurd rfl hne
  | cons x rest ih =>
    obtain ⟨hx, g, hg, hF⟩ := complete_parse storage fuel x.1 x.2 (hes x (by simp))
    cases rest with
    | nil =>
      simp only [List.map_cons, List.map_nil, commaSeparated, List.length_singleton]
      rw [parseLogicalExpressionArgs, hF (ascii ")")]
      simp only
      rw [transparent_ascii hg _ isAscii_ascii_paren]
      have hrc : sourceReader.readCurrent { source := ascii ")" } =
          .ok (ascii ")", { source := [] }) := by decide
      rw [hrc]
      simp only
      rw [if_neg (by decide : ¬ ascii ")" = ascii ","), if_pos True.intro]
      by_cases hl : (acc ++ [x.2]).length ≤ 1
      · rw [if_pos hl, if_pos hl]
      · rw [if_neg hl, if_neg hl]
    | cons y rest =>
      have hrest : ∀ z ∈ y :: rest, parseExpressionTree fuel z.1 storage = some (.ok z.2) :=
        fun z hz => hes z (List.mem_cons_of_mem _ hz)
      have hX : isAscii (commaSeparated ((y :: rest).map Prod.fst) ++ ascii ")") := by
        refine isAscii_append.mpr ⟨isAscii_commaSeparated _ ?_, isAscii_ascii_paren⟩
        intro e he
        obtain ⟨z, hz, rfl⟩ := List.mem_map.mp he
        exact (complete_parse storage fuel z.1 z.2 (hrest z hz)).1
      have hsrc : commaSeparated ((x :: y :: rest).map Prod.fst) ++ ascii ")" =
          x.1 ++ (44 :: (commaSeparated ((y :: rest).map Prod.fst) ++ ascii ")")) := by
        simp [commaSeparated, ascii]
      have hlen : fuel + (x :: y :: rest).length = (fuel + (y :: rest).length) + 1 := by
        simp only [List.length_cons]; omega
      rw [hsrc, hlen, parseLogicalExpressionArgs]
      rw [parseExpression_fuel_le storage fuel (y :: rest).length _ _ (hF _)]
      simp only
      have hcomma : isAscii (44 :: (commaSeparated ((y :: rest).map Prod.fst) ++ ascii ")")) :=
        isAscii_cons.mpr ⟨by omega, hX⟩
      rw [transparent_ascii hg _ hcomma, readCurrent_cons _ _ (by omega)]
      simp only
      rw [if_pos (by decide), transparent_ascii transparent_renormalize _ hX]
      rw [ih hrest (by simp) (acc ++ [x.2])]
      simp

/-! ### The logical operators -/

theorem logicalAndLoop_append (pre rest : List (PredicateWithError H σ V)) (data : H)
    (manager : IExecutionManager H σ V) (s s1 : σ) (hpre : allTrue pre data manager s = some s1) :
    logicalAndLoop (pre ++ rest) data manager s = logicalAndLoop rest data manager s1 := by
  induction pre generalizing s with
  | nil => simp [allTrue] at hpre; subst hpre; rfl
  | cons p pre ih =>
    simp only [allTrue] at hpre
    simp only [List.cons_append, logicalAndLoop]
    rcases hp : p data manager s with ⟨⟨b, e⟩, s2⟩
    rw [hp] at hpre
    cases b <;> cases e <;> simp at hpre
    simpa using ih _ hpre

theorem logicalOrLoop_append (pre rest : List (PredicateWithError H σ V)) (data : H)
    (manager : IExecutionManager H σ V) (s s1 : σ) (hpre : allFalse pre data manager s = some s1) :
    logicalOrLoop (pre ++ rest) data manager s = logicalOrLoop rest data manager s1 := by
  induction pre generalizing s with
  | nil => simp [allFalse] at hpre; subst hpre; rfl
  | cons p pre ih =>
    simp only [allFalse] at hpre
    simp only [List.cons_append, logicalOrLoop]
    rcases hp : p data manager s with ⟨⟨b, e⟩, s2⟩
    rw [hp] at hpre
    cases b <;> cases e <;> simp at hpre
    simpa using ih _ hpre

/-! ### The claims -/

theorem digitsValue_not_digits (s : GoString) (acc : Nat)
    (h : s.all (fun d => decide (48 ≤ d ∧ d ≤ 57)) = false) : digitsValue s acc = none := by
  induction s generalizing acc with
  | nil => simp at h
  | cons c s ih =>
    simp only [digitsValue]
    by_cases hc : 48 ≤ c ∧ c ≤ 57
    · rw [if_pos hc]
      apply ih
      simpa [hc] using h
    · rw [if_neg hc]

theorem atoi_not_decimal (s : GoString) (h : isDecimalInteger s = false) : atoi s = none := by
  cases s with
  | nil => rfl
  | cons c rest =>
    simp only [isDecimalInteger, Bool.and_eq_false_iff, Bool.not_eq_false'] at h
    simp only [atoi]
    by_cases h1 : c = 45 ∨ c = 43
    · rw [if_pos h1] at h ⊢
      rcases h with h | h
      · rw [if_pos h]
      · by_cases he : rest.isEmpty = true
        · rw [if_pos he]
        · rw [if_neg he, digitsValue_not_digits rest 0 h]
    · rw [if_neg h1] at h ⊢
      rcases h with h | h
      · rw [if_pos h]
      · by_cases he : (c :: rest).isEmpty = true
        · rw [if_pos he]
        · rw [if_neg he, digitsValue_not_digits (c :: rest) 0 h]

theorem parseArgumentsLoop_not_decimal (parts : List GoString)
    (h : ∃ part ∈ parts, isDecimalInteger part = false) :
    parseArgumentsLoop parts = .error parseError := by
  induction parts with
  | nil => obtain ⟨part, hp, _⟩ := h; simp at hp
  | cons p parts ih =>
    simp only [parseArgumentsLoop]
    rcases ha : atoi p with _ | v
    · rfl
    · simp only
      obtain ⟨part, hp, hd⟩ := h
      rcases List.mem_cons.mp hp with hp | hp
      · have hnone := atoi_not_decimal p (hp ▸ hd)
        rw [hnone] at ha; simp at ha
      · rw [ih ⟨part, hp, hd⟩]

theorem parseArguments_errors (source : GoString) (expectedParts : Nat) :
    ((split source 44).length ≠ expectedParts →
      parseArguments source expectedParts = .error badArgsError) ∧
    ((split source 44).length = expectedParts →
      (∃ part ∈ split source 44, isDecimalInteger part = false) →
      parseArguments source expectedParts = .error parseError) := by
  constructor
  · intro h; simp [parseArguments, h]
  · intro h hp
    simp only [parseArguments, h, ne_eq, not_true_eq_false, if_false]
    exact parseArgumentsLoop_not_decimal _ hp

/-- C12: the AND predicate runs its branches from left to right. When the
branches before `p` all return `(true, nil)` and leave the world state `s1`,
the conjunction of these branches alone returns `(true, nil)` in `s1`; if `p`
then returns an error the conjunction returns `(false, err)`, and if `p`
returns `(false, nil)` it returns `(false, nil)`, in both cases with the world
state that `p` left, whatever the branches after `p` are: none of them is run
and none of their backend calls occurs. -/
theorem createLogicalAnd_short_circuit (pre post : List (PredicateWithError H σ V))
    (p : PredicateWithError H σ V) (data : H) (manager : IExecutionManager H σ V) (s s1 : σ)
    (hpre : allTrue pre data manager s = some s1) :
    createLogicalAnd pre data manager s = ((true, none), s1) ∧
    (∀ b err s2, p data manager s1 = ((b, some err), s2) →
      createLogicalAnd (pre ++ p :: post) data manager s = ((false, some err), s2)) ∧
    (∀ s2, p data manager s1 = ((false, none), s2) →
      createLogicalAnd (pre ++ p :: post) data manager s = ((false, none), s2)) := by
  refine ⟨?_, ?_, ?_⟩
  · have := logicalAndLoop_append pre [] data manager s s1 hpre
    simpa [createLogicalAnd, logicalAndLoop] using this
  · intro b err s2 hp
    simp only [createLogicalAnd]
    rw [logicalAndLoop_append pre _ data manager s s1 hpre]
    simp [logicalAndLoop, hp]
  · intro s2 hp
    simp only [createLogicalAnd]
    rw [logicalAndLoop_append pre _ data manager s s1 hpre]
    simp [logicalAndLoop, hp]

/-- C13: the OR predicate runs its branches from left to right. When the
branches before `p` all return `(false, nil)` and leave the world state `s1`,
the disjunction of these branches alone returns `(false, nil)` in `s1`; if `p`
then returns `(true, nil)` the disjunction returns `(true, nil)`, and if `p`
returns an error it returns `(false, err)`, in both cases with the world state
that `p` left, whatever the branches after `p` are: none of them is run, so an
error of a later branch is not seen. -/
theorem createLogicalOr_short_circuit (pre post : List (PredicateWithError H σ V))
    (p : PredicateWithError H σ V) (data : H) (manager : IExecutionManager H σ V) (s s1 : σ)
    (hpre : allFalse pre data manager s = some s1) :
    createLogicalOr pre data manager s = ((false, none), s1) ∧
    (∀ s2, p data manager s1 = ((true, none), s2) →
      createLogicalOr (pre ++ p :: post) data manager s = ((true, none), s2)) ∧
    (∀ b err s2, p data manager s1 = ((b, some err), s2) →
      createLogicalOr (pre ++ p :: post) data manager s = ((false, some err), s2)) := by
  refine ⟨?_, ?_, ?_⟩
  · have := logicalOrLoop_append pre [] data manager s s1 hpre
    simpa [createLogicalOr, logicalOrLoop] using this
  · intro s2 hp
    simp only [createLogicalOr]
    rw [logicalOrLoop_append pre _ data manager s s1 hpre]
    simp [logicalOrLoop, hp]
  · intro b err s2 hp
    simp only [createLogicalOr]
    rw [logicalOrLoop_append pre _ data manager s s1 hpre]
    simp [logicalOrLoop, hp]

/-- C14: the NOT predicate runs `p` once: when `p` returns `(b, nil)` and
leaves the world state `s1` it returns `(not b, nil)` in `s1`, and when `p`
returns an error it returns `(false, err)` with that error, in `s1`. -/
theorem createLogicalNot_once (p : PredicateWithError H σ V) (data : H)
    (manager : IExecutionManager H σ V) (s s1 : σ) (b : Bool) :
    (p data manager s = ((b, none), s1) →
      createLogicalNot p data manager s = ((!b, none), s1)) ∧
    (∀ err, p data manager s = ((b, some err), s1) →
      createLogicalNot p data manager s = ((false, some err), s1)) := by
  constructor
  · intro hp; simp [createLogicalNot, hp]
  · intro err hp; simp [createLogicalNot, hp]

/-- C15: `createExists` succeeds for the key Options exactly when the content
path is simple, for the keys RequestGet, RequestPost, RequestHeaders,
RequestCookies and ResponseHeaders exactly when the content path is not empty;
for these keys a content path of the other shape gives `badContentPathError`,
and every other main key gives `unknownMainPathError`. -/
theorem createExists_bag_keys (path : DataPath) :
    (path.MainPath = OptionsKey →
      ((createExists path : Outcome (PredicateWithError H σ V)).isOk = path.ContentPath.IsSimple) ∧
      (path.ContentPath.IsSimple = false →
        (createExists path : Outcome (PredicateWithError H σ V)) = .error badContentPathError)) ∧
    (path.MainPath ∈ [RequestGetKey, RequestPostKey, RequestHeadersKey, RequestCookiesKey,
        ResponseHeadersKey] →
      ((createExists path : Outcome (PredicateWithError H σ V)).isOk = !path.ContentPath.IsEmpty) ∧
      (path.ContentPath.IsEmpty = true →
        (createExists path : Outcome (PredicateWithError H σ V)) = .error badContentPathError)) ∧
    (path.MainPath ∉ [OptionsKey, RequestGetKey, RequestPostKey, RequestHeadersKey,
        RequestCookiesKey, ResponseHeadersKey] →
      (createExists path : Outcome (PredicateWithError H σ V)) = .error unknownMainPathError) := by
  refine ⟨?_, ?_, ?_⟩
  · intro h
    cases hs : path.ContentPath.IsSimple <;> simp [createExists, h, hs, Outcome.isOk]
  · intro h
    simp only [List.mem_cons, List.mem_singleton, List.not_mem_nil, or_false] at h
    cases he : path.ContentPath.IsEmpty <;>
      rcases h with h | h | h | h | h <;>
      simp [createExists, h, he, Outcome.isOk, OptionsKey, RequestGetKey, RequestPostKey,
        RequestHeadersKey, RequestCookiesKey, ResponseHeadersKey]
  · intro h
    simp only [List.mem_cons, List.mem_singleton, List.not_mem_nil, or_false, not_or] at h
    simp [createExists, h]

/-- C16: for a data path with the main key Options, `createMatch` and
`createCheck` return the predicate that calls `RecursiveMatchOptions` /
`RecursiveCheckOptions` when the content path is empty, the predicate that
calls `MatchOption` / `CheckOption` with the path of the content path (and the
pattern id, the predicate) when it is simple, and `badContentPathError`
otherwise; `parseMatch` passes the second number of the source, converted to
`uint`, as the pattern id, which is the number itself when it is not negative. -/
theorem options_check_match_variants (path : DataPath) (patternId : Nat)
    (predicate : Predicate V) (h : path.MainPath = OptionsKey) :
    (createMatch path patternId : Outcome (PredicateWithError H σ V)) =
      (if path.ContentPath.IsEmpty then
        .ok (fun data manager => manager (.RecursiveMatchOptions patternId) data)
      else if path.ContentPath.IsSimple then
        .ok (fun data manager => manager (.MatchOption patternId path.ContentPath.Path) data)
      else .error badContentPathError) ∧
    (createCheck path predicate : Outcome (PredicateWithError H σ V)) =
      (if path.ContentPath.IsEmpty then
        .ok (fun data manager => manager (.RecursiveCheckOptions predicate) data)
      else if path.ContentPath.IsSimple then
        .ok (fun data manager => manager (.CheckOption predicate path.ContentPath.Path) data)
      else .error badContentPathError) ∧
    (∀ (storage : parseStorage V) (reader rest : sourceReader) (value : GoString)
        (arguments : List Int),
      reader.readTo (ascii ")") = .ok (value, rest) →
      parseArguments (trimSuffix value (ascii ")")) 2 = .ok arguments →
      index storage.knownPath (arguments.getD 0 0) = .ok path →
      (parseMatch storage reader : Outcome (PredicateWithError H σ V × sourceReader)) =
        (match (createMatch path (toUint (arguments.getD 1 0)) :
            Outcome (PredicateWithError H σ V)) with
          | .ok expression => .ok (expression, rest)
          | .error err => .error err
          | .panic => .panic)) ∧
    (∀ n : Int, 0 ≤ n → n < 2 ^ 64 → (toUint n : Int) = n) := by
  refine ⟨?_, ?_, ?_, ?_⟩
  · simp [createMatch, h, generateMatchOption, OptionsKey, HttpDataKey, HttpDataHostKey,
      HttpDataProtocolKey, HttpDataPortKey, HttpDataHttpVersionKey, HttpDataTimestampKey]
  · simp [createCheck, h, generateCheckOption, OptionsKey, HttpDataKey, HttpDataHostKey,
      HttpDataProtocolKey, HttpDataPortKey, HttpDataHttpVersionKey, HttpDataTimestampKey]
  · intro storage reader rest value arguments hr hp hi
    simp only [parseMatch, hr, hp, hi]
    rcases (createMatch path (toUint (arguments.getD 1 0)) :
      Outcome (PredicateWithError H σ V)) with q | e | _ <;> rfl
  · intro n h0 h1
    simp only [toUint]
    rw [Int.toNat_of_nonneg (Int.emod_nonneg _ (by norm_num))]
    exact Int.emod_eq_of_lt h0 h1

/-- C17: `parsePredicate` returns for the operation 0 the predicate that holds
of the values equal to the argument, for the operation 1 the predicate that is
its negation on every value, and `unsupportedOperationError` for every other
operation. -/
theorem parsePredicate_codes [DecidableEq V] (argument : V) :
    (∃ equal notEqual : Predicate V,
      parsePredicate 0 argument = .ok equal ∧ parsePredicate 1 argument = .ok notEqual ∧
      (∀ v, equal v = decide (v = argument)) ∧ (∀ v, notEqual v = !equal v)) ∧
    (∀ operation : Int, operation ≠ 0 → operation ≠ 1 →
      parsePredicate operation argument = .error unsupportedOperationError) := by
  refine ⟨⟨fun v => decide (v = argument), fun v => decide (v ≠ argument), ?_, ?_, ?_, ?_⟩, ?_⟩
  · simp [parsePredicate, OperationEqual]
  · simp [parsePredicate, OperationEqual, OperationNotEqual]
  · intro v; rfl
  · intro v; simp
  · intro operation h0 h1
    simp [parsePredicate, OperationEqual, OperationNotEqual, h0, h1]

theorem readTo_paren (args u : GoString) (hk : isAscii args) (hn : 41 ∉ args) :
    sourceReader.readTo { source := args ++ 41 :: u } (ascii ")") =
      .ok (args ++ [41], { source := renormalize u }) := by
  have hmem : (41 : Nat) ∈ ascii ")" := by decide
  have hpre : ∀ z ∈ args, z ∉ ascii ")" := by
    intro z hz hz'
    have : z = 41 := by simpa [ascii] using hz'
    exact hn (this ▸ hz)
  have hv : isAscii (args ++ [41]) :=
    isAscii_append.mpr ⟨hk, isAscii_cons.mpr ⟨by omega, isAscii_nil⟩⟩
  have hidx := indexAny_append args u (ascii ")") 41 hmem hpre
  have hsrc : args ++ 41 :: u = (args ++ [41]) ++ u := by simp
  have hrunes : toRunes (args ++ 41 :: u) = (args ++ [41]) ++ toRunes u := by
    rw [hsrc]; exact toRunes_ascii_append _ _ hv
  simp only [sourceReader.readTo, hidx, hrunes]
  have hk' : args.length + 1 ≤ ((args ++ [41]) ++ toRunes u).length := by simp
  rw [if_pos hk']
  have hl : (args ++ [41]).length = args.length + 1 := by simp
  have ht : ((args ++ [41]) ++ toRunes u).take (args.length + 1) = args ++ [41] :=
    List.take_left' hl
  have hdr : ((args ++ [41]) ++ toRunes u).drop (args.length + 1) = toRunes u :=
    List.drop_left' hl
  rw [ht, hdr]
  have hfv : fromRunes (args ++ [41]) = args ++ [41] := by
    have := fromRunes_ascii_append (args ++ [41]) [] hv
    simpa [fromRunes] using this
  rw [hfv]; rfl

theorem trimSuffix_paren (args : GoString) : trimSuffix (args ++ [41]) (ascii ")") = args := by
  have h : (ascii ")").isSuffixOf (args ++ [41]) = true := by
    rw [List.isSuffixOf_iff_suffix]
    exact ⟨args, rfl⟩
  simp only [trimSuffix, h, if_true]
  simp [ascii]

theorem parseExpression_leaf [DecidableEq V] (storage : parseStorage V) (args u : GoString)
    (hk : isAscii args) :
    (parseExpression storage 1 { source := ascii "EXISTS(" ++ args ++ 41 :: u } :
        Option (Outcome (PredicateWithError H σ V × sourceReader))) =
      some (parseExists storage { source := args ++ 41 :: renormalize u }) ∧
    (parseExpression storage 1 { source := ascii "MATCH(" ++ args ++ 41 :: u } :
        Option (Outcome (PredicateWithError H σ V × sourceReader))) =
      some (parseMatch storage { source := args ++ 41 :: renormalize u }) ∧
    (parseExpression storage 1 { source := ascii "CHECK(" ++ args ++ 41 :: u } :
        Option (Outcome (PredicateWithError H σ V × sourceReader))) =
      some (parseCheck storage { source := args ++ 41 :: renormalize u }) := by
  have hv : isAscii (args ++ [41]) :=
    isAscii_append.mpr ⟨hk, isAscii_cons.mpr ⟨by omega, isAscii_nil⟩⟩
  have hren : renormalize (args ++ 41 :: u) = args ++ 41 :: renormalize u := by
    have := renormalize_ascii_append (args ++ [41]) u hv
    simpa using this
  have hE : ascii "EXISTS(" ++ args ++ 41 :: u = ascii "EXISTS" ++ 40 :: (args ++ 41 :: u) := by
    rw [List.append_assoc]; rfl
  have hM : ascii "MATCH(" ++ args ++ 41 :: u = ascii "MATCH" ++ 40 :: (args ++ 41 :: u) := by
    rw [List.append_assoc]; rfl
  have hC : ascii "CHECK(" ++ args ++ 41 :: u = ascii "CHECK" ++ 40 :: (args ++ 41 :: u) := by
    rw [List.append_assoc]; rfl
  refine ⟨?_, ?_, ?_⟩
  · rw [hE, parseExpression, readTo_keyword _ _ (by unfold isAscii; decide) (by decide), hren]
    have ht : trimSuffix (ascii "EXISTS" ++ [40]) (ascii "(") = ascii "EXISTS" := by decide
    simp only [ht]
    rfl
  · rw [hM, parseExpression, readTo_keyword _ _ (by unfold isAscii; decide) (by decide), hren]
    have ht : trimSuffix (ascii "MATCH" ++ [40]) (ascii "(") = ascii "MATCH" := by decide
    simp only [ht]
    rfl
  · rw [hC, parseExpression, readTo_keyword _ _ (by unfold isAscii; decide) (by decide), hren]
    have ht : trimSuffix (ascii "CHECK" ++ [40]) (ascii "(") = ascii "CHECK" := by decide
    simp only [ht]
    rfl

theorem parseExpressionTree_of_error [DecidableEq V] (storage : parseStorage V) (extra : Nat)
    (source : GoString) (err : Error)
    (h : (parseExpression storage 1 (newSourceReader source) :
      Option (Outcome (PredicateWithError H σ V × sourceReader))) = some (.error err)) :
    (parseExpressionTree (1 + extra) source storage :
      Option (Outcome (PredicateWithError H σ V))) = some (.error err) := by
  apply parseExpressionTree_fuel_le storage 1 extra
  simp only [parseExpressionTree, h]

/-- C18 (code defect): `EXISTS(é)` has one part between the parentheses, which
is not a decimal integer, and `parseExpressionTree` does not return
`parseError` on it: `readTo` uses the byte index of the parenthesis on the
slice of runes, and the slice expression panics. When the text between the
parentheses is ASCII the claim holds: a number of parts other than 1, 2, 3 for
`EXISTS`, `MATCH`, `CHECK` gives `badArgsError`, and with the right number a
part that is not a decimal integer gives `parseError`, whatever follows the
closing parenthesis. -/
theorem non_ascii_argument_panics [DecidableEq V] (storage : parseStorage V) (extra : Nat) :
    (parseExpressionTree (1 + extra) (ascii "EXISTS(" ++ [0xC3, 0xA9] ++ ascii ")") storage :
      Option (Outcome (PredicateWithError H σ V))) = some .panic ∧
    (∀ args u : GoString, isAscii args → 41 ∉ args →
      ((split args 44).length ≠ 1 →
        (parseExpressionTree (1 + extra) (ascii "EXISTS(" ++ args ++ 41 :: u) storage :
          Option (Outcome (PredicateWithError H σ V))) = some (.error badArgsError)) ∧
      ((split args 44).length ≠ 2 →
        (parseExpressionTree (1 + extra) (ascii "MATCH(" ++ args ++ 41 :: u) storage :
          Option (Outcome (PredicateWithError H σ V))) = some (.error badArgsError)) ∧
      ((split args 44).length ≠ 3 →
        (parseExpressionTree (1 + extra) (ascii "CHECK(" ++ args ++ 41 :: u) storage :
          Option (Outcome (PredicateWithError H σ V))) = some (.error badArgsError)) ∧
      ((∃ part ∈ split args 44, isDecimalInteger part = false) →
        ((split args 44).length = 1 →
          (parseExpressionTree (1 + extra) (ascii "EXISTS(" ++ args ++ 41 :: u) storage :
            Option (Outcome (PredicateWithError H σ V))) = some (.error parseError)) ∧
        ((split args 44).length = 2 →
          (parseExpressionTree (1 + extra) (ascii "MATCH(" ++ args ++ 41 :: u) storage :
            Option (Outcome (PredicateWithError H σ V))) = some (.error parseError)) ∧
        ((split args 44).length = 3 →
          (parseExpressionTree (1 + extra) (ascii "CHECK(" ++ args ++ 41 :: u) storage :
            Option (Outcome (PredicateWithError H σ V))) = some (.error parseError)))) := by
  refine ⟨parseExpressionTree_fuel_le storage 1 extra _ _ rfl, ?_⟩
  intro args u hk hn
  obtain ⟨hE, hM, hC⟩ := @parseExpression_leaf H σ V _ storage args u hk
  have hread := readTo_paren args (renormalize u) hk hn
  refine ⟨?_, ?_, ?_, ?_⟩
  · intro h
    apply parseExpressionTree_of_error
    rw [newSourceReader, hE]
    simp only [parseExists, hread, trimSuffix_paren, (parseArguments_errors _ 1).1 h]
  · intro h
    apply parseExpressionTree_of_error
    rw [newSourceReader, hM]
    simp only [parseMatch, hread, trimSuffix_paren, (parseArguments_errors _ 2).1 h]
  · intro h
    apply parseExpressionTree_of_error
    rw [newSourceReader, hC]
    simp only [parseCheck, hread, trimSuffix_paren, (parseArguments_errors _ 3).1 h]
  · intro hp
    refine ⟨?_, ?_, ?_⟩
    · intro h
      apply parseExpressionTree_of_error
      rw [newSourceReader, hE]
      simp only [parseExists, hread, trimSuffix_paren, (parseArguments_errors _ 1).2 h hp]
    · intro h
      apply parseExpressionTree_of_error
      rw [newSourceReader, hM]
      simp only [parseMatch, hread, trimSuffix_paren, (parseArguments_errors _ 2).2 h hp]
    · intro h
      apply parseExpressionTree_of_error
      rw [newSourceReader, hC]
      simp only [parseCheck, hread, trimSuffix_paren, (parseArguments_errors _ 3).2 h hp]

/-- The parse of `AND(...)` or `OR(...)` around a list of complete expressions. -/
theorem logical_list [DecidableEq V] (storage : parseStorage V) (fuel : Nat)
    (es : List (GoString × PredicateWithError H σ V))
    (hes : ∀ x ∈ es, parseExpressionTree fuel x.1 storage = some (.ok x.2)) (hne : es ≠ [])
    (kw : GoString) (create : List (PredicateWithError H σ V) → PredicateWithError H σ V)
    (hkw : (kw = ascii "AND" ∧ create = createLogicalAnd) ∨
      (kw = ascii "OR" ∧ create = createLogicalOr)) :
    parseExpressionTree (fuel + es.length + 1)
        (kw ++ ascii "(" ++ commaSeparated (es.map Prod.fst) ++ ascii ")") storage =
      some (if es.length ≤ 1 then .error badArgsError else .ok (create (es.map Prod.snd))) := by
  have hX : isAscii (commaSeparated (es.map Prod.fst) ++ ascii ")") := by
    refine isAscii_append.mpr ⟨isAscii_commaSeparated _ ?_, isAscii_ascii_paren⟩
    intro e he
    obtain ⟨z, hz, rfl⟩ := List.mem_map.mp he
    exact (complete_parse storage fuel z.1 z.2 (hes z hz)).1
  have hsrc : kw ++ ascii "(" ++ commaSeparated (es.map Prod.fst) ++ ascii ")" =
      kw ++ 40 :: (commaSeparated (es.map Prod.fst) ++ ascii ")") := by
    simp [ascii]
  have hk : isAscii kw ∧ 40 ∉ kw := by
    rcases hkw with ⟨h, _⟩ | ⟨h, _⟩ <;> rw [h] <;> refine ⟨?_, by decide⟩ <;>
      intro b hb <;> simp [ascii] at hb <;> omega
  have hargs := arguments_list storage fuel es hes hne []
  simp only [parseExpressionTree, newSourceReader]
  rw [parseExpression, hsrc, readTo_keyword kw _ hk.1 hk.2]
  simp only
  rw [transparent_ascii transparent_renormalize _ hX, hargs]
  simp only [List.nil_append, List.length_map]
  rcases hkw with ⟨h1, h2⟩ | ⟨h1, h2⟩
  · subst h1 h2
    rw [if_pos (by decide)]
    by_cases hl : es.length ≤ 1
    · rw [if_pos hl, if_pos hl]
    · rw [if_neg hl, if_neg hl]
      simp [sourceReader.isEmpty]
  · subst h1 h2
    rw [if_neg (by decide), if_pos (by decide)]
    by_cases hl : es.length ≤ 1
    · rw [if_pos hl, if_pos hl]
    · rw [if_neg hl, if_neg hl]
      simp [sourceReader.isEmpty]

/-- C19: for expressions that parse as complete expressions, `AND` and `OR`
applied to one of them fail with `badArgsError`, and applied to two or more of
them, separated by commas, they return the conjunction and the disjunction of
the predicates of the expressions. -/
theorem logical_operators_need_two_arguments [DecidableEq V] (storage : parseStorage V)
    (fuel : Nat) (es : List (GoString × PredicateWithError H σ V))
    (hes : ∀ x ∈ es, parseExpressionTree fuel x.1 storage = some (.ok x.2)) :
    (es.length = 1 →
      parseExpressionTree (fuel + es.length + 1)
          (ascii "AND" ++ ascii "(" ++ commaSeparated (es.map Prod.fst) ++ ascii ")") storage =
        (some (.error badArgsError) : Option (Outcome (PredicateWithError H σ V))) ∧
      parseExpressionTree (fuel + es.length + 1)
          (ascii "OR" ++ ascii "(" ++ commaSeparated (es.map Prod.fst) ++ ascii ")") storage =
        (some (.error badArgsError) : Option (Outcome (PredicateWithError H σ V)))) ∧
    (2 ≤ es.length →
      parseExpressionTree (fuel + es.length + 1)
          (ascii "AND" ++ ascii "(" ++ commaSeparated (es.map Prod.fst) ++ ascii ")") storage =
        some (.ok (createLogicalAnd (es.map Prod.snd))) ∧
      parseExpressionTree (fuel + es.length + 1)
          (ascii "OR" ++ ascii "(" ++ commaSeparated (es.map Prod.fst) ++ ascii ")") storage =
        some (.ok (createLogicalOr (es.map Prod.snd)))) := by
  constructor
  · intro h1
    have hne : es ≠ [] := by intro h; rw [h] at h1; simp at h1
    rw [logical_list storage fuel es hes hne _ _ (Or.inl ⟨rfl, rfl⟩),
      logical_list storage fuel es hes hne _ _ (Or.inr ⟨rfl, rfl⟩)]
    have hl : es.length ≤ 1 := by omega
    rw [if_pos hl, if_pos hl]
    exact ⟨rfl, rfl⟩
  · intro h2
    have hne : es ≠ [] := by intro h; rw [h] at h2; simp at h2
    rw [logical_list storage fuel es hes hne _ _ (Or.inl ⟨rfl, rfl⟩),
      logical_list storage fuel es hes hne _ _ (Or.inr ⟨rfl, rfl⟩)]
    have hl : ¬ es.length ≤ 1 := by omega
    rw [if_neg hl, if_neg hl]
    exact ⟨rfl, rfl⟩

/-- C20: when a source parses as a complete expression, the source followed by
any further text is rejected with `parseError`, and no predicate is returned. -/
theorem trailing_content_rejected [DecidableEq V] (storage : parseStorage V) (fuel : Nat)
    (e rest : GoString) (p : PredicateWithError H σ V)
    (he : parseExpressionTree fuel e storage = some (.ok p)) (hrest : rest ≠ []) :
    (parseExpressionTree fuel (e ++ rest) storage : Option (Outcome (PredicateWithError H σ V))) =
      some (.error parseError) := by
  obtain ⟨_, g, hg, hF⟩ := complete_parse storage fuel e p he
  simp only [parseExpressionTree, newSourceReader, hF rest]
  have hne : g rest ≠ [] := fun h => hrest ((hg.nil_iff rest).mp h)
  have : (!sourceReader.isEmpty { source := g rest }) = true := by
    simp [sourceReader.isEmpty, hne]
  rw [if_pos this]

/-- Witness for C12: of three branches whose second returns false, the third
makes no backend call. -/
theorem createLogicalAnd_short_circuit_witness :
    createLogicalAnd [tagged 0, tagged 1, tagged 2] ()
      (recordingManager [(true, none), (false, none), (true, some (.other 7))]) [] =
      ((false, none), [0, 1]) :=
  (createLogicalAnd_short_circuit [tagged 0] [tagged 2] (tagged 1) ()
    (recordingManager [(true, none), (false, none), (true, some (.other 7))]) [] [0] rfl).2.2
    [0, 1] rfl

/-- Witness for C13: of three branches whose second returns true, the third,
which would return an error, makes no backend call. -/
theorem createLogicalOr_short_circuit_witness :
    createLogicalOr [tagged 0, tagged 1, tagged 2] ()
      (recordingManager [(false, none), (true, none), (false, some (.other 7))]) [] =
      ((true, none), [0, 1]) :=
  (createLogicalOr_short_circuit [tagged 0] [tagged 2] (tagged 1) ()
    (recordingManager [(false, none), (true, none), (false, some (.other 7))]) [] [0] rfl).2.1
    [0, 1] rfl

/-- Witness for C14: the negation of a branch that returns true makes the one
backend call of the branch and returns false. -/
theorem createLogicalNot_once_witness :
    createLogicalNot (tagged 0) () (recordingManager [(true, none)]) [] = ((false, none), [0]) :=
  (createLogicalNot_once (tagged 0) () (recordingManager [(true, none)]) [] [0] true).1 rfl

/-- Witness for C15: `EXISTS` on the option `IDDQD` compiles, `EXISTS` on the
key RequestTime does not. -/
theorem createExists_bag_keys_witness :
    (createExists (CreateDataPathWithSimpleContent OptionsKey (ascii "IDDQD")) :
      Outcome (PredicateWithError Unit (List Nat) GoString)).isOk = true ∧
    (createExists (CreateDataPathWithMainOnly RequestTimeKey) :
      Outcome (PredicateWithError Unit (List Nat) GoString)) = .error unknownMainPathError :=
  ⟨((createExists_bag_keys (CreateDataPathWithSimpleContent OptionsKey (ascii "IDDQD"))).1 rfl).1,
   (createExists_bag_keys (CreateDataPathWithMainOnly RequestTimeKey)).2.2 (by decide)⟩

/-- Witness for C16: `MATCH` on the option `IDDQD` with the pattern 666 calls
`MatchOption(666, "IDDQD", data)`. -/
theorem options_check_match_variants_witness :
    (createMatch (CreateDataPathWithSimpleContent OptionsKey (ascii "IDDQD")) 666 :
      Outcome (PredicateWithError Unit (List Nat) GoString)) =
      .ok (fun data manager => manager (.MatchOption 666 (ascii "IDDQD")) data) :=
  (options_check_match_variants (CreateDataPathWithSimpleContent OptionsKey (ascii "IDDQD")) 666
    (fun _ => true) rfl).1

/-- Witness for C17: the operation code 2 is not supported. -/
theorem parsePredicate_codes_witness :
    parsePredicate 2 (ascii "IDCLIP") = .error unsupportedOperationError :=
  (parsePredicate_codes (ascii "IDCLIP")).2 2 (by decide) (by decide)

/-- Witness for C18: `MATCH()` and `EXISTS(1,)` give `badArgsError`, `EXISTS()`
gives `parseError`, and `EXISTS(é)` panics. -/
theorem non_ascii_argument_panics_witness :
    (parseExpressionTree 1 (ascii "MATCH()") exampleStorage :
      Option (Outcome (PredicateWithError Unit (List Nat) GoString))) =
      some (.error badArgsError) ∧
    (parseExpressionTree 1 (ascii "EXISTS(1,)") exampleStorage :
      Option (Outcome (PredicateWithError Unit (List Nat) GoString))) =
      some (.error badArgsError) ∧
    (parseExpressionTree 1 (ascii "EXISTS()") exampleStorage :
      Option (Outcome (PredicateWithError Unit (List Nat) GoString))) =
      some (.error parseError) ∧
    (parseExpressionTree 1 (ascii "EXISTS(" ++ [0xC3, 0xA9] ++ ascii ")") exampleStorage :
      Option (Outcome (PredicateWithError Unit (List Nat) GoString))) = some .panic :=
  ⟨((non_ascii_argument_panics exampleStorage 0).2 [] [] isAscii_nil (by decide)).2.1
      (by decide),
   ((non_ascii_argument_panics exampleStorage 0).2 (ascii "1,") [] (by unfold isAscii; decide)
      (by decide)).1 (by decide),
   (((non_ascii_argument_panics exampleStorage 0).2 [] [] isAscii_nil (by decide)).2.2.2
      ⟨[], by decide, by decide⟩).1 (by decide),
   (non_ascii_argument_panics exampleStorage 0).1⟩

/-- Witness for C19: `AND(EXISTS(1))` fails with `badArgsError`, and
`OR(EXISTS(1),EXISTS(1))` is the disjunction of the two predicates. -/
theorem logical_operators_need_two_arguments_witness :
    (parseExpressionTree 3 (ascii "AND(EXISTS(1))") exampleStorage :
      Option (Outcome (PredicateWithError Unit (List Nat) GoString))) =
      some (.error badArgsError) ∧
    (parseExpressionTree 4 (ascii "OR(EXISTS(1),EXISTS(1))") exampleStorage :
      Option (Outcome (PredicateWithError Unit (List Nat) GoString))) =
      some (.ok (createLogicalOr [existsIDDQD, existsIDDQD])) :=
  ⟨((logical_operators_need_two_arguments exampleStorage 1 [(ascii "EXISTS(1)", existsIDDQD)]
      (fun x hx => by rw [List.mem_singleton.mp hx]; rfl)).1 rfl).1,
   ((logical_operators_need_two_arguments exampleStorage 1
      [(ascii "EXISTS(1)", existsIDDQD), (ascii "EXISTS(1)", existsIDDQD)]
      (fun x hx => by
        rcases List.mem_cons.mp hx with h | h
        · rw [h]; rfl
        · rw [List.mem_singleton.mp h]; rfl)).2 (by decide)).2⟩

/-- Witness for C20: `EXISTS(1)EXISTS(1)` is rejected with `parseError`. -/
theorem trailing_content_rejected_witness :
    (parseExpressionTree 1 (ascii "EXISTS(1)" ++ ascii "EXISTS(1)") exampleStorage :
      Option (Outcome (PredicateWithError Unit (List Nat) GoString))) =
      some (.error parseError) :=
  trailing_content_rejected exampleStorage 1 (ascii "EXISTS(1)") (ascii "EXISTS(1)") existsIDDQD
    rfl (by decide)

/-! ### Lookups, errors and De Morgan -/

/-- C36 (code defect): `parseExpressionTree` does not return on an index
outside the lookup table: on the storage of the parse tests (four known
paths, two check arguments) the sources `EXISTS(9)`, `EXISTS(-1)` and
`CHECK(0,0,5)` end in a panic of the index expression, with any fuel; and so
does `EXISTS(0)` on every storage without known paths. -/
theorem parseExpressionTree_index_panics (extra : Nat) :
    (parseExpressionTree (1 + extra) (ascii "EXISTS(9)") exampleStorage :
      Option (Outcome (PredicateWithError H σ GoString))) = some .panic ∧
    (parseExpressionTree (1 + extra) (ascii "EXISTS(-1)") exampleStorage :
      Option (Outcome (PredicateWithError H σ GoString))) = some .panic ∧
    (parseExpressionTree (1 + extra) (ascii "CHECK(0,0,5)") exampleStorage :
      Option (Outcome (PredicateWithError H σ GoString))) = some .panic ∧
    (∀ checkArguments : List GoString,
      (parseExpressionTree (1 + extra) (ascii "EXISTS(0)")
        { knownPath := [], checkArguments := checkArguments } :
        Option (Outcome (PredicateWithError H σ GoString))) = some .panic) :=
  ⟨parseExpressionTree_fuel_le exampleStorage 1 extra _ _ rfl,
   parseExpressionTree_fuel_le exampleStorage 1 extra _ _ rfl,
   parseExpressionTree_fuel_le exampleStorage 1 extra _ _ rfl,
   fun _ => parseExpressionTree_fuel_le _ 1 extra _ _ rfl⟩

theorem logicalAndLoop_error_false (predicates : List (PredicateWithError H σ V)) (data : H)
    (manager : IExecutionManager H σ V) (s : σ)
    (h : (logicalAndLoop predicates data manager s).1.2 ≠ none) :
    (logicalAndLoop predicates data manager s).1.1 = false := by
  induction predicates generalizing s with
  | nil => simp [logicalAndLoop] at h
  | cons p rest ih =>
    simp only [logicalAndLoop] at h ⊢
    rcases hp : p data manager s with ⟨⟨result, err⟩, s1⟩
    rw [hp] at h
    cases err with
    | some e => rfl
    | none =>
      cases result with
      | false => rfl
      | true => exact ih s1 h

theorem logicalOrLoop_error_false (predicates : List (PredicateWithError H σ V)) (data : H)
    (manager : IExecutionManager H σ V) (s : σ)
    (h : (logicalOrLoop predicates data manager s).1.2 ≠ none) :
    (logicalOrLoop predicates data manager s).1.1 = false := by
  induction predicates generalizing s with
  | nil => rfl
  | cons p rest ih =>
    simp only [logicalOrLoop] at h ⊢
    rcases hp : p data manager s with ⟨⟨result, err⟩, s1⟩
    rw [hp] at h
    cases err with
    | some e => rfl
    | none =>
      cases result with
      | false => exact ih s1 h
      | true => simp at h

/-- C38: a predicate built by AND, OR or NOT that returns an error returns
false with it, whatever its branches are and whatever boolean the failing
branch returned with its error. -/
theorem logical_error_returns_false (predicates : List (PredicateWithError H σ V))
    (p : PredicateWithError H σ V) (data : H) (manager : IExecutionManager H σ V) (s : σ) :
    ((createLogicalAnd predicates data manager s).1.2 ≠ none →
      (createLogicalAnd predicates data manager s).1.1 = false) ∧
    ((createLogicalOr predicates data manager s).1.2 ≠ none →
      (createLogicalOr predicates data manager s).1.1 = false) ∧
    ((createLogicalNot p data manager s).1.2 ≠ none →
      (createLogicalNot p data manager s).1.1 = false) := by
  refine ⟨logicalAndLoop_error_false predicates data manager s,
    logicalOrLoop_error_false predicates data manager s, ?_⟩
  intro h
  simp only [createLogicalNot] at h ⊢
  rcases hp : p data manager s with ⟨⟨result, err⟩, s1⟩
  rw [hp] at h
  cases err with
  | some e => rfl
  | none => simp at h

/-- C39: the negation of `a AND b` and the disjunction of the negations of
`a` and `b` return the same boolean and the same error and leave the same
world state, for all branches, every data, every backend and every state they
start from: the same branches run, in the same order. -/
theorem not_and_eq_or_not (a b : PredicateWithError H σ V) (data : H)
    (manager : IExecutionManager H σ V) (s : σ) :
    createLogicalNot (createLogicalAnd [a, b]) data manager s =
      createLogicalOr [createLogicalNot a, createLogicalNot b] data manager s := by
  simp only [createLogicalNot, createLogicalAnd, createLogicalOr, logicalAndLoop, logicalOrLoop]
  rcases ha : a data manager s with ⟨⟨ra, ea⟩, s1⟩
  cases ea with
  | some e => rfl
  | none =>
    cases ra with
    | false => rfl
    | true =>
      simp only [Bool.not_true, Bool.false_eq_true, if_false, Bool.not_false]
      rcases hb : b data manager s1 with ⟨⟨rb, eb⟩, s2⟩
      cases eb with
      | some e => rfl
      | none => cases rb <;> rfl

/-- Witness for C38: a conjunction whose second branch returns true together
with an error returns false with that error. -/
theorem logical_error_returns_false_witness :
    createLogicalAnd [tagged 0, tagged 1] ()
      (recordingManager [(true, none), (true, some (.other 7))]) [] =
      ((false, some (.other 7)), [0, 1]) ∧
    (createLogicalAnd [tagged 0, tagged 1] ()
      (recordingManager [(true, none), (true, some (.other 7))]) []).1.1 = false :=
  ⟨rfl, (logical_error_returns_false [tagged 0, tagged 1] (tagged 0) ()
    (recordingManager [(true, none), (true, some (.other 7))]) []).1 (by decide)⟩

end theorems

end ExpressionTree

namespace JsonPath

open ContentParsing (GoString ascii isSpaceRune)

open ExpressionTree (toRunes encodeRune fromRunes split atoi)

open Error

/-! ### Library functions -/

theorem trimLeft_idem (s cutset : GoString) :
    trimLeft (trimLeft s cutset) cutset = trimLeft s cutset := by
  unfold trimLeft
  induction s with
  | nil => rfl
  | cons c s ih =>
    by_cases h : c ∈ cutset
    · simp only [List.dropWhile_cons, h, decide_True, if_true]; exact ih
    · simp [List.dropWhile_cons, h]

theorem trimRight_idem (s cutset : GoString) :
    trimRight (trimRight s cutset) cutset = trimRight s cutset := by
  have h := trimLeft_idem s.reverse cutset
  unfold trimLeft at h
  unfold trimRight
  rw [List.reverse_reverse, h]

theorem dropWhile_head_false {α : Type} (p : α → Bool) (a : α) (rest : List α)
    (h : (a :: rest).dropWhile p = a :: rest) : p a = false := by
  by_contra hp
  have hp' : p a = true := by simpa using hp
  rw [List.dropWhile_cons, if_pos hp'] at h
  have := (@List.dropWhile_sublist _ rest p).length_le
  rw [h] at this
  simp at this

theorem trim_idem (s cutset : GoString) : trim (trim s cutset) cutset = trim s cutset := by
  unfold trim
  have hy : (trimRight s cutset).reverse.dropWhile (fun c => decide (c ∈ cutset)) =
      (trimRight s cutset).reverse := by
    have := trimRight_idem s cutset
    unfold trimRight at this ⊢
    have h2 := congrArg List.reverse this
    simpa using h2
  have hR : trimRight (trimLeft (trimRight s cutset) cutset) cutset =
      trimLeft (trimRight s cutset) cutset := by
    generalize trimRight s cutset = y at hy
    have hsplit : y = y.takeWhile (fun c => decide (c ∈ cutset)) ++ trimLeft y cutset := by
      unfold trimLeft; exact (List.takeWhile_append_dropWhile _ y).symm
    unfold trimRight
    rcases hrev : (trimLeft y cutset).reverse with _ | ⟨a, t⟩
    · simp only [List.dropWhile_nil, List.reverse_nil]
      exact (List.reverse_eq_nil_iff.mp hrev).symm
    · have hyr : y.reverse = a :: (t ++ (y.takeWhile (fun c => decide (c ∈ cutset))).reverse) := by
        conv_lhs => rw [hsplit]
        rw [List.reverse_append, hrev]; rfl
      rw [hyr] at hy
      have hpa := dropWhile_head_false _ a _ hy
      rw [List.dropWhile_cons, if_neg (by simp [hpa]), ← hrev, List.reverse_reverse]
  rw [hR, trimLeft_idem]

theorem split_of_not_mem (s : GoString) (sep : Nat) (h : sep ∉ s) : split s sep = [s] := by
  induction s with
  | nil => rfl
  | cons c s ih =>
    have hc : c ≠ sep := fun e => h (by rw [e]; exact List.mem_cons_self _ _)
    have hs : sep ∉ s := fun e => h (List.mem_cons_of_mem _ e)
    simp only [split, if_neg hc, ih hs]

theorem split_ne_nil (s : GoString) (sep : Nat) : split s sep ≠ [] := by
  induction s with
  | nil => simp [split]
  | cons c s ih =>
    simp only [split]
    split_ifs
    · simp
    · rcases h : split s sep with _ | ⟨p, ps⟩ <;> simp

/-! ### Selecting elements -/

theorem getValueByIndex_eq (source : List Value) (index : Int) :
    getValueByIndex source index = (elementAt source index).toList := by
  unfold getValueByIndex elementAt
  by_cases h1 : index ≥ source.length ∨ index < -(source.length : Int)
  · rw [if_pos h1]
    rcases h1 with h | h
    · rw [if_pos (by omega)]
      have : source.get? index.toNat = none := by
        apply List.get?_eq_none.mpr; omega
      rw [this]; rfl
    · rw [if_neg (by omega), if_neg (by omega)]; rfl
  · rw [if_neg h1]
    by_cases h2 : index < 0
    · rw [if_pos h2, if_neg (by omega), if_pos (by omega)]
    · rw [if_neg h2, if_pos (by omega)]

theorem elementAt_isSome (source : List Value) (index : Int) :
    (elementAt source index).isSome = true ↔
      (-(source.length : Int) ≤ index ∧ index < source.length) := by
  unfold elementAt
  by_cases h0 : 0 ≤ index
  · rw [if_pos h0]
    constructor
    · intro h
      obtain ⟨v, hv⟩ := Option.isSome_iff_exists.mp h
      have := (List.get?_eq_some.mp hv).1
      omega
    · intro h
      have hlt : index.toNat < source.length := by omega
      rw [List.get?_eq_get hlt]; rfl
  · rw [if_neg h0]
    by_cases h1 : -(source.length : Int) ≤ index
    · rw [if_pos h1]
      have hlt : ((source.length : Int) + index).toNat < source.length := by omega
      rw [List.get?_eq_get hlt]
      simp only [Option.isSome_some, true_iff]
      omega
    · rw [if_neg h1]
      simp only [Option.isSome_none, Bool.false_eq_true, false_iff]
      omega

theorem sliceLoop_eq (source : List Value) (index : Int) (count : Nat) (dest : List Value) :
    sliceLoop source index count dest =
      dest ++ (List.range count).filterMap (fun k => elementAt source (index + (k : Nat))) := by
  induction count generalizing index dest with
  | zero => simp [sliceLoop]
  | succ count ih =>
    rw [sliceLoop, ih, getValueByIndex_eq, List.range_succ_eq_map, List.filterMap_cons]
    simp only [Nat.cast_zero, add_zero, List.filterMap_map, List.append_assoc]
    congr 1
    have hf : (fun k => elementAt source (index + 1 + (k : Nat))) =
        ((fun k => elementAt source (index + (k : Nat))) ∘ Nat.succ) := by
      funext k; simp only [Function.comp, Nat.succ_eq_add_one, Nat.cast_add, Nat.cast_one]
      congr 1; omega
    rw [hf]
    cases elementAt source index <;> rfl

theorem range_get (xs : List Value) (a c : Nat) (h : a + c ≤ xs.length) :
    (List.range c).filterMap (fun k => xs.get? (a + k)) = (xs.drop a).take c := by
  induction c with
  | zero => simp
  | succ c ih =>
    rw [List.range_succ, List.filterMap_append, ih (by omega), List.take_succ]
    congr 1
    have hlt : a + c < xs.length := by omega
    simp [List.getElem?_drop, List.getElem?_eq_getElem hlt]

/-! ### Slice bounds -/

theorem clamp_pos (n x : Int) (hn : 0 ≤ n) (hx : x > 0) : min x n = clamp n x := by
  unfold clamp; omega

theorem clamp_nonpos (n x : Int) (hn : 0 ≤ n) (hx : ¬ x > 0) : max x (-n) = clamp n x := by
  unfold clamp; omega

theorem clamp_bounds (n x : Int) (hn : 0 ≤ n) : -n ≤ clamp n x ∧ clamp n x ≤ n := by
  unfold clamp; omega

theorem code_clamp (n x : Int) (hn : 0 ≤ n) :
    (if x > 0 then min x n else max x (-n)) = clamp n x := by
  by_cases hx : x > 0
  · rw [if_pos hx, clamp_pos n x hn hx]
  · rw [if_neg hx, clamp_nonpos n x hn hx]

/-- The code of `extractSliceIndices` on a body with one colon computes the
bounds of the specification from the two sides. -/
theorem extractSliceIndices_sides (source part0 part1 : GoString) (n : Nat)
    (hsplit : split source 58 = [part0, part1]) :
    extractSliceIndices source n =
      (match sliceSide (trim part0 (ascii " ")), sliceSide (trim part1 (ascii " ")) with
        | .ok sideFrom, .ok sideTo => .ok (sliceBounds sideFrom sideTo n)
        | .ok _, .error err => .error err
        | .ok _, .panic => .panic
        | .error err, _ => .error err
        | .panic, _ => .panic) := by
  have hn : (0 : Int) ≤ n := Int.natCast_nonneg n
  unfold extractSliceIndices
  rw [hsplit]
  simp only [trim_idem]
  generalize trim part0 (ascii " ") = a
  generalize trim part1 (ascii " ") = b
  unfold sliceSide
  by_cases ha : a = []
  · by_cases hb : b = []
    · subst ha hb
      simp [sliceBounds]
    · subst ha
      have hbl : b.length > 0 := List.length_pos.mpr hb
      have hbl' : ¬ b.length = 0 := by omega
      simp only [List.length_nil, true_and, hbl', if_false, gt_iff_lt, lt_self_iff_false, hbl,
        if_true, if_neg hb]
      rcases atoi b with _ | t
      · rfl
      · simp only [sliceBounds]
        by_cases ht : t ≥ 0
        · simp only [ht, if_true, code_clamp n _ hn]
        · simp only [ht, if_false, code_clamp n _ hn]
  · have hal : a.length > 0 := List.length_pos.mpr ha
    have hal' : ¬ a.length = 0 := by omega
    simp only [hal', false_and, if_false, hal, if_true, if_neg ha]
    rcases atoi a with _ | f
    · simp only
    · simp only
      by_cases hb : b = []
      · subst hb
        simp only [List.length_nil, gt_iff_lt, lt_self_iff_false, if_false, if_true, sliceBounds]
        by_cases hf : f ≥ 0
        · simp only [hf, if_true, code_clamp n _ hn]
        · simp only [hf, if_false, code_clamp n _ hn]
      · have hbl : b.length > 0 := List.length_pos.mpr hb
        have hbl' : ¬ b.length = 0 := by omega
        simp only [hbl, if_true, if_neg hb, hbl', if_false]
        rcases atoi b with _ | t
        · rfl
        · simp only [sliceBounds, code_clamp n _ hn]

theorem extractSliceIndices_bad (source : GoString) (n : Int)
    (h : (split source 58).length ≠ 2) :
    extractSliceIndices source n = .error badSliceDefinition := by
  unfold extractSliceIndices
  rcases hs : split source 58 with _ | ⟨p0, _ | ⟨p1, _ | ⟨p2, rest⟩⟩⟩
  · rfl
  · rfl
  · rw [hs] at h; simp at h
  · rfl

theorem sliceBounds_bounds (sideFrom sideTo : Option Int) (n : Int) (hn : 0 ≤ n) :
    -n ≤ (sliceBounds sideFrom sideTo n).1 ∧ (sliceBounds sideFrom sideTo n).1 ≤ n ∧
    -n ≤ (sliceBounds sideFrom sideTo n).2 ∧ (sliceBounds sideFrom sideTo n).2 ≤ n := by
  rcases sideFrom with _ | f <;> rcases sideTo with _ | t <;> simp only [sliceBounds] <;>
    refine ⟨?_, ?_, ?_, ?_⟩ <;> first | omega | exact (clamp_bounds n _ hn).1 |
      exact (clamp_bounds n _ hn).2

theorem extractSliceIndices_bounds (source : GoString) (n : Nat) (indexFrom indexTo : Int)
    (h : extractSliceIndices source n = .ok (indexFrom, indexTo)) :
    -(n : Int) ≤ indexFrom ∧ indexFrom ≤ n ∧ -(n : Int) ≤ indexTo ∧ indexTo ≤ n := by
  have hn : (0 : Int) ≤ n := Int.natCast_nonneg n
  rcases hs : split source 58 with _ | ⟨p0, _ | ⟨p1, _ | ⟨p2, rest⟩⟩⟩
  · rw [extractSliceIndices_bad source n (by rw [hs]; simp)] at h; simp at h
  · rw [extractSliceIndices_bad source n (by rw [hs]; simp)] at h; simp at h
  · rw [extractSliceIndices_sides source p0 p1 n hs] at h
    generalize sliceSide (trim p0 (ascii " ")) = sf at h
    generalize sliceSide (trim p1 (ascii " ")) = st at h
    rcases sf with f | e | _ <;> rcases st with t | e2 | _ <;>
      simp only [Outcome.ok.injEq, reduceCtorEq] at h
    have := sliceBounds_bounds f t n hn
    rw [h] at this
    exact this
  · rw [extractSliceIndices_bad source n (by rw [hs]; simp)] at h; simp at h

/-! ### The elements a slice selects -/

theorem filterMap_length_of_isSome {α β : Type} (f : α → Option β) (l : List α)
    (h : ∀ x ∈ l, (f x).isSome = true) : (l.filterMap f).length = l.length := by
  induction l with
  | nil => rfl
  | cons a l ih =>
    obtain ⟨b, hb⟩ := Option.isSome_iff_exists.mp (h a (List.mem_cons_self _ _))
    rw [List.filterMap_cons, hb]
    simp only [List.length_cons]
    rw [ih (fun x hx => h x (List.mem_cons_of_mem _ hx))]

theorem sliceSelection_length (source : List Value) (indexFrom indexTo : Int)
    (hf : -(source.length : Int) ≤ indexFrom) (ht : indexTo ≤ source.length) :
    (sliceSelection source indexFrom indexTo).length = (indexTo - indexFrom).toNat := by
  unfold sliceSelection
  rw [filterMap_length_of_isSome, List.length_range]
  intro k hk
  rw [List.mem_range] at hk
  rw [elementAt_isSome]
  omega

theorem sliceSelection_contiguous (source : List Value) (indexFrom indexTo : Int)
    (h0 : 0 ≤ indexFrom) (hft : indexFrom ≤ indexTo) (ht : indexTo ≤ source.length) :
    sliceSelection source indexFrom indexTo =
      (source.drop indexFrom.toNat).take (indexTo - indexFrom).toNat := by
  unfold sliceSelection
  rw [← range_get source indexFrom.toNat _ (by omega)]
  apply List.filterMap_congr
  intro k _
  unfold elementAt
  rw [if_pos (by omega)]
  congr 1
  omega

theorem sliceSelection_empty (source : List Value) (indexFrom indexTo : Int)
    (h : indexTo ≤ indexFrom) : sliceSelection source indexFrom indexTo = [] := by
  unfold sliceSelection
  have : (indexTo - indexFrom).toNat = 0 := by omega
  rw [this]; rfl

theorem sliceSelection_wrap (source : List Value) (indexFrom indexTo : Int)
    (hf : -(source.length : Int) ≤ indexFrom) (hneg : indexFrom < 0) (hpos : 0 < indexTo)
    (ht : indexTo ≤ source.length) :
    sliceSelection source indexFrom indexTo =
      source.drop (source.length - (-indexFrom).toNat) ++ source.take indexTo.toNat := by
  unfold sliceSelection
  have hcount : (indexTo - indexFrom).toNat = (-indexFrom).toNat + indexTo.toNat := by omega
  rw [hcount, List.range_add, List.filterMap_append, List.filterMap_map]
  congr 1
  · have h1 := range_get source (source.length - (-indexFrom).toNat) (-indexFrom).toNat (by omega)
    have h2 : (source.drop (source.length - (-indexFrom).toNat)).take (-indexFrom).toNat =
        source.drop (source.length - (-indexFrom).toNat) := by
      apply List.take_of_length_le
      rw [List.length_drop]; omega
    rw [← h2, ← h1]
    apply List.filterMap_congr
    intro k hk
    rw [List.mem_range] at hk
    unfold elementAt
    rw [if_neg (by omega), if_pos (by omega)]
    congr 1
    omega
  · have h1 := range_get source 0 indexTo.toNat (by omega)
    rw [List.drop_zero] at h1
    rw [← h1]
    apply List.filterMap_congr
    intro k hk
    rw [List.mem_range] at hk
    simp only [Function.comp]
    unfold elementAt
    rw [if_pos (by omega)]
    congr 1
    omega

theorem filterInterfaces_slice (source : List Value) (filter part : GoString)
    (indexFrom indexTo : Int)
    (hparts : split (trim filter (ascii "[]")) 44 = [part]) (hcolon : contains part 58 = true)
    (hidx : extractSliceIndices part source.length = .ok (indexFrom, indexTo)) :
    filterInterfaces source filter = .ok (sliceSelection source indexFrom indexTo, false) := by
  unfold filterInterfaces
  simp only [hparts, hcolon, Bool.not_true, Bool.false_eq_true, if_false, hidx, sliceLoop_eq,
    List.nil_append, sliceSelection]

/-! ### The claims -/

/-- C21: a slice segment whose clamped bounds are `indexFrom` and `indexTo`
selects the elements at the indices `indexFrom`, ..., `indexTo - 1` in that
order, a negative index counting from the end: as many elements as indices,
the contiguous sub-array when `0 ≤ indexFrom ≤ indexTo`, nothing when
`indexTo ≤ indexFrom`, and the last `-indexFrom` elements followed by the
first `indexTo` elements when `indexFrom < 0 < indexTo`. -/
theorem slice_selects_range (source : List Value) (filter part : GoString)
    (indexFrom indexTo : Int)
    (hparts : split (trim filter (ascii "[]")) 44 = [part]) (hcolon : contains part 58 = true)
    (hidx : extractSliceIndices part source.length = .ok (indexFrom, indexTo)) :
    filterInterfaces source filter = .ok (sliceSelection source indexFrom indexTo, false) ∧
    (sliceSelection source indexFrom indexTo).length = (indexTo - indexFrom).toNat ∧
    (0 ≤ indexFrom → indexFrom ≤ indexTo →
      sliceSelection source indexFrom indexTo =
        (source.drop indexFrom.toNat).take (indexTo - indexFrom).toNat) ∧
    (indexTo ≤ indexFrom → sliceSelection source indexFrom indexTo = []) ∧
    (indexFrom < 0 → 0 < indexTo →
      sliceSelection source indexFrom indexTo =
        source.drop (source.length - (-indexFrom).toNat) ++ source.take indexTo.toNat) := by
  obtain ⟨hf1, hf2, ht1, ht2⟩ := extractSliceIndices_bounds part source.length _ _ hidx
  exact ⟨filterInterfaces_slice source filter part _ _ hparts hcolon hidx,
    sliceSelection_length source _ _ hf1 ht2,
    fun h0 hft => sliceSelection_contiguous source _ _ h0 hft ht2,
    fun h => sliceSelection_empty source _ _ h,
    fun hneg hpos => sliceSelection_wrap source _ _ hf1 hneg hpos ht2⟩

/-- Witness for C21: `[-100:100]` on the array of four elements has the
bounds `-4` and `4` and selects the four elements twice. -/
theorem slice_selects_range_witness :
    filterInterfaces simpleValues (ascii "[-100:100]") =
      .ok (sliceSelection simpleValues (-4) 4, false) ∧
    sliceSelection simpleValues (-4) 4 = simpleValues ++ simpleValues :=
  ⟨(slice_selects_range simpleValues (ascii "[-100:100]") (ascii "-100:100") (-4) 4
      (by decide) (by decide) (by decide)).1,
   by decide⟩

/-- C22: a slice body that does not hold exactly one colon is an error; on a
body with one colon `extractSliceIndices` returns the bounds that the
specification gives for its two sides (`sliceBounds`), and an error when a
side is neither empty nor an integer. -/
theorem extractSliceIndices_bounds_of_sides (source : GoString) (n : Nat) :
    ((split source 58).length ≠ 2 →
      extractSliceIndices source n = .error badSliceDefinition) ∧
    (∀ part0 part1, split source 58 = [part0, part1] →
      extractSliceIndices source n =
        (match sliceSide (trim part0 (ascii " ")), sliceSide (trim part1 (ascii " ")) with
          | .ok sideFrom, .ok sideTo => .ok (sliceBounds sideFrom sideTo n)
          | .ok _, .error err => .error err
          | .ok _, .panic => .panic
          | .error err, _ => .error err
          | .panic, _ => .panic)) ∧
    (∀ text, text ≠ [] → ExpressionTree.isDecimalInteger text = false →
      sliceSide text = .error numError) ∧
    (∀ text i, atoi text = some i → sliceSide text = .ok (some i)) := by
  refine ⟨extractSliceIndices_bad source n,
    fun part0 part1 h => extractSliceIndices_sides source part0 part1 n h, ?_, ?_⟩
  · intro text hne hnot
    simp only [sliceSide, if_neg hne, ExpressionTree.atoi_not_decimal text hnot]
  · intro text i hi
    have hne : text ≠ [] := by
      intro h; rw [h] at hi; simp [atoi] at hi
    simp only [sliceSide, if_neg hne, hi]

/-- Witness for C22: the bounds of `-100:` on an array of four elements. -/
theorem extractSliceIndices_bounds_of_sides_witness :
    extractSliceIndices (ascii "-100:") (4 : Nat) = .ok (-4, 0) ∧
    extractSliceIndices (ascii "1:2:3") (4 : Nat) = .error badSliceDefinition :=
  ⟨((extractSliceIndices_bounds_of_sides (ascii "-100:") 4).2.1 (ascii "-100") [] (by decide)).trans
      (by decide),
   (extractSliceIndices_bounds_of_sides (ascii "1:2:3") 4).1 (by decide)⟩

/-- Counterexample to C23: on the array `[666]` the slice `[-1:1]` selects
the element twice, which is not what `[:]` selects. -/
theorem slice_minus_n_to_n_is_not_full_array :
    filterInterfaces [.int 666] (ascii "[-1:1]") = .ok ([.int 666, .int 666], false) ∧
    filterInterfaces [.int 666] (ascii "[:]") = .ok ([.int 666], false) ∧
    filterInterfaces [.int 666] (ascii "[-1:1]") ≠ filterInterfaces [.int 666] (ascii "[:]") := by
  decide

/-- C23 (amended): on an array of length `n` a slice whose sides are the
integers `-n` and `n` selects the array followed by the array again, and `[:]`
selects the array. -/
theorem slice_minus_n_to_n_doubles (source : List Value) (filter part part0 part1 : GoString)
    (hparts : split (trim filter (ascii "[]")) 44 = [part])
    (hsplit : split part 58 = [part0, part1])
    (hfrom : atoi (trim part0 (ascii " ")) = some (-(source.length : Int)))
    (hto : atoi (trim part1 (ascii " ")) = some (source.length : Int)) :
    filterInterfaces source filter = .ok (source ++ source, false) ∧
    filterInterfaces source (ascii "[:]") = .ok (source, false) := by
  have hn : (0 : Int) ≤ source.length := Int.natCast_nonneg _
  constructor
  · have hcolon : contains part 58 = true := by
      unfold contains
      by_contra hc
      have hnm : (58 : Nat) ∉ part := by simpa using hc
      rw [split_of_not_mem part 58 hnm] at hsplit
      simp at hsplit
    have hsideF : sliceSide (trim part0 (ascii " ")) = .ok (some (-(source.length : Int))) := by
      have hne : trim part0 (ascii " ") ≠ [] := by
        intro h; rw [h] at hfrom; simp [atoi] at hfrom
      simp only [sliceSide, if_neg hne, hfrom]
    have hsideT : sliceSide (trim part1 (ascii " ")) = .ok (some (source.length : Int)) := by
      have hne : trim part1 (ascii " ") ≠ [] := by
        intro h; rw [h] at hto; simp [atoi] at hto
      simp only [sliceSide, if_neg hne, hto]
    have hidx : extractSliceIndices part source.length =
        .ok (-(source.length : Int), (source.length : Int)) := by
      rw [extractSliceIndices_sides part part0 part1 _ hsplit, hsideF, hsideT]
      simp only [sliceBounds, clamp]
      congr 2 <;> omega
    rw [filterInterfaces_slice source filter part _ _ hparts hcolon hidx]
    by_cases h0 : source.length = 0
    · have : source = [] := List.length_eq_zero.mp h0
      subst this
      rfl
    · rw [sliceSelection_wrap source _ _ (le_refl _) (by omega) (by omega) (le_refl _)]
      have e1 : source.length - (-(-(source.length : Int))).toNat = 0 := by omega
      have e2 : ((source.length : Int)).toNat = source.length := by omega
      rw [e1, e2, List.drop_zero, List.take_length]
  · have hidx : extractSliceIndices (ascii ":") source.length =
        .ok (0, (source.length : Int)) := by
      rw [extractSliceIndices_sides (ascii ":") [] [] _ (by decide)]
      rfl
    rw [filterInterfaces_slice source (ascii "[:]") (ascii ":") _ _ (by decide) (by decide) hidx,
      sliceSelection_contiguous source _ _ (le_refl _) hn (le_refl _)]
    simp

/-- Witness for C23 (amended): `[-4:4]` on the array of four elements. -/
theorem slice_minus_n_to_n_doubles_witness :
    filterInterfaces simpleValues (ascii "[-4:4]") = .ok (simpleValues ++ simpleValues, false) ∧
    filterInterfaces simpleValues (ascii "[:]") = .ok (simpleValues, false) :=
  slice_minus_n_to_n_doubles simpleValues (ascii "[-4:4]") (ascii "-4:4") (ascii "-4") (ascii "4")
    (by decide) (by decide) (by decide) (by decide)

theorem filterInterfaces_single (source : List Value) (filter part : GoString) (i : Int)
    (hparts : split (trim filter (ascii "[]")) 44 = [part]) (hcolon : contains part 58 = false)
    (hi : atoi (trim part (ascii " ")) = some i) :
    filterInterfaces source filter =
      (match elementAt source i with
        | some v => .ok ([v], true)
        | none => .error badIndex) := by
  unfold filterInterfaces
  simp only [hparts, hcolon, Bool.not_false, if_true, hi, getValueByIndex_eq]
  cases elementAt source i <;> simp

theorem get_single (unmarshal : GoString → Option Value) (source : List Value)
    (filter part : GoString) (i : Int)
    (hparts : split (trim filter (ascii "[]")) 44 = [part]) (hcolon : contains part 58 = false)
    (hi : atoi (trim part (ascii " ")) = some i) :
    Path.Get unmarshal (some { path := [filter] }) (.array source) =
      (match elementAt source i with
        | some v => .ok v
        | none => .error badIndex) := by
  simp only [Path.Get, recursiveGet, filterInterfaces_single source filter part i hparts hcolon hi]
  cases elementAt source i <;> simp

/-- C24: on an array of length `n` the single-index segment whose body is the
integer `i` makes `Get` return the element at position `i` when `0 ≤ i < n`,
the element at position `n + i` when `-n ≤ i < 0`, and the error `bad index`
for every other `i`; a body that is not an integer gives the error of
`strconv.Atoi`. -/
theorem single_index_get (unmarshal : GoString → Option Value) (source : List Value)
    (filter part : GoString)
    (hparts : split (trim filter (ascii "[]")) 44 = [part])
    (hcolon : contains part 58 = false) :
    (∀ i : Int, atoi (trim part (ascii " ")) = some i →
      (0 ≤ i → i < source.length →
        ∃ v, source.get? i.toNat = some v ∧
          Path.Get unmarshal (some { path := [filter] }) (.array source) = .ok v) ∧
      (-(source.length : Int) ≤ i → i < 0 →
        ∃ v, source.get? ((source.length : Int) + i).toNat = some v ∧
          Path.Get unmarshal (some { path := [filter] }) (.array source) = .ok v) ∧
      ((i < -(source.length : Int) ∨ (source.length : Int) ≤ i) →
        Path.Get unmarshal (some { path := [filter] }) (.array source) = .error badIndex)) ∧
    (atoi (trim part (ascii " ")) = none →
      Path.Get unmarshal (some { path := [filter] }) (.array source) = .error numError) := by
  constructor
  · intro i hi
    have hget := get_single unmarshal source filter part i hparts hcolon hi
    refine ⟨?_, ?_, ?_⟩
    · intro h0 hn
      have hlt : i.toNat < source.length := by omega
      refine ⟨source.get ⟨i.toNat, hlt⟩, List.get?_eq_get hlt, ?_⟩
      rw [hget]
      have : elementAt source i = some (source.get ⟨i.toNat, hlt⟩) := by
        unfold elementAt; rw [if_pos h0]; exact List.get?_eq_get hlt
      rw [this]
    · intro hn h0
      have hlt : ((source.length : Int) + i).toNat < source.length := by omega
      refine ⟨source.get ⟨((source.length : Int) + i).toNat, hlt⟩, List.get?_eq_get hlt, ?_⟩
      rw [hget]
      have : elementAt source i = some (source.get ⟨((source.length : Int) + i).toNat, hlt⟩) := by
        unfold elementAt; rw [if_neg (by omega), if_pos hn]; exact List.get?_eq_get hlt
      rw [this]
    · intro hout
      rw [hget]
      have : elementAt source i = none := by
        have h := elementAt_isSome source i
        cases he : elementAt source i with
        | none => rfl
        | some v =>
          rw [he] at h
          have := h.mp rfl
          omega
      rw [this]
  · intro hnone
    simp only [Path.Get, recursiveGet, filterInterfaces, hparts, hcolon, Bool.not_false, if_true,
      hnone]

/-- Witness for C24: on the array of four elements `[-1]` is the last
element, `[4]` is a bad index and `[a]` is not an integer. -/
theorem single_index_get_witness :
    Path.Get noUnmarshal (some { path := [ascii "[-1]"] }) (.array simpleValues) =
      .ok (.int 669) ∧
    Path.Get noUnmarshal (some { path := [ascii "[4]"] }) (.array simpleValues) =
      .error badIndex ∧
    Path.Get noUnmarshal (some { path := [ascii "[a]"] }) (.array simpleValues) =
      .error numError :=
  ⟨by
    obtain ⟨v, hv, hget⟩ := ((single_index_get noUnmarshal simpleValues (ascii "[-1]")
      (ascii "-1") (by decide) (by decide)).1 (-1) (by decide)).2.1 (by decide) (by decide)
    have : v = .int 669 := by
      have h2 : simpleValues.get? (((simpleValues.length : Int) + -1).toNat) =
          some (.int 669) := by decide
      rw [h2] at hv
      exact (Option.some.inj hv).symm
    rw [hget, this],
   ((single_index_get noUnmarshal simpleValues (ascii "[4]") (ascii "4") (by decide)
      (by decide)).1 4 (by decide)).2.2 (Or.inr (by decide)),
   (single_index_get noUnmarshal simpleValues (ascii "[a]") (ascii "a") (by decide)
      (by decide)).2 (by decide)⟩

theorem unionLoop_ok (source : List Value) (parts : List GoString) (indices : List Int)
    (dest : List Value)
    (h : parts.map (fun p => atoi (trim p (ascii " "))) = indices.map some) :
    unionLoop source parts dest = .ok (dest ++ indices.filterMap (elementAt source)) := by
  induction parts generalizing indices dest with
  | nil =>
    cases indices with
    | nil => simp [unionLoop]
    | cons i is => simp at h
  | cons p parts ih =>
    cases indices with
    | nil => simp at h
    | cons i is =>
      simp only [List.map_cons, List.cons.injEq] at h
      rw [unionLoop, h.1]
      simp only
      rw [ih is _ h.2, getValueByIndex_eq, List.filterMap_cons]
      cases elementAt source i <;> simp

theorem unionLoop_error (source : List Value) (parts : List GoString) (dest : List Value)
    (h : ∃ p ∈ parts, atoi (trim p (ascii " ")) = none) :
    unionLoop source parts dest = .error numError := by
  induction parts generalizing dest with
  | nil => obtain ⟨p, hp, _⟩ := h; simp at hp
  | cons q parts ih =>
    rw [unionLoop]
    rcases hq : atoi (trim q (ascii " ")) with _ | i
    · rfl
    · simp only
      obtain ⟨p, hp, hnone⟩ := h
      rcases List.mem_cons.mp hp with hp | hp
      · rw [hp, hq] at hnone; simp at hnone
      · exact ih _ ⟨p, hp, hnone⟩

theorem filterInterfaces_union (source : List Value) (filter : GoString)
    (hlen : 2 ≤ (split (trim filter (ascii "[]")) 44).length) :
    filterInterfaces source filter =
      (match unionLoop source (split (trim filter (ascii "[]")) 44) [] with
        | .error err => .error err
        | .panic => .panic
        | .ok dest => .ok (dest, false)) := by
  unfold filterInterfaces
  rcases hs : split (trim filter (ascii "[]")) 44 with _ | ⟨a, _ | ⟨b, rest⟩⟩
  · rw [hs] at hlen; simp at hlen
  · rw [hs] at hlen; simp at hlen
  · simp only [hs]

/-- C25: a union segment of two or more parts whose parts are the integers
`indices` selects, in the order written, the element at each index that is in
range (a negative index counting from the end), one element for each such
index and none for the others, so at most as many elements as parts; when
some part is not an integer the segment fails. -/
theorem union_selects_listed_indices (source : List Value) (filter : GoString)
    (hlen : 2 ≤ (split (trim filter (ascii "[]")) 44).length) :
    (∀ indices : List Int,
      (split (trim filter (ascii "[]")) 44).map (fun p => atoi (trim p (ascii " "))) =
        indices.map some →
      filterInterfaces source filter = .ok (indices.filterMap (elementAt source), false) ∧
      (indices.filterMap (elementAt source)).length ≤
        (split (trim filter (ascii "[]")) 44).length ∧
      (∀ i, (elementAt source i).isSome = true ↔
        (-(source.length : Int) ≤ i ∧ i < source.length))) ∧
    ((∃ p ∈ split (trim filter (ascii "[]")) 44, atoi (trim p (ascii " ")) = none) →
      filterInterfaces source filter = .error numError) := by
  constructor
  · intro indices h
    refine ⟨?_, ?_, elementAt_isSome source⟩
    · rw [filterInterfaces_union source filter hlen, unionLoop_ok source _ indices [] h]
      rfl
    · have h1 := List.length_filterMap_le (elementAt source) indices
      have h2 := congrArg List.length h
      simp only [List.length_map] at h2
      omega
  · intro h
    rw [filterInterfaces_union source filter hlen, unionLoop_error source _ [] h]

/-- Witness for C25: `[-1, -100, -2]` on the array of four elements selects
the last and the third element, and `[0, a]` fails. -/
theorem union_selects_listed_indices_witness :
    filterInterfaces simpleValues (ascii "[-1, -100, -2]") =
      .ok ([.int 669, .int 668], false) ∧
    filterInterfaces simpleValues (ascii "[0, a]") = .error numError :=
  ⟨((union_selects_listed_indices simpleValues (ascii "[-1, -100, -2]") (by decide)).1
      [-1, -100, -2] (by decide)).1.trans (by decide),
   (union_selects_listed_indices simpleValues (ascii "[0, a]") (by decide)).2
      ⟨ascii " a", by decide, by decide⟩⟩

theorem appendResult_eq (dest : List Value) (result : Value) :
    appendResult dest result = dest ++ contribution result := by
  cases result <;> rfl

theorem combineLoop_ok (get : Value → Outcome Value) (es results dest : List Value)
    (h : List.Forall₂ (fun e r => get e = .ok r) es results) :
    combineLoop get es dest = .ok (dest ++ (results.map contribution).flatten) := by
  induction h generalizing dest with
  | nil => simp [combineLoop]
  | cons hhead _ ih =>
    rw [combineLoop, hhead]
    simp only
    rw [ih, appendResult_eq]
    simp

theorem combineLoop_fail (get : Value → Outcome Value) (es dest : List Value)
    (h : ∃ e ∈ es, (get e).isOk = false) :
    (combineLoop get es dest).isOk = false := by
  induction es generalizing dest with
  | nil => obtain ⟨e, he, _⟩ := h; simp at he
  | cons a es ih =>
    rw [combineLoop]
    rcases ha : get a with r | err | _
    · simp only
      obtain ⟨e, he, hfail⟩ := h
      rcases List.mem_cons.mp he with he | he
      · rw [he, ha] at hfail; simp [Outcome.isOk] at hfail
      · exact ih _ ⟨e, he, hfail⟩
    · rfl
    · rfl

/-- C26: when a segment selects the elements `es` as a union or a slice does
(not as a single index): with no segment left `Get` returns the list `es`;
with segments left, if the rest of the path resolves on each element, `Get`
returns the concatenation in order of what the results contribute, the
elements of a result that is an array and any other result itself; and if the
rest of the path fails on some element, `Get` fails. -/
theorem multi_valued_segment_combines (unmarshal : GoString → Option Value)
    (source es : List Value) (segment : GoString) (rest : List GoString)
    (hsel : filterInterfaces source segment = .ok (es, false)) :
    (rest = [] →
      Path.Get unmarshal (some { path := segment :: rest }) (.array source) =
        .ok (.array es)) ∧
    (rest ≠ [] → ∀ results : List Value,
      List.Forall₂ (fun e r => recursiveGet unmarshal e rest = .ok r) es results →
      Path.Get unmarshal (some { path := segment :: rest }) (.array source) =
        .ok (.array ((results.map contribution).flatten))) ∧
    (rest ≠ [] → (∃ e ∈ es, (recursiveGet unmarshal e rest).isOk = false) →
      (Path.Get unmarshal (some { path := segment :: rest }) (.array source)).isOk = false) := by
  refine ⟨?_, ?_, ?_⟩
  · intro hrest
    subst hrest
    simp [Path.Get, recursiveGet, hsel]
  · intro hrest results hall
    have hlen : ¬ rest.length = 0 := fun h => hrest (List.length_eq_zero.mp h)
    simp only [Path.Get, recursiveGet, hsel, Bool.false_eq_true, if_false, hlen,
      combineLoop_ok _ es results [] hall, List.nil_append]
  · intro hrest hfail
    have hlen : ¬ rest.length = 0 := fun h => hrest (List.length_eq_zero.mp h)
    have hc := combineLoop_fail (fun fd => recursiveGet unmarshal fd rest) es [] hfail
    simp only [Path.Get, recursiveGet, hsel, Bool.false_eq_true, if_false, hlen]
    rcases hcl : combineLoop (fun fd => recursiveGet unmarshal fd rest) es [] with r | err | _
    · rw [hcl] at hc; simp [Outcome.isOk] at hc
    · rfl
    · rfl

/-- Witness for C26: the ids of the first and the third object, and a
failure when one of the selected elements has no such field. -/
theorem multi_valued_segment_combines_witness :
    Path.Get noUnmarshal (some { path := [ascii "[0, 2]", ascii "id"] })
      (.array (createObjects [666, 667, 668])) = .ok (.array [.int 666, .int 668]) ∧
    (Path.Get noUnmarshal (some { path := [ascii "[0, 2]", ascii "id"] })
      (.array [.object [(ascii "id", .int 1)], .null, .object []])).isOk = false :=
  ⟨((multi_valued_segment_combines noUnmarshal (createObjects [666, 667, 668])
      [.object [(ascii "id", .int 666)], .object [(ascii "id", .int 668)]] (ascii "[0, 2]")
      [ascii "id"] (by decide)).2.1 (by decide) [.int 666, .int 668]
      (List.Forall₂.cons (by decide) (List.Forall₂.cons (by decide) List.Forall₂.nil))),
   (multi_valued_segment_combines noUnmarshal
      [.object [(ascii "id", .int 1)], .null, .object []]
      [.object [(ascii "id", .int 1)], .object []] (ascii "[0, 2]") [ascii "id"]
      (by decide)).2.2 (by decide) ⟨.object [], by decide, by decide⟩⟩

theorem mapGet_mapSet (m : List (GoString × Value)) (key : GoString) (value : Value) :
    mapGet (mapSet m key value) key = some value := by
  induction m with
  | nil => simp [mapSet, mapGet]
  | cons kv m ih =>
    obtain ⟨k, v⟩ := kv
    by_cases h : k = key
    · simp [mapSet, mapGet, h]
    · simp [mapSet, mapGet, h, ih]

theorem recursiveSet_get (unmarshal : GoString → Option Value) (value : Value)
    (path : List GoString) (data : Value) (m : List (GoString × Value))
    (h : recursiveSet data value path = .ok m) :
    recursiveGet unmarshal (.object m) path = .ok value := by
  induction path generalizing data m with
  | nil => simp [recursiveSet] at h
  | cons segment path ih =>
    rw [recursiveSet] at h
    by_cases hlen : path.length = 0
    · rw [if_pos hlen] at h
      have hp : path = [] := List.length_eq_zero.mp hlen
      subst hp
      simp only [Outcome.ok.injEq] at h
      subst h
      simp only [recursiveGet, mapGet_mapSet]
    · rw [if_neg hlen] at h
      rcases hr : recursiveSet ((mapGet (dataMapOf data) segment).getD .null) value path
        with inner | err | _
      · rw [hr] at h
        simp only [Outcome.ok.injEq] at h
        subst h
        simp only [recursiveGet, mapGet_mapSet]
        exact ih _ inner hr
      · rw [hr] at h; simp at h
      · rw [hr] at h; simp at h

/-- C27: when `Set` on `data` with the value `v` succeeds and returns `data'`,
`Get` on `data'` with the same path succeeds and returns `v`, whatever `data`
is and whatever the path is (the nil path and the empty path included). -/
theorem set_then_get (unmarshal : GoString → Option Value) (path : Option Path)
    (data v data' : Value) (h : Path.Set path data v = .ok data') :
    Path.Get unmarshal path data' = .ok v := by
  unfold Path.Set at h
  simp only at h
  rcases path with _ | ⟨⟨segments⟩⟩
  · simp only [List.length_nil, if_true] at h
    cases v <;> simp only [Outcome.ok.injEq, reduceCtorEq] at h <;> subst h <;> rfl
  · simp only at h
    by_cases hlen : segments.length = 0
    · rw [if_pos hlen] at h
      have hp : segments = [] := List.length_eq_zero.mp hlen
      subst hp
      cases v <;> simp only [Outcome.ok.injEq, reduceCtorEq] at h <;> subst h <;> rfl
    · rw [if_neg hlen] at h
      rcases hr : recursiveSet data v segments with m | err | _
      · rw [hr] at h
        simp only [Outcome.ok.injEq] at h
        subst h
        exact recursiveSet_get unmarshal v segments data m hr
      · rw [hr] at h; simp at h
      · rw [hr] at h; simp at h

/-- Witness for C27: `Set` at `$.a.b` on the map that binds `a` to a string
overwrites the string with a map, and `Get` returns the value set. -/
theorem set_then_get_witness :
    Path.Set (some { path := [ascii "a", ascii "b"] })
        (.object [(ascii "a", .string (ascii "b"))]) (.string (ascii "s")) =
      .ok (.object [(ascii "a", .object [(ascii "b", .string (ascii "s"))])]) ∧
    Path.Get noUnmarshal (some { path := [ascii "a", ascii "b"] })
        (.object [(ascii "a", .object [(ascii "b", .string (ascii "s"))])]) =
      .ok (.string (ascii "s")) :=
  ⟨by decide,
   set_then_get noUnmarshal (some { path := [ascii "a", ascii "b"] })
    (.object [(ascii "a", .string (ascii "b"))]) (.string (ascii "s")) _ (by decide)⟩

/-- C28: with the empty path `Set` returns an error for the value `nil`,
which is the JSON null; it returns every other JSON value unchanged, whatever
the data, and an error for a value that is not a JSON value. -/
theorem set_root_rejects_null (data : Value) :
    Path.Set (some { path := [] }) data .null = .error cannotSet ∧
    Path.Set none data .null = .error cannotSet ∧
    (∀ v, isJsonValue v = true → v ≠ .null →
      Path.Set (some { path := [] }) data v = .ok v ∧ Path.Set none data v = .ok v) ∧
    (∀ v, isJsonValue v = false →
      Path.Set (some { path := [] }) data v = .error cannotSet) := by
  refine ⟨rfl, rfl, ?_, ?_⟩
  · intro v hj hn
    cases v with
    | null => exact absurd rfl hn
    | int i => simp [isJsonValue] at hj
    | bool b => exact ⟨rfl, rfl⟩
    | float64 bits => exact ⟨rfl, rfl⟩
    | string s => exact ⟨rfl, rfl⟩
    | array items => exact ⟨rfl, rfl⟩
    | object fields => exact ⟨rfl, rfl⟩
  · intro v hj
    cases v with
    | int i => rfl
    | null => simp [isJsonValue] at hj
    | bool b => simp [isJsonValue] at hj
    | float64 bits => simp [isJsonValue] at hj
    | string s => simp [isJsonValue] at hj
    | array items => simp [isJsonValue] at hj
    | object fields => simp [isJsonValue] at hj

/-- Witness for C28: the value of the test is returned, null is not. -/
theorem set_root_rejects_null_witness :
    Path.Set (some { path := [] }) (.object [(ascii "a", .string (ascii "b"))])
        (.object [(ascii "c", .string (ascii "d"))]) =
      .ok (.object [(ascii "c", .string (ascii "d"))]) ∧
    Path.Set (some { path := [] }) (.object [(ascii "a", .string (ascii "b"))]) .null =
      .error cannotSet :=
  ⟨((set_root_rejects_null (.object [(ascii "a", .string (ascii "b"))])).2.2.1
      (.object [(ascii "c", .string (ascii "d"))]) rfl (by decide)).1,
   (set_root_rejects_null (.object [(ascii "a", .string (ascii "b"))])).1⟩

/-- Counterexample to C29: on the array `[1.0]` and the path `$` the value
resolved is an array, and `GetNumber` returns zero with a nil error. -/
theorem getNumber_array_of_number_no_error :
    Path.GetNumber noUnmarshal noFloat64OfInt (some { path := [] })
        (.array [.float64 ContentParsing.float64One]) = .returned (some 0, none) ∧
    isNumber (.array [.float64 ContentParsing.float64One]) = false := by
  decide

/-- C29 (amended): `GetNumber` returns the number when the path resolves to
a `float64` or an `int`; it returns a nil pointer and an error when the path
does not resolve, and when it resolves to a value that is neither a number
nor an array; it returns zero and an error when the path resolves to an array
whose first element is not a `float64`. -/
theorem getNumber_results (unmarshal : GoString → Option Value) (float64OfInt : Int → Nat)
    (path : Option Path) (input : Value) :
    (∀ bits, Path.Get unmarshal path input = .ok (.float64 bits) →
      Path.GetNumber unmarshal float64OfInt path input = .returned (some bits, none)) ∧
    (∀ i, Path.Get unmarshal path input = .ok (.int i) →
      Path.GetNumber unmarshal float64OfInt path input =
        .returned (some (float64OfInt i), none)) ∧
    (∀ err, Path.Get unmarshal path input = .error err →
      Path.GetNumber unmarshal float64OfInt path input =
        .returned (none, some (.getFloatError err))) ∧
    (∀ v, Path.Get unmarshal path input = .ok v → isNumber v = false → isArray v = false →
      Path.GetNumber unmarshal float64OfInt path input =
        .returned (none, some getFloatMustReturnFloat)) ∧
    (∀ first rest, Path.Get unmarshal path input = .ok (.array (first :: rest)) →
      (∀ bits, first ≠ .float64 bits) →
      Path.GetNumber unmarshal float64OfInt path input =
        .returned (some 0, some getNumberWrongType)) := by
  refine ⟨?_, ?_, ?_, ?_, ?_⟩
  · intro bits h; simp only [Path.GetNumber, h]
  · intro i h; simp only [Path.GetNumber, h]
  · intro err h; simp only [Path.GetNumber, h]
  · intro v h hn ha
    cases v with
    | null => simp only [Path.GetNumber, h]
    | bool b => simp only [Path.GetNumber, h]
    | float64 bits => simp [isNumber] at hn
    | int i => simp [isNumber] at hn
    | string s => simp only [Path.GetNumber, h]
    | array items => simp [isArray] at ha
    | object fields => simp only [Path.GetNumber, h]
  · intro first rest h hf
    cases first <;> first | (simp only [Path.GetNumber, h]; done) | exact absurd rfl (hf _)

/-- Witness for C29 (amended): the number of the test, and an array whose
first element is a string. -/
theorem getNumber_results_witness :
    Path.GetNumber noUnmarshal noFloat64OfInt (some { path := [ascii "x"] })
        (.object [(ascii "x", .float64 ContentParsing.float64One)]) =
      .returned (some ContentParsing.float64One, none) ∧
    Path.GetNumber noUnmarshal noFloat64OfInt (some { path := [] })
        (.array [.string (ascii "a")]) = .returned (some 0, some getNumberWrongType) :=
  ⟨(getNumber_results noUnmarshal noFloat64OfInt (some { path := [ascii "x"] })
      (.object [(ascii "x", .float64 ContentParsing.float64One)])).1 _ (by decide),
   (getNumber_results noUnmarshal noFloat64OfInt (some { path := [] })
      (.array [.string (ascii "a")])).2.2.2.2 (.string (ascii "a")) [] (by decide)
      (fun bits h => by cases h)⟩

/-! ### The parser on dotted names -/

set_option maxHeartbeats 1000000 in
theorem decodeRune_append (n t : GoString) (hn : n ≠ [])
    (ht : ∀ b ∈ t.head?, b < 0x80) :
    ContentParsing.decodeRune (n ++ t) = ContentParsing.decodeRune n ∧
      (ContentParsing.decodeRune n).2 ≤ n.length := by
  rcases n with _ | ⟨b0, n⟩
  · exact absurd rfl hn
  by_cases h1 : b0 < 0x80
  · simp [ContentParsing.decodeRune, h1]
  by_cases h2 : 0xC2 ≤ b0 ∧ b0 ≤ 0xDF
  · rcases n with _ | ⟨b1, n⟩
    · rcases t with _ | ⟨c, t⟩
      · simp [ContentParsing.decodeRune, h1, h2]
      · have hc : ¬ 0x80 ≤ c := Nat.not_le.mpr (ht c (by simp))
        simp [ContentParsing.decodeRune, h1, h2, ContentParsing.isCont, hc]
    · simp only [ContentParsing.decodeRune, List.cons_append, if_neg h1, h2,
        decide_True, Bool.and_self, if_true, List.length_cons]
      split_ifs <;> simp
  by_cases h3 : 0xE0 ≤ b0 ∧ b0 ≤ 0xEF
  · rcases n with _ | ⟨b1, _ | ⟨b2, n⟩⟩
    · rcases t with _ | ⟨c, _ | ⟨c2, t⟩⟩
      · simp [ContentParsing.decodeRune, h1, h2, h3]
      · simp [ContentParsing.decodeRune, h1, h2, h3]
      · have hc : c < 0x80 := ht c (by simp)
        simp only [ContentParsing.decodeRune, List.cons_append, List.nil_append, if_neg h1, h2,
          h3, Bool.and_eq_true, decide_eq_true_eq, List.length_cons, ContentParsing.isCont]
        split_ifs <;> first | omega | simp
    · rcases t with _ | ⟨c, t⟩
      · simp [ContentParsing.decodeRune, h1, h2, h3]
      · have hc : ¬ 0x80 ≤ c := Nat.not_le.mpr (ht c (by simp))
        simp [ContentParsing.decodeRune, h1, h2, h3, ContentParsing.isCont, hc]
    · simp only [ContentParsing.decodeRune, List.cons_append, if_neg h1, h2, h3,
        decide_True, decide_False, Bool.and_self, Bool.and_false, Bool.false_and, if_true,
        if_false, List.length_cons, Bool.false_eq_true]
      split_ifs <;> simp
  by_cases h4 : 0xF0 ≤ b0 ∧ b0 ≤ 0xF4
  · rcases n with _ | ⟨b1, _ | ⟨b2, _ | ⟨b3, n⟩⟩⟩
    · rcases t with _ | ⟨c, _ | ⟨c2, _ | ⟨c3, t⟩⟩⟩
      · simp [ContentParsing.decodeRune, h1, h2, h3, h4]
      · simp [ContentParsing.decodeRune, h1, h2, h3, h4]
      · simp [ContentParsing.decodeRune, h1, h2, h3, h4]
      · have hc : c < 0x80 := ht c (by simp)
        simp only [ContentParsing.decodeRune, List.cons_append, List.nil_append, if_neg h1, h2,
          h3, h4, Bool.and_eq_true, decide_eq_true_eq, List.length_cons, ContentParsing.isCont]
        split_ifs <;> first | omega | simp
    · rcases t with _ | ⟨c, _ | ⟨c2, t⟩⟩
      · simp [ContentParsing.decodeRune, h1, h2, h3, h4]
      · simp [ContentParsing.decodeRune, h1, h2, h3, h4]
      · have hc : ¬ 0x80 ≤ c := Nat.not_le.mpr (ht c (by simp))
        simp [ContentParsing.decodeRune, h1, h2, h3, h4, ContentParsing.isCont, hc]
    · rcases t with _ | ⟨c, t⟩
      · simp [ContentParsing.decodeRune, h1, h2, h3, h4]
      · have hc : ¬ 0x80 ≤ c := Nat.not_le.mpr (ht c (by simp))
        simp [ContentParsing.decodeRune, h1, h2, h3, h4, ContentParsing.isCont, hc]
    · simp only [ContentParsing.decodeRune, List.cons_append, if_neg h1, h2, h3, h4,
        decide_True, decide_False, Bool.and_self, Bool.and_false, Bool.false_and, if_true,
        if_false, List.length_cons, Bool.false_eq_true]
      split_ifs <;> simp
  · simp [ContentParsing.decodeRune, h1, h2, h3, h4]

theorem toRunes_append (n t : GoString) (ht : ∀ b ∈ t.head?, b < 0x80) :
    toRunes (n ++ t) = toRunes n ++ toRunes t := by
  generalize hlen : n.length = len
  induction len using Nat.strong_induction_on generalizing n with
  | _ len ih =>
    rcases n with _ | ⟨b, n⟩
    · rfl
    · have hd := decodeRune_append (b :: n) t (by simp) ht
      have hpos := ExpressionTree.decodeRune_size_pos b n
      rw [List.cons_append, ExpressionTree.toRunes_cons, ExpressionTree.toRunes_cons b n,
        ← List.cons_append, hd.1, List.drop_append_of_le_length hd.2,
        ih _ _ _ rfl, List.cons_append]
      rw [← hlen, List.length_drop]
      simp only [List.length_cons] at hd ⊢
      omega

theorem parseLoop_append (a b : List Nat) (state : parseState) :
    parseLoop (a ++ b) state =
      match parseLoop a state with
      | .ok next => parseLoop b next
      | .error err => .error err
      | .panic => .panic := by
  induction a generalizing state with
  | nil => rfl
  | cons ch a ih =>
    simp only [List.cons_append, parseLoop]
    cases state.handle ch with
    | ok next => exact ih next
    | error err => rfl
    | panic => rfl

theorem parsePathString_eq (source : GoString) :
    parsePathString source =
      match parseLoop (toRunes source ++ [eofRune]) initState with
      | .ok state => .ok state.path
      | .error err => .error err
      | .panic => .panic := by
  rw [parsePathString, parseLoop_append]
  cases parseLoop (toRunes source) initState with
  | ok state =>
    simp only [parseLoop]
    cases state.handle eofRune <;> rfl
  | error err => rfl
  | panic => rfl

theorem processDotState_write (char : Nat) (path : List GoString) (part : GoString)
    (h : isNameBreak char = false) :
    (dotState path part).handle char = .ok (dotState path (part ++ encodeRune char)) := by
  simp only [isNameBreak, Bool.or_eq_false_iff, beq_eq_false_iff_ne, ne_eq] at h
  obtain ⟨⟨⟨⟨h46, h91⟩, h93⟩, hsp⟩, h0⟩ := h
  simp only [parseState.handle, dotState, processDotState, hsp, h46, h91, h93, h0,
    false_and, if_false, Bool.false_eq_true, parseState.writeRune]

theorem parseLoop_name (rs : List Nat) (path : List GoString) (part : GoString)
    (h : rs.all (fun r => !isNameBreak r) = true) :
    parseLoop rs (dotState path part) = .ok (dotState path (part ++ fromRunes rs)) := by
  induction rs generalizing part with
  | nil => simp [parseLoop, fromRunes]
  | cons r rs ih =>
    simp only [List.all_cons, Bool.and_eq_true, Bool.not_eq_eq_eq_not, Bool.not_true] at h
    rw [parseLoop, processDotState_write r path part h.1]
    simp only
    rw [ih _ h.2, fromRunes, List.append_assoc]

theorem processDotState_dot (path : List GoString) (part : GoString) (h : part ≠ []) :
    (dotState path part).handle 46 = .ok (dotState (path ++ [part]) []) := by
  have hl : part.length ≠ 0 := fun hz => h (List.length_eq_zero.mp hz)
  simp [parseState.handle, dotState, processDotState, isSpaceRune,
    ContentParsing.isAsciiSpace, hl, parseState.appendPart]

theorem processDotState_eof (path : List GoString) (part : GoString) (h : part ≠ []) :
    (dotState path part).handle eofRune = .ok (dotState (path ++ [part]) []) := by
  have hl : part.length ≠ 0 := fun hz => h (List.length_eq_zero.mp hz)
  simp [parseState.handle, dotState, processDotState, isSpaceRune,
    ContentParsing.isAsciiSpace, hl, parseState.appendPart, eofRune]

theorem parseLoop_names (name : GoString) (names : List GoString) (path : List GoString)
    (h : ∀ n ∈ name :: names, isDottedName n = true) :
    parseLoop (toRunes (name ++ (names.map (fun n => 46 :: n)).flatten) ++ [eofRune])
        (dotState path []) =
      .ok (dotState (path ++ (name :: names).map (fun n => fromRunes (toRunes n))) []) := by
  induction names generalizing name path with
  | nil =>
    have hn := h name (by simp)
    simp only [isDottedName, Bool.and_eq_true, Bool.not_eq_eq_eq_not, Bool.not_true,
      List.isEmpty_eq_false] at hn
    have hne : fromRunes (toRunes name) ≠ [] := by
      rw [ne_eq, ExpressionTree.fromRunes_eq_nil, ExpressionTree.toRunes_eq_nil]
      exact hn.1
    simp only [List.map_nil, List.flatten_nil, List.append_nil, List.map_cons]
    rw [parseLoop_append, parseLoop_name _ _ _ hn.2]
    simp only [List.nil_append, parseLoop]
    rw [processDotState_eof _ _ hne]
  | cons m ms ih =>
    have hn := h name (by simp)
    simp only [isDottedName, Bool.and_eq_true, Bool.not_eq_eq_eq_not, Bool.not_true,
      List.isEmpty_eq_false] at hn
    have hne : fromRunes (toRunes name) ≠ [] := by
      rw [ne_eq, ExpressionTree.fromRunes_eq_nil, ExpressionTree.toRunes_eq_nil]
      exact hn.1
    simp only [List.map_cons, List.flatten_cons, List.cons_append]
    rw [toRunes_append _ _ (by simp), ExpressionTree.toRunes_cons_ascii _ _ (by decide),
      List.append_assoc, parseLoop_append, parseLoop_name _ _ _ hn.2]
    simp only [List.nil_append, List.cons_append, parseLoop]
    rw [processDotState_dot _ _ hne]
    simp only [List.append_eq]
    rw [ih m (path ++ [fromRunes (toRunes name)]) (fun n hmem => h n (List.mem_cons_of_mem _ hmem))]
    simp

theorem parseLoop_dollar_dot (rest : List Nat) :
    parseLoop (36 :: 46 :: rest) initState = parseLoop rest (dotState [] []) := rfl

/-- C30, counterexample: the name made of the single byte `0xFF` is non-empty
and holds no dot, bracket, white space or NUL, yet `$.` followed by it parses
to the three bytes of `U+FFFD`, not to the name. -/
theorem dotted_name_invalid_utf8_is_rewritten :
    isDottedName [0xFF] = true ∧
      parsePathString (dottedPath [[0xFF]]) = .ok [[0xEF, 0xBF, 0xBD]] ∧
      parsePathString (dottedPath [[0xFF]]) ≠ .ok [[0xFF]] := by
  decide

/-- C30, amended: for every list of names, each non-empty, valid UTF-8 and
holding no dot, bracket, white space or NUL, `parsePathString` applied to `$`
followed by `.n1`, ..., `.nk` succeeds and returns exactly the names; a bare
`$` parses to the empty segment list. -/
theorem parsePathString_dotted_names (names : List GoString)
    (h : ∀ n ∈ names, isDottedName n = true ∧ validString n = true) :
    parsePathString (dottedPath names) = .ok names ∧
      parsePathString (ascii "$") = .ok [] := by
  refine ⟨?_, by decide⟩
  rcases names with _ | ⟨name, names⟩
  · decide
  · have hmap : (name :: names).map (fun n => fromRunes (toRunes n)) = name :: names := by
      conv_rhs => rw [← List.map_id (name :: names)]
      apply List.map_congr_left
      intro n hn
      have hv := (h n hn).2
      simp only [validString, beq_iff_eq] at hv
      exact hv
    have hsrc : dottedPath (name :: names) =
        36 :: 46 :: (name ++ (names.map (fun n => 46 :: n)).flatten) := rfl
    rw [parsePathString_eq, hsrc, ExpressionTree.toRunes_cons_ascii _ _ (by decide),
      ExpressionTree.toRunes_cons_ascii _ _ (by decide), List.cons_append, List.cons_append,
      parseLoop_dollar_dot, parseLoop_names name names [] (fun n hn => (h n hn).1), hmap]
    rfl

theorem parsePathString_dotted_names_witness :
    (∀ n ∈ [ascii "store", [0xC3, 0xA9]], isDottedName n = true ∧ validString n = true) ∧
      parsePathString (dottedPath [ascii "store", [0xC3, 0xA9]]) =
        .ok [ascii "store", [0xC3, 0xA9]] ∧
      parsePathString (ascii "$") = .ok [] :=
  ⟨by decide, parsePathString_dotted_names [ascii "store", [0xC3, 0xA9]] (by decide)⟩

/-! ### The parser on quoted names and brackets -/

theorem parseLoop_open_single (rest : List Nat) :
    parseLoop (36 :: 91 :: 39 :: rest) initState = parseLoop rest (singleQuoteState [] []) := rfl

theorem parseLoop_open_double (rest : List Nat) :
    parseLoop (36 :: 91 :: 34 :: rest) initState = parseLoop rest (doubleQuoteState [] []) := rfl

theorem singleQuote_write (char : Nat) (path : List GoString) (part : GoString)
    (h : char ≠ 39) :
    (singleQuoteState path part).handle char =
      .ok (singleQuoteState path (part ++ encodeRune char)) := by
  simp [parseState.handle, singleQuoteState, processSingleQuoteNameState, h,
    parserSingleQuoteNameState, parseState.writeRune]

theorem doubleQuote_write (char : Nat) (path : List GoString) (part : GoString)
    (h : char ≠ 34) (h39 : char ≠ 39 ∨ part ≠ []) :
    (doubleQuoteState path part).handle char =
      .ok (doubleQuoteState path (part ++ encodeRune char)) := by
  have h1 : char = 39 → ¬ part = [] := by
    intro hc
    rcases h39 with h39 | h39
    · exact absurd hc h39
    · exact h39
  simp only [parseState.handle, doubleQuoteState, processDoubleQuoteNameState,
    parserDoubleQuoteNameState, parseState.writeRune]
  simp [h]
  exact h1

theorem parseLoop_single_name (rs : List Nat) (path : List GoString) (part : GoString)
    (h : ∀ r ∈ rs, r ≠ 39) :
    parseLoop rs (singleQuoteState path part) =
      .ok (singleQuoteState path (part ++ fromRunes rs)) := by
  induction rs generalizing part with
  | nil => simp [parseLoop, fromRunes]
  | cons r rs ih =>
    rw [parseLoop, singleQuote_write r path part (h r (by simp))]
    simp only
    rw [ih _ (fun x hx => h x (List.mem_cons_of_mem _ hx)), fromRunes, List.append_assoc]

theorem parseLoop_double_name (rs : List Nat) (path : List GoString) (part : GoString)
    (h : ∀ r ∈ rs, r ≠ 34) (h39 : rs.head? ≠ some 39 ∨ part ≠ []) :
    parseLoop rs (doubleQuoteState path part) =
      .ok (doubleQuoteState path (part ++ fromRunes rs)) := by
  induction rs generalizing part with
  | nil => simp [parseLoop, fromRunes]
  | cons r rs ih =>
    have hr : r ≠ 39 ∨ part ≠ [] := by
      rcases h39 with h39 | h39
      · left; intro hc; exact h39 (by simp [hc])
      · exact Or.inr h39
    rw [parseLoop, doubleQuote_write r path part (h r (by simp)) hr]
    simp only
    rw [ih _ (fun x hx => h x (List.mem_cons_of_mem _ hx))
      (Or.inr (by simp [ExpressionTree.encodeRune_ne_nil])), fromRunes, List.append_assoc]

theorem parseLoop_close_single (path : List GoString) (part : GoString) (h : part ≠ []) :
    parseLoop [39, 93, eofRune] (singleQuoteState path part) =
      .ok (neutralState (path ++ [part])) := by
  have hl : part.length ≠ 0 := fun hz => h (List.length_eq_zero.mp hz)
  simp [parseLoop, parseState.handle, singleQuoteState, processSingleQuoteNameState,
    processNeutralState, parserSingleQuoteNameState, parserNeutralState, hl,
    parseState.updateState, parseState.appendPart, isSpaceRune, ContentParsing.isAsciiSpace,
    eofRune, neutralState]

theorem parseLoop_close_double (path : List GoString) (part : GoString) :
    parseLoop [34, 93, eofRune] (doubleQuoteState path part) =
      .ok (neutralState (path ++ [part])) := by
  simp [parseLoop, parseState.handle, doubleQuoteState, processDoubleQuoteNameState,
    processNeutralState, parserDoubleQuoteNameState, parserNeutralState,
    parseState.updateState, parseState.appendPart, isSpaceRune, ContentParsing.isAsciiSpace,
    eofRune, neutralState]

theorem fromRunes_toRunes_ne_nil (name : GoString) (h : name ≠ []) :
    fromRunes (toRunes name) ≠ [] := by
  rw [ne_eq, ExpressionTree.fromRunes_eq_nil, ExpressionTree.toRunes_eq_nil]
  exact h

/-- A non-empty name that is valid UTF-8 is unwrapped: `$['name']` parses to
the name when the name holds no single quote, and `$["name"]` parses to the
name when the name holds no double quote and does not begin with a single
quote. -/
theorem quoted_name_parses (name : GoString) (hne : name ≠ [])
    (hvalid : validString name = true) :
    ((∀ r ∈ toRunes name, r ≠ 39) →
      parsePathString (ascii "$['" ++ name ++ ascii "']") = .ok [name]) ∧
    ((∀ r ∈ toRunes name, r ≠ 34) → (toRunes name).head? ≠ some 39 →
      parsePathString (ascii "$[\"" ++ name ++ ascii "\"]") = .ok [name]) := by
  have hv : fromRunes (toRunes name) = name := by
    simpa [validString] using hvalid
  have hnn := fromRunes_toRunes_ne_nil name hne
  constructor
  · intro h
    have hsrc : ascii "$['" ++ name ++ ascii "']" = 36 :: 91 :: 39 :: (name ++ [39, 93]) := rfl
    rw [parsePathString_eq, hsrc, ExpressionTree.toRunes_cons_ascii _ _ (by decide),
      ExpressionTree.toRunes_cons_ascii _ _ (by decide),
      ExpressionTree.toRunes_cons_ascii _ _ (by decide), toRunes_append _ _ (by simp),
      List.cons_append, List.cons_append, List.cons_append, parseLoop_open_single,
      List.append_assoc, parseLoop_append, parseLoop_single_name _ _ _ h]
    have ht : toRunes [39, 93] ++ [eofRune] = [39, 93, eofRune] := by decide
    simp only [ht, List.nil_append]
    rw [parseLoop_close_single _ _ hnn, hv]
    rfl
  · intro h h39
    have hsrc : ascii "$[\"" ++ name ++ ascii "\"]" = 36 :: 91 :: 34 :: (name ++ [34, 93]) := rfl
    rw [parsePathString_eq, hsrc, ExpressionTree.toRunes_cons_ascii _ _ (by decide),
      ExpressionTree.toRunes_cons_ascii _ _ (by decide),
      ExpressionTree.toRunes_cons_ascii _ _ (by decide), toRunes_append _ _ (by simp),
      List.cons_append, List.cons_append, List.cons_append, parseLoop_open_double,
      List.append_assoc, parseLoop_append, parseLoop_double_name _ _ _ h (Or.inl h39)]
    have ht : toRunes [34, 93] ++ [eofRune] = [34, 93, eofRune] := by decide
    simp only [ht, List.nil_append]
    rw [parseLoop_close_double, hv]
    rfl

theorem parseLoop_double_leading_quote (rest : List Nat) :
    parseLoop (36 :: 91 :: 34 :: 39 :: rest) initState = .error badJSONPath := rfl

/-- C31 (code defect): every source that begins with `$["'` is rejected, so a
name in double quotes that begins with a single quote is not unwrapped
(`$["'a"]` is an error), although `$['"a']` parses to the name `"a`. Every
other non-empty name that is valid UTF-8 is unwrapped: `$['name']` parses to
the name when the name holds no single quote, and `$["name"]` when it holds
no double quote and does not begin with a single quote. -/
theorem double_quoted_name_starting_with_quote_rejected :
    (∀ tail : GoString, parsePathString (ascii "$[\"'" ++ tail) = .error badJSONPath) ∧
    parsePathString (ascii "$['\"a']") = .ok [ascii "\"a"] ∧
    (∀ name : GoString, name ≠ [] → validString name = true →
      ((∀ r ∈ toRunes name, r ≠ 39) →
        parsePathString (ascii "$['" ++ name ++ ascii "']") = .ok [name]) ∧
      ((∀ r ∈ toRunes name, r ≠ 34) → (toRunes name).head? ≠ some 39 →
        parsePathString (ascii "$[\"" ++ name ++ ascii "\"]") = .ok [name])) := by
  refine ⟨?_, by decide, fun name hne hvalid => quoted_name_parses name hne hvalid⟩
  intro tail
  have hsrc : ascii "$[\"'" ++ tail = 36 :: 91 :: 34 :: 39 :: tail := rfl
  rw [parsePathString, hsrc, ExpressionTree.toRunes_cons_ascii _ _ (by decide),
    ExpressionTree.toRunes_cons_ascii _ _ (by decide),
    ExpressionTree.toRunes_cons_ascii _ _ (by decide),
    ExpressionTree.toRunes_cons_ascii _ _ (by decide), parseLoop_double_leading_quote]

/-- Witness for C31: `$["'a"]` is rejected; the names `a"b"c .[0]` in single
quotes and `a'b'c .[0]` in double quotes are unwrapped. -/
theorem double_quoted_name_starting_with_quote_rejected_witness :
    parsePathString (ascii "$[\"'a\"]") = .error badJSONPath ∧
      parsePathString (ascii "$['a\"b\"c .[0]']") = .ok [ascii "a\"b\"c .[0]"] ∧
      parsePathString (ascii "$[\"a'b'c .[0]\"]") = .ok [ascii "a'b'c .[0]"] :=
  ⟨double_quoted_name_starting_with_quote_rejected.1 (ascii "a\"]"),
   (double_quoted_name_starting_with_quote_rejected.2.2 (ascii "a\"b\"c .[0]") (by decide)
      (by decide)).1 (by decide),
   (double_quoted_name_starting_with_quote_rejected.2.2 (ascii "a'b'c .[0]") (by decide)
      (by decide)).2 (by decide) (by decide)⟩

theorem handle_eof_bracketOpen (state : parseState) (h : state.bracketOpen = true) :
    state.handle eofRune = .ok (state.writeRune eofRune) := by
  obtain ⟨id, handler, path, part⟩ := state
  simp only [parseState.bracketOpen, parseState.inQuotedName, Bool.or_eq_true, Bool.and_eq_true,
    beq_iff_eq] at h
  rcases h with h | ⟨h, hid⟩ | ⟨h, hid⟩
  · subst h
    simp [parseState.handle, processBracketState, eofRune, isSpaceRune,
      ContentParsing.isAsciiSpace]
  · subst h; subst hid
    simp [parseState.handle, processSingleQuoteNameState, eofRune, parserSingleQuoteNameState]
  · subst h; subst hid
    simp [parseState.handle, processDoubleQuoteNameState, eofRune, parserDoubleQuoteNameState]

/-- C32 (code defect): a source that ends while a bracket segment is open,
the closing quote of a quoted name not yet read, is accepted: `parsePathString`
returns the segments read before the bracket. So `$[0` parses to the empty
list and `$.a['b` to `[a]`. -/
theorem unclosed_bracket_accepted (source : GoString) (state : parseState)
    (h : parseLoop (toRunes source) initState = .ok state)
    (hopen : state.bracketOpen = true) :
    parsePathString source = .ok state.path := by
  simp only [parsePathString, h, handle_eof_bracketOpen state hopen]
  rfl

theorem unclosed_bracket_accepted_witness :
    parsePathString (ascii "$[0") = .ok [] ∧
      parsePathString (ascii "$.a['b") = .ok [ascii "a"] :=
  ⟨unclosed_bracket_accepted (ascii "$[0")
      { id := parserBracketState, handler := .bracket, path := [], part := ascii "[0" }
      (by decide) (by decide),
   unclosed_bracket_accepted (ascii "$.a['b") (singleQuoteState [ascii "a"] (ascii "b"))
      (by decide) (by decide)⟩

theorem segmentsNonEmpty_handle (state next : parseState) (char : Nat)
    (hinv : segmentsNonEmpty state) (hchar : char ≠ 34)
    (h : state.handle char = .ok next) : segmentsNonEmpty next := by
  obtain ⟨id, handler, path, part⟩ := state
  obtain ⟨hpath, hbr, hsq, hdq⟩ := hinv
  simp only at hpath hbr hsq hdq
  have hlen : ∀ p : GoString, p.length = 0 ↔ p = [] := fun p => List.length_eq_zero
  cases handler with
  | none =>
    simp only [parseState.handle, processNoneState] at h
    split_ifs at h
    simp only [Outcome.ok.injEq] at h
    subst h
    exact ⟨hpath, by simp [parseState.updateState], by simp [parseState.updateState],
      by simp [parseState.updateState]⟩
  | neutral =>
    simp only [parseState.handle, processNeutralState] at h
    split_ifs at h <;> simp only [Outcome.ok.injEq] at h <;> subst h
    · exact ⟨hpath, by simp [parseState.updateState], by simp [parseState.updateState],
        by simp [parseState.updateState]⟩
    · exact ⟨hpath, by simp [parseState.updateState, parseState.writeRune,
        ExpressionTree.encodeRune_ne_nil], by simp [parseState.updateState],
        by simp [parseState.updateState]⟩
    · exact ⟨hpath, by simp, by simp, by simp⟩
  | dot =>
    simp only [parseState.handle, processDotState] at h
    split_ifs at h with h1 h2 h3 h4 h5 h6 h7 h8 <;> simp only [Outcome.ok.injEq] at h <;> subst h
    · have hp : part ≠ [] := fun hz => h2 ⟨h3, by simp [hz]⟩
      refine ⟨?_, by simp [parseState.appendPart], by simp [parseState.appendPart],
        by simp [parseState.appendPart]⟩
      intro s hs
      simp only [parseState.appendPart, List.mem_append, List.mem_singleton] at hs
      rcases hs with hs | hs
      · exact hpath s hs
      · rw [hs]; exact hp
    · exact ⟨hpath, by simp [parseState.updateState, parseState.writeRune,
        ExpressionTree.encodeRune_ne_nil], by simp [parseState.updateState],
        by simp [parseState.updateState]⟩
    · have hp : part ≠ [] := fun hz => h4 ⟨h5, by simp [hz]⟩
      refine ⟨?_, by simp [parseState.updateState, parseState.writeRune,
        ExpressionTree.encodeRune_ne_nil], by simp [parseState.updateState],
        by simp [parseState.updateState]⟩
      intro s hs
      simp only [parseState.appendPart, parseState.updateState, parseState.writeRune,
        List.mem_append, List.mem_singleton] at hs
      rcases hs with hs | hs
      · exact hpath s hs
      · rw [hs]; exact hp
    · have hp : part ≠ [] := fun hz => h7 ⟨h8, by simp [hz]⟩
      refine ⟨?_, by simp [parseState.appendPart], by simp [parseState.appendPart],
        by simp [parseState.appendPart]⟩
      intro s hs
      simp only [parseState.appendPart, List.mem_append, List.mem_singleton] at hs
      rcases hs with hs | hs
      · exact hpath s hs
      · rw [hs]; exact hp
    · exact ⟨hpath, by simp [parseState.writeRune], by simp [parseState.writeRune],
        by simp [parseState.writeRune]⟩
  | bracket =>
    have hp : part ≠ [] := hbr rfl
    simp only [parseState.handle, processBracketState] at h
    split_ifs at h with h1 h2 h3 h4 h5 <;> simp only [Outcome.ok.injEq] at h <;> subst h
    · exact ⟨hpath, fun _ => hp, by simp, by simp⟩
    · refine ⟨?_, by simp [parseState.updateState], by simp [parseState.updateState],
        by simp [parseState.updateState]⟩
      intro s hs
      simp only [parseState.appendPart, parseState.updateState, parseState.writeRune,
        List.mem_append, List.mem_singleton] at hs
      rcases hs with hs | hs
      · exact hpath s hs
      · rw [hs]; simp [hp]
    · exact ⟨hpath, by simp [parseState.updateState], by
        simp [parseState.updateState, parseState.resetPart], by simp [parseState.updateState]⟩
    · exact ⟨hpath, by simp [parseState.writeRune, hp], by simp [parseState.writeRune],
        by simp [parseState.writeRune]⟩
  | singleQuoteName =>
    simp only [parseState.handle, processSingleQuoteNameState] at h
    split_ifs at h with h1 h2 h3 h4 h5 <;> simp only [Outcome.ok.injEq] at h <;> subst h
    · have hp : part ≠ [] := fun hz => h1 ⟨h2.1, h2.2, by simp [hz]⟩
      exact ⟨hpath, by simp [parseState.updateState], fun _ _ => hp,
        by simp [parseState.updateState]⟩
    · have hp : part ≠ [] := hsq rfl (by rw [h3.1]; decide)
      exact ⟨hpath, by simp, fun _ _ => hp, by simp⟩
    · have hp : part ≠ [] := hsq rfl (by rw [h4.1]; decide)
      refine ⟨?_, by simp [parseState.updateState], by simp [parseState.updateState],
        by simp [parseState.updateState]⟩
      intro s hs
      simp only [parseState.appendPart, parseState.updateState, List.mem_append,
        List.mem_singleton] at hs
      rcases hs with hs | hs
      · exact hpath s hs
      · rw [hs]; exact hp
    · exact ⟨hpath, by simp [parseState.writeRune], by
        simp [parseState.writeRune, ExpressionTree.encodeRune_ne_nil],
        by simp [parseState.writeRune]⟩
  | doubleQuoteName => exact absurd rfl hdq

theorem segmentsNonEmpty_loop (rs : List Nat) (state next : parseState)
    (hinv : segmentsNonEmpty state) (hrs : ∀ r ∈ rs, r ≠ 34)
    (h : parseLoop rs state = .ok next) : segmentsNonEmpty next := by
  induction rs generalizing state with
  | nil =>
    simp only [parseLoop, Outcome.ok.injEq] at h
    subst h; exact hinv
  | cons r rs ih =>
    rw [parseLoop] at h
    rcases hh : state.handle r with mid | err | _
    · rw [hh] at h
      exact ih mid (segmentsNonEmpty_handle state mid r hinv (hrs r (by simp)) hh)
        (fun x hx => hrs x (List.mem_cons_of_mem _ hx)) h
    · rw [hh] at h; simp at h
    · rw [hh] at h; simp at h

/-- C33 (code defect): `$[""]` parses to one empty segment, although `$['']`
is rejected. When no double quote stands in the source, every segment that
`parsePathString` returns is non-empty. -/
theorem empty_double_quoted_name_accepted :
    parsePathString (ascii "$[\"\"]") = .ok [[]] ∧
      parsePathString (ascii "$['']") = .error badJSONPath ∧
      (∀ source segments, (∀ r ∈ toRunes source, r ≠ 34) →
        parsePathString source = .ok segments → ∀ s ∈ segments, s ≠ []) := by
  refine ⟨by decide, by decide, ?_⟩
  intro source segments hrs h
  rw [parsePathString_eq] at h
  rcases hl : parseLoop (toRunes source ++ [eofRune]) initState with state | err | _
  · rw [hl] at h
    simp only [Outcome.ok.injEq] at h
    subst h
    have hinit : segmentsNonEmpty initState := by
      refine ⟨by simp [initState], by simp [initState], by simp [initState],
        by simp [initState]⟩
    exact (segmentsNonEmpty_loop _ _ _ hinit (by
      intro r hr
      rcases List.mem_append.mp hr with hr | hr
      · exact hrs r hr
      · rw [List.mem_singleton.mp hr]; decide) hl).1
  · rw [hl] at h; simp at h
  · rw [hl] at h; simp at h

theorem empty_double_quoted_name_accepted_witness :
    ∀ s ∈ [ascii "a", ascii "[0]", ascii "b"], s ≠ [] :=
  empty_double_quoted_name_accepted.2.2 (ascii "$.a[0]['b']") _ (by decide) (by decide)

set_option maxHeartbeats 1000000 in
theorem wellFormed_handle (state next : parseState) (char : Nat) (hinv : wellFormed state)
    (h : state.handle char = .ok next) : wellFormed next := by
  obtain ⟨id, handler, path, part⟩ := state
  obtain ⟨hnone, hneutral, hsq, hdq⟩ := hinv
  simp only at hnone hneutral hsq hdq
  cases handler with
  | none =>
    simp only [parseState.handle, processNoneState] at h
    split_ifs at h
    simp only [Outcome.ok.injEq] at h
    subst h
    exact ⟨by simp [parseState.updateState], fun _ => hnone rfl, by simp [parseState.updateState],
      by simp [parseState.updateState]⟩
  | neutral =>
    simp only [parseState.handle, processNeutralState] at h
    split_ifs at h <;> simp only [Outcome.ok.injEq] at h <;> subst h
    · exact ⟨by simp [parseState.updateState], by simp [parseState.updateState],
        by simp [parseState.updateState], by simp [parseState.updateState]⟩
    · exact ⟨by simp [parseState.updateState], by simp [parseState.updateState],
        by simp [parseState.updateState], by simp [parseState.updateState]⟩
    · exact ⟨by simp, fun _ => hneutral rfl, by simp, by simp⟩
  | dot =>
    simp only [parseState.handle, processDotState] at h
    split_ifs at h <;> simp only [Outcome.ok.injEq] at h <;> subst h <;>
      exact ⟨by simp [parseState.updateState, parseState.appendPart, parseState.writeRune],
        by simp [parseState.updateState, parseState.appendPart, parseState.writeRune],
        by simp [parseState.updateState, parseState.appendPart, parseState.writeRune],
        by simp [parseState.updateState, parseState.appendPart, parseState.writeRune]⟩
  | bracket =>
    simp only [parseState.handle, processBracketState] at h
    split_ifs at h <;> simp only [Outcome.ok.injEq] at h <;> subst h <;>
      exact ⟨by simp [parseState.updateState, parseState.appendPart, parseState.writeRune,
          parseState.resetPart],
        by simp [parseState.updateState, parseState.appendPart, parseState.writeRune,
          parseState.resetPart],
        by simp [parseState.updateState, parseState.appendPart, parseState.writeRune,
          parseState.resetPart],
        by simp [parseState.updateState, parseState.appendPart, parseState.writeRune,
          parseState.resetPart]⟩
  | singleQuoteName =>
    simp only [parseState.handle, processSingleQuoteNameState] at h
    split_ifs at h <;> simp only [Outcome.ok.injEq] at h <;> subst h
    · exact ⟨by simp [parseState.updateState], by simp [parseState.updateState],
        by simp [parseState.updateState], by simp [parseState.updateState]⟩
    · exact ⟨by simp, by simp, fun _ => hsq rfl, by simp⟩
    · exact ⟨by simp [parseState.updateState], by simp [parseState.updateState,
        parseState.appendPart], by simp [parseState.updateState],
        by simp [parseState.updateState]⟩
    · exact ⟨by simp [parseState.writeRune], by simp [parseState.writeRune],
        fun _ => hsq rfl, by simp [parseState.writeRune]⟩
  | doubleQuoteName =>
    simp only [parseState.handle, processDoubleQuoteNameState] at h
    split_ifs at h <;> simp only [Outcome.ok.injEq] at h <;> subst h
    · exact ⟨by simp [parseState.updateState], by simp [parseState.updateState],
        by simp [parseState.updateState], by simp [parseState.updateState]⟩
    · exact ⟨by simp, by simp, by simp, fun _ => hdq rfl⟩
    · exact ⟨by simp [parseState.updateState], by simp [parseState.updateState,
        parseState.appendPart], by simp [parseState.updateState],
        by simp [parseState.updateState]⟩
    · exact ⟨by simp [parseState.writeRune], by simp [parseState.writeRune],
        by simp [parseState.writeRune], fun _ => hdq rfl⟩

theorem wellFormed_loop (rs : List Nat) (state next : parseState) (hinv : wellFormed state)
    (h : parseLoop rs state = .ok next) : wellFormed next := by
  induction rs generalizing state with
  | nil =>
    simp only [parseLoop, Outcome.ok.injEq] at h
    subst h; exact hinv
  | cons r rs ih =>
    rw [parseLoop] at h
    rcases hh : state.handle r with mid | err | _
    · rw [hh] at h
      exact ih mid (wellFormed_handle state mid r hinv hh) h
    · rw [hh] at h; simp at h
    · rw [hh] at h; simp at h

theorem wellFormed_initState : wellFormed initState := by
  refine ⟨by simp [initState], by simp [initState], by simp [initState], by simp [initState]⟩

theorem handle_dot_then_bracket (state mid : parseState) (hinv : wellFormed state)
    (hq : state.inQuotedName = false) (h : state.handle 46 = .ok mid) :
    mid.handle 91 = state.handle 91 := by
  obtain ⟨id, handler, path, part⟩ := state
  obtain ⟨hnone, hneutral, hsq, hdq⟩ := hinv
  simp only at hnone hneutral hsq hdq
  cases handler with
  | none => simp [parseState.handle, processNoneState] at h
  | neutral =>
    have hp : part = [] := hneutral rfl
    subst hp
    simp only [parseState.handle, processNeutralState, if_true, Outcome.ok.injEq] at h
    subst h
    simp [parseState.handle, parseState.updateState, processDotState, processNeutralState,
      isSpaceRune, ContentParsing.isAsciiSpace, parseState.writeRune]
  | dot =>
    by_cases hp : part = []
    · subst hp
      simp [parseState.handle, processDotState, isSpaceRune, ContentParsing.isAsciiSpace] at h
    · have hl : part.length ≠ 0 := fun hz => hp (List.length_eq_zero.mp hz)
      simp only [parseState.handle, processDotState, isSpaceRune, ContentParsing.isAsciiSpace,
        hl, and_false, if_false, if_true] at h
      simp at h
      subst h
      simp [parseState.handle, parseState.updateState, processDotState, parseState.appendPart,
        isSpaceRune, ContentParsing.isAsciiSpace, parseState.writeRune, hp]
  | bracket =>
    simp [parseState.handle, processBracketState, isSpaceRune, ContentParsing.isAsciiSpace] at h
  | singleQuoteName =>
    have hid : id = parserSingleQuoteNameState + 1 := by
      rcases hsq rfl with hid | hid
      · simp [parseState.inQuotedName, hid] at hq
      · exact hid
    subst hid
    simp [parseState.handle, processSingleQuoteNameState, isSpaceRune,
      ContentParsing.isAsciiSpace, parserSingleQuoteNameState] at h
  | doubleQuoteName =>
    have hid : id = parserDoubleQuoteNameState + 1 := by
      rcases hdq rfl with hid | hid
      · simp [parseState.inQuotedName, hid] at hq
      · exact hid
    subst hid
    simp [parseState.handle, processDoubleQuoteNameState, isSpaceRune,
      ContentParsing.isAsciiSpace, parserDoubleQuoteNameState] at h

/-- C34: when a source in which a dot stands right before an opening bracket,
outside the text of a quoted name, is accepted by `parsePathString`, the
source without that dot is accepted too and parses to the same segments. -/
theorem dot_before_bracket_optional (before after : GoString) (segments : List GoString)
    (hq : endsInsideQuotes before = false)
    (h : parsePathString (before ++ ascii ".[" ++ after) = .ok segments) :
    parsePathString (before ++ ascii "[" ++ after) = .ok segments := by
  have h1 : before ++ ascii ".[" ++ after = before ++ 46 :: 91 :: after := by
    rw [List.append_assoc]; rfl
  have h2 : before ++ ascii "[" ++ after = before ++ 91 :: after := by
    rw [List.append_assoc]; rfl
  rw [parsePathString_eq, h1, toRunes_append _ _ (by simp),
    ExpressionTree.toRunes_cons_ascii _ _ (by decide),
    ExpressionTree.toRunes_cons_ascii _ _ (by decide), List.append_assoc,
    parseLoop_append] at h
  rw [parsePathString_eq, h2, toRunes_append _ _ (by simp),
    ExpressionTree.toRunes_cons_ascii _ _ (by decide), List.append_assoc, parseLoop_append]
  simp only [endsInsideQuotes] at hq
  rcases hpre : parseLoop (toRunes before) initState with state | err | _
  · rw [hpre] at h hq
    simp only at h hq ⊢
    have hwf := wellFormed_loop _ _ _ wellFormed_initState hpre
    simp only [List.cons_append] at h ⊢
    rw [parseLoop] at h ⊢
    rcases hdot : state.handle 46 with mid | err | _
    · rw [hdot] at h
      simp only at h
      rw [parseLoop, handle_dot_then_bracket state mid hwf hq hdot] at h
      exact h
    · rw [hdot] at h; simp at h
    · rw [hdot] at h; simp at h
  · rw [hpre] at h; simp at h
  · rw [hpre] at h; simp at h

theorem dot_before_bracket_optional_witness :
    parsePathString (ascii "$.['a'].[0]") = .ok [ascii "a", ascii "[0]"] ∧
      parsePathString (ascii "$.['a'][0]") = .ok [ascii "a", ascii "[0]"] :=
  ⟨by decide,
   dot_before_bracket_optional (ascii "$.['a']") (ascii "0]") _ (by decide) (by decide)⟩

/-! ### `GetNumber` on an empty array -/

/-- C37 (code defect): when the path resolves to an array without elements,
`GetNumber` does not return: the index expression `outputValue[0]` panics. -/
theorem getNumber_empty_array_panics (unmarshal : GoString → Option Value)
    (float64OfInt : Int → Nat) (path : Option Path) (input : Value)
    (h : Path.Get unmarshal path input = .ok (.array [])) :
    Path.GetNumber unmarshal float64OfInt path input = .panic := by
  simp only [Path.GetNumber, h]

theorem getNumber_empty_array_panics_witness :
    Path.GetNumber noUnmarshal noFloat64OfInt (some { path := [] }) (.array []) = .panic ∧
      Path.GetNumber noUnmarshal noFloat64OfInt (some { path := [ascii "[0:0]"] })
        (.array [.float64 ContentParsing.float64One]) = .panic :=
  ⟨getNumber_empty_array_panics noUnmarshal noFloat64OfInt (some { path := [] }) (.array [])
      (by decide),
   getNumber_empty_array_panics noUnmarshal noFloat64OfInt (some { path := [ascii "[0:0]"] })
      (.array [.float64 ContentParsing.float64One]) (by decide)⟩

/-! ### What `Set` leaves unchanged -/

theorem mapGet_mapSet_ne (m : List (GoString × Value)) (key other : GoString) (value : Value)
    (h : other ≠ key) : mapGet (mapSet m key value) other = mapGet m other := by
  induction m with
  | nil => simp [mapSet, mapGet, Ne.symm h]
  | cons entry m ih =>
    obtain ⟨k, v⟩ := entry
    simp only [mapSet]
    by_cases hk : k = key
    · subst hk
      simp [mapGet, Ne.symm h]
    · rw [if_neg hk]
      simp only [mapGet, ih]

theorem dataMapOf_object (m : List (GoString × Value)) : dataMapOf (.object m) = m := rfl

theorem lookupKeys_dataMapOf (data : Value) (key : GoString) (rest : List GoString) :
    lookupKeys data (key :: rest) =
      match mapGet (dataMapOf data) key with
      | some child => lookupKeys child rest
      | none => none := by
  cases data <;> simp [lookupKeys, dataMapOf, mapGet]

theorem lookupKeys_null (keys : List GoString) (h : keys ≠ []) : lookupKeys .null keys = none := by
  cases keys with
  | nil => exact absurd rfl h
  | cons key rest => rfl

theorem recursiveSet_total (data value : Value) (path : List GoString) (h : path ≠ []) :
    ∃ m, recursiveSet data value path = .ok m := by
  induction path generalizing data with
  | nil => exact absurd rfl h
  | cons segment path ih =>
    rw [recursiveSet]
    by_cases hlen : path.length = 0
    · simp only [hlen, if_true]
      exact ⟨_, rfl⟩
    · have hp : path ≠ [] := fun hz => hlen (by simp [hz])
      obtain ⟨inner, hinner⟩ := ih ((mapGet (dataMapOf data) segment).getD .null) hp
      simp only [hlen, if_false, hinner]
      exact ⟨_, rfl⟩

theorem recursiveSet_cons (data value : Value) (segment : GoString) (path : List GoString)
    (m : List (GoString × Value)) (h : recursiveSet data value (segment :: path) = .ok m) :
    ∃ x, m = mapSet (dataMapOf data) segment x ∧
      (path ≠ [] → ∃ inner, x = .object inner ∧
        recursiveSet ((mapGet (dataMapOf data) segment).getD .null) value path = .ok inner) := by
  rw [recursiveSet] at h
  by_cases hlen : path.length = 0
  · rw [if_pos hlen] at h
    simp only [Outcome.ok.injEq] at h
    exact ⟨value, h.symm, fun hp => absurd (List.length_eq_zero.mp hlen) hp⟩
  · rw [if_neg hlen] at h
    rcases hr : recursiveSet ((mapGet (dataMapOf data) segment).getD .null) value path
      with inner | err | _
    · rw [hr] at h
      simp only [Outcome.ok.injEq] at h
      exact ⟨.object inner, h.symm, fun _ => ⟨inner, rfl, rfl⟩⟩
    · rw [hr] at h; simp at h
    · rw [hr] at h; simp at h

theorem recursiveSet_frame (data value : Value) (common : List GoString) (key other : GoString)
    (rest tail : List GoString) (m : List (GoString × Value))
    (h : recursiveSet data value (common ++ key :: rest) = .ok m) (hne : other ≠ key) :
    lookupKeys (.object m) (common ++ other :: tail) =
      lookupKeys data (common ++ other :: tail) := by
  induction common generalizing data m with
  | nil =>
    obtain ⟨x, hm, _⟩ := recursiveSet_cons data value key rest m h
    subst hm
    simp only [List.nil_append]
    rw [lookupKeys_dataMapOf data, lookupKeys_dataMapOf]
    simp only [dataMapOf_object, mapGet_mapSet_ne _ _ _ _ hne]
  | cons c cs ih =>
    simp only [List.cons_append] at h ⊢
    obtain ⟨x, hm, hx⟩ := recursiveSet_cons data value c _ m h
    obtain ⟨inner, hxi, hinner⟩ := hx (by simp)
    subst hm; subst hxi
    rw [lookupKeys_dataMapOf data, lookupKeys_dataMapOf]
    simp only [dataMapOf_object, mapGet_mapSet]
    rw [ih _ inner hinner]
    cases hc : mapGet (dataMapOf data) c with
    | none =>
      simp only [Option.getD_none]
      exact lookupKeys_null (cs ++ other :: tail) (by simp)
    | some child => simp only [Option.getD_some]

theorem recursiveSet_fresh (data value : Value) (common : List GoString) (key : GoString)
    (rest : List GoString) (m : List (GoString × Value))
    (h : recursiveSet data value (common ++ key :: rest) = .ok m)
    (hnot : ∀ fields, lookupKeys data common ≠ some (.object fields)) :
    ∃ x, lookupKeys (.object m) common = some (.object [(key, x)]) := by
  induction common generalizing data m with
  | nil =>
    obtain ⟨x, hm, _⟩ := recursiveSet_cons data value key rest m h
    subst hm
    have hd : dataMapOf data = [] := by
      cases data <;> first | rfl | exact absurd rfl (hnot _)
    exact ⟨x, by simp [lookupKeys, hd, mapSet]⟩
  | cons c cs ih =>
    simp only [List.cons_append] at h
    obtain ⟨x, hm, hx⟩ := recursiveSet_cons data value c _ m h
    obtain ⟨inner, hxi, hinner⟩ := hx (by simp)
    subst hm; subst hxi
    rw [lookupKeys_dataMapOf]
    simp only [dataMapOf_object, mapGet_mapSet]
    apply ih _ inner hinner
    intro fields hf
    apply hnot fields
    rw [lookupKeys_dataMapOf]
    cases hc : mapGet (dataMapOf data) c with
    | none =>
      rw [hc] at hf
      simp only [Option.getD_none] at hf
      cases cs with
      | nil => simp [lookupKeys] at hf
      | cons c2 cs => simp [lookupKeys] at hf
    | some child =>
      rw [hc] at hf
      simpa using hf

/-- C40: `Set` with a non-empty path succeeds and returns a map in which the
value under every key path that leaves the path of the call at some key is
the one in `data`; so in a map `data` every key other than the first of the
path keeps its value. Where `data` has no map at a proper initial part of the
path, the result has there a map whose one key is the next key of the path. -/
theorem set_changes_only_path (data value : Value) (path : List GoString) (hpath : path ≠ []) :
    ∃ m, Path.Set (some { path := path }) data value = .ok (.object m) ∧
      (∀ common key other rest tail, path = common ++ key :: rest → other ≠ key →
        lookupKeys (.object m) (common ++ other :: tail) =
          lookupKeys data (common ++ other :: tail)) ∧
      (∀ fields key rest other, data = .object fields → path = key :: rest → other ≠ key →
        mapGet m other = mapGet fields other) ∧
      (∀ common key rest, path = common ++ key :: rest →
        (∀ fields, lookupKeys data common ≠ some (.object fields)) →
        ∃ x, lookupKeys (.object m) common = some (.object [(key, x)])) := by
  obtain ⟨m, hm⟩ := recursiveSet_total data value path hpath
  have hlen : path.length ≠ 0 := fun hz => hpath (List.length_eq_zero.mp hz)
  refine ⟨m, by simp only [Path.Set, if_neg hlen, hm], ?_, ?_, ?_⟩
  · intro common key other rest tail hp hne
    subst hp
    exact recursiveSet_frame data value common key other rest tail m hm hne
  · intro fields key rest other hd hp hne
    subst hd; subst hp
    obtain ⟨x, hx, _⟩ := recursiveSet_cons _ value key rest m hm
    rw [hx]
    exact mapGet_mapSet_ne _ _ _ _ hne
  · intro common key rest hp hnot
    subst hp
    exact recursiveSet_fresh data value common key rest m hm hnot

theorem set_changes_only_path_witness :
    ∃ m, Path.Set (some { path := [ascii "a", ascii "b"] })
        (.object [(ascii "a", .string (ascii "x")), (ascii "c", .bool true)])
        (.string (ascii "s")) = .ok (.object m) ∧
      mapGet m (ascii "c") = some (.bool true) :=
  (set_changes_only_path
      (.object [(ascii "a", .string (ascii "x")), (ascii "c", .bool true)])
      (.string (ascii "s")) [ascii "a", ascii "b"] (by decide)).imp
    (fun m hm => ⟨hm.1,
      (hm.2.2.1 _ (ascii "a") [ascii "b"] (ascii "c") rfl rfl (by decide)).trans (by decide)⟩)

end JsonPath
